import Mathlib

/-!
# mioty AT client: response collectors, extractors and frame builders

Shallow embedding of `src/miotyAtClient.c` and `src/data_tools/string_tools.c`.

* Bytes are natural numbers, byte strings are `List Nat`.
* A C array is a `List Nat` whose length is the size of the array.  A load or
  store outside the array is undefined behaviour and makes the routine end in
  `Outcome.undefined`.
* The local `char response_buf[200]` of every caller is not initialised by the
  source, so its content on entry is a parameter of the collectors.
* The transport is a script: one entry per call of `miotyAtClientRead`,
  `none` when the call returns `false`, `some chunk` when it returns `true`
  and delivers `chunk` (`len = chunk.length`).
-/

namespace MiotyAtClient

/-! ## C library routines used by the source -/

/-- C `isalpha` in the "C" locale. -/
def isalpha (c : Nat) : Bool := (65 ≤ c && c ≤ 90) || (97 ≤ c && c ≤ 122)

/-- C `toupper` in the "C" locale. -/
def toupper (c : Nat) : Nat := if 97 ≤ c ∧ c ≤ 122 then c - 32 else c

/-- The conversion applied to every received byte:
`if(isalpha(buf[i])) buf[i] = toupper(buf[i]);`. -/
def upcase (b : Nat) : Nat := if isalpha b then toupper b else b

/-- C `isspace` in the "C" locale: space, `\t`, `\n`, `\v`, `\f`, `\r`. -/
def isspace (c : Nat) : Bool := c == 32 || (9 ≤ c && c ≤ 13)

/-- C `isdigit`. -/
def isdigit (c : Nat) : Bool := 48 ≤ c && c ≤ 57

/-- C `strstr` on string contents: offset of the first occurrence of `needle`
in `hay`, `none` for a NULL result. -/
def strstr : List Nat → List Nat → Option Nat
  | [], needle => if needle.isEmpty then some 0 else none
  | c :: cs, needle =>
    if needle.isPrefixOf (c :: cs) then some 0
    else (strstr cs needle).map (· + 1)

/-- Value of the leading run of decimal digits of `s`, continuing from `acc`. -/
def digitsVal : List Nat → Nat → Nat
  | [], acc => acc
  | c :: cs, acc => if isdigit c then digitsVal cs (acc * 10 + (c - 48)) else acc

/-- The part of C `atoi` after the white space: an optional sign, then the run
of digits. -/
def atoiSigned (s : List Nat) : Int :=
  match s with
  | 45 :: t => - (digitsVal t 0 : Int)
  | 43 :: t => (digitsVal t 0 : Int)
  | _ => (digitsVal s 0 : Int)

/-- C `atoi` on string contents, for a 32-bit `int`: leading white space is
skipped, an optional sign is read, then the run of digits.  `none` when the
value is not representable in `int` (undefined behaviour in C). -/
def atoi (s : List Nat) : Option Int :=
  if -2147483648 ≤ atoiSigned (s.dropWhile isspace) ∧
      atoiSigned (s.dropWhile isspace) ≤ 2147483647 then
    some (atoiSigned (s.dropWhile isspace))
  else none

/-! ## Memory -/

/-- The string stored in array `m` from index `p` on: the bytes before the
first NUL.  `none` when no NUL lies inside the array from `p` on (the scan
would leave the array). -/
def cstrAt (m : List Nat) (p : Nat) : Option (List Nat) :=
  if (m.drop p).contains 0 then some ((m.drop p).takeWhile (fun b => b != 0)) else none

/-- Store of one byte into an array; `none` outside the array. -/
def store (m : List Nat) (i v : Nat) : Option (List Nat) :=
  if i < m.length then some (m.set i v) else none

/-- Stores `bs[0], bs[1], ...` at `m[i], m[i+1], ...` in this order. -/
def storeBytes (m : List Nat) (i : Nat) : List Nat → Option (List Nat)
  | [] => some m
  | b :: bs =>
    match store m i b with
    | none => none
    | some m1 => storeBytes m1 (i + 1) bs

/-- Decimal notation of `v` in ASCII, most significant digit first, no leading
zero, `"0"` for zero: the `decimal(v)` of the wire format. -/
def decimal (v : Nat) : List Nat :=
  if v = 0 then [48] else (Nat.digits 10 v).reverse.map (· + 48)

/-! ## Return codes (`miotyAtClient_returnCode`, miotyAtClient.h) -/

def MIOTYATCLIENT_RETURN_CODE_OK : Int := 0
def MIOTYATCLIENT_RETURN_CODE_MacNodeNotAttached : Int := 6
def MIOTYATCLIENT_RETURN_CODE_ERR : Int := 9
def MIOTYATCLIENT_RETURN_CODE_ATErr : Int := 16
def MIOTYATCLIENT_RETURN_CODE_ATParamOOB : Int := 19
def MIOTYATCLIENT_RETURN_CODE_ATReadFailed : Int := 23

/-! ## String literals of the source, as bytes -/

/-- The bytes of `"\r\n0\r\n"`. -/
def lit_ok : List Nat := [13, 10, 48, 13, 10]
/-- The bytes of `"0\r\n"`. -/
def lit_ok_head : List Nat := [48, 13, 10]
/-- The bytes of `"\r\n1\r\n"`. -/
def lit_mac : List Nat := [13, 10, 49, 13, 10]
/-- The bytes of `"\r\n2\r\n"`. -/
def lit_at : List Nat := [13, 10, 50, 13, 10]
/-- The bytes of `"-MNFO:"`. -/
def lit_MNFO : List Nat := [45, 77, 78, 70, 79, 58]
/-- The bytes of `"-MERR:"`. -/
def lit_MERR : List Nat := [45, 77, 69, 82, 82, 58]
/-- The bytes of `"AT!ERR:"`. -/
def lit_ATERR : List Nat := [65, 84, 33, 69, 82, 82, 58]
/-- The bytes of `"-MPCT:"`. -/
def lit_MPCT : List Nat := [45, 77, 80, 67, 84, 58]
/-- The bytes of `"-MSTA:"`. -/
def lit_MSTA : List Nat := [45, 77, 83, 84, 65, 58]
/-- The bytes of `"\032\r"` (SUB, CR). -/
def lit_sub_cr : List Nat := [26, 13]

/-! ## Outcomes -/

/-- How a routine ends on a transport script.  `reads` counts the calls of
`miotyAtClientRead` made so far. -/
inductive Outcome (α : Type) where
  /-- the routine returned `val` -/
  | ret (reads : Nat) (val : α)
  /-- undefined behaviour: an access outside an array, a NULL pointer used, or
  an `int` overflow -/
  | undefined (reads : Nat)
  /-- the script is used up and the routine is still polling -/
  | starved (reads : Nat)
  deriving DecidableEq, Repr

/-- What one pass through the body of `while(1)` decides after a successful read. -/
inductive Verdict (α : Type) where
  /-- `break` / `return` with a value -/
  | done (val : α)
  /-- undefined behaviour -/
  | fault
  /-- no branch taken: next iteration -/
  | more
  deriving DecidableEq, Repr

/-- Result of `check_ATresponse`: the return code and the caller's `response_buf`. -/
structure CheckResult where
  code : Int
  response_buf : List Nat
  deriving DecidableEq, Repr

/-- Result of `get_data_ATresponse`: return code, the caller's `buffer`,
`*sizeBuf`, and `response_buf`. -/
structure DataResult where
  code : Int
  buffer : List Nat
  sizeBuf : Nat
  response_buf : List Nat
  deriving DecidableEq, Repr

/-- Result of `get_int_data_ATresponse`: return code, `*res`, and `response_buf`. -/
structure IntResult where
  code : Int
  res : Nat
  response_buf : List Nat
  deriving DecidableEq, Repr

/-! ## The response collectors (miotyAtClient.c, lines 324-473) -/

/-- The part of the loop body shared by the three collectors, after a
successful `miotyAtClientRead` that delivered `chunk`:
```
for (uint8_t i=0; i<len; i++) {
    if(isalpha(buf[i])) buf[i] = toupper(buf[i]);
    response_buf[i+pos] = buf[i];
}
pos += len;
response_buf[pos + termOff] = 0;
```
`termOff` is `1` in `check_ATresponse` and `get_data_ATresponse` and `0` in
`get_int_data_ATresponse`.  A chunk longer than the 30 bytes of `buf` is a
transport that wrote outside `buf`. -/
def readChunk (termOff : Nat) (m : List Nat) (pos : Nat) (chunk : List Nat) :
    Option (List Nat × Nat) :=
  if 30 < chunk.length then none
  else
    match storeBytes m pos (chunk.map upcase) with
    | none => none
    | some m1 =>
      let pos1 := (pos + chunk.length) % 256
      match store m1 (pos1 + termOff) 0 with
      | none => none
      | some m2 => some (m2, pos1)

/-- The two error branches shared by the three collectors, on the string `s`
held in `response_buf` (lines 346-366, 402-422, 447-467). -/
def errBranches (s : List Nat) : Verdict Int :=
  if (strstr s lit_mac).isSome then
    match (strstr s lit_MNFO).orElse (fun _ => strstr s lit_MERR) with
    | none => .done MIOTYATCLIENT_RETURN_CODE_ERR
    | some e =>
      match atoi (s.drop (e + 6)) with
      | none => .fault
      | some v => .done v
  else if (strstr s lit_at).isSome then
    match strstr s lit_ATERR with
    | none => .done MIOTYATCLIENT_RETURN_CODE_ATErr
    | some e =>
      match atoi (s.drop (e + 7)) with
      | none => .fault
      | some v => if v + 16 ≤ 2147483647 then .done (v + 16) else .fault
  else .more

/-- The test `strstr(response_buf, "\r\n0\r\n") || strstr(response_buf, "0\r\n")==response_buf`. -/
def successSeen (s : List Nat) : Bool :=
  (strstr s lit_ok).isSome || strstr s lit_ok_head == some 0

/-- The polling loop `while(1)` shared by the three collectors.  `body` is the
chain of `if`/`else if` run on `response_buf` after a successful read,
`onFail` builds the value returned when `miotyAtClientRead` returns false. -/
def pollLoop {α : Type} (termOff : Nat) (body : List Nat → Verdict α) (onFail : List Nat → α) :
    List Nat → Nat → Nat → List (Option (List Nat)) → Outcome α
  | _, _, n, [] => .starved n
  | m, _, n, none :: _ => .ret (n + 1) (onFail m)
  | m, pos, n, some chunk :: rest =>
    match readChunk termOff m pos chunk with
    | none => .undefined (n + 1)
    | some (m1, pos1) =>
      match body m1 with
      | .done a => .ret (n + 1) a
      | .fault => .undefined (n + 1)
      | .more => pollLoop termOff body onFail m1 pos1 (n + 1) rest

/-- Body of the loop of `check_ATresponse` (lines 444-467). -/
def check_body (m : List Nat) : Verdict CheckResult :=
  match cstrAt m 0 with
  | none => .fault
  | some s =>
    if successSeen s then .done ⟨MIOTYATCLIENT_RETURN_CODE_OK, m⟩
    else
      match errBranches s with
      | .done c => .done ⟨c, m⟩
      | .fault => .fault
      | .more => .more

/-- `check_ATresponse(response_buf)` run on a transport script. -/
def check_ATresponse (response_buf : List Nat) (script : List (Option (List Nat))) :
    Outcome CheckResult :=
  pollLoop 1 check_body (fun m => ⟨MIOTYATCLIENT_RETURN_CODE_ATReadFailed, m⟩)
    response_buf 0 0 script

/-- The success branch of `get_int_data_ATresponse` (lines 341-344), on the
memory `m` of `response_buf` holding the string `s`: the value stored in
`*res` (a `uint32_t`).  `strstr(response_buf, AT_cmd+2)` is used without a
NULL test, advanced by `sizeCmd-1`, and handed to `atoi`; `none` is undefined
behaviour. -/
def extract_int (AT_cmd : List Nat) (sizeCmd : Nat) (m s : List Nat) : Option Nat :=
  if AT_cmd.length < 2 then none
  else
    match strstr s (AT_cmd.drop 2) with
    | none => none
    | some t =>
      if t + sizeCmd < 1 then none
      else
        match cstrAt m (t + sizeCmd - 1) with
        | none => none
        | some field =>
          match atoi field with
          | none => none
          | some v => some (v % 4294967296).toNat

/-- Body of the loop of `get_int_data_ATresponse` (lines 339-366). -/
def get_int_data_body (AT_cmd : List Nat) (sizeCmd : Nat) (res : Nat) (m : List Nat) :
    Verdict IntResult :=
  match cstrAt m 0 with
  | none => .fault
  | some s =>
    if successSeen s then
      match extract_int AT_cmd sizeCmd m s with
      | none => .fault
      | some v => .done ⟨MIOTYATCLIENT_RETURN_CODE_OK, v, m⟩
    else
      match errBranches s with
      | .done c => .done ⟨c, res, m⟩
      | .fault => .fault
      | .more => .more

/-- `get_int_data_ATresponse(AT_cmd, sizeCmd, res, response_buf)` run on a
transport script; `res` is the value of `*res` on entry. -/
def get_int_data_ATresponse (AT_cmd : List Nat) (sizeCmd : Nat) (res : Nat)
    (response_buf : List Nat) (script : List (Option (List Nat))) : Outcome IntResult :=
  pollLoop 0 (get_int_data_body AT_cmd sizeCmd res)
    (fun m => ⟨MIOTYATCLIENT_RETURN_CODE_ATReadFailed, res, m⟩) response_buf 0 0 script

/-! ## Text codec (string_tools.c) -/

/-- Modelled from the spec: `char_hex2uint` is declared in `char_tools.h` and its
body is not part of the sources.  The header documents it for the characters
`0123456789ABCDEFabcdef` ("hex-char to value (0-15, case-insensitive)"); every
other character is mapped to 0 here. -/
def char_hex2uint (c : Nat) : Nat :=
  if 48 ≤ c ∧ c ≤ 57 then c - 48
  else if 65 ≤ c ∧ c ≤ 70 then c - 55
  else if 97 ≤ c ∧ c ≤ 102 then c - 87
  else 0

/-- Modelled from the spec: `char_nibble2hex` is declared in `char_tools.h` and its
body is not part of the sources.  The header documents it as transforming "the
lowest 4 bit of a number into the hexadecimal character"; upper-case letters
are used here. -/
def char_nibble2hex (nibble : Nat) : Nat :=
  if nibble % 16 < 10 then 48 + nibble % 16 else 55 + nibble % 16

/-- The loop of `string_hex2byteArray`: `count` passes left, next index `i`.
`hexString` is the array the pointer points into, from the pointer on. -/
def hex2byteLoop (hex2uint : Nat → Nat) (hexString : List Nat) :
    Nat → Nat → List Nat → Option (List Nat)
  | 0, _, dest => some dest
  | count + 1, i, dest =>
    match hexString[2 * i]?, hexString[2 * i + 1]? with
    | some a, some b =>
      match store dest i ((hex2uint a <<< 4 ||| hex2uint b) % 256) with
      | none => none
      | some dest1 => hex2byteLoop hex2uint hexString count (i + 1) dest1
    | _, _ => none

/-- `string_hex2byteArray(hexString, hexStringLength, dest, destSize)`: the
returned value and `dest` afterwards; `none` for an access outside `hexString`
or `dest`. -/
def string_hex2byteArray (hex2uint : Nat → Nat) (hexString : List Nat) (hexStringLength : Nat)
    (dest : List Nat) (destSize : Nat) : Option (Nat × List Nat) :=
  if destSize < hexStringLength / 2 ∨ hexStringLength % 2 = 1 then some (0, dest)
  else
    match hex2byteLoop hex2uint hexString destSize 0 dest with
    | none => none
    | some dest1 => some (1, dest1)

/-- The loop of `string_byteArray2hex`, with `string_byte2hex` inlined. -/
def byte2hexLoop (nibble2hex : Nat → Nat) (byteArray : List Nat) :
    Nat → Nat → List Nat → Option (List Nat)
  | 0, _, dest => some dest
  | count + 1, i, dest =>
    match byteArray[i]? with
    | none => none
    | some b =>
      match store dest (i * 2) (nibble2hex (b >>> 4)) with
      | none => none
      | some dest1 =>
        match store dest1 (i * 2 + 1) (nibble2hex b) with
        | none => none
        | some dest2 => byte2hexLoop nibble2hex byteArray count (i + 1) dest2

/-- `string_byteArray2hex(byteArray, nBytes, dest, destSize)`: the returned value
and `dest` afterwards; `none` for an access outside `byteArray` or `dest`. -/
def string_byteArray2hex (nibble2hex : Nat → Nat) (byteArray : List Nat) (nBytes : Nat)
    (dest : List Nat) (destSize : Nat) : Option (Nat × List Nat) :=
  if destSize < 2 * nBytes then some (0, dest)
  else
    match byte2hexLoop nibble2hex byteArray nBytes 0 dest with
    | none => none
    | some dest1 => some (2 * nBytes, dest1)

/-- The second loop of `string_uint2str_la_zt` (`*--p = '0' + (i % 10); i = i / 10;`
while `i`), which prepends one digit per pass; `fuel` bounds the passes. -/
def uint2strLoop : Nat → Nat → List Nat → List Nat
  | 0, _, acc => acc
  | fuel + 1, i, acc =>
    if i / 10 = 0 then (48 + i % 10) :: acc
    else uint2strLoop fuel (i / 10) ((48 + i % 10) :: acc)

/-- `string_uint2str_la_zt(i, b)` for a `uint32_t i`: the characters written to
`b[0..k)`; the routine also writes a NUL at `b[k]` and returns `b + k`.  The
first loop advances `p` once per decimal digit and the second walks it back
once per digit, so the digits start at `b[0]`; ten passes cover 32 bits. -/
def string_uint2str_la_zt (i : Nat) : List Nat := uint2strLoop 10 i []

/-! ## Byte extraction (miotyAtClient.c, lines 374-428) -/

/-- The success branch of `get_data_ATresponse` (lines 390-400), on the memory
`m` of `response_buf` holding the string `s`: the caller's `buffer` and
`*sizeBuf` afterwards.  The position found by `strstr(response_buf, AT_cmd+2)`
is used without a NULL test and advanced by `sizeCmd`; one more byte is
skipped unless a TAB is there, then one more; the text up to `"\032\r"` is the
hex payload.  `*sizeBuf` and `hexStringLength` are `uint8_t`, `len_data` is
`uint32_t`.  `none` is undefined behaviour.  `hex2uint` is `char_hex2uint`. -/
def extract_data (hex2uint : Nat → Nat) (AT_cmd : List Nat) (sizeCmd : Nat)
    (buffer : List Nat) (sizeBuf : Nat) (m s : List Nat) : Option (List Nat × Nat) :=
  if AT_cmd.length < 2 then none
  else
    match strstr s (AT_cmd.drop 2) with
    | none => none
    | some t =>
      match m[t + sizeCmd]? with
      | none => none
      | some c =>
        let pos := (if c ≠ 9 then t + sizeCmd + 1 else t + sizeCmd) + 1
        match cstrAt m pos with
        | none => none
        | some tail =>
          match strstr tail lit_sub_cr with
          | some e =>
            (string_hex2byteArray hex2uint (m.drop pos) (e % 256) buffer (e / 2 % 256)).map
              fun r => (r.2, e / 2 % 256)
          | none =>
            (string_hex2byteArray hex2uint (m.drop pos) (sizeBuf * 2 % 4294967296 % 256)
              buffer sizeBuf).map fun r => (r.2, sizeBuf)

/-- Body of the loop of `get_data_ATresponse` (lines 388-422). -/
def get_data_body (hex2uint : Nat → Nat) (AT_cmd : List Nat) (sizeCmd : Nat)
    (buffer : List Nat) (sizeBuf : Nat) (m : List Nat) : Verdict DataResult :=
  match cstrAt m 0 with
  | none => .fault
  | some s =>
    if successSeen s then
      match extract_data hex2uint AT_cmd sizeCmd buffer sizeBuf m s with
      | none => .fault
      | some (buffer1, sizeBuf1) => .done ⟨MIOTYATCLIENT_RETURN_CODE_OK, buffer1, sizeBuf1, m⟩
    else
      match errBranches s with
      | .done c => .done ⟨c, buffer, sizeBuf, m⟩
      | .fault => .fault
      | .more => .more

/-- `get_data_ATresponse(AT_cmd, sizeCmd, buffer, sizeBuf, response_buf)` run on
a transport script.  `buffer` is the caller's array (its length is the size
of that array), `sizeBuf` the value of `*sizeBuf` on entry. -/
def get_data_ATresponse (hex2uint : Nat → Nat) (AT_cmd : List Nat) (sizeCmd : Nat)
    (buffer : List Nat) (sizeBuf : Nat) (response_buf : List Nat)
    (script : List (Option (List Nat))) : Outcome DataResult :=
  pollLoop 1 (get_data_body hex2uint AT_cmd sizeCmd buffer sizeBuf)
    (fun m => ⟨MIOTYATCLIENT_RETURN_CODE_ATReadFailed, buffer, sizeBuf, m⟩) response_buf 0 0 script

/-! ## Frame builders (miotyAtClient.c) -/

/-- Stores `bs` into array `a` from index `i` on; a byte that falls outside
the array is not part of the array afterwards. -/
def poke (a : List Nat) (i : Nat) : List Nat → List Nat
  | [] => a
  | b :: bs => poke (a.set i b) (i + 1) bs

/-- C `strcpy(a + i, src)` for string contents `src`: the bytes before the first
NUL of `src`, then a NUL. -/
def strcpy (a : List Nat) (i : Nat) (src : List Nat) : List Nat :=
  poke a i (src.takeWhile (fun b => b != 0) ++ [0])

/-- What the stack holds where `write_cmd_bytes` places its two variable-length
arrays: the content of `cmd` and of `dataString` before they are written. -/
structure Uninit where
  cmd : Nat → Nat
  dataString : Nat → Nat

/-- A frame handed to `miotyAtClientWrite` followed by what the collector did. -/
structure Call (α : Type) where
  frame : List Nat
  outcome : Outcome α

/-- C `strcpy(dest + i, src)` for the array `src`: the bytes of `src` before its
first NUL, then a NUL, stored from `dest[i]` on.  `none` is undefined
behaviour: `src` holds no NUL, so the scan leaves the array, or a store falls
outside `dest`. -/
def strcpyArray (dest : List Nat) (i : Nat) (src : List Nat) : Option (List Nat) :=
  if src.contains 0 then storeBytes dest i (src.takeWhile (fun b => b != 0) ++ [0]) else none

/-- The frame `write_cmd_bytes(AT_cmd, sizeCmd, data, sizeData)` hands to
`miotyAtClientWrite` (lines 306-322).  `AT_cmd` is the mnemonic, a string
whose array ends with a NUL; `dataString` is the array of `2 * sizeData`
characters (a `uint8_t` product) that `string_byteArray2hex` fills, without a
terminating NUL; `cmd` has `sizeCmd + sizeof(dataString) + 5 + digits` bytes.
`none` is undefined behaviour: `data` has fewer than `sizeData` bytes, a store
falls outside `cmd`, or `strcpy(cmd+sizeCmd+digits+3, dataString)` reaches the
end of `dataString` without having met a NUL.  `nibble2hex` is
`char_nibble2hex`. -/
def write_cmd_bytes (nibble2hex : Nat → Nat) (u : Uninit) (AT_cmd : List Nat) (sizeCmd : Nat)
    (data : List Nat) (sizeData : Nat) : Option (List Nat) :=
  let digits := if sizeData > 9 then 1 else 0
  let dataStringSize := (2 * sizeData) % 256
  match string_byteArray2hex nibble2hex data sizeData
      ((List.range dataStringSize).map u.dataString) dataStringSize with
  | none => none
  | some (_, dataString) => do
    let cmd0 := (List.range (sizeCmd + dataStringSize + 5 + digits)).map u.cmd
    let cmd1 ← strcpyArray cmd0 0 (AT_cmd ++ [0])
    let cmd2 ← store cmd1 sizeCmd 61
    let cmd3 ← storeBytes cmd2 (sizeCmd + 1) (string_uint2str_la_zt sizeData ++ [0])
    let cmd4 ← store cmd3 (sizeCmd + 2 + digits) 9
    let cmd5 ← strcpyArray cmd4 (sizeCmd + digits + 3) dataString
    let cmd6 ← store cmd5 (sizeCmd + dataStringSize + digits + 3) 26
    let cmd7 ← store cmd6 (sizeCmd + dataStringSize + digits + 4) 13
    some cmd7

/-- The frame built by `get_info_bytes` and `get_info_int` (lines 148-152 and
254-258): `cmd[sizeCmd+2]`, `strcpy(cmd, AT_cmd)`, then `'?'` and `'\r'`.
`cmd0` is the content of `cmd` before. -/
def query_frame (cmd0 : Nat → Nat) (AT_cmd : List Nat) (sizeCmd : Nat) : List Nat :=
  (((List.range (sizeCmd + 2)).map cmd0 |> fun c => strcpy c 0 AT_cmd).set sizeCmd 63).set
    (sizeCmd + 1) 13

/-- `get_info_int(AT_cmd, sizeCmd, res)` (lines 253-261). -/
def get_info_int (cmd0 : Nat → Nat) (AT_cmd : List Nat) (sizeCmd : Nat) (res : Nat)
    (response_buf : List Nat) (script : List (Option (List Nat))) : Call IntResult :=
  ⟨query_frame cmd0 AT_cmd sizeCmd,
   get_int_data_ATresponse AT_cmd sizeCmd res response_buf script⟩

/-- `get_info_bytes(AT_cmd, sizeCmd, buffer, sizeBuf)` (lines 147-155). -/
def get_info_bytes (hex2uint : Nat → Nat) (cmd0 : Nat → Nat) (AT_cmd : List Nat) (sizeCmd : Nat)
    (buffer : List Nat) (sizeBuf : Nat) (response_buf : List Nat)
    (script : List (Option (List Nat))) : Call DataResult :=
  ⟨query_frame cmd0 AT_cmd sizeCmd,
   get_data_ATresponse hex2uint AT_cmd sizeCmd buffer sizeBuf response_buf script⟩

/-- The bytes of `"AT-MEUI"`. -/
def lit_AT_MEUI : List Nat := [65, 84, 45, 77, 69, 85, 73]

/-- `miotyAtClient_getOrSetEui(eui64, false)` (lines 91-92): the query path,
with `size_bytes = 8`. -/
def miotyAtClient_getOrSetEui_get (hex2uint : Nat → Nat) (cmd0 : Nat → Nat) (eui64 : List Nat)
    (response_buf : List Nat) (script : List (Option (List Nat))) : Call DataResult :=
  get_info_bytes hex2uint cmd0 lit_AT_MEUI 7 eui64 8 response_buf script

/-! ## Auxiliary fields and the command API (miotyAtClient.c, lines 163-302) -/

/-- `internalGetPacketCounter(response_buf, packetCounter)` (lines 163-168):
`*packetCounter` afterwards.  `packetCounter = none` is a NULL pointer. -/
def internalGetPacketCounter (response_buf : List Nat) (packetCounter : Option Nat) :
    Option (Option Nat) :=
  match cstrAt response_buf 0 with
  | none => none
  | some s =>
    match strstr s lit_MPCT, packetCounter with
    | some p, some _ =>
      match atoi (s.drop (p + 6)) with
      | none => none
      | some v => some (some (v % 4294967296).toNat)
    | _, _ => some packetCounter

/-- `get_MSTA(response_buf, MSTA)` (lines 298-302): `*MSTA` afterwards (`uint8_t`). -/
def get_MSTA (response_buf : List Nat) (MSTA : Nat) : Option Nat :=
  match cstrAt response_buf 0 with
  | none => none
  | some s =>
    match strstr s lit_MSTA with
    | none => some MSTA
    | some p =>
      match atoi (s.drop (p + 6)) with
      | none => none
      | some v => some (v % 256).toNat

/-- Result of a uni-directional send: return code and `*packetCounter`. -/
structure SendResult where
  code : Int
  packetCounter : Option Nat
  deriving DecidableEq, Repr

/-- Result of a bi-directional send: return code, `data`, `*size_data`, `*packetCounter`. -/
structure BidiResult where
  code : Int
  data : List Nat
  size_data : Nat
  packetCounter : Option Nat
  deriving DecidableEq, Repr

/-- Result of an attach or detach: return code and `*MSTA`. -/
structure AttachResult where
  code : Int
  MSTA : Nat
  deriving DecidableEq, Repr

/-- `checkATresponseMsg(packetCounter)` (lines 171-179). -/
def checkATresponseMsg (packetCounter : Option Nat) (response_buf : List Nat)
    (script : List (Option (List Nat))) : Outcome SendResult :=
  match check_ATresponse response_buf script with
  | .ret n r =>
    if r.code ≠ MIOTYATCLIENT_RETURN_CODE_OK then .ret n ⟨r.code, packetCounter⟩
    else
      match internalGetPacketCounter r.response_buf packetCounter with
      | none => .undefined n
      | some pc => .ret n ⟨r.code, pc⟩
  | .undefined n => .undefined n
  | .starved n => .starved n

/-- The tail shared by the three bi-directional sends (lines 198-204, 210-216,
222-228): `get_data_ATresponse`, then the packet counter when the code is OK. -/
def bidiTail (hex2uint : Nat → Nat) (AT_cmd : List Nat) (sizeCmd : Nat) (data : List Nat)
    (size_data : Nat) (packetCounter : Option Nat) (response_buf : List Nat)
    (script : List (Option (List Nat))) : Outcome BidiResult :=
  match get_data_ATresponse hex2uint AT_cmd sizeCmd data size_data response_buf script with
  | .ret n r =>
    if r.code ≠ MIOTYATCLIENT_RETURN_CODE_OK then .ret n ⟨r.code, r.buffer, r.sizeBuf, packetCounter⟩
    else
      match internalGetPacketCounter r.response_buf packetCounter with
      | none => .undefined n
      | some pc => .ret n ⟨r.code, r.buffer, r.sizeBuf, pc⟩
  | .undefined n => .undefined n
  | .starved n => .starved n

/-- The tail shared by the four attach and detach operations (lines 233-239,
244-250, 278-284, 289-295): `check_ATresponse`, then `get_MSTA` when the code is OK. -/
def attachTail (MSTA : Nat) (response_buf : List Nat) (script : List (Option (List Nat))) :
    Outcome AttachResult :=
  match check_ATresponse response_buf script with
  | .ret n r =>
    if r.code ≠ MIOTYATCLIENT_RETURN_CODE_OK then .ret n ⟨r.code, MSTA⟩
    else
      match get_MSTA r.response_buf MSTA with
      | none => .undefined n
      | some v => .ret n ⟨r.code, v⟩
  | .undefined n => .undefined n
  | .starved n => .starved n

/-- The bytes of `"AT-TU"`. -/
def lit_AT_TU : List Nat := [65, 84, 45, 84, 85]
/-- The bytes of `"AT-UMPF"`. -/
def lit_AT_UMPF : List Nat := [65, 84, 45, 85, 77, 80, 70]
/-- The bytes of `"AT-U"`. -/
def lit_AT_U : List Nat := [65, 84, 45, 85]
/-- The bytes of `"AT-TB"`. -/
def lit_AT_TB : List Nat := [65, 84, 45, 84, 66]
/-- The bytes of `"AT-BMPF"`. -/
def lit_AT_BMPF : List Nat := [65, 84, 45, 66, 77, 80, 70]
/-- The bytes of `"AT-B"`. -/
def lit_AT_B : List Nat := [65, 84, 45, 66]
/-- The bytes of `"AT-MDOA"`. -/
def lit_AT_MDOA : List Nat := [65, 84, 45, 77, 68, 79, 65]
/-- The bytes of `"AT-MAOA"`. -/
def lit_AT_MAOA : List Nat := [65, 84, 45, 77, 65, 79, 65]
/-- The bytes of `"AT-MALO\r"`. -/
def lit_AT_MALO_cr : List Nat := [65, 84, 45, 77, 65, 76, 79, 13]
/-- The bytes of `"AT-MDLO\r"`. -/
def lit_AT_MDLO_cr : List Nat := [65, 84, 45, 77, 68, 76, 79, 13]

/-- `miotyAtClient_sendMessageUniTransparent` (lines 181-184); `none` where
`write_cmd_bytes` is undefined. -/
def miotyAtClient_sendMessageUniTransparent (nibble2hex : Nat → Nat) (u : Uninit)
    (msg : List Nat) (sizeMsg : Nat) (packetCounter : Option Nat) (response_buf : List Nat)
    (script : List (Option (List Nat))) : Option (Call SendResult) :=
  (write_cmd_bytes nibble2hex u lit_AT_TU 5 msg sizeMsg).map fun f =>
    ⟨f, checkATresponseMsg packetCounter response_buf script⟩

/-- `miotyAtClient_sendMessageUniMPF` (lines 186-189). -/
def miotyAtClient_sendMessageUniMPF (nibble2hex : Nat → Nat) (u : Uninit)
    (msg : List Nat) (sizeMsg : Nat) (packetCounter : Option Nat) (response_buf : List Nat)
    (script : List (Option (List Nat))) : Option (Call SendResult) :=
  (write_cmd_bytes nibble2hex u lit_AT_UMPF 7 msg sizeMsg).map fun f =>
    ⟨f, checkATresponseMsg packetCounter response_buf script⟩

/-- `miotyAtClient_sendMessageUni` (lines 191-194). -/
def miotyAtClient_sendMessageUni (nibble2hex : Nat → Nat) (u : Uninit)
    (msg : List Nat) (sizeMsg : Nat) (packetCounter : Option Nat) (response_buf : List Nat)
    (script : List (Option (List Nat))) : Option (Call SendResult) :=
  (write_cmd_bytes nibble2hex u lit_AT_U 4 msg sizeMsg).map fun f =>
    ⟨f, checkATresponseMsg packetCounter response_buf script⟩

/-- `miotyAtClient_sendMessageBidiTransparent` (lines 196-205). -/
def miotyAtClient_sendMessageBidiTransparent (nibble2hex hex2uint : Nat → Nat) (u : Uninit)
    (msg : List Nat) (sizeMsg : Nat) (data : List Nat) (size_data : Nat)
    (packetCounter : Option Nat) (response_buf : List Nat)
    (script : List (Option (List Nat))) : Option (Call BidiResult) :=
  (write_cmd_bytes nibble2hex u lit_AT_TB 5 msg sizeMsg).map fun f =>
    ⟨f, bidiTail hex2uint lit_AT_TB 5 data size_data packetCounter response_buf script⟩

/-- `miotyAtClient_sendMessageBidiMPF` (lines 208-217). -/
def miotyAtClient_sendMessageBidiMPF (nibble2hex hex2uint : Nat → Nat) (u : Uninit)
    (msg : List Nat) (sizeMsg : Nat) (data : List Nat) (size_data : Nat)
    (packetCounter : Option Nat) (response_buf : List Nat)
    (script : List (Option (List Nat))) : Option (Call BidiResult) :=
  (write_cmd_bytes nibble2hex u lit_AT_BMPF 7 msg sizeMsg).map fun f =>
    ⟨f, bidiTail hex2uint lit_AT_BMPF 7 data size_data packetCounter response_buf script⟩

/-- `miotyAtClient_sendMessageBidi` (lines 220-229). -/
def miotyAtClient_sendMessageBidi (nibble2hex hex2uint : Nat → Nat) (u : Uninit)
    (msg : List Nat) (sizeMsg : Nat) (data : List Nat) (size_data : Nat)
    (packetCounter : Option Nat) (response_buf : List Nat)
    (script : List (Option (List Nat))) : Option (Call BidiResult) :=
  (write_cmd_bytes nibble2hex u lit_AT_B 4 msg sizeMsg).map fun f =>
    ⟨f, bidiTail hex2uint lit_AT_B 4 data size_data packetCounter response_buf script⟩

/-- `miotyAtClient_macDetach` (lines 231-240). -/
def miotyAtClient_macDetach (nibble2hex : Nat → Nat) (u : Uninit) (data : List Nat)
    (sizeData : Nat) (MSTA : Nat) (response_buf : List Nat)
    (script : List (Option (List Nat))) : Option (Call AttachResult) :=
  (write_cmd_bytes nibble2hex u lit_AT_MDOA 7 data sizeData).map fun f =>
    ⟨f, attachTail MSTA response_buf script⟩

/-- `miotyAtClient_macAttach` (lines 242-251), with its fixed `sizeData = 4`. -/
def miotyAtClient_macAttach (nibble2hex : Nat → Nat) (u : Uninit) (data : List Nat)
    (MSTA : Nat) (response_buf : List Nat)
    (script : List (Option (List Nat))) : Option (Call AttachResult) :=
  (write_cmd_bytes nibble2hex u lit_AT_MAOA 7 data 4).map fun f =>
    ⟨f, attachTail MSTA response_buf script⟩

/-- `miotyAtClient_macAttachLocal` (lines 276-285). -/
def miotyAtClient_macAttachLocal (MSTA : Nat) (response_buf : List Nat)
    (script : List (Option (List Nat))) : Call AttachResult :=
  ⟨lit_AT_MALO_cr, attachTail MSTA response_buf script⟩

/-- `miotyAtClient_macDetachLocal` (lines 287-296). -/
def miotyAtClient_macDetachLocal (MSTA : Nat) (response_buf : List Nat)
    (script : List (Option (List Nat))) : Call AttachResult :=
  ⟨lit_AT_MDLO_cr, attachTail MSTA response_buf script⟩

/-- The bytes of `"AT-MSAD"`. -/
def lit_AT_MSAD : List Nat := [65, 84, 45, 77, 83, 65, 68]

/-- `miotyAtClient_getOrSetShortAdress(shortAdress, false)` (lines 98-99): the
query path, with `size_bytes = 2`. -/
def miotyAtClient_getOrSetShortAdress_get (hex2uint : Nat → Nat) (cmd0 : Nat → Nat)
    (shortAdress : List Nat) (response_buf : List Nat) (script : List (Option (List Nat))) :
    Call DataResult :=
  get_info_bytes hex2uint cmd0 lit_AT_MSAD 7 shortAdress 2 response_buf script

/-- The mnemonics handed to `get_info_int` by the command API (lines 102-141):
`AT-MPCT`, `AT+IPR`, `AT-UTPL`, `AT-UM`, `AT-US`, `AT-UP`, `AT-ACM`. -/
def intQueryMnemonics : List (List Nat) :=
  [[65, 84, 45, 77, 80, 67, 84], [65, 84, 43, 73, 80, 82], [65, 84, 45, 85, 84, 80, 76],
   [65, 84, 45, 85, 77], [65, 84, 45, 85, 83], [65, 84, 45, 85, 80], [65, 84, 45, 65, 67, 77]]

/-! ## Text codec on memory (string_tools.c) -/

/-- The first loop of `string_uint2str_la_zt`
(`do { ++p; shifter = shifter / 10; } while(shifter);`): the offset of `p` from
`b` after the loop, from offset `p` and value `shifter`.  `fuel` bounds the
passes; `none` when it is used up. -/
def uint2strEnd : Nat → Nat → Nat → Option Nat
  | 0, _, _ => none
  | fuel + 1, shifter, p =>
    if shifter / 10 = 0 then some (p + 1) else uint2strEnd fuel (shifter / 10) (p + 1)

/-- The second loop of `string_uint2str_la_zt` on the array `b`
(`do { *--p = '0' + (i % 10); i = i / 10; } while(i);`), `p` being an offset
from `b`.  `none` when `p` would leave the array or the fuel is used up. -/
def uint2strFill : Nat → Nat → Nat → List Nat → Option (List Nat)
  | 0, _, _, _ => none
  | fuel + 1, i, p, b =>
    if p = 0 then none
    else
      match store b (p - 1) (48 + i % 10) with
      | none => none
      | some b1 => if i / 10 = 0 then some b1 else uint2strFill fuel (i / 10) (p - 1) b1

/-- `string_uint2str_la_zt(i, b)` on the array `b` for a `uint32_t i`
(string_tools.c, lines 53-71): the returned pointer `endOfString` as an offset
from `b`, and the array afterwards.  `none` is an access outside `b`.  Ten
passes of either loop cover 32 bits. -/
def string_uint2str_la_zt_at (i : Nat) (b : List Nat) : Option (Nat × List Nat) :=
  match uint2strEnd 10 i 0 with
  | none => none
  | some endOfString =>
    match store b endOfString 0 with
    | none => none
    | some b1 =>
      match uint2strFill 10 i endOfString b1 with
      | none => none
      | some b2 => some (endOfString, b2)

/-- `digitLut` of string_tools.c. -/
def digitLut : List Nat := [48, 49, 50, 51, 52, 53, 54, 55, 56, 57]

/-- `pow10Lut` of string_tools.c. -/
def pow10Lut : List Nat :=
  [1, 10, 100, 1000, 10000, 100000, 1000000, 10000000, 100000000, 1000000000]

/-- The store `dest[k] = v` where `dest` is the pointer `mem + p` into the array
`mem` and `k` is an `int`; `none` outside `mem`. -/
def storeAt (mem : List Nat) (p : Nat) (k : Int) (v : Nat) : Option (List Nat) :=
  if 0 ≤ (p : Int) + k then store mem ((p : Int) + k).toNat v else none

/-- The digit loop of `string_uint2dec_nn` (lines 83-87):
`do { dest[maxDigitIndex - nDigitsAdded] = digitLut[n % 10]; nDigitsAdded++; n = n / 10; } while(n > 0);`
returns `n`, `nDigitsAdded` and the memory after the loop.  `fuel` bounds the
passes. -/
def uint2decDigits (maxDigitIndex p : Nat) :
    Nat → Nat → Nat → List Nat → Option (Nat × Nat × List Nat)
  | 0, _, _, _ => none
  | fuel + 1, n, nDigitsAdded, mem =>
    match digitLut[n % 10]? with
    | none => none
    | some c =>
      match storeAt mem p ((maxDigitIndex : Int) - (nDigitsAdded : Int)) c with
      | none => none
      | some mem1 =>
        if n / 10 > 0 then uint2decDigits maxDigitIndex p fuel (n / 10) (nDigitsAdded + 1) mem1
        else some (n / 10, nDigitsAdded + 1, mem1)

/-- The fill loop of `string_uint2dec_nn` (lines 90-93), `count` passes left:
`while(nDigitsAdded < destSize) { dest[maxDigitIndex - nDigitsAdded] = fillChar; nDigitsAdded++; }`. -/
def uint2decFill (maxDigitIndex p fillChar : Nat) : Nat → Nat → List Nat → Option (List Nat)
  | 0, _, mem => some mem
  | count + 1, nDigitsAdded, mem =>
    match storeAt mem p ((maxDigitIndex : Int) - (nDigitsAdded : Int)) fillChar with
    | none => none
    | some mem1 => uint2decFill maxDigitIndex p fillChar count (nDigitsAdded + 1) mem1

/-- `string_uint2dec_nn(dest, destSize, nInput, fillChar)` (lines 76-100) for
`dest = mem + p`, a pointer into the array `mem`: the returned `bool` and `mem`
afterwards.  `maxDigitIndex` is the `uint8_t` value of `destSize - 1`; the
index `maxDigitIndex - nDigitsAdded` is an `int`.  `nDigitsAdded` stays below
256 (at most ten digits, then at most `destSize`).  `none` is an access
outside `mem` or outside `pow10Lut`. -/
def string_uint2dec_nn (mem : List Nat) (p destSize nInput fillChar : Nat) :
    Option (Bool × List Nat) :=
  match uint2decDigits ((destSize + 255) % 256) p 10 nInput 0 mem with
  | none => none
  | some (n, nDigitsAdded, mem1) =>
    match uint2decFill ((destSize + 255) % 256) p fillChar (destSize - nDigitsAdded)
        nDigitsAdded mem1 with
    | none => none
    | some mem2 =>
      match pow10Lut[destSize]? with
      | none => none
      | some q => if n > q then some (false, mem2) else some (true, mem2)

/-- Modelled from the spec: `char_dec2uint` is declared in `char_tools.h` and its
body is not part of the sources.  The header documents it for the characters
`0123456789` ("decimal-char to value"); every other character is mapped to 0
here. -/
def char_dec2uint (c : Nat) : Nat := if 48 ≤ c ∧ c ≤ 57 then c - 48 else 0

/-- The loop of `string_dec2uint`: `count` passes left, next index `i`,
`conversionResult` is a `uint32_t`. -/
def dec2uintLoop (dec2uint : Nat → Nat) (decString : List Nat) : Nat → Nat → Nat → Option Nat
  | 0, _, conversionResult => some conversionResult
  | count + 1, i, conversionResult =>
    match decString[i]? with
    | none => none
    | some c =>
      dec2uintLoop dec2uint decString count (i + 1)
        ((conversionResult * 10 + dec2uint c) % 4294967296)

/-- `string_dec2uint(decString, decStringLength)` (lines 103-109); `none` for a
read outside `decString`.  `dec2uint` is `char_dec2uint`. -/
def string_dec2uint (dec2uint : Nat → Nat) (decString : List Nat) (decStringLength : Nat) :
    Option Nat :=
  dec2uintLoop dec2uint decString decStringLength 0 0

/-! ## Set-integer frame and the order of write and reads -/

/-- `set_info_int(AT_cmd, sizeCmd, info)` (lines 263-274): the frame handed to
`miotyAtClientWrite` and what `check_ATresponse` did.  `buf` is `char buf[12] = {0}`,
`len_info` a `uint16_t`, `cmd0` the content of `cmd` before it is written. -/
def set_info_int (cmd0 : Nat → Nat) (AT_cmd : List Nat) (sizeCmd info : Nat)
    (response_buf : List Nat) (script : List (Option (List Nat))) :
    Option (Call CheckResult) :=
  match string_uint2str_la_zt_at info (List.replicate 12 0) with
  | none => none
  | some (endOfString, buf) =>
    let len_info := endOfString % 65536
    let cmd1 := strcpy ((List.range (sizeCmd + 2 + len_info)).map cmd0) 0 AT_cmd
    let cmd2 := cmd1.set sizeCmd 61
    let cmd3 := strcpy cmd2 (sizeCmd + 1) buf
    let cmd4 := cmd3.set (sizeCmd + 1 + len_info) 13
    some ⟨cmd4, check_ATresponse response_buf script⟩

/-- What the transport sees. -/
inductive Event where
  /-- a call of `miotyAtClientWrite` with this frame -/
  | write (frame : List Nat)
  /-- a call of `miotyAtClientRead`: `none` when it returned false -/
  | read (result : Option (List Nat))
  deriving DecidableEq, Repr

/-- Number of calls of `miotyAtClientRead` made by a collector. -/
def Outcome.reads {α : Type} : Outcome α → Nat
  | .ret n _ => n
  | .undefined n => n
  | .starved n => n

/-- The transport calls of a routine that hands one frame to
`miotyAtClientWrite` and then runs a collector on `script`, in program order. -/
def Call.events {α : Type} (c : Call α) (script : List (Option (List Nat))) : List Event :=
  Event.write c.frame :: (script.take c.outcome.reads).map Event.read

/-! ## Received bytes, call sites and hexadecimal pairs -/

/-- The bytes delivered by the first `n` calls of `miotyAtClientRead` of a
script, in arrival order (a failed read delivers nothing). -/
def received (script : List (Option (List Nat))) (n : Nat) : List Nat :=
  ((script.take n).filterMap id).flatten

/-- The mnemonic literal and the length argument at every call of
`get_info_bytes`, `set_info_bytes`, `get_info_int`, `set_info_int`,
`write_cmd_bytes` and `get_data_ATresponse` in the command API
(miotyAtClient.c, lines 46-145 and 181-251), in source order. -/
def apiCallSites : List (List Nat × Nat) :=
  [ ([65, 84, 45, 68, 69, 70], 6),           -- set_info_bytes, AT-DEF, line 60
    ([65, 84, 45, 77, 78, 87, 75], 7),       -- set_info_bytes, AT-MNWK, line 78
    ([65, 84, 45, 77, 73, 80, 54], 7),       -- set_info_bytes, AT-MIP6, line 83
    ([65, 84, 45, 77, 73, 80, 54], 7),       -- get_info_bytes, AT-MIP6, line 85
    ([65, 84, 45, 77, 69, 85, 73], 7),       -- set_info_bytes, AT-MEUI, line 90
    ([65, 84, 45, 77, 69, 85, 73], 7),       -- get_info_bytes, AT-MEUI, line 92
    ([65, 84, 45, 77, 83, 65, 68], 7),       -- set_info_bytes, AT-MSAD, line 97
    ([65, 84, 45, 77, 83, 65, 68], 7),       -- get_info_bytes, AT-MSAD, line 99
    ([65, 84, 45, 77, 80, 67, 84], 7),       -- get_info_int, AT-MPCT, line 103
    ([65, 84, 43, 73, 80, 82], 6),           -- set_info_int, AT+IPR, line 108
    ([65, 84, 43, 73, 80, 82], 6),           -- get_info_int, AT+IPR, line 109
    ([65, 84, 45, 85, 84, 80, 76], 7),       -- set_info_int, AT-UTPL, line 115
    ([65, 84, 45, 85, 84, 80, 76], 7),       -- get_info_int, AT-UTPL, line 116
    ([65, 84, 45, 85, 77], 5),               -- set_info_int, AT-UM, line 121
    ([65, 84, 45, 85, 77], 5),               -- get_info_int, AT-UM, line 122
    ([65, 84, 45, 85, 83], 5),               -- set_info_int, AT-US, line 127
    ([65, 84, 45, 85, 83], 5),               -- get_info_int, AT-US, line 128
    ([65, 84, 45, 85, 80], 5),               -- set_info_int, AT-UP, line 133
    ([65, 84, 45, 85, 80], 5),               -- get_info_int, AT-UP, line 134
    ([65, 84, 45, 65, 67, 77], 6),           -- set_info_int, AT-ACM, line 139
    ([65, 84, 45, 65, 67, 77], 6),           -- get_info_int, AT-ACM, line 140
    ([65, 84, 45, 65, 67, 75], 6),           -- set_info_bytes, AT-ACK, line 144
    ([65, 84, 45, 84, 85], 5),               -- write_cmd_bytes, AT-TU, line 182
    ([65, 84, 45, 85, 77, 80, 70], 7),       -- write_cmd_bytes, AT-UMPF, line 187
    ([65, 84, 45, 85], 4),                   -- write_cmd_bytes, AT-U, line 192
    ([65, 84, 45, 84, 66], 5),               -- write_cmd_bytes, AT-TB, line 197
    ([65, 84, 45, 84, 66], 5),               -- get_data_ATresponse, AT-TB, line 199
    ([65, 84, 45, 66, 77, 80, 70], 7),       -- write_cmd_bytes, AT-BMPF, line 209
    ([65, 84, 45, 66, 77, 80, 70], 7),       -- get_data_ATresponse, AT-BMPF, line 211
    ([65, 84, 45, 66], 4),                   -- write_cmd_bytes, AT-B, line 221
    ([65, 84, 45, 66], 4),                   -- get_data_ATresponse, AT-B, line 223
    ([65, 84, 45, 77, 68, 79, 65], 7),       -- write_cmd_bytes, AT-MDOA, line 232
    ([65, 84, 45, 77, 65, 79, 65], 7) ]      -- write_cmd_bytes, AT-MAOA, line 243

/-- The 21 parameterised mnemonics of the wire protocol: `AT-DEF`, `AT-MNWK`,
`AT-MIP6`, `AT-MEUI`, `AT-MSAD`, `AT-MPCT`, `AT+IPR`, `AT-UTPL`, `AT-UM`,
`AT-US`, `AT-UP`, `AT-ACM`, `AT-ACK`, `AT-TU`, `AT-UMPF`, `AT-U`, `AT-TB`,
`AT-BMPF`, `AT-B`, `AT-MDOA`, `AT-MAOA`. -/
def wireMnemonics : List (List Nat) :=
  [[65, 84, 45, 68, 69, 70], [65, 84, 45, 77, 78, 87, 75], [65, 84, 45, 77, 73, 80, 54],
   [65, 84, 45, 77, 69, 85, 73], [65, 84, 45, 77, 83, 65, 68], [65, 84, 45, 77, 80, 67, 84],
   [65, 84, 43, 73, 80, 82], [65, 84, 45, 85, 84, 80, 76], [65, 84, 45, 85, 77],
   [65, 84, 45, 85, 83], [65, 84, 45, 85, 80], [65, 84, 45, 65, 67, 77],
   [65, 84, 45, 65, 67, 75], [65, 84, 45, 84, 85], [65, 84, 45, 85, 77, 80, 70],
   [65, 84, 45, 85], [65, 84, 45, 84, 66], [65, 84, 45, 66, 77, 80, 70], [65, 84, 45, 66],
   [65, 84, 45, 77, 68, 79, 65], [65, 84, 45, 77, 65, 79, 65]]

/-- The mnemonics handed to `get_data_ATresponse`: by `get_info_bytes` for
`AT-MIP6`, `AT-MEUI`, `AT-MSAD` (lines 85, 92, 99) and by the bi-directional
sends for `AT-TB`, `AT-BMPF`, `AT-B` (lines 199, 211, 223). -/
def bytePayloadMnemonics : List (List Nat) :=
  [[65, 84, 45, 77, 73, 80, 54], [65, 84, 45, 77, 69, 85, 73], [65, 84, 45, 77, 83, 65, 68],
   [65, 84, 45, 84, 66], [65, 84, 45, 66, 77, 80, 70], [65, 84, 45, 66]]

/-- The bytes a string of hexadecimal characters stands for, high nibble
first: `16 * hex2uint(h[2i]) + hex2uint(h[2i+1])` for every pair. -/
def hexPairs (hex2uint : Nat → Nat) : List Nat → List Nat
  | a :: b :: t => (16 * hex2uint a + hex2uint b) :: hexPairs hex2uint t
  | _ => []

/-- One of the characters `0-9`, `A-F`, `a-f`. -/
def isHexDigit (c : Nat) : Bool :=
  (48 ≤ c && c ≤ 57) || (65 ≤ c && c ≤ 70) || (97 ≤ c && c ≤ 102)

/-! ## Indices written into `response_buf` (miotyAtClient.c, lines 332-338, 381-387, 437-443) -/

/-- The indices of `response_buf` written by one pass of the loop shared by the
three collectors, after a read that delivered `len` bytes with the counter at
`pos`: `i + pos` for every `i < len` (an `int` sum), then `pos + termOff` with
the new value of the `uint8_t` counter (`pos += len`). -/
def passWrites (termOff pos len : Nat) : List Nat :=
  (List.range len).map (fun i => i + pos) ++ [(pos + len) % 256 + termOff]

/-- The indices written by the loop over the successful reads at the head of a
script, in order, the counter being `pos` before; the collectors return at the
first failed read, if they have not returned before. -/
def loopWrites (termOff : Nat) : Nat → List (Option (List Nat)) → List Nat
  | pos, some chunk :: rest =>
    passWrites termOff pos chunk.length ++ loopWrites termOff ((pos + chunk.length) % 256) rest
  | _, _ => []

/-- The `uint8_t` counter `pos` after the successful reads at the head of a
script. -/
def loopPos : Nat → List (Option (List Nat)) → Nat
  | pos, some chunk :: rest => loopPos ((pos + chunk.length) % 256) rest
  | pos, _ => pos

/-! ## Factory defaults (miotyAtClient.c, lines 46-61 and 157-161) -/

/-- The bytes of `"AT-DEF"`. -/
def lit_AT_DEF : List Nat := [65, 84, 45, 68, 69, 70]

/-- `set_info_bytes(AT_cmd, sizeCmd, data, sizeData)` (lines 157-161): the
frame written by `write_cmd_bytes`, then `check_ATresponse`. -/
def set_info_bytes (nibble2hex : Nat → Nat) (u : Uninit) (AT_cmd : List Nat) (sizeCmd : Nat)
    (data : List Nat) (sizeData : Nat) (response_buf : List Nat)
    (script : List (Option (List Nat))) : Option (Call CheckResult) :=
  (write_cmd_bytes nibble2hex u AT_cmd sizeCmd data sizeData).map fun f =>
    ⟨f, check_ATresponse response_buf script⟩

/-- The four bytes a `uint32_t` occupies in memory: least significant byte
first on a little-endian host, most significant first on a big-endian one. -/
def uint32_bytes (littleEndian : Bool) (v : Nat) : List Nat :=
  if littleEndian then [v % 256, v / 256 % 256, v / 65536 % 256, v / 16777216 % 256]
  else [v / 16777216 % 256, v / 65536 % 256, v / 256 % 256, v % 256]

/-- C `memcpy(dest + off, src, n)`: `dest` afterwards; `none` when `src` has
fewer than `n` bytes or a byte falls outside `dest`. -/
def memcpy (dest : List Nat) (off : Nat) (src : List Nat) (n : Nat) : Option (List Nat) :=
  if src.length < n then none else storeBytes dest off (src.take n)

/-- `miotyAtClient_setDefaults` (lines 46-61): `defaults[64] = {0}`, the eleven
`memcpy` calls in source order, then `set_info_bytes("AT-DEF", 6, defaults, 64)`.
The pointer arguments are the arrays they point to, the scalar arguments are
`uint8_t` objects of one byte. -/
def miotyAtClient_setDefaults (nibble2hex : Nat → Nat) (u : Uninit) (littleEndian : Bool)
    (eui64 ipv6 nwKey shortAdress appCryptoKey : List Nat)
    (ulProfile ulMode ulSyncBurst appCryptoMode attached1stBoot : Nat)
    (response_buf : List Nat) (script : List (Option (List Nat))) :
    Option (Call CheckResult) := do
  let d0 := List.replicate 64 0
  let d1 ← memcpy d0 0 (uint32_bytes littleEndian 0xbf07a938) 4
  let d2 ← memcpy d1 4 [ulProfile] 1
  let d3 ← memcpy d2 5 [ulMode] 1
  let d4 ← memcpy d3 6 [ulSyncBurst] 1
  let d5 ← memcpy d4 8 eui64 8
  let d6 ← memcpy d5 16 ipv6 8
  let d7 ← memcpy d6 24 nwKey 16
  let d8 ← memcpy d7 40 shortAdress 2
  let d9 ← memcpy d8 42 [appCryptoMode] 1
  let d10 ← memcpy d9 43 [attached1stBoot] 1
  let d11 ← memcpy d10 48 appCryptoKey 16
  set_info_bytes nibble2hex u lit_AT_DEF 6 d11 64 response_buf script

/-! ## Predicates used in the statements -/

/-- No terminator is complete in `s`: neither `"\r\n0\r\n"`, `"\r\n1\r\n"` nor
`"\r\n2\r\n"` occurs in it and it does not start with `"0\r\n"`. -/
def NoTerm (s : List Nat) : Prop :=
  ¬ lit_ok <:+: s ∧ ¬ lit_ok_head <+: s ∧ ¬ lit_mac <:+: s ∧ ¬ lit_at <:+: s

instance (s : List Nat) : Decidable (NoTerm s) := by unfold NoTerm; infer_instance

/-- The part of `response_buf` behind the received bytes does not matter
(`termOff = 0`: the terminator is stored right behind them) or is all NUL. -/
def ZeroTail (termOff : Nat) (tail : List Nat) : Prop := termOff = 0 ∨ ∀ b ∈ tail, b = 0

/-- The code `c` is what the error branches compute from a labelled field of
the string `s`: the `atoi` value behind the first `"-MNFO:"` (or, if there is
none, the first `"-MERR:"`), or 16 plus the `atoi` value behind the first
`"AT!ERR:"`. -/
def FieldCode (s : List Nat) (c : Int) : Prop :=
  (∃ e, (strstr s lit_MNFO).orElse (fun _ => strstr s lit_MERR) = some e ∧
    atoi (s.drop (e + 6)) = some c) ∨
  (∃ e v, strstr s lit_ATERR = some e ∧ atoi (s.drop (e + 7)) = some v ∧ c = v + 16)

/-- The values a collector can return: OK, ERR, ATErr, ATReadFailed, or a code
computed from a labelled field of the string held in `response_buf`. -/
def CodeShape (c : Int) (response_buf : List Nat) : Prop :=
  c = MIOTYATCLIENT_RETURN_CODE_OK ∨ c = MIOTYATCLIENT_RETURN_CODE_ERR ∨
  c = MIOTYATCLIENT_RETURN_CODE_ATErr ∨ c = MIOTYATCLIENT_RETURN_CODE_ATReadFailed ∨
  ∃ s, cstrAt response_buf 0 = some s ∧ FieldCode s c

/-- An auxiliary output went from `before` to `after` (`none` is a NULL
pointer) as the received bytes `acc` say: the value `v < bound` written in
decimal behind the first `label` and followed by a non-digit byte is stored;
without the label, in a `response_buf` that was all NUL, the output stays;
nothing is stored through a NULL pointer. -/
def FieldStored (label acc response_buf : List Nat) (bound : Nat) (before after : Option Nat) :
    Prop :=
  (∀ p v x t, strstr acc label = some p → acc.drop (p + 6) = decimal v ++ x :: t →
    isdigit x = false → v < bound → after = before.map fun _ => v) ∧
  (¬ label <:+: acc → (∀ b ∈ response_buf, b = 0) → after = before) ∧
  (before = none → after = none)

/-! # Lemmas -/


theorem strstr_isSome_iff (s n : List Nat) : (strstr s n).isSome = true ↔ n <:+: s := by
  induction s with
  | nil => cases n <;> simp [strstr]
  | cons c cs ih =>
    rw [ List.infix_cons_iff, ← ih]
    by_cases h : n <+: c :: cs
    · simp [strstr, h]
    · simp [strstr, h]

theorem strstr_eq_none_iff (s n : List Nat) : strstr s n = none ↔ ¬ n <:+: s := by
  rw [← strstr_isSome_iff]
  cases strstr s n <;> simp

theorem strstr_eq_zero_iff (s n : List Nat) : strstr s n = some 0 ↔ n <+: s := by
  cases s with
  | nil => cases n <;> simp [strstr]
  | cons c cs =>
    by_cases h : n <+: c :: cs
    · simp [strstr, h]
    · simp [strstr, h]

theorem storeBytes_append (a t bs : List Nat) (h : bs.length ≤ t.length) :
    storeBytes (a ++ t) a.length bs = some (a ++ bs ++ t.drop bs.length) := by
  induction bs generalizing a t with
  | nil => simp [storeBytes]
  | cons b bs ih =>
    cases t with
    | nil => simp at h
    | cons x t =>
      simp only [List.length_cons, Nat.add_le_add_iff_right] at h
      have h1 : store (a ++ x :: t) a.length b = some ((a ++ [b]) ++ t) := by
        simp [store]
      have h2 := ih (a ++ [b]) t h
      simp only [List.length_append, List.length_singleton] at h2
      simp only [storeBytes, h1]
      simpa using h2

theorem store_append (a t : List Nat) (i v : Nat) (h : i < t.length) :
    store (a ++ t) (a.length + i) v = some (a ++ t.set i v) := by
  simp [store, h, List.set_append]

theorem readChunk_append (termOff : Nat) (acc tail chunk : List Nat)
    (hlen : chunk.length ≤ 30) (hroom : chunk.length + termOff < tail.length)
    (h256 : acc.length + chunk.length < 256) :
    readChunk termOff (acc ++ tail) acc.length chunk =
      some ((acc ++ chunk.map upcase) ++ (tail.drop chunk.length).set termOff 0,
        acc.length + chunk.length) := by
  have h1 : storeBytes (acc ++ tail) acc.length (chunk.map upcase) =
      some (acc ++ chunk.map upcase ++ tail.drop chunk.length) := by
    have := storeBytes_append acc tail (chunk.map upcase) (by simp; omega)
    simpa using this
  have h2 : store (acc ++ chunk.map upcase ++ tail.drop chunk.length)
      (acc.length + chunk.length + termOff) 0 =
      some ((acc ++ chunk.map upcase) ++ (tail.drop chunk.length).set termOff 0) := by
    have := store_append (acc ++ chunk.map upcase) (tail.drop chunk.length) termOff 0
      (by simp; omega)
    simpa using this
  have h3 : ¬ 30 < chunk.length := by omega
  simp only [readChunk, h3, if_false, h1, Nat.mod_eq_of_lt h256, h2]

theorem takeWhile_append_zero (acc t : List Nat) :
    (acc ++ 0 :: t).takeWhile (fun b => b != 0) = acc.takeWhile (fun b => b != 0) := by
  induction acc with
  | nil => simp
  | cons a acc ih =>
    by_cases h : a = 0
    · simp [h]
    · simp [List.takeWhile_cons, h, ih]

theorem cstrAt_append_zero (acc t : List Nat) :
    cstrAt (acc ++ 0 :: t) 0 = some (acc.takeWhile (fun b => b != 0)) := by
  simp [cstrAt, takeWhile_append_zero]


theorem NoTerm_of_isPrefix {s t : List Nat} (h : s <+: t) (ht : NoTerm t) : NoTerm s :=
  ⟨fun c => ht.1 (c.trans h.isInfix), fun c => ht.2.1 (c.trans h),
   fun c => ht.2.2.1 (c.trans h.isInfix), fun c => ht.2.2.2 (c.trans h.isInfix)⟩

theorem noTerm_take {chunks : List (List Nat)} (h : NoTerm (chunks.flatten.map upcase)) :
    ∀ k, k < chunks.length → NoTerm ((chunks.take (k + 1)).flatten.map upcase) := by
  intro k _
  refine NoTerm_of_isPrefix ?_ h
  refine ⟨(chunks.drop (k + 1)).flatten.map upcase, ?_⟩
  rw [← List.map_append, ← List.flatten_append, List.take_append_drop]

theorem successSeen_iff (s : List Nat) :
    successSeen s = true ↔ lit_ok <:+: s ∨ lit_ok_head <+: s := by
  simp [successSeen, strstr_isSome_iff, strstr_eq_zero_iff]

theorem successSeen_of_NoTerm {s : List Nat} (h : NoTerm s) : successSeen s = false := by
  rw [Bool.eq_false_iff, Ne, successSeen_iff]
  exact fun c => c.elim h.1 h.2.1

theorem errBranches_of_NoTerm {s : List Nat} (h : NoTerm s) : errBranches s = .more := by
  have h1 : (strstr s lit_mac).isSome = false := by
    rw [Bool.eq_false_iff, Ne, strstr_isSome_iff]; exact h.2.2.1
  have h2 : (strstr s lit_at).isSome = false := by
    rw [Bool.eq_false_iff, Ne, strstr_isSome_iff]; exact h.2.2.2
  simp [errBranches, h1, h2]

theorem tail_step (termOff n : Nat) (tail : List Nat) (htO : termOff ≤ 1)
    (hz : ZeroTail termOff tail) (hroom : n + termOff < tail.length) :
    ∃ t, (tail.drop n).set termOff 0 = 0 :: t ∧ ZeroTail termOff (0 :: t) := by
  have hlen : ((tail.drop n).set termOff 0).length = tail.length - n := by simp
  cases hz with
  | inl h0 =>
    subst h0
    cases hd : tail.drop n with
    | nil => rw [hd] at hlen; simp at hlen; omega
    | cons x t => exact ⟨t, by simp, Or.inl rfl⟩
  | inr hall =>
    have hall' : ∀ b ∈ (tail.drop n).set termOff 0, b = 0 := by
      intro b hb
      rcases List.mem_or_eq_of_mem_set hb with h | h
      · exact hall b (List.mem_of_mem_drop h)
      · exact h
    cases hd : (tail.drop n).set termOff 0 with
    | nil => rw [hd] at hlen; simp at hlen; omega
    | cons x t =>
      rw [hd] at hall'
      have hx : x = 0 := hall' x (by simp)
      subst hx
      exact ⟨t, rfl, Or.inr hall'⟩

theorem pollLoop_some {α : Type} (termOff : Nat) (body : List Nat → Verdict α)
    (onFail : List Nat → α) (m : List Nat) (pos n : Nat) (c : List Nat)
    (rest : List (Option (List Nat))) :
    pollLoop termOff body onFail m pos n (some c :: rest) =
      match readChunk termOff m pos c with
      | none => .undefined (n + 1)
      | some (m1, pos1) =>
        match body m1 with
        | .done a => .ret (n + 1) a
        | .fault => .undefined (n + 1)
        | .more => pollLoop termOff body onFail m1 pos1 (n + 1) rest := rfl

theorem pollLoop_skip {α : Type} (termOff : Nat) (body : List Nat → Verdict α)
    (onFail : List Nat → α) (htO : termOff ≤ 1)
    (hbody : ∀ m s, cstrAt m 0 = some s → NoTerm s → body m = .more)
    (chunks : List (List Nat)) :
    ∀ (acc tail : List Nat) (n : Nat) (rest : List (Option (List Nat))),
      ZeroTail termOff tail → (∀ c ∈ chunks, c.length ≤ 30) →
      chunks.flatten.length + termOff < tail.length → acc.length + tail.length ≤ 256 →
      (∀ k, k < chunks.length → NoTerm (acc ++ ((chunks.take (k + 1)).flatten.map upcase))) →
      ∃ tail', ZeroTail termOff tail' ∧ tail'.length + chunks.flatten.length = tail.length ∧
        pollLoop termOff body onFail (acc ++ tail) acc.length n (chunks.map some ++ rest) =
          pollLoop termOff body onFail ((acc ++ chunks.flatten.map upcase) ++ tail')
            (acc.length + chunks.flatten.length) (n + chunks.length) rest := by
  induction chunks with
  | nil =>
    intro acc tail n rest hz _ _ _ _
    exact ⟨tail, hz, by simp, by simp⟩
  | cons c cs ih =>
    intro acc tail n rest hz hlen hroom h256 hno
    have hc : c.length ≤ 30 := hlen c (by simp)
    simp only [List.flatten_cons, List.length_append] at hroom
    obtain ⟨t, ht, hzt⟩ := tail_step termOff c.length tail htO hz (by omega)
    have hrd := readChunk_append termOff acc tail c hc (by omega) (by omega)
    rw [ht] at hrd
    have hno0 : NoTerm (acc ++ c.map upcase) := by
      have := hno 0 (by simp)
      simpa using this
    have hb : body ((acc ++ c.map upcase) ++ 0 :: t) = .more :=
      hbody _ _ (cstrAt_append_zero _ _) (NoTerm_of_isPrefix ( List.takeWhile_prefix _) hno0)
    have htl : (0 :: t).length = tail.length - c.length := by
      rw [← ht]; simp
    obtain ⟨tail', hz', hl', heq⟩ := ih (acc ++ c.map upcase) (0 :: t) (n + 1) rest hzt
      (fun c' hc' => hlen c' (by simp [hc'])) (by omega) (by simp at htl ⊢; omega)
      (by
        intro k hk
        have := hno (k + 1) (by simpa using hk)
        simpa [List.append_assoc] using this)
    refine ⟨tail', hz', ?_, ?_⟩
    · simp only [List.flatten_cons, List.length_append]; omega
    · rw [List.map_cons, List.cons_append, pollLoop_some, hrd]
      simp only [hb]
      simp only [List.length_append, List.length_map] at heq
      rw [heq]
      simp [List.append_assoc, Nat.add_assoc, Nat.add_comm 1]


theorem pollLoop_last {α : Type} (termOff : Nat) (body : List Nat → Verdict α)
    (onFail : List Nat → α) (htO : termOff ≤ 1)
    (hbody : ∀ m s, cstrAt m 0 = some s → NoTerm s → body m = .more)
    (chunks : List (List Nat)) (last : List Nat) (tail : List Nat)
    (rest : List (Option (List Nat)))
    (hz : ZeroTail termOff tail) (hlen : ∀ c ∈ chunks ++ [last], c.length ≤ 30)
    (hroom : (chunks ++ [last]).flatten.length + termOff < tail.length)
    (h256 : tail.length ≤ 256)
    (hno : ∀ k, k < chunks.length → NoTerm ((chunks.take (k + 1)).flatten.map upcase)) :
    ∃ t, ZeroTail termOff (0 :: t) ∧
      ((chunks ++ [last]).flatten.map upcase ++ 0 :: t).length = tail.length ∧
      pollLoop termOff body onFail tail 0 0 (chunks.map some ++ some last :: rest) =
        match body ((chunks ++ [last]).flatten.map upcase ++ 0 :: t) with
        | .done a => .ret (chunks.length + 1) a
        | .fault => .undefined (chunks.length + 1)
        | .more => pollLoop termOff body onFail ((chunks ++ [last]).flatten.map upcase ++ 0 :: t)
            ((chunks ++ [last]).flatten.length) (chunks.length + 1) rest := by
  simp only [List.flatten_append, List.flatten_cons, List.flatten_nil, List.append_nil,
    List.length_append] at hroom
  obtain ⟨tail', hz', hl', heq⟩ := pollLoop_skip termOff body onFail htO hbody chunks [] tail 0
    (some last :: rest) hz (fun c hc => hlen c (by simp [hc])) (by omega) (by simpa using h256)
    (by simpa using hno)
  simp only [List.nil_append, List.length_nil, Nat.zero_add] at heq
  have hc : last.length ≤ 30 := hlen last (by simp)
  obtain ⟨t, ht, hzt⟩ := tail_step termOff last.length tail' htO hz' (by omega)
  have hrd := readChunk_append termOff (chunks.flatten.map upcase) tail' last hc (by omega)
    (by rw [List.length_map]; omega)
  rw [ht] at hrd
  simp only [List.length_map] at hrd
  refine ⟨t, hzt, ?_, ?_⟩
  · have : (0 :: t).length = tail'.length - last.length := by rw [← ht]; simp
    simp only [List.length_cons] at this
    simp only [List.flatten_append, List.flatten_cons, List.flatten_nil, List.append_nil,
      List.map_append, List.length_append, List.length_map, List.length_cons]
    omega
  · rw [heq, pollLoop_some, hrd]
    simp [List.flatten_append, List.map_append]


theorem check_body_err {m s : List Nat} (hs : cstrAt m 0 = some s) (hn : successSeen s = false) :
    check_body m =
      match errBranches s with
      | .done c => .done ⟨c, m⟩
      | .fault => .fault
      | .more => .more := by
  simp only [check_body, hs, hn]
  cases errBranches s <;> rfl

theorem get_int_data_body_err (AT_cmd : List Nat) (sizeCmd res : Nat) {m s : List Nat}
    (hs : cstrAt m 0 = some s) (hn : successSeen s = false) :
    get_int_data_body AT_cmd sizeCmd res m =
      match errBranches s with
      | .done c => .done ⟨c, res, m⟩
      | .fault => .fault
      | .more => .more := by
  simp only [get_int_data_body, hs, hn]
  cases errBranches s <;> rfl

theorem get_data_body_err (hex2uint : Nat → Nat) (AT_cmd : List Nat) (sizeCmd : Nat)
    (buffer : List Nat) (sizeBuf : Nat) {m s : List Nat}
    (hs : cstrAt m 0 = some s) (hn : successSeen s = false) :
    get_data_body hex2uint AT_cmd sizeCmd buffer sizeBuf m =
      match errBranches s with
      | .done c => .done ⟨c, buffer, sizeBuf, m⟩
      | .fault => .fault
      | .more => .more := by
  simp only [get_data_body, hs, hn]
  cases errBranches s <;> rfl

theorem check_body_more (m s : List Nat) (hs : cstrAt m 0 = some s) (hn : NoTerm s) :
    check_body m = .more := by
  rw [check_body_err hs (successSeen_of_NoTerm hn), errBranches_of_NoTerm hn]

theorem get_int_data_body_more (AT_cmd : List Nat) (sizeCmd res : Nat) (m s : List Nat)
    (hs : cstrAt m 0 = some s) (hn : NoTerm s) :
    get_int_data_body AT_cmd sizeCmd res m = .more := by
  rw [get_int_data_body_err AT_cmd sizeCmd res hs (successSeen_of_NoTerm hn),
    errBranches_of_NoTerm hn]

theorem get_data_body_more (hex2uint : Nat → Nat) (AT_cmd : List Nat) (sizeCmd : Nat)
    (buffer : List Nat) (sizeBuf : Nat) (m s : List Nat)
    (hs : cstrAt m 0 = some s) (hn : NoTerm s) :
    get_data_body hex2uint AT_cmd sizeCmd buffer sizeBuf m = .more := by
  rw [get_data_body_err hex2uint AT_cmd sizeCmd buffer sizeBuf hs (successSeen_of_NoTerm hn),
    errBranches_of_NoTerm hn]

theorem zeroTail_replicate (n : Nat) : ZeroTail 1 (List.replicate n 0) :=
  Or.inr (fun _ hb => (List.mem_replicate.mp hb).2)

theorem pollLoop_readFail {α : Type} (termOff : Nat) (body : List Nat → Verdict α)
    (onFail : List Nat → α) (htO : termOff ≤ 1)
    (hbody : ∀ m s, cstrAt m 0 = some s → NoTerm s → body m = .more)
    (chunks : List (List Nat)) (tail : List Nat) (rest : List (Option (List Nat)))
    (hz : ZeroTail termOff tail) (hlen : ∀ c ∈ chunks, c.length ≤ 30)
    (hroom : chunks.flatten.length + termOff < tail.length) (h256 : tail.length ≤ 256)
    (hno : ∀ k, k < chunks.length → NoTerm ((chunks.take (k + 1)).flatten.map upcase)) :
    ∃ m, pollLoop termOff body onFail tail 0 0 (chunks.map some ++ none :: rest) =
      .ret (chunks.length + 1) (onFail m) := by
  obtain ⟨tail', _, _, heq⟩ := pollLoop_skip termOff body onFail htO hbody chunks [] tail 0
    (none :: rest) hz hlen hroom (by simpa using h256) (by simpa using hno)
  simp only [List.nil_append, List.length_nil, Nat.zero_add] at heq
  exact ⟨_, by rw [heq]; rfl⟩

/-- C4 (amended): let `chunks` be `k` successful reads of at most 30 bytes each
after which no terminator pattern is present in the accumulated (upper-cased)
bytes, followed by a read that returns false.  If
the bytes fit the 200-byte response buffer together with the terminator (at
most 199 bytes for get_int_data_ATresponse, at most 198 for the other two),
the collector returns ATReadFailed (23) after exactly `k + 1` reads, whatever
the script holds behind the failing read, and leaves `*res`, `buffer` and
`*sizeBuf` as they were.  For check_ATresponse and get_data_ATresponse this is
stated for a response buffer that is all NUL on entry. -/
theorem read_failure_returns_ATReadFailed (chunks : List (List Nat))
    (rest : List (Option (List Nat))) (hlen : ∀ c ∈ chunks, c.length ≤ 30)
    (hno : NoTerm (chunks.flatten.map upcase)) :
    (chunks.flatten.length ≤ 199 →
      ∀ (AT_cmd : List Nat) (sizeCmd res : Nat) (response_buf : List Nat),
        response_buf.length = 200 →
        ∃ m, get_int_data_ATresponse AT_cmd sizeCmd res response_buf
            (chunks.map some ++ none :: rest) =
          .ret (chunks.length + 1) ⟨MIOTYATCLIENT_RETURN_CODE_ATReadFailed, res, m⟩) ∧
    (chunks.flatten.length ≤ 198 →
      (∃ m, check_ATresponse (List.replicate 200 0) (chunks.map some ++ none :: rest) =
          .ret (chunks.length + 1) ⟨MIOTYATCLIENT_RETURN_CODE_ATReadFailed, m⟩) ∧
      (∀ (hex2uint : Nat → Nat) (AT_cmd : List Nat) (sizeCmd : Nat) (buffer : List Nat)
          (sizeBuf : Nat),
        ∃ m, get_data_ATresponse hex2uint AT_cmd sizeCmd buffer sizeBuf (List.replicate 200 0)
            (chunks.map some ++ none :: rest) =
          .ret (chunks.length + 1)
            ⟨MIOTYATCLIENT_RETURN_CODE_ATReadFailed, buffer, sizeBuf, m⟩)) := by
  refine ⟨?_, ?_⟩
  · intro hsz AT_cmd sizeCmd res response_buf hbuf
    exact pollLoop_readFail 0 _ _ (by omega) (get_int_data_body_more AT_cmd sizeCmd res) chunks
      response_buf rest (Or.inl rfl) hlen (by omega) (by omega) (noTerm_take hno)
  · intro hsz
    refine ⟨?_, ?_⟩
    · exact pollLoop_readFail 1 _ _ (by omega) check_body_more chunks _ rest
        (zeroTail_replicate 200) hlen (by rw [List.length_replicate]; omega)
        (by rw [List.length_replicate]; omega) (noTerm_take hno)
    · intro hex2uint AT_cmd sizeCmd buffer sizeBuf
      exact pollLoop_readFail 1 _ _ (by omega)
        (get_data_body_more hex2uint AT_cmd sizeCmd buffer sizeBuf) chunks _ rest
        (zeroTail_replicate 200) hlen (by rw [List.length_replicate]; omega)
        (by rw [List.length_replicate]; omega) (noTerm_take hno)

theorem takeWhile_of_no_nul {a : List Nat} (h : 0 ∉ a) :
    a.takeWhile (fun b => b != 0) = a := by
  induction a with
  | nil => rfl
  | cons x xs ih =>
    simp only [List.mem_cons, not_or] at h
    have hx : (x != 0) = true := by simpa using fun c => h.1 c.symm
    rw [List.takeWhile_cons, hx]
    simp only [if_true]
    rw [ih h.2]

theorem cstrAt_of_no_nul {a : List Nat} (t : List Nat) (h : 0 ∉ a) :
    cstrAt (a ++ 0 :: t) 0 = some a := by
  rw [cstrAt_append_zero, takeWhile_of_no_nul h]

theorem errBranches_mac_fallback {s : List Nat} (h1 : lit_mac <:+: s)
    (h2 : ¬ lit_MNFO <:+: s) (h3 : ¬ lit_MERR <:+: s) :
    errBranches s = .done MIOTYATCLIENT_RETURN_CODE_ERR := by
  have e1 : (strstr s lit_mac).isSome = true := (strstr_isSome_iff _ _).mpr h1
  have e2 : strstr s lit_MNFO = none := (strstr_eq_none_iff _ _).mpr h2
  have e3 : strstr s lit_MERR = none := (strstr_eq_none_iff _ _).mpr h3
  simp [errBranches, e1, e2, e3]

theorem errBranches_at_fallback {s : List Nat} (h0 : ¬ lit_mac <:+: s) (h1 : lit_at <:+: s)
    (h2 : ¬ lit_ATERR <:+: s) :
    errBranches s = .done MIOTYATCLIENT_RETURN_CODE_ATErr := by
  have e0 : (strstr s lit_mac).isSome = false := by
    rw [Bool.eq_false_iff, Ne, strstr_isSome_iff]; exact h0
  have e1 : (strstr s lit_at).isSome = true := (strstr_isSome_iff _ _).mpr h1
  have e2 : strstr s lit_ATERR = none := (strstr_eq_none_iff _ _).mpr h2
  simp [errBranches, e0, e1, e2]

theorem successSeen_eq_false {s : List Nat} (h1 : ¬ lit_ok <:+: s) (h2 : ¬ lit_ok_head <+: s) :
    successSeen s = false := by
  rw [Bool.eq_false_iff, Ne, successSeen_iff]
  exact fun c => c.elim h1 h2

theorem pollLoop_done {α : Type} (termOff : Nat) (body : List Nat → Verdict α)
    (onFail : List Nat → α) (htO : termOff ≤ 1)
    (hbody : ∀ m s, cstrAt m 0 = some s → NoTerm s → body m = .more)
    (chunks : List (List Nat)) (last : List Nat) (tail : List Nat)
    (rest : List (Option (List Nat)))
    (hz : ZeroTail termOff tail) (hlen : ∀ c ∈ chunks ++ [last], c.length ≤ 30)
    (hroom : (chunks ++ [last]).flatten.length + termOff < tail.length)
    (h256 : tail.length ≤ 256)
    (hno : ∀ k, k < chunks.length → NoTerm ((chunks.take (k + 1)).flatten.map upcase))
    (a : List Nat → α)
    (hdone : ∀ t, ((chunks ++ [last]).flatten.map upcase ++ 0 :: t).length = tail.length →
      body ((chunks ++ [last]).flatten.map upcase ++ 0 :: t) =
        .done (a ((chunks ++ [last]).flatten.map upcase ++ 0 :: t))) :
    ∃ m, pollLoop termOff body onFail tail 0 0 (chunks.map some ++ some last :: rest) =
      .ret (chunks.length + 1) (a m) := by
  obtain ⟨t, _, hl, heq⟩ := pollLoop_last termOff body onFail htO hbody chunks last tail rest hz
    hlen hroom h256 hno
  exact ⟨(chunks ++ [last]).flatten.map upcase ++ 0 :: t, by rw [heq, hdone t hl]⟩

theorem collectors_return_of_errBranches (chunks : List (List Nat)) (last : List Nat)
    (rest : List (Option (List Nat)))
    (hlen : ∀ c ∈ chunks ++ [last], c.length ≤ 30)
    (hno : NoTerm (chunks.flatten.map upcase))
    (hnul : 0 ∉ (chunks ++ [last]).flatten.map upcase)
    (hss : successSeen ((chunks ++ [last]).flatten.map upcase) = false) (code : Int)
    (herr : errBranches ((chunks ++ [last]).flatten.map upcase) = .done code) :
    (((chunks ++ [last]).flatten.map upcase).length ≤ 199 →
      ∀ (AT_cmd : List Nat) (sizeCmd res : Nat) (response_buf : List Nat),
        response_buf.length = 200 →
        ∃ m, get_int_data_ATresponse AT_cmd sizeCmd res response_buf
            (chunks.map some ++ some last :: rest) =
          .ret (chunks.length + 1) ⟨code, res, m⟩) ∧
    (((chunks ++ [last]).flatten.map upcase).length ≤ 198 →
      (∃ m, check_ATresponse (List.replicate 200 0) (chunks.map some ++ some last :: rest) =
          .ret (chunks.length + 1) ⟨code, m⟩) ∧
      (∀ (hex2uint : Nat → Nat) (AT_cmd : List Nat) (sizeCmd : Nat) (buffer : List Nat)
          (sizeBuf : Nat),
        ∃ m, get_data_ATresponse hex2uint AT_cmd sizeCmd buffer sizeBuf
            (List.replicate 200 0) (chunks.map some ++ some last :: rest) =
          .ret (chunks.length + 1) ⟨code, buffer, sizeBuf, m⟩)) := by
  refine ⟨?_, ?_⟩
  · intro hsz AT_cmd sizeCmd res response_buf hbuf
    rw [List.length_map] at hsz
    exact pollLoop_done 0 _ _ (by omega) (get_int_data_body_more AT_cmd sizeCmd res) chunks
      last response_buf rest (Or.inl rfl) hlen (by omega) (by omega) (noTerm_take hno)
      (fun m => ⟨code, res, m⟩) (fun t _ => by
        rw [get_int_data_body_err AT_cmd sizeCmd res (cstrAt_of_no_nul t hnul) hss, herr])
  · intro hsz
    rw [List.length_map] at hsz
    refine ⟨?_, ?_⟩
    · exact pollLoop_done 1 _ _ (by omega) check_body_more chunks last _ rest
        (zeroTail_replicate 200) hlen (by rw [List.length_replicate]; omega)
        (by rw [List.length_replicate]; omega) (noTerm_take hno)
        (fun m => ⟨code, m⟩) (fun t _ => by
          rw [check_body_err (cstrAt_of_no_nul t hnul) hss, herr])
    · intro hex2uint AT_cmd sizeCmd buffer sizeBuf
      exact pollLoop_done 1 _ _ (by omega)
        (get_data_body_more hex2uint AT_cmd sizeCmd buffer sizeBuf) chunks last _ rest
        (zeroTail_replicate 200) hlen (by rw [List.length_replicate]; omega)
        (by rw [List.length_replicate]; omega) (noTerm_take hno)
        (fun m => ⟨code, buffer, sizeBuf, m⟩) (fun t _ => by
          rw [get_data_body_err hex2uint AT_cmd sizeCmd buffer sizeBuf
            (cstrAt_of_no_nul t hnul) hss, herr])

/-- C3 (amended): let the reads `chunks ++ [last]` (at most 30 bytes each)
deliver the upper-cased bytes `acc`, without NUL byte, such that no terminator
was complete before the last read and `acc` holds no success pattern.  If
`acc` contains `"\r\n1\r\n"` and neither `"-MNFO:"` nor `"-MERR:"`, the collector
returns ERR (9) on the last read; if `acc` contains `"\r\n2\r\n"`, no
`"\r\n1\r\n"` and no `"AT!ERR:"`, it returns ATErr (16); the outputs are left as
they were.  This holds for get_int_data_ATresponse when `acc` has at most 199
bytes, and for check_ATresponse and get_data_ATresponse when `acc` has at most
198 bytes and the response buffer is all NUL on entry. -/
theorem label_not_found_fallbacks (chunks : List (List Nat)) (last acc : List Nat)
    (rest : List (Option (List Nat)))
    (hacc : acc = (chunks ++ [last]).flatten.map upcase)
    (hlen : ∀ c ∈ chunks ++ [last], c.length ≤ 30)
    (hno : NoTerm (chunks.flatten.map upcase))
    (hnul : 0 ∉ acc) (hok : ¬ lit_ok <:+: acc) (hok0 : ¬ lit_ok_head <+: acc) :
    (lit_mac <:+: acc → ¬ lit_MNFO <:+: acc → ¬ lit_MERR <:+: acc →
      (acc.length ≤ 199 →
        ∀ (AT_cmd : List Nat) (sizeCmd res : Nat) (response_buf : List Nat),
          response_buf.length = 200 →
          ∃ m, get_int_data_ATresponse AT_cmd sizeCmd res response_buf
              (chunks.map some ++ some last :: rest) =
            .ret (chunks.length + 1) ⟨MIOTYATCLIENT_RETURN_CODE_ERR, res, m⟩) ∧
      (acc.length ≤ 198 →
        (∃ m, check_ATresponse (List.replicate 200 0) (chunks.map some ++ some last :: rest) =
            .ret (chunks.length + 1) ⟨MIOTYATCLIENT_RETURN_CODE_ERR, m⟩) ∧
        (∀ (hex2uint : Nat → Nat) (AT_cmd : List Nat) (sizeCmd : Nat) (buffer : List Nat)
            (sizeBuf : Nat),
          ∃ m, get_data_ATresponse hex2uint AT_cmd sizeCmd buffer sizeBuf
              (List.replicate 200 0) (chunks.map some ++ some last :: rest) =
            .ret (chunks.length + 1) ⟨MIOTYATCLIENT_RETURN_CODE_ERR, buffer, sizeBuf, m⟩))) ∧
    (lit_at <:+: acc → ¬ lit_mac <:+: acc → ¬ lit_ATERR <:+: acc →
      (acc.length ≤ 199 →
        ∀ (AT_cmd : List Nat) (sizeCmd res : Nat) (response_buf : List Nat),
          response_buf.length = 200 →
          ∃ m, get_int_data_ATresponse AT_cmd sizeCmd res response_buf
              (chunks.map some ++ some last :: rest) =
            .ret (chunks.length + 1) ⟨MIOTYATCLIENT_RETURN_CODE_ATErr, res, m⟩) ∧
      (acc.length ≤ 198 →
        (∃ m, check_ATresponse (List.replicate 200 0) (chunks.map some ++ some last :: rest) =
            .ret (chunks.length + 1) ⟨MIOTYATCLIENT_RETURN_CODE_ATErr, m⟩) ∧
        (∀ (hex2uint : Nat → Nat) (AT_cmd : List Nat) (sizeCmd : Nat) (buffer : List Nat)
            (sizeBuf : Nat),
          ∃ m, get_data_ATresponse hex2uint AT_cmd sizeCmd buffer sizeBuf
              (List.replicate 200 0) (chunks.map some ++ some last :: rest) =
            .ret (chunks.length + 1)
              ⟨MIOTYATCLIENT_RETURN_CODE_ATErr, buffer, sizeBuf, m⟩))) := by
  subst hacc
  have hss := successSeen_eq_false hok hok0
  exact ⟨fun h1 h2 h3 => collectors_return_of_errBranches chunks last rest hlen hno hnul hss _
      (errBranches_mac_fallback h1 h2 h3),
    fun h1 h0 h2 => collectors_return_of_errBranches chunks last rest hlen hno hnul hss _
      (errBranches_at_fallback h0 h1 h2)⟩

theorem cr_occurrence_unique (B : List Nat) (hB : 13 ∉ B) :
    ∀ (x q y : List Nat), x ++ (13 :: q) ++ y = B ++ lit_ok → q.length = 4 →
      x = B ∧ 13 :: q = lit_ok ∧ y = [] := by
  induction B with
  | nil =>
    intro x q y h hq
    have hl := congrArg List.length h
    simp [lit_ok, hq] at hl
    have hx : x = [] := List.eq_nil_of_length_eq_zero (by omega)
    have hy : y = [] := List.eq_nil_of_length_eq_zero (by omega)
    subst hx; subst hy
    simpa using h
  | cons b B ih =>
    intro x q y h hq
    simp only [List.mem_cons, not_or] at hB
    cases x with
    | nil =>
      simp only [List.nil_append, List.cons_append, List.cons.injEq] at h
      exact absurd h.1 hB.1
    | cons a x =>
      simp only [List.cons_append, List.cons.injEq] at h
      obtain ⟨hx, hq', hy⟩ := ih hB.2 x q y (by simpa using h.2) hq
      exact ⟨by rw [h.1, hx], hq', hy⟩

theorem noTerm_of_properPrefix (B p : List Nat) (hB13 : 13 ∉ B)
    (hB0 : ∃ b B', B = b :: B' ∧ b ≠ 48) (hp : p <+: B ++ lit_ok) (hne : p ≠ B ++ lit_ok) :
    NoTerm p := by
  obtain ⟨z, hz⟩ := hp
  have hzne : z ≠ [] := by
    intro hz0; subst hz0; simp at hz; exact hne hz
  refine ⟨?_, ?_, ?_, ?_⟩
  · rintro ⟨x, y, hxy⟩
    have h : x ++ (13 :: [10, 48, 13, 10]) ++ (y ++ z) = B ++ lit_ok := by
      rw [← hz, ← hxy]; simp [lit_ok]
    have := (cr_occurrence_unique B hB13 x _ (y ++ z) h rfl).2.2
    simp at this
    exact hzne this.2
  · rintro ⟨y, hy⟩
    obtain ⟨b, B', hB, hb⟩ := hB0
    subst hB
    rw [← hy] at hz
    simp [lit_ok_head] at hz
    exact hb hz.1.symm
  · rintro ⟨x, y, hxy⟩
    have h : x ++ (13 :: [10, 49, 13, 10]) ++ (y ++ z) = B ++ lit_ok := by
      rw [← hz, ← hxy]; simp [lit_mac]
    have := (cr_occurrence_unique B hB13 x _ (y ++ z) h rfl).2.1
    simp [lit_ok] at this
  · rintro ⟨x, y, hxy⟩
    have h : x ++ (13 :: [10, 50, 13, 10]) ++ (y ++ z) = B ++ lit_ok := by
      rw [← hz, ← hxy]; simp [lit_at]
    have := (cr_occurrence_unique B hB13 x _ (y ++ z) h rfl).2.1
    simp [lit_ok] at this

theorem decimal_spec (v : Nat) :
    ∃ L : List Nat, L ≠ [] ∧ (∀ d ∈ L, d < 10) ∧ decimal v = L.map (· + 48) ∧
      L.foldl (fun a d => a * 10 + d) 0 = v := by
  by_cases hv : v = 0
  · subst hv
    exact ⟨[0], by simp, by simp, by simp [decimal], by simp⟩
  · refine ⟨(Nat.digits 10 v).reverse, ?_, ?_, ?_, ?_⟩
    · simpa using (Nat.digits_ne_nil_iff_ne_zero.mpr hv)
    · intro d hd
      exact Nat.digits_lt_base (by norm_num) (List.mem_reverse.mp hd)
    · simp [decimal, hv]
    · rw [List.foldl_reverse]
      have h := Nat.ofDigits_digits 10 v
      rw [Nat.ofDigits_eq_foldr] at h
      simpa [Nat.mul_comm, Nat.add_comm] using h

theorem digitsVal_cons (c : Nat) (cs : List Nat) (acc : Nat) :
    digitsVal (c :: cs) acc = if isdigit c then digitsVal cs (acc * 10 + (c - 48)) else acc :=
  rfl

theorem digitsVal_map (L : List Nat) (hL : ∀ d ∈ L, d < 10) :
    ∀ (tail : List Nat) (acc : Nat),
      digitsVal (L.map (· + 48) ++ tail) acc =
        digitsVal tail (L.foldl (fun a d => a * 10 + d) acc) := by
  induction L with
  | nil => intro tail acc; rfl
  | cons d L ih =>
    intro tail acc
    have hd : d < 10 := hL d (by simp)
    have h1 : isdigit (d + 48) = true := by simp [isdigit]; omega
    rw [List.map_cons, List.cons_append, digitsVal_cons, if_pos h1,
      ih (fun x hx => hL x (by simp [hx])), List.foldl_cons]
    simp

theorem atoi_decimal (v : Nat) (hv : v < 2147483648) (x : Nat) (hx : isdigit x = false)
    (r : List Nat) : atoi (decimal v ++ x :: r) = some (v : Int) := by
  obtain ⟨L, hne, hL, hdec, hval⟩ := decimal_spec v
  have hdv : digitsVal (decimal v ++ x :: r) 0 = v := by
    rw [hdec, digitsVal_map L hL, hval]
    simp [digitsVal, hx]
  cases L with
  | nil => exact absurd rfl hne
  | cons d L =>
    have hd : d < 10 := hL d (by simp)
    rw [hdec] at hdv ⊢
    simp only [List.map_cons, List.cons_append] at hdv ⊢
    have hsp : isspace (d + 48) = false := by simp [isspace]
    have hsg : atoiSigned ((d + 48) :: (List.map (fun x => x + 48) L ++ x :: r)) = (v : Int) := by
      unfold atoiSigned
      split
      · rename_i t heq
        simp at heq
      · rename_i t heq
        simp at heq
      · rw [hdv]
    have hrange : (-2147483648 : Int) ≤ (v : Int) ∧ (v : Int) ≤ 2147483647 := by omega
    have hdw : List.dropWhile isspace ((d + 48) :: (List.map (fun x => x + 48) L ++ x :: r)) =
        (d + 48) :: (List.map (fun x => x + 48) L ++ x :: r) := by
      simp [List.dropWhile_cons, hsp]
    unfold atoi
    rw [hdw, hsg, if_pos hrange]


theorem map_eq_self_of_forall {f : Nat → Nat} {l : List Nat} (h : ∀ b ∈ l, f b = b) :
    l.map f = l := by
  induction l with
  | nil => rfl
  | cons x xs ih =>
    rw [List.map_cons, h x (by simp), ih (fun b hb => h b (by simp [hb]))]

theorem cstrAt_drop_of_no_nul {a : List Nat} (t : List Nat) (p : Nat) (h : 0 ∉ a)
    (hp : p ≤ a.length) : cstrAt (a ++ 0 :: t) p = some (a.drop p) := by
  have h1 : cstrAt (a ++ 0 :: t) p = cstrAt (a.drop p ++ 0 :: t) 0 := by
    simp [cstrAt, List.drop_append_of_le_length hp]
  rw [h1, cstrAt_of_no_nul t (fun c => h (List.mem_of_mem_drop c))]

theorem intQueryMnemonics_tags :
    ∀ M ∈ intQueryMnemonics, 2 ≤ M.length ∧ M.length ≤ 7 ∧
      (∀ b ∈ M.drop 2, upcase b = b ∧ b ≠ 0 ∧ b ≠ 13) ∧
      (∃ b T, M.drop 2 = b :: T ∧ b ≠ 48) := by
  intro M hM
  simp only [intQueryMnemonics, List.mem_cons, List.mem_singleton, List.not_mem_nil,
    or_false] at hM
  rcases hM with h | h | h | h | h | h | h <;> subst h <;>
    exact ⟨by decide, by decide, by decide, _, _, rfl, by decide⟩

theorem decimal_chars (v : Nat) : ∀ b ∈ decimal v, 48 ≤ b ∧ b ≤ 57 := by
  obtain ⟨L, _, hL, hdec, _⟩ := decimal_spec v
  intro b hb
  rw [hdec, List.mem_map] at hb
  obtain ⟨d, hd, rfl⟩ := hb
  have := hL d hd
  omega

theorem upcase_of_not_lower {b : Nat} (h : b < 97) : upcase b = b := by
  unfold upcase toupper
  split
  · rw [if_neg (by omega)]
  · rfl

theorem decimal_length_le (v : Nat) (hv : v < 2147483648) : (decimal v).length ≤ 10 := by
  by_cases h0 : v = 0
  · simp [decimal, h0]
  · have h1 := Nat.base_pow_length_digits_le 10 v (by norm_num) h0
    simp only [decimal, h0, if_false, List.length_map, List.length_reverse]
    by_contra hc
    have h2 : 10 ^ 11 ≤ 10 ^ (Nat.digits 10 v).length :=
      Nat.pow_le_pow_right (by norm_num) (by omega)
    have h3 : (10 : Nat) ^ 11 = 100000000000 := by norm_num
    omega

/-- C7: for every mnemonic `M` that the command API hands to get_info_int and
every `v < 2^31`, if the reads (1 to 30 bytes each, split in any way) deliver
exactly `T ++ ":" ++ decimal(v) ++ "\r\n0\r\n"` with `T` the mnemonic without its
first two characters, get_info_int returns OK on the last of these reads and
stores `v` in `*res`, for every content of the uninitialised buffers. -/
theorem get_info_int_extracts (M : List Nat) (hM : M ∈ intQueryMnemonics) (v : Nat)
    (hv : v < 2147483648) (chunks : List (List Nat))
    (hsplit : chunks.flatten = M.drop 2 ++ [58] ++ decimal v ++ lit_ok)
    (hsz : ∀ c ∈ chunks, 1 ≤ c.length ∧ c.length ≤ 30)
    (cmd0 : Nat → Nat) (res0 : Nat) (response_buf : List Nat)
    (hbuf : response_buf.length = 200) (rest : List (Option (List Nat))) :
    ∃ m, (get_info_int cmd0 M M.length res0 response_buf (chunks.map some ++ rest)).outcome =
      .ret chunks.length ⟨MIOTYATCLIENT_RETURN_CODE_OK, v, m⟩ := by
  obtain ⟨hM2, hM7, hT, b0, T0, hT0, hb0⟩ := intQueryMnemonics_tags M hM
  have hdc := decimal_chars v
  have hdlen := decimal_length_le v hv
  have hTlen : (M.drop 2).length = M.length - 2 := List.length_drop 2 M
  -- the message and its body
  have hBchars : ∀ b ∈ M.drop 2 ++ [58] ++ decimal v, upcase b = b ∧ b ≠ 0 ∧ b ≠ 13 := by
    intro b hb
    simp only [List.mem_append, List.mem_singleton] at hb
    rcases hb with (hb | hb) | hb
    · exact hT b hb
    · subst hb; exact ⟨by decide, by decide, by decide⟩
    · have := hdc b hb
      exact ⟨upcase_of_not_lower (by omega), by omega, by omega⟩
  have hmsgchars : ∀ b ∈ chunks.flatten, upcase b = b ∧ b ≠ 0 := by
    intro b hb
    rw [hsplit, List.mem_append] at hb
    rcases hb with hb | hb
    · exact ⟨(hBchars b hb).1, (hBchars b hb).2.1⟩
    · simp only [lit_ok, List.mem_cons, List.mem_singleton, List.not_mem_nil, or_false] at hb
      rcases hb with h | h | h | h | h <;> subst h <;> exact ⟨by decide, by decide⟩
  have hB13 : 13 ∉ M.drop 2 ++ [58] ++ decimal v := fun c => (hBchars 13 c).2.2 rfl
  have hBhead : ∃ b B', M.drop 2 ++ [58] ++ decimal v = b :: B' ∧ b ≠ 48 :=
    ⟨b0, T0 ++ [58] ++ decimal v, by rw [hT0]; simp, hb0⟩
  have hmsglen : chunks.flatten.length ≤ 21 := by
    rw [hsplit]; simp only [List.length_append, List.length_singleton, lit_ok, List.length_cons,
      List.length_nil]
    omega
  -- split off the last chunk
  rcases List.eq_nil_or_concat' chunks with hnil | ⟨init, last, hch⟩
  · subst hnil
    have := congrArg List.length hsplit
    simp [lit_ok] at this
    omega
  subst hch
  have hlast : 1 ≤ last.length := (hsz last (by simp)).1
  have hmap : (init ++ [last]).flatten.map upcase = (init ++ [last]).flatten :=
    map_eq_self_of_forall (fun b hb => (hmsgchars b hb).1)
  have hnul : 0 ∉ (init ++ [last]).flatten.map upcase := by
    rw [hmap]; exact fun c => (hmsgchars 0 c).2 rfl
  have hno : ∀ k, k < init.length → NoTerm ((init.take (k + 1)).flatten.map upcase) := by
    intro k _
    have hpre : (init.take (k + 1)).flatten <+: (init ++ [last]).flatten := by
      refine ⟨(init.drop (k + 1)).flatten ++ last, ?_⟩
      rw [← List.append_assoc, ← List.flatten_append, List.take_append_drop]
      simp
    have hself : (init.take (k + 1)).flatten.map upcase = (init.take (k + 1)).flatten :=
      map_eq_self_of_forall (fun b hb => (hmsgchars b (hpre.subset hb)).1)
    rw [hself]
    rw [hsplit] at hpre
    refine noTerm_of_properPrefix _ _ hB13 hBhead hpre ?_
    intro heq
    have h1 := congrArg List.length heq
    have h2 := congrArg List.length hsplit
    have h3 : (init.take (k + 1)).flatten.length ≤ init.flatten.length := by
      have : (init.take (k + 1)).flatten <+: init.flatten := by
        refine ⟨(init.drop (k + 1)).flatten, ?_⟩
        rw [← List.flatten_append, List.take_append_drop]
      exact this.length_le
    have h4 : (init ++ [last]).flatten.length = init.flatten.length + last.length := by
      simp
    omega
  have hlen30 : ∀ c ∈ init ++ [last], c.length ≤ 30 := fun c hc => (hsz c hc).2
  obtain ⟨m, hm⟩ := pollLoop_done 0 (get_int_data_body M M.length res0)
    (fun m => ⟨MIOTYATCLIENT_RETURN_CODE_ATReadFailed, res0, m⟩) (by omega)
    (get_int_data_body_more M M.length res0) init last response_buf rest (Or.inl rfl) hlen30
    (by omega) (by omega) hno (fun m => ⟨MIOTYATCLIENT_RETURN_CODE_OK, v, m⟩) (fun t _ => by
      rw [hmap] at hnul ⊢
      have hcs := cstrAt_of_no_nul t hnul
      have hss : successSeen (init ++ [last]).flatten = true := by
        rw [successSeen_iff, hsplit]
        exact Or.inl ⟨M.drop 2 ++ [58] ++ decimal v, [], by simp⟩
      have htag : strstr (init ++ [last]).flatten (M.drop 2) = some 0 := by
        rw [strstr_eq_zero_iff, hsplit]
        exact ⟨[58] ++ decimal v ++ lit_ok, by simp⟩
      have hfield : cstrAt ((init ++ [last]).flatten ++ 0 :: t) (0 + M.length - 1) =
          some (decimal v ++ 13 :: [10, 48, 13, 10]) := by
        rw [cstrAt_drop_of_no_nul t _ hnul (by rw [hsplit]; simp; omega), hsplit]
        have : 0 + M.length - 1 = (M.drop 2 ++ [58]).length := by simp; omega
        rw [this, List.append_assoc (M.drop 2 ++ [58]), List.drop_left]
        rfl
      have hlt : ¬ M.length < 2 := by omega
      have hlt2 : ¬ 0 + M.length < 1 := by omega
      have hres : ((v : Int) % 4294967296).toNat = v := by omega
      have hex : extract_int M M.length ((init ++ [last]).flatten ++ 0 :: t)
          (init ++ [last]).flatten = some v := by
        simp only [extract_int, hlt, if_false, htag, hlt2, hfield, atoi_decimal v hv 13 rfl, hres]
      simp only [get_int_data_body, hcs, hss, if_true, hex])
  refine ⟨m, ?_⟩
  simp only [get_info_int, get_int_data_ATresponse, List.map_append, List.map_cons,
    List.map_nil, List.append_assoc, List.singleton_append, List.length_append,
    List.length_singleton]
  exact hm


theorem pollLoop_ret_inv {α : Type} (P : α → Prop) (termOff : Nat)
    (body : List Nat → Verdict α) (onFail : List Nat → α)
    (hb : ∀ m a, body m = .done a → P a) (hf : ∀ m, P (onFail m)) :
    ∀ (script : List (Option (List Nat))) (m : List Nat) (pos n k : Nat) (a : α),
      pollLoop termOff body onFail m pos n script = .ret k a → P a := by
  intro script
  induction script with
  | nil => intro m pos n k a h; simp [pollLoop] at h
  | cons x rest ih =>
    intro m pos n k a h
    cases x with
    | none =>
      simp only [pollLoop, Outcome.ret.injEq] at h
      rw [← h.2]; exact hf m
    | some c =>
      rw [pollLoop_some] at h
      cases hr : readChunk termOff m pos c with
      | none => rw [hr] at h; simp at h
      | some mp =>
        obtain ⟨m1, pos1⟩ := mp
        rw [hr] at h
        simp only at h
        cases hbd : body m1 with
        | done a' =>
          rw [hbd] at h
          simp only [Outcome.ret.injEq] at h
          rw [← h.2]; exact hb m1 a' hbd
        | fault => rw [hbd] at h; simp at h
        | more => rw [hbd] at h; exact ih m1 pos1 (n + 1) k a h

theorem errBranches_shape {s : List Nat} {c : Int} (h : errBranches s = .done c) :
    c = 9 ∨ c = 16 ∨ FieldCode s c := by
  unfold errBranches at h
  split at h
  · split at h
    · simp only [Verdict.done.injEq] at h
      exact Or.inl h.symm
    · rename_i e he
      split at h
      · simp at h
      · rename_i v hv
        simp only [Verdict.done.injEq] at h
        subst h
        exact Or.inr (Or.inr (Or.inl ⟨e, he, hv⟩))
  · split at h
    · split at h
      · simp only [Verdict.done.injEq] at h
        exact Or.inr (Or.inl h.symm)
      · rename_i e he
        split at h
        · simp at h
        · rename_i v hv
          split at h
          · simp only [Verdict.done.injEq] at h
            exact Or.inr (Or.inr (Or.inr ⟨e, v, he, hv, h.symm⟩))
          · simp at h
    · simp at h


theorem codeShape_of_err {s m : List Nat} {c : Int} (hs : cstrAt m 0 = some s)
    (h : errBranches s = .done c) : CodeShape c m := by
  rcases errBranches_shape h with h | h | h
  · exact Or.inr (Or.inl h)
  · exact Or.inr (Or.inr (Or.inl h))
  · exact Or.inr (Or.inr (Or.inr (Or.inr ⟨s, hs, h⟩)))

theorem check_body_shape (m : List Nat) (a : CheckResult) (h : check_body m = .done a) :
    CodeShape a.code a.response_buf := by
  unfold check_body at h
  split at h
  · simp at h
  · rename_i s hs
    split at h
    · simp only [Verdict.done.injEq] at h
      subst h; exact Or.inl rfl
    · split at h
      · rename_i c hc
        simp only [Verdict.done.injEq] at h
        subst h; exact codeShape_of_err hs hc
      · simp at h
      · simp at h

theorem get_int_data_body_shape (AT_cmd : List Nat) (sizeCmd res : Nat) (m : List Nat)
    (a : IntResult) (h : get_int_data_body AT_cmd sizeCmd res m = .done a) :
    CodeShape a.code a.response_buf ∧ (a.code ≠ MIOTYATCLIENT_RETURN_CODE_OK → a.res = res) := by
  unfold get_int_data_body at h
  split at h
  · simp at h
  · rename_i s hs
    split at h
    · have hcode : a.code = MIOTYATCLIENT_RETURN_CODE_OK := by
        split at h
        · simp at h
        · simp only [Verdict.done.injEq] at h
          subst h; rfl
      exact ⟨Or.inl hcode, fun hne => absurd hcode hne⟩
    · split at h
      · rename_i c hc
        simp only [Verdict.done.injEq] at h
        subst h; exact ⟨codeShape_of_err hs hc, fun _ => rfl⟩
      · simp at h
      · simp at h

theorem get_data_body_shape (hex2uint : Nat → Nat) (AT_cmd : List Nat) (sizeCmd : Nat)
    (buffer : List Nat) (sizeBuf : Nat) (m : List Nat)
    (a : DataResult) (h : get_data_body hex2uint AT_cmd sizeCmd buffer sizeBuf m = .done a) :
    CodeShape a.code a.response_buf ∧
      (a.code ≠ MIOTYATCLIENT_RETURN_CODE_OK → a.buffer = buffer ∧ a.sizeBuf = sizeBuf) := by
  unfold get_data_body at h
  split at h
  · simp at h
  · rename_i s hs
    split at h
    · have hcode : a.code = MIOTYATCLIENT_RETURN_CODE_OK := by
        split at h
        · simp at h
        · simp only [Verdict.done.injEq] at h
          subst h; rfl
      exact ⟨Or.inl hcode, fun hne => absurd hcode hne⟩
    · split at h
      · rename_i c hc
        simp only [Verdict.done.injEq] at h
        subst h; exact ⟨codeShape_of_err hs hc, fun _ => ⟨rfl, rfl⟩⟩
      · simp at h
      · simp at h


/-- C8 (amended): every value returned by check_ATresponse,
get_data_ATresponse and get_int_data_ATresponse is OK (0), ERR (9), ATErr (16),
ATReadFailed (23), the integer `atoi` reads behind the first `"-MNFO:"` (or,
without one, the first `"-MERR:"`) of the string in the response buffer, or 16
plus the integer `atoi` reads behind the first `"AT!ERR:"`.  The field value is
not range-checked, so the code is one of the 24 enumerators exactly when that
field is in range. -/
theorem returned_code_shape :
    (∀ (response_buf : List Nat) (script : List (Option (List Nat))) (n : Nat)
        (r : CheckResult),
      check_ATresponse response_buf script = .ret n r → CodeShape r.code r.response_buf) ∧
    (∀ (hex2uint : Nat → Nat) (AT_cmd : List Nat) (sizeCmd : Nat) (buffer : List Nat)
        (sizeBuf : Nat) (response_buf : List Nat) (script : List (Option (List Nat)))
        (n : Nat) (r : DataResult),
      get_data_ATresponse hex2uint AT_cmd sizeCmd buffer sizeBuf response_buf script =
        .ret n r → CodeShape r.code r.response_buf) ∧
    (∀ (AT_cmd : List Nat) (sizeCmd res : Nat) (response_buf : List Nat)
        (script : List (Option (List Nat))) (n : Nat) (r : IntResult),
      get_int_data_ATresponse AT_cmd sizeCmd res response_buf script = .ret n r →
        CodeShape r.code r.response_buf) := by
  refine ⟨?_, ?_, ?_⟩
  · intro response_buf script n r h
    exact pollLoop_ret_inv (fun a : CheckResult => CodeShape a.code a.response_buf) 1 _ _
      check_body_shape (fun _ => Or.inr (Or.inr (Or.inr (Or.inl rfl)))) script _ _ _ n r h
  · intro hex2uint AT_cmd sizeCmd buffer sizeBuf response_buf script n r h
    exact pollLoop_ret_inv (fun a : DataResult => CodeShape a.code a.response_buf) 1 _ _
      (fun m a ha => (get_data_body_shape hex2uint AT_cmd sizeCmd buffer sizeBuf m a ha).1)
      (fun _ => Or.inr (Or.inr (Or.inr (Or.inl rfl)))) script _ _ _ n r h
  · intro AT_cmd sizeCmd res response_buf script n r h
    exact pollLoop_ret_inv (fun a : IntResult => CodeShape a.code a.response_buf) 0 _ _
      (fun m a ha => (get_int_data_body_shape AT_cmd sizeCmd res m a ha).1)
      (fun _ => Or.inr (Or.inr (Or.inr (Or.inl rfl)))) script _ _ _ n r h

theorem get_data_frame (hex2uint : Nat → Nat) (AT_cmd : List Nat) (sizeCmd : Nat)
    (buffer : List Nat) (sizeBuf : Nat) (response_buf : List Nat)
    (script : List (Option (List Nat))) (n : Nat) (r : DataResult)
    (h : get_data_ATresponse hex2uint AT_cmd sizeCmd buffer sizeBuf response_buf script =
      .ret n r) (hne : r.code ≠ MIOTYATCLIENT_RETURN_CODE_OK) :
    r.buffer = buffer ∧ r.sizeBuf = sizeBuf :=
  pollLoop_ret_inv (fun a : DataResult =>
      a.code ≠ MIOTYATCLIENT_RETURN_CODE_OK → a.buffer = buffer ∧ a.sizeBuf = sizeBuf) 1 _ _
    (fun m a ha => (get_data_body_shape hex2uint AT_cmd sizeCmd buffer sizeBuf m a ha).2)
    (fun _ _ => ⟨rfl, rfl⟩) script _ _ _ n r h hne

theorem get_int_data_frame (AT_cmd : List Nat) (sizeCmd res : Nat) (response_buf : List Nat)
    (script : List (Option (List Nat))) (n : Nat) (r : IntResult)
    (h : get_int_data_ATresponse AT_cmd sizeCmd res response_buf script = .ret n r)
    (hne : r.code ≠ MIOTYATCLIENT_RETURN_CODE_OK) : r.res = res :=
  pollLoop_ret_inv (fun a : IntResult => a.code ≠ MIOTYATCLIENT_RETURN_CODE_OK → a.res = res)
    0 _ _ (fun m a ha => (get_int_data_body_shape AT_cmd sizeCmd res m a ha).2)
    (fun _ _ => rfl) script _ _ _ n r h hne

theorem checkATresponseMsg_frame (packetCounter : Option Nat) (response_buf : List Nat)
    (script : List (Option (List Nat))) (n : Nat) (r : SendResult)
    (h : checkATresponseMsg packetCounter response_buf script = .ret n r)
    (hne : r.code ≠ MIOTYATCLIENT_RETURN_CODE_OK) : r.packetCounter = packetCounter := by
  unfold checkATresponseMsg at h
  split at h
  · rename_i k c _
    split at h
    · simp only [Outcome.ret.injEq] at h
      rw [← h.2]
    · rename_i hc
      simp only [ne_eq, not_not] at hc
      split at h
      · simp at h
      · simp only [Outcome.ret.injEq] at h
        rw [← h.2] at hne
        exact absurd hc hne
  · simp at h
  · simp at h

theorem bidiTail_frame (hex2uint : Nat → Nat) (AT_cmd : List Nat) (sizeCmd : Nat)
    (data : List Nat) (size_data : Nat) (packetCounter : Option Nat) (response_buf : List Nat)
    (script : List (Option (List Nat))) (n : Nat) (r : BidiResult)
    (h : bidiTail hex2uint AT_cmd sizeCmd data size_data packetCounter response_buf script =
      .ret n r) (hne : r.code ≠ MIOTYATCLIENT_RETURN_CODE_OK) :
    r.packetCounter = packetCounter ∧ r.data = data ∧ r.size_data = size_data := by
  unfold bidiTail at h
  split at h
  · rename_i k c hget
    split at h
    · rename_i hc
      simp only [Outcome.ret.injEq] at h
      have := get_data_frame hex2uint AT_cmd sizeCmd data size_data response_buf script k c
        hget hc
      rw [← h.2]
      exact ⟨rfl, this.1, this.2⟩
    · rename_i hc
      simp only [ne_eq, not_not] at hc
      split at h
      · simp at h
      · simp only [Outcome.ret.injEq] at h
        rw [← h.2] at hne
        exact absurd hc hne
  · simp at h
  · simp at h

theorem attachTail_frame (MSTA : Nat) (response_buf : List Nat)
    (script : List (Option (List Nat))) (n : Nat) (r : AttachResult)
    (h : attachTail MSTA response_buf script = .ret n r)
    (hne : r.code ≠ MIOTYATCLIENT_RETURN_CODE_OK) : r.MSTA = MSTA := by
  unfold attachTail at h
  split at h
  · rename_i k c _
    split at h
    · simp only [Outcome.ret.injEq] at h
      rw [← h.2]
    · rename_i hc
      simp only [ne_eq, not_not] at hc
      split at h
      · simp at h
      · simp only [Outcome.ret.injEq] at h
        rw [← h.2] at hne
        exact absurd hc hne
  · simp at h
  · simp at h


theorem call_outcome_of_map {α : Type} {o : Option (List Nat)} {out : Outcome α}
    {call : Call α} (h : o.map (fun f => (⟨f, out⟩ : Call α)) = some call) :
    call.outcome = out := by
  cases o with
  | none => simp at h
  | some f =>
    simp only [Option.map_some', Option.some.injEq] at h
    rw [← h]

/-- C9: whenever the returned code is not OK, get_data_ATresponse leaves the
caller's buffer and `*sizeBuf` unchanged, get_int_data_ATresponse leaves
`*res` unchanged, the six message-send operations leave `*packetCounter` (and
the bi-directional ones `data` and `*size_data`) unchanged, and the four
attach/detach operations leave `*MSTA` unchanged.  The same is stated of the
code these operations run behind the write of the frame, taken by itself:
checkATresponseMsg, the tail of the bi-directional sends and the tail of the
attach and detach operations. -/
theorem outputs_untouched_unless_ok :
    (∀ (hex2uint : Nat → Nat) (AT_cmd : List Nat) (sizeCmd : Nat) (buffer : List Nat)
        (sizeBuf : Nat) (response_buf : List Nat) (script : List (Option (List Nat)))
        (n : Nat) (r : DataResult),
      get_data_ATresponse hex2uint AT_cmd sizeCmd buffer sizeBuf response_buf script =
        .ret n r → r.code ≠ MIOTYATCLIENT_RETURN_CODE_OK →
        r.buffer = buffer ∧ r.sizeBuf = sizeBuf) ∧
    (∀ (AT_cmd : List Nat) (sizeCmd res : Nat) (response_buf : List Nat)
        (script : List (Option (List Nat))) (n : Nat) (r : IntResult),
      get_int_data_ATresponse AT_cmd sizeCmd res response_buf script = .ret n r →
        r.code ≠ MIOTYATCLIENT_RETURN_CODE_OK → r.res = res) ∧
    (∀ (nibble2hex : Nat → Nat) (u : Uninit) (msg : List Nat) (sizeMsg : Nat)
        (packetCounter : Option Nat) (response_buf : List Nat)
        (script : List (Option (List Nat))) (call : Call SendResult) (n : Nat)
        (r : SendResult),
      (miotyAtClient_sendMessageUniTransparent nibble2hex u msg sizeMsg packetCounter
          response_buf script = some call ∨
        miotyAtClient_sendMessageUniMPF nibble2hex u msg sizeMsg packetCounter
          response_buf script = some call ∨
        miotyAtClient_sendMessageUni nibble2hex u msg sizeMsg packetCounter
          response_buf script = some call) →
      call.outcome = .ret n r → r.code ≠ MIOTYATCLIENT_RETURN_CODE_OK →
      r.packetCounter = packetCounter) ∧
    (∀ (nibble2hex hex2uint : Nat → Nat) (u : Uninit) (msg : List Nat) (sizeMsg : Nat)
        (data : List Nat) (size_data : Nat) (packetCounter : Option Nat)
        (response_buf : List Nat) (script : List (Option (List Nat)))
        (call : Call BidiResult) (n : Nat) (r : BidiResult),
      (miotyAtClient_sendMessageBidiTransparent nibble2hex hex2uint u msg sizeMsg data
          size_data packetCounter response_buf script = some call ∨
        miotyAtClient_sendMessageBidiMPF nibble2hex hex2uint u msg sizeMsg data
          size_data packetCounter response_buf script = some call ∨
        miotyAtClient_sendMessageBidi nibble2hex hex2uint u msg sizeMsg data
          size_data packetCounter response_buf script = some call) →
      call.outcome = .ret n r → r.code ≠ MIOTYATCLIENT_RETURN_CODE_OK →
      r.packetCounter = packetCounter ∧ r.data = data ∧ r.size_data = size_data) ∧
    (∀ (nibble2hex : Nat → Nat) (u : Uninit) (data : List Nat) (sizeData : Nat) (MSTA : Nat)
        (response_buf : List Nat) (script : List (Option (List Nat)))
        (call : Call AttachResult) (n : Nat) (r : AttachResult),
      (miotyAtClient_macDetach nibble2hex u data sizeData MSTA response_buf script =
          some call ∨
        miotyAtClient_macAttach nibble2hex u data MSTA response_buf script = some call ∨
        miotyAtClient_macAttachLocal MSTA response_buf script = call ∨
        miotyAtClient_macDetachLocal MSTA response_buf script = call) →
      call.outcome = .ret n r → r.code ≠ MIOTYATCLIENT_RETURN_CODE_OK → r.MSTA = MSTA) ∧
    (∀ (packetCounter : Option Nat) (response_buf : List Nat)
        (script : List (Option (List Nat))) (n : Nat) (r : SendResult),
      checkATresponseMsg packetCounter response_buf script = .ret n r →
      r.code ≠ MIOTYATCLIENT_RETURN_CODE_OK → r.packetCounter = packetCounter) ∧
    (∀ (hex2uint : Nat → Nat) (AT_cmd : List Nat) (sizeCmd : Nat) (data : List Nat)
        (size_data : Nat) (packetCounter : Option Nat) (response_buf : List Nat)
        (script : List (Option (List Nat))) (n : Nat) (r : BidiResult),
      bidiTail hex2uint AT_cmd sizeCmd data size_data packetCounter response_buf script =
        .ret n r → r.code ≠ MIOTYATCLIENT_RETURN_CODE_OK →
      r.packetCounter = packetCounter ∧ r.data = data ∧ r.size_data = size_data) ∧
    (∀ (MSTA : Nat) (response_buf : List Nat) (script : List (Option (List Nat))) (n : Nat)
        (r : AttachResult),
      attachTail MSTA response_buf script = .ret n r →
      r.code ≠ MIOTYATCLIENT_RETURN_CODE_OK → r.MSTA = MSTA) := by
  refine ⟨get_data_frame, get_int_data_frame, ?_, ?_, ?_, checkATresponseMsg_frame,
    bidiTail_frame, attachTail_frame⟩
  · intro nibble2hex u msg sizeMsg packetCounter response_buf script call n r hcall hout hne
    have : call.outcome = checkATresponseMsg packetCounter response_buf script := by
      rcases hcall with h | h | h <;> exact call_outcome_of_map h
    rw [this] at hout
    exact checkATresponseMsg_frame packetCounter response_buf script n r hout hne
  · intro nibble2hex hex2uint u msg sizeMsg data size_data packetCounter response_buf script
      call n r hcall hout hne
    rcases hcall with h | h | h
    · rw [call_outcome_of_map h] at hout
      exact bidiTail_frame _ _ _ _ _ _ _ _ n r hout hne
    · rw [call_outcome_of_map h] at hout
      exact bidiTail_frame _ _ _ _ _ _ _ _ n r hout hne
    · rw [call_outcome_of_map h] at hout
      exact bidiTail_frame _ _ _ _ _ _ _ _ n r hout hne
  · intro nibble2hex u data sizeData MSTA response_buf script call n r hcall hout hne
    have : call.outcome = attachTail MSTA response_buf script := by
      rcases hcall with h | h | h | h
      · exact call_outcome_of_map h
      · exact call_outcome_of_map h
      · rw [← h]; rfl
      · rw [← h]; rfl
    rw [this] at hout
    exact attachTail_frame MSTA response_buf script n r hout hne



theorem poke_length (bs : List Nat) : ∀ (a : List Nat) (i : Nat), (poke a i bs).length = a.length := by
  induction bs with
  | nil => intro a i; rfl
  | cons b bs ih => intro a i; simp [poke, ih]

theorem poke_out (bs : List Nat) : ∀ (a : List Nat) (i : Nat), a.length ≤ i → poke a i bs = a := by
  induction bs with
  | nil => intro a i _; rfl
  | cons b bs ih =>
    intro a i h
    simp only [poke]
    rw [List.set_eq_of_length_le h, ih a (i + 1) (by omega)]

theorem poke_mid (bs : List Nat) :
    ∀ (pre mid post : List Nat), mid.length = bs.length →
      poke (pre ++ mid ++ post) pre.length bs = pre ++ bs ++ post := by
  induction bs with
  | nil =>
    intro pre mid post h
    have : mid = [] := List.eq_nil_of_length_eq_zero (by simpa using h)
    subst this; simp [poke]
  | cons b bs ih =>
    intro pre mid post h
    cases mid with
    | nil => simp at h
    | cons x mid =>
      simp only [List.length_cons, Nat.add_right_cancel_iff] at h
      have h1 : (pre ++ x :: mid ++ post).set pre.length b = (pre ++ [b]) ++ mid ++ post := by
        simp [List.set_append]
      have h2 := ih (pre ++ [b]) mid post h
      simp only [List.length_append, List.length_singleton] at h2
      simp only [poke, h1, h2]
      simp

theorem poke_tail (bs : List Nat) :
    ∀ (q z : List Nat), ∃ y, y.length = z.length ∧ poke (q ++ z) q.length bs = q ++ y := by
  induction bs with
  | nil => intro q z; exact ⟨z, rfl, rfl⟩
  | cons b bs ih =>
    intro q z
    cases z with
    | nil =>
      refine ⟨[], rfl, ?_⟩
      rw [poke_out]
      simp
    | cons x z =>
      obtain ⟨y, hy, hp⟩ := ih (q ++ [b]) z
      refine ⟨b :: y, by simp [hy], ?_⟩
      have h1 : (q ++ x :: z).set q.length b = (q ++ [b]) ++ z := by
        simp [List.set_append]
      simp only [List.length_append, List.length_singleton] at hp
      simp only [poke, h1, hp]
      simp

theorem exists_split (l : List Nat) (a b : Nat) (h : l.length = a + b) :
    ∃ l1 l2, l = l1 ++ l2 ∧ l1.length = a ∧ l2.length = b :=
  ⟨l.take a, l.drop a, by simp, by simp; omega, by simp; omega⟩

theorem byte2hexLoop_spec (nib : Nat → Nat) (bs : List Nat) :
    ∀ (pre h g : List Nat), h.length = 2 * pre.length → 2 * bs.length ≤ g.length →
      byte2hexLoop nib (pre ++ bs) bs.length pre.length (h ++ g) =
        some (h ++ bs.flatMap (fun b => [nib (b >>> 4), nib b]) ++ g.drop (2 * bs.length)) := by
  induction bs with
  | nil => intro pre h g _ _; simp [byte2hexLoop]
  | cons b bs ih =>
    intro pre h g hh hg
    simp only [List.length_cons] at hg
    match g, hg with
    | x1 :: x2 :: g, hg =>
      simp only [List.length_cons] at hg
      have hget : (pre ++ b :: bs)[pre.length]? = some b := by
        rw [List.getElem?_append_right (Nat.le_refl _)]; simp
      have hs1 : store (h ++ x1 :: x2 :: g) (pre.length * 2) (nib (b >>> 4)) =
          some (h ++ nib (b >>> 4) :: x2 :: g) := by
        have := store_append h (x1 :: x2 :: g) 0 (nib (b >>> 4)) (by simp)
        simpa [hh, Nat.mul_comm] using this
      have hs2 : store (h ++ nib (b >>> 4) :: x2 :: g) (pre.length * 2 + 1) (nib b) =
          some (h ++ nib (b >>> 4) :: nib b :: g) := by
        have := store_append h (nib (b >>> 4) :: x2 :: g) 1 (nib b) (by simp)
        simpa [hh, Nat.mul_comm] using this
      have h3 := ih (pre ++ [b]) (h ++ [nib (b >>> 4), nib b]) g (by simp [hh]; omega)
        (by omega)
      simp only [List.length_cons, byte2hexLoop, hget, hs1, hs2]
      simp only [List.append_assoc, List.singleton_append, List.length_append,
        List.length_singleton, List.cons_append, List.nil_append] at h3
      rw [h3]
      simp [Nat.mul_add]


theorem decimal_small (i : Nat) (h : i < 10) : decimal i = [48 + i] := by
  by_cases h0 : i = 0
  · subst h0; rfl
  · rw [decimal, if_neg h0, Nat.digits_def' (by norm_num) (by omega)]
    have h1 : i / 10 = 0 := by omega
    have h2 : i % 10 = i := by omega
    simp [h1, h2, Nat.add_comm]

theorem decimal_step (i : Nat) (h : 10 ≤ i) : decimal i = decimal (i / 10) ++ [48 + i % 10] := by
  have h0 : i ≠ 0 := by omega
  have h1 : i / 10 ≠ 0 := by omega
  rw [decimal, if_neg h0, decimal, if_neg h1, Nat.digits_def' (by norm_num) (by omega)]
  simp [Nat.add_comm]

theorem uint2strLoop_eq (fuel : Nat) :
    ∀ (i : Nat) (acc : List Nat), i < 10 ^ fuel → 0 < fuel →
      uint2strLoop fuel i acc = decimal i ++ acc := by
  induction fuel with
  | zero => intro i acc _ h; omega
  | succ fuel ih =>
    intro i acc hi _
    by_cases h : i / 10 = 0
    · simp only [uint2strLoop, h, if_true]
      rw [decimal_small i (by omega)]
      have : i % 10 = i := by omega
      simp [this]
    · simp only [uint2strLoop, h, if_false]
      have hfuel : 0 < fuel := by
        rcases Nat.eq_zero_or_pos fuel with h0 | h0
        · subst h0; simp at hi; omega
        · exact h0
      have hlt : i / 10 < 10 ^ fuel := by
        rw [Nat.div_lt_iff_lt_mul (by norm_num)]
        rw [Nat.pow_succ] at hi
        exact hi
      rw [ih (i / 10) _ hlt hfuel, decimal_step i (by omega)]
      simp

theorem string_uint2str_la_zt_eq (i : Nat) (h : i < 4294967296) :
    string_uint2str_la_zt i = decimal i := by
  have := uint2strLoop_eq 10 i [] (by norm_num; omega) (by norm_num)
  simpa [string_uint2str_la_zt] using this

theorem decimal_length_small (n : Nat) (h : n ≤ 99) :
    (decimal n).length = if n ≤ 9 then 1 else 2 := by
  by_cases h9 : n ≤ 9
  · rw [decimal_small n (by omega), if_pos h9]; rfl
  · rw [decimal_step n (by omega), decimal_small (n / 10) (by omega), if_neg h9]; rfl


theorem takeWhile_ne_zero_append (a b : List Nat) (h : ∀ x ∈ a, x ≠ 0) :
    (a ++ b).takeWhile (fun x => x != 0) = a ++ b.takeWhile (fun x => x != 0) :=
  List.takeWhile_append_of_pos (fun x hx => by simpa using h x hx)

theorem poke_append (bs1 bs2 : List Nat) :
    ∀ (a : List Nat) (i : Nat),
      poke a i (bs1 ++ bs2) = poke (poke a i bs1) (i + bs1.length) bs2 := by
  induction bs1 with
  | nil => intro a i; rfl
  | cons b bs1 ih =>
    intro a i
    show poke (a.set i b) (i + 1) (bs1 ++ bs2) = _
    rw [ih]
    simp only [poke, List.length_cons]
    congr 1
    omega

theorem set_at_length (q z : List Nat) (x v : Nat) :
    (q ++ x :: z).set q.length v = q ++ v :: z := by
  simp [List.set_append]

theorem set_at_length_succ (q z : List Nat) (x y v : Nat) :
    (q ++ x :: y :: z).set (q.length + 1) v = q ++ x :: v :: z := by
  simp [List.set_append]

/-! # The first read into an uninitialised buffer -/


theorem cstrAt_stale {a : List Nat} (g : Nat) (rest : List Nat) (p : Nat) (h : 0 ∉ a)
    (hp : p ≤ a.length) :
    cstrAt (a ++ g :: 0 :: rest) p = some (a.drop p ++ (if g = 0 then [] else [g])) := by
  by_cases hg : g = 0
  · subst hg
    simpa using cstrAt_drop_of_no_nul (0 :: rest) p h hp
  · have h2 : 0 ∉ a ++ [g] := by
      simp only [List.mem_append, List.mem_singleton, not_or]
      exact ⟨h, fun c => hg c.symm⟩
    have := cstrAt_drop_of_no_nul rest p h2 (by simp; omega)
    simp only [List.append_assoc, List.singleton_append] at this
    rw [this, if_neg hg, List.drop_append_of_le_length hp]

theorem strstr_cons (c : Nat) (cs n : List Nat) :
    strstr (c :: cs) n =
      if n.isPrefixOf (c :: cs) then some 0 else (strstr cs n).map (· + 1) := rfl

theorem strstr_append_of_some (x n : List Nat) :
    ∀ (s : List Nat) (t : Nat), strstr s n = some t → strstr (s ++ x) n = some t := by
  intro s
  induction s with
  | nil =>
    intro t h
    cases n with
    | nil =>
      simp [strstr] at h
      subst h
      cases x <;> simp [strstr]
    | cons a n => simp [strstr] at h
  | cons c cs ih =>
    intro t h
    by_cases hp : n <+: c :: cs
    · have hp2 : n <+: c :: (cs ++ x) := by
        have := hp.trans ( List.prefix_append (c :: cs) x)
        simpa using this
      rw [strstr_cons] at h
      rw [List.cons_append, strstr_cons]
      simp only [List.isPrefixOf_iff_prefix, hp, hp2, if_true] at h ⊢
      exact h
    · rw [strstr_cons] at h
      simp only [List.isPrefixOf_iff_prefix, hp, if_false, Option.map_eq_some'] at h
      obtain ⟨t', ht', rfl⟩ := h
      have hlen : n.length ≤ cs.length := by
        have hin : n <:+: cs := (strstr_isSome_iff cs n).mp (by rw [ht']; rfl)
        exact hin.length_le
      have hp2 : ¬ n <+: c :: (cs ++ x) := by
        intro hc
        apply hp
        have h1 : n <+: (c :: cs) ++ x := by simpa using hc
        exact List.prefix_of_prefix_length_le h1 ( List.prefix_append _ _) (by simp; omega)
      rw [List.cons_append, strstr_cons]
      simp only [List.isPrefixOf_iff_prefix, hp2, if_false, ih t' ht']
      rfl

theorem readChunk_first (response_buf chunk : List Nat) (hlen : response_buf.length = 200)
    (hc : chunk.length ≤ 30) :
    ∃ g rest, readChunk 1 response_buf 0 chunk =
      some (chunk.map upcase ++ g :: 0 :: rest, chunk.length) := by
  have h := readChunk_append 1 [] response_buf chunk hc (by omega) (by simp; omega)
  simp only [List.nil_append, List.length_nil, Nat.zero_add] at h
  have hl : (response_buf.drop chunk.length).length = 200 - chunk.length := by
    rw [List.length_drop, hlen]
  match hd : response_buf.drop chunk.length, hl with
  | g :: x :: rest, _ =>
    rw [hd] at h
    exact ⟨g, rest, h⟩
  | [_], hl => simp at hl; omega
  | [], hl => simp at hl; omega


theorem successSeen_append (s x : List Nat) (h : successSeen s = true) :
    successSeen (s ++ x) = true := by
  rw [successSeen_iff] at h ⊢
  rcases h with h | h
  · exact Or.inl (h.trans ( List.prefix_append s x).isInfix)
  · exact Or.inr (h.trans ( List.prefix_append s x))

theorem get_data_first_read (hex2uint : Nat → Nat) (AT_cmd : List Nat) (sizeCmd : Nat)
    (buffer : List Nat) (sizeBuf : Nat) (response_buf chunk : List Nat)
    (rest : List (Option (List Nat))) (hlen : response_buf.length = 200)
    (hc : chunk.length ≤ 30) (a : List Nat → DataResult)
    (hbody : ∀ g tl, get_data_body hex2uint AT_cmd sizeCmd buffer sizeBuf
      (chunk.map upcase ++ g :: 0 :: tl) = .done (a (chunk.map upcase ++ g :: 0 :: tl))) :
    ∃ m, get_data_ATresponse hex2uint AT_cmd sizeCmd buffer sizeBuf response_buf
      (some chunk :: rest) = .ret 1 (a m) := by
  obtain ⟨g, tl, hrd⟩ := readChunk_first response_buf chunk hlen hc
  refine ⟨chunk.map upcase ++ g :: 0 :: tl, ?_⟩
  rw [get_data_ATresponse, pollLoop_some, hrd]
  simp only [hbody g tl]

set_option maxRecDepth 100000 in
theorem eui_body_1 (a b c d e f g h : Nat) (s : Nat) (tl : List Nat) :
    get_data_body char_hex2uint lit_AT_MEUI 7 [a, b, c, d, e, f, g, h] 8
      ([13, 10, 48, 13, 10, 45, 77, 69, 85, 73, 58, 48, 49, 48, 50, 48, 51, 48, 52, 48,
          53, 48, 54, 48, 55, 48, 56, 26, 13] ++ s :: 0 :: tl) =
    .done ⟨MIOTYATCLIENT_RETURN_CODE_OK, [a, b, c, d, e, f, g, h], 6,
      [13, 10, 48, 13, 10, 45, 77, 69, 85, 73, 58, 48, 49, 48, 50, 48, 51, 48, 52, 48,
          53, 48, 54, 48, 55, 48, 56, 26, 13] ++ s :: 0 :: tl⟩ := by
  have h0 := cstrAt_stale (a := [13, 10, 48, 13, 10, 45, 77, 69, 85, 73, 58, 48, 49, 48, 50, 48, 51, 48, 52, 48,
          53, 48, 54, 48, 55, 48, 56, 26, 13]) s tl 0 (by decide) (by decide)
  have h14 := cstrAt_stale (a := [13, 10, 48, 13, 10, 45, 77, 69, 85, 73, 58, 48, 49, 48, 50, 48, 51, 48, 52, 48,
          53, 48, 54, 48, 55, 48, 56, 26, 13]) s tl 14 (by decide) (by decide)
  have hss := successSeen_append [13, 10, 48, 13, 10, 45, 77, 69, 85, 73, 58, 48, 49, 48, 50, 48, 51, 48, 52, 48,
          53, 48, 54, 48, 55, 48, 56, 26, 13] (if s = 0 then [] else [s]) (by decide)
  have htag := strstr_append_of_some (if s = 0 then [] else [s]) (lit_AT_MEUI.drop 2)
    [13, 10, 48, 13, 10, 45, 77, 69, 85, 73, 58, 48, 49, 48, 50, 48, 51, 48, 52, 48,
          53, 48, 54, 48, 55, 48, 56, 26, 13] 5 (by decide)
  have hend := strstr_append_of_some (if s = 0 then [] else [s]) lit_sub_cr
    ([13, 10, 48, 13, 10, 45, 77, 69, 85, 73, 58, 48, 49, 48, 50, 48, 51, 48, 52, 48,
          53, 48, 54, 48, 55, 48, 56, 26, 13].drop 14) 13 (by decide)
  have hlt : ¬ lit_AT_MEUI.length < 2 := by decide
  have hget : ([13, 10, 48, 13, 10, 45, 77, 69, 85, 73, 58, 48, 49, 48, 50, 48, 51, 48, 52, 48,
          53, 48, 54, 48, 55, 48, 56, 26, 13] ++ s :: 0 :: tl)[5 + 7]? = some 49 := rfl
  simp only [List.drop_zero] at h0
  simp only [get_data_body, h0, hss, if_true, extract_data, hlt, if_false, htag, hget]
  simp only [show ((if (49 : Nat) ≠ 9 then 5 + 7 + 1 else 5 + 7) + 1) = 14 from rfl, h14, hend]
  rfl


set_option maxRecDepth 100000 in
theorem eui_body_2 (a b c d e f g h : Nat) (s : Nat) (tl : List Nat) :
    get_data_body char_hex2uint lit_AT_MEUI 7 [a, b, c, d, e, f, g, h] 8
      ([45, 77, 69, 85, 73, 58, 56, 9, 48, 49, 48, 50, 48, 51, 48, 52, 48, 53, 48, 54,
          48, 55, 48, 56, 26, 13, 10, 48, 13, 10] ++ s :: 0 :: tl) =
    .done ⟨MIOTYATCLIENT_RETURN_CODE_OK, [1, 2, 3, 4, 5, 6, 7, 8], 8,
      [45, 77, 69, 85, 73, 58, 56, 9, 48, 49, 48, 50, 48, 51, 48, 52, 48, 53, 48, 54,
          48, 55, 48, 56, 26, 13, 10, 48, 13, 10] ++ s :: 0 :: tl⟩ := by
  have h0 := cstrAt_stale (a := [45, 77, 69, 85, 73, 58, 56, 9, 48, 49, 48, 50, 48, 51, 48, 52,
    48, 53, 48, 54, 48, 55, 48, 56, 26, 13, 10, 48, 13, 10]) s tl 0 (by decide) (by decide)
  have h8 := cstrAt_stale (a := [45, 77, 69, 85, 73, 58, 56, 9, 48, 49, 48, 50, 48, 51, 48, 52,
    48, 53, 48, 54, 48, 55, 48, 56, 26, 13, 10, 48, 13, 10]) s tl 8 (by decide) (by decide)
  have hss := successSeen_append [45, 77, 69, 85, 73, 58, 56, 9, 48, 49, 48, 50, 48, 51, 48, 52,
    48, 53, 48, 54, 48, 55, 48, 56, 26, 13, 10, 48, 13, 10] (if s = 0 then [] else [s])
    (by decide)
  have htag := strstr_append_of_some (if s = 0 then [] else [s]) (lit_AT_MEUI.drop 2)
    [45, 77, 69, 85, 73, 58, 56, 9, 48, 49, 48, 50, 48, 51, 48, 52,
    48, 53, 48, 54, 48, 55, 48, 56, 26, 13, 10, 48, 13, 10] 0 (by decide)
  have hend := strstr_append_of_some (if s = 0 then [] else [s]) lit_sub_cr
    ([45, 77, 69, 85, 73, 58, 56, 9, 48, 49, 48, 50, 48, 51, 48, 52,
    48, 53, 48, 54, 48, 55, 48, 56, 26, 13, 10, 48, 13, 10].drop 8) 16 (by decide)
  have hlt : ¬ lit_AT_MEUI.length < 2 := by decide
  have hget : ([45, 77, 69, 85, 73, 58, 56, 9, 48, 49, 48, 50, 48, 51, 48, 52,
    48, 53, 48, 54, 48, 55, 48, 56, 26, 13, 10, 48, 13, 10] ++ s :: 0 :: tl)[0 + 7]? =
      some 9 := rfl
  simp only [List.drop_zero] at h0
  simp only [get_data_body, h0, hss, if_true, extract_data, hlt, if_false, htag, hget]
  simp only [show ((if (9 : Nat) ≠ 9 then 0 + 7 + 1 else 0 + 7) + 1) = 8 from rfl, h8, hend]
  simp [string_hex2byteArray, hex2byteLoop, store, char_hex2uint]

/-- C5 (amended): the extractor skips `sizeCmd` bytes from the start of the tag
(the tag, the colon and one length digit), one more byte unless a TAB is
there, and one more.  On the 29 bytes of the claim it therefore starts three
characters into the hex text, finds 13 characters up to SUB CR, leaves 6 in
the size and does not write the buffer, with return code OK.  On the 30 bytes
`"-MEUI:8\t0102030405060708\x1A\r\n0\r\n"` (length field and TAB in front of the
hex text) in a single read it returns OK, leaves 8 in the size and the bytes
01 02 03 04 05 06 07 08 in the caller's buffer.  Both hold for every content
of the uninitialised buffers. -/
theorem eui_extraction_examples (cmd0 : Nat → Nat) (a b c d e f g h : Nat)
    (response_buf : List Nat) (hbuf : response_buf.length = 200) :
    (∃ m, (miotyAtClient_getOrSetEui_get char_hex2uint cmd0 [a, b, c, d, e, f, g, h]
        response_buf
        [some [13, 10, 48, 13, 10, 45, 77, 69, 85, 73, 58, 48, 49, 48, 50, 48, 51, 48, 52, 48,
          53, 48, 54, 48, 55, 48, 56, 26, 13]]).outcome =
      .ret 1 ⟨MIOTYATCLIENT_RETURN_CODE_OK, [a, b, c, d, e, f, g, h], 6, m⟩) ∧
    (∃ m, (miotyAtClient_getOrSetEui_get char_hex2uint cmd0 [a, b, c, d, e, f, g, h]
        response_buf
        [some [45, 77, 69, 85, 73, 58, 56, 9, 48, 49, 48, 50, 48, 51, 48, 52, 48, 53, 48, 54,
          48, 55, 48, 56, 26, 13, 10, 48, 13, 10]]).outcome =
      .ret 1 ⟨MIOTYATCLIENT_RETURN_CODE_OK, [1, 2, 3, 4, 5, 6, 7, 8], 8, m⟩) := by
  refine ⟨?_, ?_⟩
  · exact get_data_first_read char_hex2uint lit_AT_MEUI 7 [a, b, c, d, e, f, g, h] 8 response_buf
      [13, 10, 48, 13, 10, 45, 77, 69, 85, 73, 58, 48, 49, 48, 50, 48, 51, 48, 52, 48,
          53, 48, 54, 48, 55, 48, 56, 26, 13] [] hbuf (by decide)
      (fun m => ⟨MIOTYATCLIENT_RETURN_CODE_OK, [a, b, c, d, e, f, g, h], 6, m⟩)
      (fun s tl => eui_body_1 a b c d e f g h s tl)
  · exact get_data_first_read char_hex2uint lit_AT_MEUI 7 [a, b, c, d, e, f, g, h] 8 response_buf
      [45, 77, 69, 85, 73, 58, 56, 9, 48, 49, 48, 50, 48, 51, 48, 52, 48, 53, 48, 54,
          48, 55, 48, 56, 26, 13, 10, 48, 13, 10] [] hbuf (by decide)
      (fun m => ⟨MIOTYATCLIENT_RETURN_CODE_OK, [1, 2, 3, 4, 5, 6, 7, 8], 8, m⟩)
      (fun s tl => eui_body_2 a b c d e f g h s tl)


theorem not_occurs_concat {s n : List Nat} {x g : Nat} (h1 : ¬ (n ++ [x]) <:+: s)
    (h2 : ¬ n <:+ s) : ¬ (n ++ [x]) <:+: s ++ [g] := by
  rw [ List.infix_concat_iff, List.suffix_concat_iff]
  rintro ((h | ⟨t, ht, hs⟩) | h)
  · simp at h
  · have := (List.append_inj' ht rfl).1
    subst this
    exact h2 hs
  · exact h1 h

theorem not_occurs_stale {s n : List Nat} {x : Nat} (g : Nat) (h1 : ¬ (n ++ [x]) <:+: s)
    (h2 : ¬ n <:+ s) : ¬ (n ++ [x]) <:+: s ++ (if g = 0 then [] else [g]) := by
  by_cases hg : g = 0
  · simpa [hg] using h1
  · rw [if_neg hg]
    exact not_occurs_concat h1 h2

theorem not_starts_stale {s n : List Nat} (g : Nat) (h1 : ¬ n <+: s)
    (h2 : n.length ≤ s.length) : ¬ n <+: s ++ (if g = 0 then [] else [g]) :=
  fun c => h1 (List.prefix_of_prefix_length_le c ( List.prefix_append _ _) h2)

theorem check_first_read (response_buf chunk : List Nat)
    (rest : List (Option (List Nat))) (hlen : response_buf.length = 200)
    (hc : chunk.length ≤ 30) (a : List Nat → CheckResult)
    (hbody : ∀ g tl, check_body (chunk.map upcase ++ g :: 0 :: tl) =
      .done (a (chunk.map upcase ++ g :: 0 :: tl))) :
    ∃ m, check_ATresponse response_buf (some chunk :: rest) = .ret 1 (a m) := by
  obtain ⟨g, tl, hrd⟩ := readChunk_first response_buf chunk hlen hc
  refine ⟨chunk.map upcase ++ g :: 0 :: tl, ?_⟩
  rw [check_ATresponse, pollLoop_some, hrd]
  simp only [hbody g tl]

theorem get_int_first_read (AT_cmd : List Nat) (sizeCmd res : Nat) (response_buf chunk : List Nat)
    (rest : List (Option (List Nat))) (hlen : response_buf.length = 200)
    (hc : chunk.length ≤ 30) (a : List Nat → IntResult)
    (hbody : ∀ tl, get_int_data_body AT_cmd sizeCmd res (chunk.map upcase ++ 0 :: tl) =
      .done (a (chunk.map upcase ++ 0 :: tl))) :
    ∃ m, get_int_data_ATresponse AT_cmd sizeCmd res response_buf (some chunk :: rest) =
      .ret 1 (a m) := by
  have h := readChunk_append 0 [] response_buf chunk hc (by omega) (by simp; omega)
  simp only [List.nil_append, List.length_nil, Nat.zero_add] at h
  have hl : (response_buf.drop chunk.length).length = 200 - chunk.length := by
    rw [List.length_drop, hlen]
  match hd : response_buf.drop chunk.length, hl with
  | g :: tl, _ =>
    rw [hd] at h
    refine ⟨chunk.map upcase ++ 0 :: tl, ?_⟩
    rw [get_int_data_ATresponse, pollLoop_some, h]
    simp only [List.set_cons_zero, hbody tl]
  | [], hl => simp at hl; omega

theorem errBranches_mac_example (g : Nat) :
    errBranches ([13, 10, 49, 13, 10, 45, 77, 69, 82, 82, 58, 54, 13, 10] ++
      (if g = 0 then [] else [g])) = .done MIOTYATCLIENT_RETURN_CODE_MacNodeNotAttached := by
  have e1 : (strstr ([13, 10, 49, 13, 10, 45, 77, 69, 82, 82, 58, 54, 13, 10] ++
      (if g = 0 then [] else [g])) lit_mac).isSome = true := by
    rw [strstr_append_of_some _ lit_mac _ 0 (by decide)]; rfl
  have e2 : strstr ([13, 10, 49, 13, 10, 45, 77, 69, 82, 82, 58, 54, 13, 10] ++
      (if g = 0 then [] else [g])) lit_MNFO = none := by
    rw [strstr_eq_none_iff]
    exact not_occurs_stale (n := [45, 77, 78, 70, 79]) (x := 58) g (by decide) (by decide)
  have e3 := strstr_append_of_some (if g = 0 then [] else [g]) lit_MERR
    [13, 10, 49, 13, 10, 45, 77, 69, 82, 82, 58, 54, 13, 10] 5 (by decide)
  have e4 : atoi (([13, 10, 49, 13, 10, 45, 77, 69, 82, 82, 58, 54, 13, 10] ++
      (if g = 0 then [] else [g])).drop (5 + 6)) = some 6 := by
    by_cases hg : g = 0
    · simp only [hg, if_true]; decide
    · simp only [hg, if_false]; rfl
  simp only [errBranches, e1, if_true, e2, e3, Option.orElse, e4]
  rfl

theorem successSeen_mac_example (g : Nat) :
    successSeen ([13, 10, 49, 13, 10, 45, 77, 69, 82, 82, 58, 54, 13, 10] ++
      (if g = 0 then [] else [g])) = false :=
  successSeen_eq_false
    (not_occurs_stale (n := [13, 10, 48, 13]) (x := 10) g (by decide) (by decide))
    (not_starts_stale g (by decide) (by decide))

/-- The example of the spec for the MAC tier: the reply `"\r\n1\r\n-MERR:6\r\n"` in
one read makes the three collectors return MacNodeNotAttached (6), whatever
the uninitialised response buffer holds. -/
theorem mac_error_example (response_buf : List Nat) (hbuf : response_buf.length = 200) :
    (∃ m, check_ATresponse response_buf
        [some [13, 10, 49, 13, 10, 45, 77, 69, 82, 82, 58, 54, 13, 10]] =
      .ret 1 ⟨MIOTYATCLIENT_RETURN_CODE_MacNodeNotAttached, m⟩) ∧
    (∀ (hex2uint : Nat → Nat) (AT_cmd : List Nat) (sizeCmd : Nat) (buffer : List Nat)
        (sizeBuf : Nat),
      ∃ m, get_data_ATresponse hex2uint AT_cmd sizeCmd buffer sizeBuf response_buf
          [some [13, 10, 49, 13, 10, 45, 77, 69, 82, 82, 58, 54, 13, 10]] =
        .ret 1 ⟨MIOTYATCLIENT_RETURN_CODE_MacNodeNotAttached, buffer, sizeBuf, m⟩) ∧
    (∀ (AT_cmd : List Nat) (sizeCmd res : Nat),
      ∃ m, get_int_data_ATresponse AT_cmd sizeCmd res response_buf
          [some [13, 10, 49, 13, 10, 45, 77, 69, 82, 82, 58, 54, 13, 10]] =
        .ret 1 ⟨MIOTYATCLIENT_RETURN_CODE_MacNodeNotAttached, res, m⟩) := by
  have h0 : ∀ g tl, cstrAt ([13, 10, 49, 13, 10, 45, 77, 69, 82, 82, 58, 54, 13, 10] ++
      g :: 0 :: tl) 0 = some ([13, 10, 49, 13, 10, 45, 77, 69, 82, 82, 58, 54, 13, 10] ++
      (if g = 0 then [] else [g])) := fun g tl => by
    simpa using cstrAt_stale (a := [13, 10, 49, 13, 10, 45, 77, 69, 82, 82, 58, 54, 13, 10])
      g tl 0 (by decide) (by decide)
  refine ⟨?_, ?_, ?_⟩
  · exact check_first_read response_buf _ [] hbuf (by decide)
      (fun m => ⟨MIOTYATCLIENT_RETURN_CODE_MacNodeNotAttached, m⟩) (fun g tl => by
        have := check_body_err (h0 g tl) (successSeen_mac_example g)
        rw [errBranches_mac_example g] at this
        exact this)
  · intro hex2uint AT_cmd sizeCmd buffer sizeBuf
    exact get_data_first_read hex2uint AT_cmd sizeCmd buffer sizeBuf response_buf _ [] hbuf
      (by decide) (fun m => ⟨MIOTYATCLIENT_RETURN_CODE_MacNodeNotAttached, buffer, sizeBuf, m⟩)
      (fun g tl => by
        have := get_data_body_err hex2uint AT_cmd sizeCmd buffer sizeBuf (h0 g tl)
          (successSeen_mac_example g)
        rw [errBranches_mac_example g] at this
        exact this)
  · intro AT_cmd sizeCmd res
    exact get_int_first_read AT_cmd sizeCmd res response_buf _ [] hbuf (by decide)
      (fun m => ⟨MIOTYATCLIENT_RETURN_CODE_MacNodeNotAttached, res, m⟩) (fun tl => by
        have := get_int_data_body_err AT_cmd sizeCmd res
          (cstrAt_of_no_nul (a := [13, 10, 49, 13, 10, 45, 77, 69, 82, 82, 58, 54, 13, 10]) tl
            (by decide)) (by decide)
        rw [show errBranches [13, 10, 49, 13, 10, 45, 77, 69, 82, 82, 58, 54, 13, 10] =
          .done MIOTYATCLIENT_RETURN_CODE_MacNodeNotAttached from by decide] at this
        exact this)


theorem errBranches_at_example (g : Nat) :
    errBranches ([13, 10, 50, 13, 10, 65, 84, 33, 69, 82, 82, 58, 51, 13, 10] ++
      (if g = 0 then [] else [g])) = .done MIOTYATCLIENT_RETURN_CODE_ATParamOOB := by
  have e0 : (strstr ([13, 10, 50, 13, 10, 65, 84, 33, 69, 82, 82, 58, 51, 13, 10] ++
      (if g = 0 then [] else [g])) lit_mac).isSome = false := by
    rw [Bool.eq_false_iff, Ne, strstr_isSome_iff]
    exact not_occurs_stale (n := [13, 10, 49, 13]) (x := 10) g (by decide) (by decide)
  have e1 : (strstr ([13, 10, 50, 13, 10, 65, 84, 33, 69, 82, 82, 58, 51, 13, 10] ++
      (if g = 0 then [] else [g])) lit_at).isSome = true := by
    rw [strstr_append_of_some _ lit_at _ 0 (by decide)]; rfl
  have e3 := strstr_append_of_some (if g = 0 then [] else [g]) lit_ATERR
    [13, 10, 50, 13, 10, 65, 84, 33, 69, 82, 82, 58, 51, 13, 10] 5 (by decide)
  have e4 : atoi (([13, 10, 50, 13, 10, 65, 84, 33, 69, 82, 82, 58, 51, 13, 10] ++
      (if g = 0 then [] else [g])).drop (5 + 7)) = some 3 := by
    by_cases hg : g = 0
    · simp only [hg, if_true]; decide
    · simp only [hg, if_false]; rfl
  simp only [errBranches, e0, e1, if_true, e3, e4]
  rfl

theorem successSeen_at_example (g : Nat) :
    successSeen ([13, 10, 50, 13, 10, 65, 84, 33, 69, 82, 82, 58, 51, 13, 10] ++
      (if g = 0 then [] else [g])) = false :=
  successSeen_eq_false
    (not_occurs_stale (n := [13, 10, 48, 13]) (x := 10) g (by decide) (by decide))
    (not_starts_stale g (by decide) (by decide))

/-- The example of the spec for the AT tier: the reply `"\r\n2\r\nAT!ERR:3\r\n"` in
one read makes the three collectors return ATParamOOB (19), whatever the
uninitialised response buffer holds. -/
theorem at_error_example (response_buf : List Nat) (hbuf : response_buf.length = 200) :
    (∃ m, check_ATresponse response_buf
        [some [13, 10, 50, 13, 10, 65, 84, 33, 69, 82, 82, 58, 51, 13, 10]] =
      .ret 1 ⟨MIOTYATCLIENT_RETURN_CODE_ATParamOOB, m⟩) ∧
    (∀ (hex2uint : Nat → Nat) (AT_cmd : List Nat) (sizeCmd : Nat) (buffer : List Nat)
        (sizeBuf : Nat),
      ∃ m, get_data_ATresponse hex2uint AT_cmd sizeCmd buffer sizeBuf response_buf
          [some [13, 10, 50, 13, 10, 65, 84, 33, 69, 82, 82, 58, 51, 13, 10]] =
        .ret 1 ⟨MIOTYATCLIENT_RETURN_CODE_ATParamOOB, buffer, sizeBuf, m⟩) ∧
    (∀ (AT_cmd : List Nat) (sizeCmd res : Nat),
      ∃ m, get_int_data_ATresponse AT_cmd sizeCmd res response_buf
          [some [13, 10, 50, 13, 10, 65, 84, 33, 69, 82, 82, 58, 51, 13, 10]] =
        .ret 1 ⟨MIOTYATCLIENT_RETURN_CODE_ATParamOOB, res, m⟩) := by
  have h0 : ∀ g tl, cstrAt ([13, 10, 50, 13, 10, 65, 84, 33, 69, 82, 82, 58, 51, 13, 10] ++
      g :: 0 :: tl) 0 = some ([13, 10, 50, 13, 10, 65, 84, 33, 69, 82, 82, 58, 51, 13, 10] ++
      (if g = 0 then [] else [g])) := fun g tl => by
    simpa using cstrAt_stale
      (a := [13, 10, 50, 13, 10, 65, 84, 33, 69, 82, 82, 58, 51, 13, 10]) g tl 0 (by decide)
      (by decide)
  refine ⟨?_, ?_, ?_⟩
  · exact check_first_read response_buf _ [] hbuf (by decide)
      (fun m => ⟨MIOTYATCLIENT_RETURN_CODE_ATParamOOB, m⟩) (fun g tl => by
        have := check_body_err (h0 g tl) (successSeen_at_example g)
        rw [errBranches_at_example g] at this
        exact this)
  · intro hex2uint AT_cmd sizeCmd buffer sizeBuf
    exact get_data_first_read hex2uint AT_cmd sizeCmd buffer sizeBuf response_buf _ [] hbuf
      (by decide) (fun m => ⟨MIOTYATCLIENT_RETURN_CODE_ATParamOOB, buffer, sizeBuf, m⟩)
      (fun g tl => by
        have := get_data_body_err hex2uint AT_cmd sizeCmd buffer sizeBuf (h0 g tl)
          (successSeen_at_example g)
        rw [errBranches_at_example g] at this
        exact this)
  · intro AT_cmd sizeCmd res
    exact get_int_first_read AT_cmd sizeCmd res response_buf _ [] hbuf (by decide)
      (fun m => ⟨MIOTYATCLIENT_RETURN_CODE_ATParamOOB, res, m⟩) (fun tl => by
        have := get_int_data_body_err AT_cmd sizeCmd res
          (cstrAt_of_no_nul (a := [13, 10, 50, 13, 10, 65, 84, 33, 69, 82, 82, 58, 51, 13, 10])
            tl (by decide)) (by decide)
        rw [show errBranches [13, 10, 50, 13, 10, 65, 84, 33, 69, 82, 82, 58, 51, 13, 10] =
          .done MIOTYATCLIENT_RETURN_CODE_ATParamOOB from by decide] at this
        exact this)

theorem errBranches_mac_code {s r : List Nat} {e c x : Nat} (h1 : lit_mac <:+: s)
    (he : (strstr s lit_MNFO).orElse (fun _ => strstr s lit_MERR) = some e)
    (hd : s.drop (e + 6) = decimal c ++ x :: r) (hx : isdigit x = false)
    (hc : c < 2147483648) : errBranches s = .done (c : Int) := by
  have e1 : (strstr s lit_mac).isSome = true := (strstr_isSome_iff _ _).mpr h1
  simp only [errBranches, e1, if_true, he, hd, atoi_decimal c hc x hx r]

theorem errBranches_at_code {s r : List Nat} {e c x : Nat} (h0 : ¬ lit_mac <:+: s)
    (h1 : lit_at <:+: s) (he : strstr s lit_ATERR = some e)
    (hd : s.drop (e + 7) = decimal c ++ x :: r) (hx : isdigit x = false)
    (hc : c + 16 < 2147483648) : errBranches s = .done ((c : Int) + 16) := by
  have e0 : (strstr s lit_mac).isSome = false := by
    rw [Bool.eq_false_iff, Ne, strstr_isSome_iff]; exact h0
  have e1 : (strstr s lit_at).isSome = true := (strstr_isSome_iff _ _).mpr h1
  have hle : (c : Int) + 16 ≤ 2147483647 := by omega
  simp only [errBranches, e0, e1, if_true, he, hd, atoi_decimal c (by omega) x hx r, hle]
  rfl

/-- The mapping of the error fields where the scanned string is the reply: let
the reads `chunks ++ [last]` deliver the upper-cased bytes `acc` without NUL
byte, with no terminator complete before the last read and no success pattern
in `acc`.  If `acc` contains `"\r\n1\r\n"` and the first `"-MNFO:"` (or, without
one, the first `"-MERR:"`) is followed by the decimal digits of `c` and a
non-digit, the collector returns `c`; if `acc` contains `"\r\n2\r\n"`, no
`"\r\n1\r\n"`, and the first `"AT!ERR:"` is followed by the digits of `c` and a
non-digit, it returns `c + 16`.  This holds for get_int_data_ATresponse with
any response buffer, and for check_ATresponse and get_data_ATresponse with a
response buffer that is all NUL on entry. -/
theorem error_code_mapping (chunks : List (List Nat)) (last acc r : List Nat)
    (rest : List (Option (List Nat))) (e c x : Nat)
    (hacc : acc = (chunks ++ [last]).flatten.map upcase)
    (hlen : ∀ c ∈ chunks ++ [last], c.length ≤ 30)
    (hno : NoTerm (chunks.flatten.map upcase))
    (hnul : 0 ∉ acc) (hok : ¬ lit_ok <:+: acc) (hok0 : ¬ lit_ok_head <+: acc)
    (hx : isdigit x = false) (hc : c + 16 < 2147483648) :
    (lit_mac <:+: acc →
      (strstr acc lit_MNFO).orElse (fun _ => strstr acc lit_MERR) = some e →
      acc.drop (e + 6) = decimal c ++ x :: r →
      (acc.length ≤ 199 →
        ∀ (AT_cmd : List Nat) (sizeCmd res : Nat) (response_buf : List Nat),
          response_buf.length = 200 →
          ∃ m, get_int_data_ATresponse AT_cmd sizeCmd res response_buf
              (chunks.map some ++ some last :: rest) =
            .ret (chunks.length + 1) ⟨(c : Int), res, m⟩) ∧
      (acc.length ≤ 198 →
        (∃ m, check_ATresponse (List.replicate 200 0) (chunks.map some ++ some last :: rest) =
            .ret (chunks.length + 1) ⟨(c : Int), m⟩) ∧
        (∀ (hex2uint : Nat → Nat) (AT_cmd : List Nat) (sizeCmd : Nat) (buffer : List Nat)
            (sizeBuf : Nat),
          ∃ m, get_data_ATresponse hex2uint AT_cmd sizeCmd buffer sizeBuf
              (List.replicate 200 0) (chunks.map some ++ some last :: rest) =
            .ret (chunks.length + 1) ⟨(c : Int), buffer, sizeBuf, m⟩))) ∧
    (lit_at <:+: acc → ¬ lit_mac <:+: acc → strstr acc lit_ATERR = some e →
      acc.drop (e + 7) = decimal c ++ x :: r →
      (acc.length ≤ 199 →
        ∀ (AT_cmd : List Nat) (sizeCmd res : Nat) (response_buf : List Nat),
          response_buf.length = 200 →
          ∃ m, get_int_data_ATresponse AT_cmd sizeCmd res response_buf
              (chunks.map some ++ some last :: rest) =
            .ret (chunks.length + 1) ⟨(c : Int) + 16, res, m⟩) ∧
      (acc.length ≤ 198 →
        (∃ m, check_ATresponse (List.replicate 200 0) (chunks.map some ++ some last :: rest) =
            .ret (chunks.length + 1) ⟨(c : Int) + 16, m⟩) ∧
        (∀ (hex2uint : Nat → Nat) (AT_cmd : List Nat) (sizeCmd : Nat) (buffer : List Nat)
            (sizeBuf : Nat),
          ∃ m, get_data_ATresponse hex2uint AT_cmd sizeCmd buffer sizeBuf
              (List.replicate 200 0) (chunks.map some ++ some last :: rest) =
            .ret (chunks.length + 1) ⟨(c : Int) + 16, buffer, sizeBuf, m⟩))) := by
  subst hacc
  have hss := successSeen_eq_false hok hok0
  exact ⟨fun h1 he hd => collectors_return_of_errBranches chunks last rest hlen hno hnul hss _
      (errBranches_mac_code h1 he hd hx (by omega)),
    fun h1 h0 he hd => collectors_return_of_errBranches chunks last rest hlen hno hnul hss _
      (errBranches_at_code h0 h1 he hd hx hc)⟩


/-! # Evaluations at concrete inputs -/

set_option maxRecDepth 100000 in
/-- C1 (code bug): `"\r\n1\r\n-MERR:6\r\n0\r"`, delivered in one read, meets the
premises of the claim for `c = 6`: it contains `"\r\n1\r\n"`, holds no success
pattern and no `"-MNFO:"`, has no NUL byte, and `"-MERR:"` is followed by `6`
and a carriage return.  check_ATresponse stores the string terminator at
`pos+1`, so the byte `response_buf[16]` of the uninitialised buffer is scanned
as well: when it is a line feed, check_ATresponse returns OK (0) and
get_data_ATresponse enters its success branch, where the tag is not found.
get_int_data_ATresponse, which stores the terminator at `pos`, returns 6, and
so does check_ATresponse when that byte is NUL. -/
theorem mac_error_lost_to_stale_byte :
    (lit_mac <:+: [13, 10, 49, 13, 10, 45, 77, 69, 82, 82, 58, 54, 13, 10, 48, 13] ∧
      ¬ lit_ok <:+: [13, 10, 49, 13, 10, 45, 77, 69, 82, 82, 58, 54, 13, 10, 48, 13] ∧
      ¬ lit_ok_head <+: [13, 10, 49, 13, 10, 45, 77, 69, 82, 82, 58, 54, 13, 10, 48, 13] ∧
      ¬ lit_MNFO <:+: [13, 10, 49, 13, 10, 45, 77, 69, 82, 82, 58, 54, 13, 10, 48, 13] ∧
      strstr [13, 10, 49, 13, 10, 45, 77, 69, 82, 82, 58, 54, 13, 10, 48, 13] lit_MERR
        = some 5 ∧
      0 ∉ [13, 10, 49, 13, 10, 45, 77, 69, 82, 82, 58, 54, 13, 10, 48, 13]) ∧
    (∃ m, check_ATresponse ((List.replicate 200 0).set 16 10)
        [some [13, 10, 49, 13, 10, 45, 77, 69, 82, 82, 58, 54, 13, 10, 48, 13]] =
      .ret 1 ⟨MIOTYATCLIENT_RETURN_CODE_OK, m⟩) ∧
    get_data_ATresponse char_hex2uint lit_AT_MEUI 7 [0, 0, 0, 0, 0, 0, 0, 0] 8
        ((List.replicate 200 0).set 16 10)
        [some [13, 10, 49, 13, 10, 45, 77, 69, 82, 82, 58, 54, 13, 10, 48, 13]] =
      .undefined 1 ∧
    (∃ m, get_int_data_ATresponse lit_AT_MEUI 7 0 ((List.replicate 200 0).set 16 10)
        [some [13, 10, 49, 13, 10, 45, 77, 69, 82, 82, 58, 54, 13, 10, 48, 13]] =
      .ret 1 ⟨MIOTYATCLIENT_RETURN_CODE_MacNodeNotAttached, 0, m⟩) ∧
    (∃ m, check_ATresponse (List.replicate 200 0)
        [some [13, 10, 49, 13, 10, 45, 77, 69, 82, 82, 58, 54, 13, 10, 48, 13]] =
      .ret 1 ⟨MIOTYATCLIENT_RETURN_CODE_MacNodeNotAttached, m⟩) :=
  ⟨by decide, ⟨_, rfl⟩, rfl, ⟨_, rfl⟩, ⟨_, rfl⟩⟩

set_option maxRecDepth 100000 in
/-- C2 (code bug): `"\r\n2\r\nAT!ERR:3\r\n0\r"`, delivered in one read, meets the
premises of the claim for `c = 3`: it contains `"\r\n2\r\n"`, holds neither a
success pattern nor `"\r\n1\r\n"`, has no NUL byte, and `"AT!ERR:"` is followed
by `3` and a carriage return.  With a line feed in the uninitialised
`response_buf[17]`, check_ATresponse returns OK (0) and get_data_ATresponse
enters its success branch; get_int_data_ATresponse returns 19, and so does
check_ATresponse when that byte is NUL. -/
theorem at_error_lost_to_stale_byte :
    (lit_at <:+: [13, 10, 50, 13, 10, 65, 84, 33, 69, 82, 82, 58, 51, 13, 10, 48, 13] ∧
      ¬ lit_ok <:+: [13, 10, 50, 13, 10, 65, 84, 33, 69, 82, 82, 58, 51, 13, 10, 48, 13] ∧
      ¬ lit_mac <:+: [13, 10, 50, 13, 10, 65, 84, 33, 69, 82, 82, 58, 51, 13, 10, 48, 13] ∧
      ¬ lit_ok_head <+: [13, 10, 50, 13, 10, 65, 84, 33, 69, 82, 82, 58, 51, 13, 10, 48, 13] ∧
      strstr [13, 10, 50, 13, 10, 65, 84, 33, 69, 82, 82, 58, 51, 13, 10, 48, 13] lit_ATERR
        = some 5 ∧
      0 ∉ [13, 10, 50, 13, 10, 65, 84, 33, 69, 82, 82, 58, 51, 13, 10, 48, 13]) ∧
    (∃ m, check_ATresponse ((List.replicate 200 0).set 17 10)
        [some [13, 10, 50, 13, 10, 65, 84, 33, 69, 82, 82, 58, 51, 13, 10, 48, 13]] =
      .ret 1 ⟨MIOTYATCLIENT_RETURN_CODE_OK, m⟩) ∧
    get_data_ATresponse char_hex2uint lit_AT_MEUI 7 [0, 0, 0, 0, 0, 0, 0, 0] 8
        ((List.replicate 200 0).set 17 10)
        [some [13, 10, 50, 13, 10, 65, 84, 33, 69, 82, 82, 58, 51, 13, 10, 48, 13]] =
      .undefined 1 ∧
    (∃ m, get_int_data_ATresponse lit_AT_MEUI 7 0 ((List.replicate 200 0).set 17 10)
        [some [13, 10, 50, 13, 10, 65, 84, 33, 69, 82, 82, 58, 51, 13, 10, 48, 13]] =
      .ret 1 ⟨MIOTYATCLIENT_RETURN_CODE_ATParamOOB, 0, m⟩) ∧
    (∃ m, check_ATresponse (List.replicate 200 0)
        [some [13, 10, 50, 13, 10, 65, 84, 33, 69, 82, 82, 58, 51, 13, 10, 48, 13]] =
      .ret 1 ⟨MIOTYATCLIENT_RETURN_CODE_ATParamOOB, m⟩) :=
  ⟨by decide, ⟨_, rfl⟩, rfl, ⟨_, rfl⟩, ⟨_, rfl⟩⟩

set_option maxRecDepth 100000 in
/-- C3 (counterexample): the reply NUL `"\r\n1\r\n"` contains `"\r\n1\r\n"`, no
success pattern and no label, yet no collector returns ERR on it: the string
in the buffer ends at the NUL, the loop polls again, and a failing second read
gives ATReadFailed. -/
theorem label_fallback_missed_behind_nul :
    (lit_mac <:+: [0, 13, 10, 49, 13, 10] ∧ ¬ lit_ok <:+: [0, 13, 10, 49, 13, 10] ∧
      ¬ lit_ok_head <+: [0, 13, 10, 49, 13, 10] ∧ ¬ lit_MNFO <:+: [0, 13, 10, 49, 13, 10] ∧
      ¬ lit_MERR <:+: [0, 13, 10, 49, 13, 10]) ∧
    (∃ m, get_int_data_ATresponse lit_AT_MEUI 7 0 (List.replicate 200 0)
        [some [0, 13, 10, 49, 13, 10], none] =
      .ret 2 ⟨MIOTYATCLIENT_RETURN_CODE_ATReadFailed, 0, m⟩) ∧
    (∃ m, check_ATresponse (List.replicate 200 0) [some [0, 13, 10, 49, 13, 10], none] =
      .ret 2 ⟨MIOTYATCLIENT_RETURN_CODE_ATReadFailed, m⟩) ∧
    (∃ m, get_data_ATresponse char_hex2uint lit_AT_MEUI 7 [0, 0, 0, 0, 0, 0, 0, 0] 8
        (List.replicate 200 0) [some [0, 13, 10, 49, 13, 10], none] =
      .ret 2 ⟨MIOTYATCLIENT_RETURN_CODE_ATReadFailed, [0, 0, 0, 0, 0, 0, 0, 0], 8, m⟩) :=
  ⟨by decide, ⟨_, rfl⟩, ⟨_, rfl⟩, ⟨_, rfl⟩⟩

set_option maxRecDepth 100000 in
/-- C3 (witness): the bare reply `"\r\n1\r\n"` in one read makes check_ATresponse
return ERR (9). -/
theorem label_not_found_fallbacks_witness :
    ∃ m, check_ATresponse (List.replicate 200 0) [some [13, 10, 49, 13, 10]] =
      .ret 1 ⟨MIOTYATCLIENT_RETURN_CODE_ERR, m⟩ :=
  (((label_not_found_fallbacks [] [13, 10, 49, 13, 10] [13, 10, 49, 13, 10] [] (by decide)
    (by decide) (by decide) (by decide) (by decide) (by decide)).1 (by decide) (by decide)
    (by decide)).2 (by decide)).1

set_option maxRecDepth 100000 in
/-- C4 (counterexample): seven successful reads of 30 letters `A` hold no
terminator pattern, but the seventh is copied to `response_buf[180..209]`,
outside the 200-byte buffer; the collectors do not get as far as the failing
eighth read. -/
theorem read_failure_overflow :
    NoTerm (List.replicate 210 65) ∧
    check_ATresponse (List.replicate 200 0)
      (List.replicate 7 (some (List.replicate 30 65)) ++ [none]) = .undefined 7 ∧
    get_data_ATresponse char_hex2uint lit_AT_MEUI 7 [0, 0, 0, 0, 0, 0, 0, 0] 8
      (List.replicate 200 0) (List.replicate 7 (some (List.replicate 30 65)) ++ [none]) =
      .undefined 7 ∧
    get_int_data_ATresponse lit_AT_MEUI 7 0 (List.replicate 200 0)
      (List.replicate 7 (some (List.replicate 30 65)) ++ [none]) = .undefined 7 :=
  ⟨by decide, rfl, rfl, rfl⟩

/-- C4 (witness): two successful reads without a terminator, then a failing
read: check_ATresponse returns ATReadFailed after three reads. -/
theorem read_failure_witness :
    ∃ m, check_ATresponse (List.replicate 200 0) [some [13, 10], some [66], none] =
      .ret 3 ⟨MIOTYATCLIENT_RETURN_CODE_ATReadFailed, m⟩ :=
  ((read_failure_returns_ATReadFailed [[13, 10], [66]] [] (by decide) (by decide)).2
    (by decide)).1

set_option maxRecDepth 100000 in
/-- C5 (counterexample): on the 29 bytes `"\r\n0\r\n-MEUI:0102030405060708\x1A\r"`
in a single read, miotyAtClient_getOrSetEui(eui, false) returns OK, but the
size left is 6, not 8, and the caller's buffer is not written. -/
theorem eui_example_size_six :
    ∃ m, (miotyAtClient_getOrSetEui_get char_hex2uint (fun _ => 0)
        [170, 170, 170, 170, 170, 170, 170, 170] (List.replicate 200 0)
        [some [13, 10, 48, 13, 10, 45, 77, 69, 85, 73, 58, 48, 49, 48, 50, 48, 51, 48, 52, 48,
          53, 48, 54, 48, 55, 48, 56, 26, 13]]).outcome =
      .ret 1 ⟨MIOTYATCLIENT_RETURN_CODE_OK, [170, 170, 170, 170, 170, 170, 170, 170], 6, m⟩ :=
  ⟨_, rfl⟩

set_option maxRecDepth 100000 in
/-- C5 (witness): both replies on a response buffer that is all NUL and a
caller's buffer filled with AA. -/
theorem eui_extraction_examples_witness :
    (∃ m, (miotyAtClient_getOrSetEui_get char_hex2uint (fun _ => 0)
        [170, 170, 170, 170, 170, 170, 170, 170] (List.replicate 200 0)
        [some [13, 10, 48, 13, 10, 45, 77, 69, 85, 73, 58, 48, 49, 48, 50, 48, 51, 48, 52, 48,
          53, 48, 54, 48, 55, 48, 56, 26, 13]]).outcome =
      .ret 1 ⟨MIOTYATCLIENT_RETURN_CODE_OK, [170, 170, 170, 170, 170, 170, 170, 170], 6, m⟩) ∧
    (∃ m, (miotyAtClient_getOrSetEui_get char_hex2uint (fun _ => 0)
        [170, 170, 170, 170, 170, 170, 170, 170] (List.replicate 200 0)
        [some [45, 77, 69, 85, 73, 58, 56, 9, 48, 49, 48, 50, 48, 51, 48, 52, 48, 53, 48, 54,
          48, 55, 48, 56, 26, 13, 10, 48, 13, 10]]).outcome =
      .ret 1 ⟨MIOTYATCLIENT_RETURN_CODE_OK, [1, 2, 3, 4, 5, 6, 7, 8], 8, m⟩) :=
  eui_extraction_examples (fun _ => 0) 170 170 170 170 170 170 170 170 (List.replicate 200 0)
    (List.length_replicate 200 0)

set_option maxRecDepth 100000 in
/-- C6 (code bug): miotyAtClient_getOrSetShortAdress(shortAdress, false) passes
the capacity 2.  On the reply `"-MSAD:3\t010203\x1A\r\n0\r\n"` get_data_ATresponse
overwrites `*sizeBuf` with 3 before it calls string_hex2byteArray, whose
capacity test then compares 3 with 3: three bytes are stored.  With a two-byte
array the third store is outside the array; with a larger array behind the
same pointer the size left is 3 and the third byte is overwritten. -/
theorem capacity_exceeded_by_long_payload (hex2uint : Nat → Nat) (cmd0 : Nat → Nat) :
    (miotyAtClient_getOrSetShortAdress_get hex2uint cmd0 [238, 238] (List.replicate 200 0)
        [some [45, 77, 83, 65, 68, 58, 51, 9, 48, 49, 48, 50, 48, 51, 26, 13, 10, 48, 13,
          10]]).outcome = .undefined 1 ∧
    (∃ m, (miotyAtClient_getOrSetShortAdress_get char_hex2uint cmd0 [238, 238, 238, 238]
        (List.replicate 200 0)
        [some [45, 77, 83, 65, 68, 58, 51, 9, 48, 49, 48, 50, 48, 51, 26, 13, 10, 48, 13,
          10]]).outcome = .ret 1 ⟨MIOTYATCLIENT_RETURN_CODE_OK, [1, 2, 3, 238], 3, m⟩) :=
  ⟨rfl, ⟨_, rfl⟩⟩

/-- C7 (witness): `"-MPCT:12"` and `"34\r\n0\r\n"` in two reads make
miotyAtClient_getPacketCounter's get_info_int return OK with 1234. -/
theorem get_info_int_extracts_witness :
    ∃ m, (get_info_int (fun _ => 0) [65, 84, 45, 77, 80, 67, 84] 7 7 (List.replicate 200 0)
        [some [45, 77, 80, 67, 84, 58, 49, 50], some [51, 52, 13, 10, 48, 13, 10]]).outcome =
      .ret 2 ⟨MIOTYATCLIENT_RETURN_CODE_OK, 1234, m⟩ :=
  get_info_int_extracts [65, 84, 45, 77, 80, 67, 84] (by decide) 1234 (by decide)
    [[45, 77, 80, 67, 84, 58, 49, 50], [51, 52, 13, 10, 48, 13, 10]]
    (by simp [decimal, lit_ok]) (by decide) (fun _ => 0) 7 (List.replicate 200 0)
    (List.length_replicate 200 0) []

set_option maxRecDepth 100000 in
/-- C8 (counterexample): the reply `"\r\n1\r\n-MERR:99\r\n"` makes check_ATresponse
return 99, which is none of the 24 enumerators. -/
theorem returned_code_outside_enum :
    (∃ m, check_ATresponse (List.replicate 200 0)
        [some [13, 10, 49, 13, 10, 45, 77, 69, 82, 82, 58, 57, 57, 13, 10]] =
      .ret 1 ⟨99, m⟩) ∧ ¬ ((0 : Int) ≤ 99 ∧ (99 : Int) ≤ 23) :=
  ⟨⟨_, rfl⟩, by decide⟩

/-- C8 (witness): on a 16-byte buffer the reply `"\r\n1\r\n-MERR:99\r\n"` is
returned as 99, the value of the `"-MERR:"` field. -/
theorem returned_code_shape_witness :
    check_ATresponse [0, 0, 0, 0, 0, 0, 0, 0, 0, 0, 0, 0, 0, 0, 0, 0, 0]
        [some [13, 10, 49, 13, 10, 45, 77, 69, 82, 82, 58, 57, 57, 13, 10]] =
      .ret 1 ⟨99, [13, 10, 49, 13, 10, 45, 77, 69, 82, 82, 58, 57, 57, 13, 10, 0, 0]⟩ ∧
    CodeShape 99 [13, 10, 49, 13, 10, 45, 77, 69, 82, 82, 58, 57, 57, 13, 10, 0, 0] :=
  ⟨rfl, returned_code_shape.1 [0, 0, 0, 0, 0, 0, 0, 0, 0, 0, 0, 0, 0, 0, 0, 0, 0]
    [some [13, 10, 49, 13, 10, 45, 77, 69, 82, 82, 58, 57, 57, 13, 10]] 1
    ⟨99, [13, 10, 49, 13, 10, 45, 77, 69, 82, 82, 58, 57, 57, 13, 10, 0, 0]⟩ rfl⟩

/-- C9 (witness): checkATresponseMsg, called with the packet counter at 7 and
answered by `"\r\n1\r\n-MERR:6\r\n"`, returns 6 and leaves the counter at 7. -/
theorem outputs_untouched_witness :
    checkATresponseMsg (some 7) [0, 0, 0, 0, 0, 0, 0, 0, 0, 0, 0, 0, 0, 0, 0, 0]
        [some [13, 10, 49, 13, 10, 45, 77, 69, 82, 82, 58, 54, 13, 10]] =
      .ret 1 ⟨6, some 7⟩ ∧
    (6 : Int) ≠ MIOTYATCLIENT_RETURN_CODE_OK ∧
    (⟨6, some 7⟩ : SendResult).packetCounter = some 7 :=
  ⟨rfl, by decide,
    outputs_untouched_unless_ok.2.2.2.2.2.1 (some 7)
      [0, 0, 0, 0, 0, 0, 0, 0, 0, 0, 0, 0, 0, 0, 0, 0]
      [some [13, 10, 49, 13, 10, 45, 77, 69, 82, 82, 58, 54, 13, 10]] 1 ⟨6, some 7⟩
      rfl (by decide)⟩

theorem char_nibble2hex_ne_zero (x : Nat) : char_nibble2hex x ≠ 0 := by
  unfold char_nibble2hex
  split <;> omega

theorem char_nibble2hex_low (x : Nat) : char_nibble2hex (x &&& 15) = char_nibble2hex x := by
  have h : x &&& 15 = x % 16 := Nat.and_pow_two_sub_one_eq_mod x 4
  unfold char_nibble2hex
  rw [h, Nat.mod_mod]

/-! # Text codec and frames: set-integer, query, decimal and hexadecimal -/

theorem decimal_length_pos (i : Nat) : 1 ≤ (decimal i).length := by
  obtain ⟨L, hne, -, hL, -⟩ := decimal_spec i
  rw [hL, List.length_map]
  exact List.length_pos.mpr hne

theorem decimal_length_step (i : Nat) (h : 10 ≤ i) :
    (decimal i).length = (decimal (i / 10)).length + 1 := by
  rw [decimal_step i h, List.length_append]; rfl

theorem uint2strEnd_eq (fuel : Nat) :
    ∀ (i p : Nat), i < 10 ^ fuel → 0 < fuel →
      uint2strEnd fuel i p = some (p + (decimal i).length) := by
  induction fuel with
  | zero => intro i p _ h; omega
  | succ fuel ih =>
    intro i p hi _
    by_cases h10 : i / 10 = 0
    · have hlt : i < 10 := by omega
      simp only [uint2strEnd, h10, if_true, decimal_small i hlt, List.length_singleton]
    · have hge : 10 ≤ i := by omega
      have hpos : 0 < fuel := by
        rcases Nat.eq_zero_or_pos fuel with h0 | h0
        · subst h0; simp at hi; omega
        · exact h0
      have hi2 : i / 10 < 10 ^ fuel := by
        rw [Nat.div_lt_iff_lt_mul (by decide)]; rw [pow_succ] at hi; exact hi
      simp only [uint2strEnd, h10, if_false]
      rw [ih (i / 10) (p + 1) hi2 hpos, decimal_length_step i hge]
      congr 1; omega

theorem store_at_length (q z : List Nat) (x v : Nat) :
    store (q ++ x :: z) q.length v = some (q ++ v :: z) := by
  unfold store
  rw [if_pos (by simp), set_at_length]

theorem uint2strFill_eq (fuel : Nat) :
    ∀ (i : Nat) (mid post : List Nat), i < 10 ^ fuel → 0 < fuel →
      mid.length = (decimal i).length →
      uint2strFill fuel i mid.length (mid ++ post) = some (decimal i ++ post) := by
  induction fuel with
  | zero => intro i mid post _ h; omega
  | succ fuel ih =>
    intro i mid post hi _ hlen
    have hd := decimal_length_pos i
    rcases List.eq_nil_or_concat' mid with hnil | ⟨mid1, x, hx⟩
    · subst hnil; simp at hlen; omega
    · subst hx
      have hp : (mid1 ++ [x]).length ≠ 0 := by simp
      have hst : store (mid1 ++ [x] ++ post) ((mid1 ++ [x]).length - 1) (48 + i % 10) =
          some (mid1 ++ (48 + i % 10) :: post) := by
        have := store_at_length mid1 post x (48 + i % 10)
        simpa using this
      by_cases h10 : i / 10 = 0
      · have hlt : i < 10 := by omega
        rw [decimal_small i hlt] at hlen ⊢
        have hm : mid1 = [] := by
          simp at hlen; exact hlen
        subst hm
        simp only [uint2strFill, if_neg hp, hst, h10, if_true]
        rw [Nat.mod_eq_of_lt hlt]; rfl
      · have hge : 10 ≤ i := by omega
        have hpos : 0 < fuel := by
          rcases Nat.eq_zero_or_pos fuel with h0 | h0
          · subst h0; simp at hi; omega
          · exact h0
        have hi2 : i / 10 < 10 ^ fuel := by
          rw [Nat.div_lt_iff_lt_mul (by decide)]; rw [pow_succ] at hi; exact hi
        have hlen1 : mid1.length = (decimal (i / 10)).length := by
          rw [decimal_length_step i hge] at hlen; simp at hlen; exact hlen
        simp only [uint2strFill, if_neg hp, hst, h10, if_false]
        have hsub : (mid1 ++ [x]).length - 1 = mid1.length := by simp
        rw [hsub, ih (i / 10) mid1 ((48 + i % 10) :: post) hi2 hpos hlen1, decimal_step i hge]
        simp

theorem decimal_length_le32 (i : Nat) (hi : i < 4294967296) : (decimal i).length ≤ 10 := by
  by_cases h0 : i = 0
  · subst h0; decide
  · unfold decimal
    rw [if_neg h0, List.length_map, List.length_reverse]
    by_contra hgt
    have h1 := Nat.base_pow_length_digits_le 10 i (by decide) h0
    have h2 : 10 ^ 11 ≤ 10 ^ (Nat.digits 10 i).length :=
      Nat.pow_le_pow_right (by decide) (by omega)
    have h3 : (10 : Nat) ^ 11 = 100000000000 := by norm_num
    omega

theorem string_uint2str_la_zt_at_eq (i : Nat) (b : List Nat) (hi : i < 4294967296)
    (hb : (decimal i).length < b.length) :
    string_uint2str_la_zt_at i b =
      some ((decimal i).length, decimal i ++ 0 :: b.drop ((decimal i).length + 1)) := by
  have hfuel : i < 10 ^ 10 := by
    have : (10 : Nat) ^ 10 = 10000000000 := by norm_num
    omega
  obtain ⟨mid, rest, hsplit, hmid, -⟩ := exists_split b (decimal i).length
    (b.length - (decimal i).length) (by omega)
  have hrest : rest ≠ [] := by
    intro h; subst h
    rw [hsplit] at hb; simp at hb; omega
  obtain ⟨x, post, hxp⟩ := List.exists_cons_of_ne_nil hrest
  subst hxp
  have hdrop : b.drop ((decimal i).length + 1) = post := by
    rw [hsplit, ← hmid]
    simp
  unfold string_uint2str_la_zt_at
  rw [uint2strEnd_eq 10 i 0 hfuel (by decide), hdrop]
  simp only [Nat.zero_add]
  rw [hsplit, ← hmid, store_at_length]
  simp only []
  rw [uint2strFill_eq 10 i mid (0 :: post) hfuel (by decide) hmid]

theorem decimal_value (i : Nat) :
    (decimal i).foldl (fun a c => a * 10 + (c - 48)) 0 = i := by
  obtain ⟨L, -, -, hL, hval⟩ := decimal_spec i
  rw [hL, List.foldl_map]
  simpa using hval

theorem decimal_head (i : Nat) (h : i ≠ 0) : (decimal i).head? ≠ some 48 := by
  unfold decimal
  rw [if_neg h]
  have hne : Nat.digits 10 i ≠ [] := Nat.digits_ne_nil_iff_ne_zero.mpr h
  have hl := Nat.getLast_digit_ne_zero 10 h
  rw [List.head?_map, List.head?_reverse, List.getLast?_eq_getLast _ hne]
  intro heq
  simp at heq
  exact hl heq

theorem set_chain (cmd0 AT dec junk : List Nat) (hAT : ∀ x ∈ AT, x ≠ 0)
    (hdec : ∀ x ∈ dec, x ≠ 0) (hN : cmd0.length = AT.length + 2 + dec.length) :
    (strcpy ((strcpy cmd0 0 AT).set AT.length 61) (AT.length + 1) (dec ++ 0 :: junk)).set
        (AT.length + 1 + dec.length) 13 = AT ++ [61] ++ dec ++ [13] := by
  obtain ⟨A, r1, rfl, hA, hr1⟩ := exists_split cmd0 AT.length (2 + dec.length) (by omega)
  obtain ⟨X1, r2, rfl, hX1, hr2⟩ := exists_split r1 1 (dec.length + 1) (by omega)
  have s1 : strcpy (A ++ (X1 ++ r2)) 0 AT = AT ++ [0] ++ r2 := by
    have h := poke_mid (AT ++ [0]) [] (A ++ X1) r2 (by simp; omega)
    have htw : AT.takeWhile (fun x => x != 0) = AT := by
      have := takeWhile_ne_zero_append AT [] hAT
      simpa using this
    simp only [strcpy, htw]
    simpa using h
  have s2 : (AT ++ [0] ++ r2).set AT.length 61 = (AT ++ [61]) ++ r2 ++ [] := by
    simp [List.set_append]
  have s3 : strcpy ((AT ++ [61]) ++ r2 ++ []) (AT.length + 1) (dec ++ 0 :: junk) =
      (AT ++ [61]) ++ (dec ++ [0]) ++ [] := by
    have h := poke_mid (dec ++ [0]) (AT ++ [61]) r2 [] (by simp; omega)
    have htw : (dec ++ 0 :: junk).takeWhile (fun x => x != 0) = dec := by
      rw [takeWhile_ne_zero_append dec (0 :: junk) hdec]
      simp
    simp only [strcpy, htw]
    simpa using h
  rw [s1, s2, s3]
  have e : AT.length + 1 + dec.length = (AT ++ [61] ++ dec).length := by simp; omega
  rw [e]
  simp [List.set_append]

theorem set_info_int_eq (cmd0 : Nat → Nat) (AT_cmd : List Nat) (hcmd : ∀ x ∈ AT_cmd, x ≠ 0)
    (v : Nat) (hv : v < 4294967296) (response_buf : List Nat)
    (script : List (Option (List Nat))) :
    set_info_int cmd0 AT_cmd AT_cmd.length v response_buf script =
      some ⟨AT_cmd ++ [61] ++ decimal v ++ [13], check_ATresponse response_buf script⟩ := by
  have hd := decimal_length_le32 v hv
  have h12 : (decimal v).length < (List.replicate 12 0).length := by
    rw [List.length_replicate]; omega
  have hmod : (decimal v).length % 65536 = (decimal v).length := Nat.mod_eq_of_lt (by omega)
  have hdec : ∀ x ∈ decimal v, x ≠ 0 := fun x hx => by
    have := decimal_chars v x hx; omega
  unfold set_info_int
  rw [string_uint2str_la_zt_at_eq v _ hv h12]
  simp only [hmod]
  rw [set_chain _ AT_cmd (decimal v) _ hcmd hdec (by simp)]

theorem query_frame_eq (cmd0 : Nat → Nat) (AT : List Nat) (hAT : ∀ x ∈ AT, x ≠ 0) :
    query_frame cmd0 AT AT.length = AT ++ [63, 13] := by
  unfold query_frame
  obtain ⟨A, r1, hsplit, hA, hr1⟩ := exists_split ((List.range (AT.length + 2)).map cmd0)
    AT.length 2 (by simp)
  obtain ⟨x, y, rfl⟩ : ∃ x y, r1 = [x, y] := by
    match r1, hr1 with
    | [x, y], _ => exact ⟨x, y, rfl⟩
  have s1 : strcpy (A ++ [x, y]) 0 AT = AT ++ [0] ++ [y] := by
    have h := poke_mid (AT ++ [0]) [] (A ++ [x]) [y] (by simp; omega)
    have htw : AT.takeWhile (fun x => x != 0) = AT := by
      have := takeWhile_ne_zero_append AT [] hAT
      simpa using this
    simp only [strcpy, htw]
    simpa using h
  simp only []
  rw [hsplit, s1]
  have e : (AT ++ [0] ++ [y]) = AT ++ 0 :: y :: [] := by simp
  rw [e, set_at_length, set_at_length_succ]

theorem dec2uint_foldl_le (L : List Nat) :
    ∀ r : Nat, r ≤ L.foldl (fun a c => a * 10 + (c - 48)) r := by
  induction L with
  | nil => intro r; exact Nat.le_refl r
  | cons c cs ih =>
    intro r
    rw [List.foldl_cons]
    exact Nat.le_trans (by omega) (ih (r * 10 + (c - 48)))

theorem dec2uintLoop_eq (dec2uint : Nat → Nat) (hdec : ∀ k, k < 10 → dec2uint (48 + k) = k)
    (L : List Nat) :
    ∀ (pre rest : List Nat) (r : Nat), (∀ c ∈ L, 48 ≤ c ∧ c ≤ 57) →
      L.foldl (fun a c => a * 10 + (c - 48)) r < 4294967296 →
      dec2uintLoop dec2uint (pre ++ L ++ rest) L.length pre.length r =
        some (L.foldl (fun a c => a * 10 + (c - 48)) r) := by
  induction L with
  | nil => intro pre rest r _ _; rfl
  | cons c cs ih =>
    intro pre rest r hch hlt
    have hc := hch c (List.mem_cons_self c cs)
    have hget : (pre ++ c :: cs ++ rest)[pre.length]? = some c := by
      rw [List.append_assoc, List.getElem?_append_right (Nat.le_refl _), Nat.sub_self,
        List.cons_append, List.getElem?_cons_zero]
    have hd : dec2uint c = c - 48 := by
      have := hdec (c - 48) (by omega)
      rwa [show 48 + (c - 48) = c by omega] at this
    rw [List.foldl_cons] at hlt ⊢
    have hle := dec2uint_foldl_le cs (r * 10 + (c - 48))
    have hmod : (r * 10 + dec2uint c) % 4294967296 = r * 10 + (c - 48) := by
      rw [hd]; exact Nat.mod_eq_of_lt (by omega)
    have hstep := ih (pre ++ [c]) rest (r * 10 + (c - 48))
      (fun x hx => hch x (List.mem_cons_of_mem c hx)) hlt
    simp only [List.length_cons, dec2uintLoop, hget, hmod]
    simpa using hstep

theorem uint2str_at_defined (i : Nat) (b : List Nat) (hi : i < 4294967296) (k : Nat)
    (b1 : List Nat) (h : string_uint2str_la_zt_at i b = some (k, b1)) :
    (decimal i).length < b.length := by
  have hfuel : i < 10 ^ 10 := by
    have : (10 : Nat) ^ 10 = 10000000000 := by norm_num
    omega
  unfold string_uint2str_la_zt_at at h
  rw [uint2strEnd_eq 10 i 0 hfuel (by decide)] at h
  simp only [Nat.zero_add] at h
  by_contra hlt
  have : store b (decimal i).length 0 = none := by
    unfold store; rw [if_neg hlt]
  rw [this] at h
  simp at h

theorem uint2str_at_chars (i : Nat) (b : List Nat) (hi : i < 4294967296) (k : Nat)
    (b1 : List Nat) (h : string_uint2str_la_zt_at i b = some (k, b1)) :
    b1.take k = string_uint2str_la_zt i := by
  have hb := uint2str_at_defined i b hi k b1 h
  rw [string_uint2str_la_zt_at_eq i b hi hb] at h
  simp only [Option.some.injEq, Prod.mk.injEq] at h
  obtain ⟨hk, hb1⟩ := h
  subst hk; subst hb1
  rw [List.take_left, string_uint2str_la_zt_eq i hi]

theorem digitLut_get (n : Nat) : digitLut[n % 10]? = some (48 + n % 10) := by
  have h : n % 10 < 10 := Nat.mod_lt _ (by decide)
  generalize n % 10 = k at h
  interval_cases k <;> rfl

theorem storeAt_slot (Q slot1 tail : List Nat) (x v p M a : Nat)
    (h : p + M + 1 = Q.length + (slot1.length + 1) + a) :
    storeAt (Q ++ (slot1 ++ [x]) ++ tail) p ((M : Int) - (a : Int)) v =
      some (Q ++ slot1 ++ v :: tail) := by
  have hk : (p : Int) + ((M : Int) - (a : Int)) = ((Q ++ slot1).length : Nat) := by
    rw [List.length_append]; push_cast; omega
  unfold storeAt
  rw [hk, if_pos (Int.natCast_nonneg _), Int.toNat_natCast]
  have := store_at_length (Q ++ slot1) tail x v
  simpa using this

theorem uint2decDigits_eq (M p : Nat) (Q : List Nat) (fuel : Nat) :
    ∀ (n a : Nat) (slot tail : List Nat), n < 10 ^ fuel → 0 < fuel →
      slot.length = (decimal n).length → p + M + 1 = Q.length + slot.length + a →
      uint2decDigits M p fuel n a (Q ++ slot ++ tail) =
        some (0, a + slot.length, Q ++ decimal n ++ tail) := by
  induction fuel with
  | zero => intro n a slot tail _ h; omega
  | succ fuel ih =>
    intro n a slot tail hn _ hlen hidx
    have hd := decimal_length_pos n
    rcases List.eq_nil_or_concat' slot with hnil | ⟨slot1, x, hx⟩
    · subst hnil; simp at hlen; omega
    · subst hx
      have hst := storeAt_slot Q slot1 tail x (48 + n % 10) p M a
        (by simpa using hidx)
      by_cases h10 : n / 10 > 0
      · have hge : 10 ≤ n := by omega
        have hpos : 0 < fuel := by
          rcases Nat.eq_zero_or_pos fuel with h0 | h0
          · subst h0; simp at hn; omega
          · exact h0
        have hn2 : n / 10 < 10 ^ fuel := by
          rw [Nat.div_lt_iff_lt_mul (by decide)]; rw [pow_succ] at hn; exact hn
        have hlen1 : slot1.length = (decimal (n / 10)).length := by
          rw [decimal_length_step n hge] at hlen; simp at hlen; exact hlen
        have hrec := ih (n / 10) (a + 1) slot1 ((48 + n % 10) :: tail) hn2 hpos hlen1
          (by simp at hidx; omega)
        simp only [uint2decDigits, digitLut_get, hst, if_pos h10]
        rw [hrec, decimal_step n hge]
        simp
        omega
      · have hlt : n < 10 := by omega
        rw [decimal_small n hlt] at hlen ⊢
        have hm : slot1 = [] := by
          simp at hlen; exact hlen
        subst hm
        have h0 : n / 10 = 0 := by omega
        simp only [uint2decDigits, digitLut_get, hst, if_neg h10]
        rw [Nat.mod_eq_of_lt hlt, h0]
        simp

theorem uint2decFill_eq (M p F : Nat) (Q : List Nat) (count : Nat) :
    ∀ (a : Nat) (slot tail : List Nat), slot.length = count →
      p + M + 1 = Q.length + slot.length + a →
      uint2decFill M p F count a (Q ++ slot ++ tail) =
        some (Q ++ List.replicate count F ++ tail) := by
  induction count with
  | zero =>
    intro a slot tail hlen _
    have : slot = [] := List.length_eq_zero.mp hlen
    subst this
    simp [uint2decFill]
  | succ count ih =>
    intro a slot tail hlen hidx
    rcases List.eq_nil_or_concat' slot with hnil | ⟨slot1, x, hx⟩
    · subst hnil; simp at hlen
    · subst hx
      have hst := storeAt_slot Q slot1 tail x F p M a (by simpa using hidx)
      have hlen1 : slot1.length = count := by simp at hlen; exact hlen
      have hrec := ih (a + 1) slot1 (F :: tail) hlen1 (by simp at hidx; omega)
      simp only [uint2decFill, hst]
      rw [hrec, List.replicate_succ']
      simp

theorem lt_pow_of_decimal_length (n W : Nat) (h : (decimal n).length ≤ W) : n < 10 ^ W := by
  by_cases h0 : n = 0
  · subst h0; exact Nat.pos_pow_of_pos W (by decide)
  · unfold decimal at h
    rw [if_neg h0, List.length_map, List.length_reverse] at h
    exact Nat.lt_of_lt_of_le (Nat.lt_base_pow_length_digits (by decide))
      (Nat.pow_le_pow_right (by decide) h)

/-- C11: for every mnemonic `AT_cmd` (a C string, so without NUL byte) of length
`sizeCmd` and every 32-bit unsigned `v`, set_info_int hands to
miotyAtClientWrite exactly `AT_cmd ++ "=" ++ decimal(v) ++ "\r"`, whatever the
array `cmd` held before.  `decimal(v)` consists of digits whose value is `v`,
is `"0"` for `v = 0` and has no leading zero otherwise.  The frame has
`sizeCmd + 2 + (number of digits)` bytes and none of them is NUL. -/
theorem set_info_int_frame (cmd0 : Nat → Nat) (AT_cmd : List Nat) (sizeCmd : Nat)
    (hlen : AT_cmd.length = sizeCmd) (hcmd : ∀ x ∈ AT_cmd, x ≠ 0)
    (v : Nat) (hv : v < 4294967296) (response_buf : List Nat)
    (script : List (Option (List Nat))) :
    (∃ c, set_info_int cmd0 AT_cmd sizeCmd v response_buf script = some c ∧
      c.frame = AT_cmd ++ [61] ++ decimal v ++ [13] ∧
      c.frame.length = sizeCmd + 2 + (decimal v).length ∧ 0 ∉ c.frame) ∧
    (∀ c ∈ decimal v, 48 ≤ c ∧ c ≤ 57) ∧
    (decimal v).foldl (fun a c => a * 10 + (c - 48)) 0 = v ∧
    (v = 0 → decimal v = [48]) ∧ (v ≠ 0 → (decimal v).head? ≠ some 48) := by
  subst hlen
  refine ⟨⟨_, set_info_int_eq cmd0 AT_cmd hcmd v hv response_buf script, rfl, ?_, ?_⟩,
    decimal_chars v, decimal_value v, ?_, decimal_head v⟩
  · simp only [List.length_append, List.length_singleton]; omega
  · intro h0
    simp only [List.mem_append, List.mem_singleton] at h0
    rcases h0 with ((h0 | h0) | h0) | h0
    · exact hcmd 0 h0 rfl
    · omega
    · have := decimal_chars v 0 h0; omega
    · omega
  · intro h; subst h; rfl

/-- C11 (witness): `AT-UP` with the value 1203 gives the frame `"AT-UP=1203\r"`. -/
theorem set_info_int_frame_witness :
    ∃ c, set_info_int (fun _ => 170) [65, 84, 45, 85, 80] 5 1203 (List.replicate 200 0) [] =
        some c ∧ c.frame = [65, 84, 45, 85, 80, 61, 49, 50, 48, 51, 13] := by
  obtain ⟨c, h1, h2, -, -⟩ := (set_info_int_frame (fun _ => 170) [65, 84, 45, 85, 80] 5 rfl
    (by decide) 1203 (by decide) (List.replicate 200 0) []).1
  refine ⟨c, h1, h2.trans ?_⟩
  simp [decimal]

/-- C12: for every mnemonic `AT_cmd` (a C string, so without NUL byte) of length
`sizeCmd`, get_info_int and get_info_bytes hand to miotyAtClientWrite exactly
the `sizeCmd + 2` bytes `AT_cmd ++ "?" ++ "\r"`, whatever the array `cmd` held
before and whatever the transport delivers afterwards; the write is the first
transport call, followed only by the reads of the collector. -/
theorem query_frame_written_first (hex2uint cmd0 : Nat → Nat) (AT_cmd : List Nat)
    (sizeCmd : Nat) (hlen : AT_cmd.length = sizeCmd) (hcmd : ∀ x ∈ AT_cmd, x ≠ 0)
    (res : Nat) (buffer : List Nat) (sizeBuf : Nat) (response_buf : List Nat)
    (script : List (Option (List Nat))) :
    (get_info_int cmd0 AT_cmd sizeCmd res response_buf script).frame = AT_cmd ++ [63, 13] ∧
    (get_info_bytes hex2uint cmd0 AT_cmd sizeCmd buffer sizeBuf response_buf script).frame =
      AT_cmd ++ [63, 13] ∧
    (AT_cmd ++ [63, 13]).length = sizeCmd + 2 ∧
    (∃ n, (get_info_int cmd0 AT_cmd sizeCmd res response_buf script).events script =
      Event.write (AT_cmd ++ [63, 13]) :: (script.take n).map Event.read) ∧
    (∃ n, (get_info_bytes hex2uint cmd0 AT_cmd sizeCmd buffer sizeBuf response_buf
        script).events script =
      Event.write (AT_cmd ++ [63, 13]) :: (script.take n).map Event.read) := by
  subst hlen
  have hq := query_frame_eq cmd0 AT_cmd hcmd
  refine ⟨hq, hq, by simp, ⟨(get_int_data_ATresponse AT_cmd AT_cmd.length res response_buf
    script).reads, ?_⟩, ⟨(get_data_ATresponse hex2uint AT_cmd AT_cmd.length buffer sizeBuf
    response_buf script).reads, ?_⟩⟩
  · unfold Call.events get_info_int
    simp only [hq]
  · unfold Call.events get_info_bytes
    simp only [hq]

set_option maxRecDepth 100000 in
/-- C12 (witness): the query of the packet counter writes `"AT-MPCT?\r"` and then
reads twice. -/
theorem query_frame_written_first_witness :
    (get_info_int (fun _ => 170) [65, 84, 45, 77, 80, 67, 84] 7 0 (List.replicate 200 0)
      [some [45, 77, 80, 67, 84, 58, 49, 50], some [51, 52, 13, 10, 48, 13, 10]]).events
      [some [45, 77, 80, 67, 84, 58, 49, 50], some [51, 52, 13, 10, 48, 13, 10]] =
    [Event.write [65, 84, 45, 77, 80, 67, 84, 63, 13],
      Event.read (some [45, 77, 80, 67, 84, 58, 49, 50]),
      Event.read (some [51, 52, 13, 10, 48, 13, 10])] := by
  have h := (query_frame_written_first char_hex2uint (fun _ => 170)
    [65, 84, 45, 77, 80, 67, 84] 7 rfl (by decide) 0 [] 0 (List.replicate 200 0)
    [some [45, 77, 80, 67, 84, 58, 49, 50], some [51, 52, 13, 10, 48, 13, 10]]).1
  unfold Call.events
  rw [h]
  rfl

/-- C16: for every 32-bit unsigned `i` and every array `b`, whenever
string_uint2str_la_zt(i, b) returns the position at offset `k`, leaving `b1` in
the array, string_dec2uint(b1, k) is `i`; and it does return when `b` has room
for the digits and the NUL (twelve bytes always do).  `dec2uint` is
char_dec2uint, assumed to map `'0'..'9'` to `0..9`. -/
theorem decimal_round_trip (dec2uint : Nat → Nat) (hdec : ∀ k, k < 10 → dec2uint (48 + k) = k)
    (i : Nat) (hi : i < 4294967296) (b : List Nat) :
    (∀ k b1, string_uint2str_la_zt_at i b = some (k, b1) →
      string_dec2uint dec2uint b1 k = some i) ∧
    (11 ≤ b.length → ∃ k b1, string_uint2str_la_zt_at i b = some (k, b1)) := by
  constructor
  · intro k b1 h
    have hb := uint2str_at_defined i b hi k b1 h
    rw [string_uint2str_la_zt_at_eq i b hi hb] at h
    simp only [Option.some.injEq, Prod.mk.injEq] at h
    obtain ⟨hk, hb1⟩ := h
    subst hk; subst hb1
    have hval := decimal_value i
    have h := dec2uintLoop_eq dec2uint hdec (decimal i) [] (0 :: b.drop ((decimal i).length + 1))
      0 (decimal_chars i) (by rw [hval]; exact hi)
    rw [hval] at h
    unfold string_dec2uint
    simpa using h
  · intro h11
    have := decimal_length_le32 i hi
    exact ⟨_, _, string_uint2str_la_zt_at_eq i b hi (by omega)⟩

/-- C16 (witness): 4294967295 is written as ten digits and read back. -/
theorem decimal_round_trip_witness :
    string_uint2str_la_zt_at 4294967295 (List.replicate 12 0) =
      some (10, [52, 50, 57, 52, 57, 54, 55, 50, 57, 53, 0, 0]) ∧
    string_dec2uint char_dec2uint [52, 50, 57, 52, 57, 54, 55, 50, 57, 53, 0, 0] 10 =
      some 4294967295 :=
  ⟨rfl, (decimal_round_trip char_dec2uint (by decide) 4294967295 (by decide)
    (List.replicate 12 0)).1 10 _ rfl⟩

/-- C17: for every 32-bit unsigned `i` with `d` decimal digits and every array
`b` with room for them and a NUL, string_uint2str_la_zt(i, b) returns the
position at offset `d` and leaves in `b` the digits of `i` at `b[0..d)`, a NUL
at `b[d]` and the bytes behind `b[d]` as they were.  The digits are `decimal i`:
characters `'0'..'9'` whose value is `i`, `"0"` for `i = 0` and without leading
zero otherwise.  `1 ≤ d ≤ 10`, so at most 11 bytes are written. -/
theorem uint2str_la_zt_layout (i : Nat) (b : List Nat) (hi : i < 4294967296)
    (hb : (decimal i).length < b.length) :
    string_uint2str_la_zt_at i b =
      some ((decimal i).length, decimal i ++ 0 :: b.drop ((decimal i).length + 1)) ∧
    1 ≤ (decimal i).length ∧ (decimal i).length + 1 ≤ 11 ∧
    (∀ c ∈ decimal i, 48 ≤ c ∧ c ≤ 57) ∧
    (decimal i).foldl (fun a c => a * 10 + (c - 48)) 0 = i ∧
    (i = 0 → decimal i = [48]) ∧ (i ≠ 0 → (decimal i).head? ≠ some 48) := by
  have := decimal_length_le32 i hi
  refine ⟨string_uint2str_la_zt_at_eq i b hi hb, decimal_length_pos i, by omega,
    decimal_chars i, decimal_value i, ?_, decimal_head i⟩
  intro h; subst h; rfl

/-- C17 (witness): 1203 in a 12-byte array filled with 7. -/
theorem uint2str_la_zt_layout_witness :
    string_uint2str_la_zt_at 1203 (List.replicate 12 7) =
      some (4, [49, 50, 48, 51, 0, 7, 7, 7, 7, 7, 7, 7]) := by
  have h := (uint2str_la_zt_layout 1203 (List.replicate 12 7) (by decide)
    (by simp [decimal])).1
  refine h.trans ?_
  simp [decimal]

/-- C20 (code bug): the header documents `@return b is returned for convenience`,
but for every 32-bit unsigned `i` and every array `b` of at least 11 bytes,
string_uint2str_la_zt(i, b) returns `b + d`, where `d ≥ 1` is the number of
decimal digits of `i`: the position of the terminating NUL, with no NUL before
it; it is never `b` itself. -/
theorem uint2str_la_zt_returns_end (i : Nat) (b : List Nat) (hi : i < 4294967296)
    (hb : 11 ≤ b.length) :
    ∃ k b1, string_uint2str_la_zt_at i b = some (k, b1) ∧ k = (decimal i).length ∧ 1 ≤ k ∧
      b1[k]? = some 0 ∧ (∀ c ∈ b1.take k, c ≠ 0) := by
  have hd := decimal_length_le32 i hi
  refine ⟨_, _, string_uint2str_la_zt_at_eq i b hi (by omega), rfl, decimal_length_pos i, ?_, ?_⟩
  · rw [List.getElem?_append_right (Nat.le_refl _), Nat.sub_self, List.getElem?_cons_zero]
  · rw [List.take_left]
    intro c hc
    have := decimal_chars i c hc
    omega

/-- C20 (witness): for 4294967295 the returned position is `b + 10`. -/
theorem uint2str_la_zt_returns_end_witness :
    ∃ k b1, string_uint2str_la_zt_at 4294967295 (List.replicate 12 0) = some (k, b1) ∧
      k = (decimal 4294967295).length ∧ 1 ≤ k ∧ b1[k]? = some 0 ∧ (∀ c ∈ b1.take k, c ≠ 0) :=
  uint2str_la_zt_returns_end 4294967295 (List.replicate 12 0) (by decide) (by decide)

/-- C20 (failing input): on `i = 0` and a zeroed 12-byte array the routine
returns the position at offset 1, not `b` (offset 0) as its header documents. -/
theorem uint2str_la_zt_not_start :
    string_uint2str_la_zt_at 0 (List.replicate 12 0) =
      some (1, [48, 0, 0, 0, 0, 0, 0, 0, 0, 0, 0, 0]) ∧ (1 : Nat) ≠ 0 :=
  ⟨rfl, by decide⟩

theorem hex2byteLoop_total (hex2uint : Nat → Nat) (hexString : List Nat) (count : Nat) :
    ∀ (i : Nat) (dest : List Nat), 2 * (i + count) ≤ hexString.length →
      i + count ≤ dest.length →
      ∃ dest1, hex2byteLoop hex2uint hexString count i dest = some dest1 ∧
        dest1.length = dest.length := by
  induction count with
  | zero => intro i dest _ _; exact ⟨dest, rfl, rfl⟩
  | succ count ih =>
    intro i dest hh hd
    have h1 : 2 * i < hexString.length := by omega
    have h2 : 2 * i + 1 < hexString.length := by omega
    have hi : i < dest.length := by omega
    obtain ⟨d1, hd1, hl1⟩ := ih (i + 1)
      (dest.set i ((hex2uint hexString[2 * i] <<< 4 ||| hex2uint hexString[2 * i + 1]) % 256))
      (by omega) (by rw [List.length_set]; omega)
    refine ⟨d1, ?_, by rw [hl1, List.length_set]⟩
    simp only [hex2byteLoop, List.getElem?_eq_getElem h1, List.getElem?_eq_getElem h2, store,
      if_pos hi]
    exact hd1

theorem hex2byteLoop_none (hex2uint : Nat → Nat) (hexString : List Nat) (count : Nat) :
    ∀ (i : Nat) (dest : List Nat), 0 < count →
      hexString.length < 2 * (i + count) ∨ dest.length < i + count →
      hex2byteLoop hex2uint hexString count i dest = none := by
  induction count with
  | zero => intro i dest h _; omega
  | succ count ih =>
    intro i dest _ hbad
    simp only [hex2byteLoop]
    cases hA : hexString[2 * i]? with
    | none => rfl
    | some a =>
      cases hB : hexString[2 * i + 1]? with
      | none => rfl
      | some b =>
        have hB2 : 2 * i + 1 < hexString.length := by
          by_contra hc
          rw [List.getElem?_eq_none (by omega)] at hB
          exact Option.noConfusion hB
        simp only []
        by_cases hi : i < dest.length
        · simp only [store, if_pos hi]
          have hc : 0 < count := by
            rcases Nat.eq_zero_or_pos count with h0 | h0
            · subst h0; omega
            · exact h0
          exact ih (i + 1) _ hc (by rw [List.length_set]; omega)
        · simp only [store, if_neg hi]

/-- C14 (amended): for a source of `nBytes` bytes (twice `nBytes` fitting the
16 bits that uint_fast16_t has at least) and a destination of at least
`destSize` bytes, string_byteArray2hex returns; it returns 0, leaving `dest` as
it was, when `destSize < 2 * nBytes`, and `2 * nBytes` in every other case.
So it returns 0 if and only if `destSize < 2 * nBytes` or `nBytes = 0`. -/
theorem byteArray2hex_return (nibble2hex : Nat → Nat) (byteArray dest : List Nat)
    (nBytes destSize : Nat) (hsrc : byteArray.length = nBytes) (hfit : 2 * nBytes < 65536)
    (hdst : destSize ≤ dest.length) :
    ∃ r dest1, string_byteArray2hex nibble2hex byteArray nBytes dest destSize = some (r, dest1) ∧
      (destSize < 2 * nBytes → r = 0 ∧ dest1 = dest) ∧
      (¬ destSize < 2 * nBytes → r = 2 * nBytes) ∧
      (r = 0 ↔ destSize < 2 * nBytes ∨ nBytes = 0) := by
  subst hsrc
  unfold string_byteArray2hex
  by_cases hg : destSize < 2 * byteArray.length
  · refine ⟨0, dest, by rw [if_pos hg], fun _ => ⟨rfl, rfl⟩, fun h => absurd hg h, ?_⟩
    exact ⟨fun _ => Or.inl hg, fun _ => rfl⟩
  · have hspec := byte2hexLoop_spec nibble2hex byteArray [] [] dest rfl (by omega)
    simp only [List.nil_append, List.length_nil] at hspec
    rw [if_neg hg, hspec]
    refine ⟨_, _, rfl, fun h => absurd h hg, fun _ => rfl, ?_⟩
    constructor
    · intro h; right; omega
    · rintro (h | h)
      · exact absurd h hg
      · omega

/-- C14 (witness): one byte into a two-character destination returns 2. -/
theorem byteArray2hex_return_witness :
    ∃ r dest1, string_byteArray2hex char_nibble2hex [171] 1 [0, 0] 2 = some (r, dest1) ∧
      (2 < 2 * 1 → r = 0 ∧ dest1 = [0, 0]) ∧ (¬ 2 < 2 * 1 → r = 2 * 1) ∧
      (r = 0 ↔ 2 < 2 * 1 ∨ 1 = 0) :=
  byteArray2hex_return char_nibble2hex [171] [0, 0] 1 2 rfl (by decide) (by decide)

/-- C14 (counterexample): with `nBytes = 0` and `destSize = 4` the routine
returns 0 although `destSize < 2 * nBytes` does not hold. -/
theorem byteArray2hex_zero_on_empty :
    string_byteArray2hex char_nibble2hex [] 0 [0, 0, 0, 0] 4 = some (0, [0, 0, 0, 0]) ∧
      ¬ (4 < 2 * 0) :=
  ⟨rfl, by decide⟩

/-- C15 (code bug): for every `hexStringLength` and `destSize` (0..255 in the
source, any natural number here), string_hex2byteArray returns 0 and leaves
`dest` as it was when `destSize < hexStringLength / 2` or `hexStringLength` is
odd; whenever it returns, the value is 0 or 1, and it is 0 exactly in that
case.  Otherwise its loop makes `destSize` passes, not `hexStringLength / 2`:
it returns 1 where `hexString` holds `2 * destSize` characters and `dest` holds
`destSize` bytes, and it is undefined, returning nothing, where `hexString`
holds fewer than `2 * destSize` characters (so for every array of exactly
`hexStringLength` characters with `hexStringLength / 2 < destSize`) or `dest`
holds fewer than `destSize` bytes. -/
theorem hex2byteArray_return (hex2uint : Nat → Nat) (hexString dest : List Nat)
    (hexStringLength destSize : Nat) :
    ((destSize < hexStringLength / 2 ∨ hexStringLength % 2 = 1) →
      string_hex2byteArray hex2uint hexString hexStringLength dest destSize = some (0, dest)) ∧
    (¬ (destSize < hexStringLength / 2 ∨ hexStringLength % 2 = 1) →
      2 * destSize ≤ hexString.length → destSize ≤ dest.length →
      ∃ dest1, string_hex2byteArray hex2uint hexString hexStringLength dest destSize =
        some (1, dest1)) ∧
    (∀ r dest1, string_hex2byteArray hex2uint hexString hexStringLength dest destSize =
        some (r, dest1) →
      (r = 0 ∨ r = 1) ∧ (r = 0 ↔ (destSize < hexStringLength / 2 ∨ hexStringLength % 2 = 1)) ∧
      (r = 0 → dest1 = dest)) ∧
    (¬ (destSize < hexStringLength / 2 ∨ hexStringLength % 2 = 1) →
      hexString.length < 2 * destSize ∨ dest.length < destSize →
      string_hex2byteArray hex2uint hexString hexStringLength dest destSize = none) := by
  refine ⟨fun hg => ?_, fun hg hh hdst => ?_, fun r dest1 h => ?_, fun hg hbad => ?_⟩
  · unfold string_hex2byteArray; rw [if_pos hg]
  · obtain ⟨d1, hd1, -⟩ := hex2byteLoop_total hex2uint hexString destSize 0 dest
      (by omega) (by omega)
    exact ⟨d1, by unfold string_hex2byteArray; rw [if_neg hg, hd1]⟩
  · unfold string_hex2byteArray at h
    by_cases hg : destSize < hexStringLength / 2 ∨ hexStringLength % 2 = 1
    · rw [if_pos hg] at h
      simp only [Option.some.injEq, Prod.mk.injEq] at h
      obtain ⟨h1, h2⟩ := h
      subst h1; subst h2
      exact ⟨Or.inl rfl, ⟨fun _ => hg, fun _ => rfl⟩, fun _ => rfl⟩
    · rw [if_neg hg] at h
      cases hloop : hex2byteLoop hex2uint hexString destSize 0 dest with
      | none => rw [hloop] at h; exact Option.noConfusion h
      | some d1 =>
        rw [hloop] at h
        simp only [Option.some.injEq, Prod.mk.injEq] at h
        obtain ⟨h1, h2⟩ := h
        subst h1
        exact ⟨Or.inr rfl, ⟨fun h0 => absurd h0 (by decide), fun hg2 => absurd hg2 hg⟩,
          fun h0 => absurd h0 (by decide)⟩
  · unfold string_hex2byteArray
    rw [if_neg hg, hex2byteLoop_none hex2uint hexString destSize 0 dest (by omega)
      (by rw [Nat.zero_add]; exact hbad)]

/-- C15 (witness): four characters into a two-byte destination return 1; into
a one-byte destination, and three characters into two bytes, return 0; the
two characters `"0F"` with `destSize = 3` pass the test (`3 < 1` is false, 2 is
even) and the call is undefined. -/
theorem hex2byteArray_return_witness :
    string_hex2byteArray char_hex2uint [48, 49, 70, 69] 4 [7, 7] 1 = some (0, [7, 7]) ∧
    string_hex2byteArray char_hex2uint [48, 49, 70, 69] 3 [7, 7] 2 = some (0, [7, 7]) ∧
    (∃ dest1, string_hex2byteArray char_hex2uint [48, 49, 70, 69] 4 [7, 7] 2 =
      some (1, dest1)) ∧
    ¬ (3 < 2 / 2 ∨ 2 % 2 = 1) ∧
    string_hex2byteArray char_hex2uint [48, 70] 2 [7, 7, 7] 3 = none :=
  ⟨(hex2byteArray_return char_hex2uint [48, 49, 70, 69] [7, 7] 4 1).1
      (by decide),
    (hex2byteArray_return char_hex2uint [48, 49, 70, 69] [7, 7] 3 2).1
      (by decide),
    (hex2byteArray_return char_hex2uint [48, 49, 70, 69] [7, 7] 4 2).2.1
      (by decide) (by decide) (by decide),
    by decide,
    (hex2byteArray_return char_hex2uint [48, 70] [7, 7, 7] 2 3).2.2.2
      (by decide) (Or.inl (by decide))⟩


theorem hex_of_nibble (x : Nat) : char_hex2uint (char_nibble2hex x) = x % 16 := by
  have h : x % 16 < 16 := Nat.mod_lt _ (by decide)
  unfold char_hex2uint char_nibble2hex
  split_ifs <;> omega

set_option maxRecDepth 100000 in
theorem byte_of_nibbles : ∀ b, b < 256 → ((b >>> 4 % 16) <<< 4 ||| b % 16) % 256 = b := by
  decide

theorem hex2byteLoop_spec (bs : List Nat) :
    ∀ (hp tail dp dm dpost : List Nat), (∀ b ∈ bs, b < 256) → hp.length = 2 * dp.length →
      dm.length = bs.length →
      hex2byteLoop char_hex2uint
          (hp ++ bs.flatMap (fun b => [char_nibble2hex (b >>> 4), char_nibble2hex b]) ++ tail)
          bs.length dp.length (dp ++ dm ++ dpost) = some (dp ++ bs ++ dpost) := by
  induction bs with
  | nil =>
    intro hp tail dp dm dpost _ _ hdm
    have : dm = [] := List.length_eq_zero.mp hdm
    subst this
    simp [hex2byteLoop]
  | cons b bs ih =>
    intro hp tail dp dm dpost hb hhp hdm
    match dm, hdm with
    | x :: dm, hdm =>
      simp only [List.length_cons, Nat.add_right_cancel_iff] at hdm
      have hb0 := hb b (List.mem_cons_self b bs)
      have hA : (hp ++ (b :: bs).flatMap (fun b => [char_nibble2hex (b >>> 4), char_nibble2hex b])
          ++ tail)[2 * dp.length]? = some (char_nibble2hex (b >>> 4)) := by
        rw [List.append_assoc, ← hhp, List.getElem?_append_right (Nat.le_refl _), Nat.sub_self]
        rfl
      have hB : (hp ++ (b :: bs).flatMap (fun b => [char_nibble2hex (b >>> 4), char_nibble2hex b])
          ++ tail)[2 * dp.length + 1]? = some (char_nibble2hex b) := by
        rw [List.append_assoc, ← hhp, List.getElem?_append_right (by omega),
          Nat.add_sub_cancel_left, List.flatMap_cons]
        simp
      have hv : (char_hex2uint (char_nibble2hex (b >>> 4)) <<< 4 |||
          char_hex2uint (char_nibble2hex b)) % 256 = b := by
        rw [hex_of_nibble, hex_of_nibble]
        exact byte_of_nibbles b hb0
      have hst : store (dp ++ x :: dm ++ dpost) dp.length b = some (dp ++ b :: (dm ++ dpost)) := by
        have := store_at_length dp (dm ++ dpost) x b
        simpa using this
      have h3 := ih (hp ++ [char_nibble2hex (b >>> 4), char_nibble2hex b]) tail (dp ++ [b]) dm
        dpost (fun y hy => hb y (List.mem_cons_of_mem b hy)) (by simp [hhp]; omega) hdm
      simp only [List.length_cons, hex2byteLoop, hA, hB, hv, hst]
      simp only [List.append_assoc, List.length_append, List.length_singleton,
        List.singleton_append, List.cons_append, List.nil_append] at h3
      simpa using h3

/-- The round trip where the destination capacity passed to the decoder is the
number of encoded bytes. -/
theorem hex_round_trip_exact (b hex out : List Nat) (c1 : Nat) (hb : ∀ x ∈ b, x < 256)
    (hc1 : 2 * b.length ≤ c1) (hhex : c1 ≤ hex.length) (hout : b.length ≤ out.length) :
    ∃ hex1, string_byteArray2hex char_nibble2hex b b.length hex c1 =
        some (2 * b.length, hex1) ∧
      hex1 = b.flatMap (fun x => [char_nibble2hex (x >>> 4), char_nibble2hex x]) ++
        hex.drop (2 * b.length) ∧
      string_hex2byteArray char_hex2uint hex1 (2 * b.length) out b.length =
        some (1, b ++ out.drop b.length) := by
  have henc := byte2hexLoop_spec char_nibble2hex b [] [] hex rfl (by omega)
  simp only [List.nil_append, List.length_nil] at henc
  refine ⟨_, ?_, rfl, ?_⟩
  · unfold string_byteArray2hex
    rw [if_neg (by omega), henc]
  · obtain ⟨dm, dpost, hsplit, hdm, -⟩ := exists_split out b.length (out.length - b.length)
      (by omega)
    have hdrop : out.drop b.length = dpost := by
      rw [hsplit, ← hdm]; simp
    have hdec := hex2byteLoop_spec b [] (hex.drop (2 * b.length)) [] dm dpost hb rfl hdm
    simp only [List.nil_append, List.length_nil] at hdec
    unfold string_hex2byteArray
    rw [if_neg (by omega), hdrop, hsplit, hdec]

/-- The decoder makes `destSize` passes: given exactly the `2 * n` encoded
characters and a capacity above `n`, it reads outside the characters. -/
theorem hex_decode_reads_past (hex2uint : Nat → Nat) (hexString out : List Nat) (n c2 : Nat)
    (hhex : hexString.length = 2 * n) (hc2 : n < c2) :
    string_hex2byteArray hex2uint hexString (2 * n) out c2 = none := by
  unfold string_hex2byteArray
  rw [if_neg (by omega), hex2byteLoop_none hex2uint hexString c2 0 out (by omega)
    (Or.inl (by omega))]

/-- C13 (code bug): one byte `0xAB` is encoded into a two-character array as
`"AB"`.  Decoding these 2 characters with the capacity `c2 = 2` passes the
capacity test (`2 < 1` is false) and then makes `c2` passes instead of
`hexStringLength / 2`: the second pass reads `hexString[2]` and `hexString[3]`,
outside the two characters.  When the array is longer and holds `"FF"` behind
the encoded characters, these are decoded into `out[1]`. -/
theorem hex_round_trip_reads_past_encoded :
    string_byteArray2hex char_nibble2hex [171] 1 [0, 0] 2 = some (2, [65, 66]) ∧
    string_hex2byteArray char_hex2uint [65, 66] 2 [0, 0] 2 = none ∧
    string_byteArray2hex char_nibble2hex [171] 1 [70, 70, 70, 70] 4 =
      some (2, [65, 66, 70, 70]) ∧
    string_hex2byteArray char_hex2uint [65, 66, 70, 70] 2 [0, 0] 2 = some (1, [171, 255]) :=
  ⟨rfl, rfl, rfl, rfl⟩

theorem uint2decDigits_zero (M p : Nat) (fuel : Nat) :
    ∀ (n a : Nat) (mem : List Nat) (r : Nat × Nat × List Nat),
      uint2decDigits M p fuel n a mem = some r → r.1 = 0 := by
  induction fuel with
  | zero => intro n a mem r h; exact Option.noConfusion h
  | succ fuel ih =>
    intro n a mem r h
    simp only [uint2decDigits, digitLut_get] at h
    cases hst : storeAt mem p ((M : Int) - (a : Int)) (48 + n % 10) with
    | none => rw [hst] at h; exact Option.noConfusion h
    | some mem1 =>
      rw [hst] at h
      simp only [] at h
      by_cases h10 : n / 10 > 0
      · rw [if_pos h10] at h
        exact ih _ _ _ _ h
      · rw [if_neg h10] at h
        simp only [Option.some.injEq] at h
        subst h
        simp only []
        omega

/-- Whenever string_uint2dec_nn returns, it returns true: the test
`n > pow10Lut[destSize]` is made after the digit loop has divided `n` down
to 0. -/
theorem string_uint2dec_nn_true (mem : List Nat) (p destSize nInput fillChar : Nat) (r : Bool)
    (mem1 : List Nat)
    (h : string_uint2dec_nn mem p destSize nInput fillChar = some (r, mem1)) : r = true := by
  unfold string_uint2dec_nn at h
  cases hdig : uint2decDigits ((destSize + 255) % 256) p 10 nInput 0 mem with
  | none => rw [hdig] at h; exact Option.noConfusion h
  | some t =>
    obtain ⟨n, a, m1⟩ := t
    have hn : n = 0 := uint2decDigits_zero _ _ _ _ _ _ _ hdig
    subst hn
    rw [hdig] at h
    simp only [] at h
    cases hfill : uint2decFill ((destSize + 255) % 256) p fillChar (destSize - a) a m1 with
    | none => rw [hfill] at h; exact Option.noConfusion h
    | some m2 =>
      rw [hfill] at h
      simp only [] at h
      cases hq : pow10Lut[destSize]? with
      | none => rw [hq] at h; exact Option.noConfusion h
      | some q =>
        rw [hq] at h
        simp only [] at h
        rw [if_neg (Nat.not_lt_zero q)] at h
        simp only [Option.some.injEq, Prod.mk.injEq] at h
        exact h.1.symm

/-- C18 (code bug): `dest` points at the second byte of the three-byte array
`"X??"`, the width is 2 and the number is 123, which needs three digits.  The
digit loop does not stop at the width: it stores `'3'`, `'2'` and then `'1'` at
`dest[-1]`, over the `'X'`.  The test `n > pow10Lut[destSize]` is made on the
`n` the loop has divided down to 0, so the routine returns true although
`123 < 10 ^ 2` is false.  When `dest` is the start of the array, the store at
`dest[-1]` is outside the array. -/
theorem uint2dec_nn_true_on_overflow :
    string_uint2dec_nn [88, 63, 63] 1 2 123 48 = some (true, [49, 50, 51]) ∧
    ¬ (123 < 10 ^ 2) ∧
    string_uint2dec_nn [63, 63] 0 2 123 48 = none :=
  ⟨rfl, by decide, rfl⟩

/-- C19: for every width `W` in 1..9, every fill character `F` and every `n`
whose `d` decimal digits fit (`d ≤ W`), string_uint2dec_nn(dest, W, n, F) on
`dest[0..W)` returns true and leaves there `W - d` copies of `F` followed by
the digits of `n`, most significant first; the bytes before and behind
`dest[0..W)` stay as they were. -/
theorem uint2dec_nn_layout (pre dest post : List Nat) (W n F : Nat) (hW1 : 1 ≤ W) (hW9 : W ≤ 9)
    (hdest : dest.length = W) (hd : (decimal n).length ≤ W) :
    string_uint2dec_nn (pre ++ dest ++ post) pre.length W n F =
      some (true, pre ++ (List.replicate (W - (decimal n).length) F ++ decimal n) ++ post) := by
  obtain ⟨front, slot, rfl, hfront, hslot⟩ := exists_split dest (W - (decimal n).length)
    (decimal n).length (by omega)
  have hM : (W + 255) % 256 = W - 1 := by omega
  have hn : n < 10 ^ 10 :=
    Nat.lt_of_lt_of_le (lt_pow_of_decimal_length n W hd) (Nat.pow_le_pow_right (by decide) (by omega))
  have hdig := uint2decDigits_eq (W - 1) pre.length (pre ++ front) 10 n 0 slot post hn
    (by decide) hslot (by simp; omega)
  have hfill := uint2decFill_eq (W - 1) pre.length F pre (W - (decimal n).length)
    (decimal n).length front (decimal n ++ post) hfront (by omega)
  have hq : ∃ q, pow10Lut[W]? = some q :=
    ⟨_, List.getElem?_eq_getElem (show W < pow10Lut.length by
      rw [show pow10Lut.length = 10 from rfl]; omega)⟩
  obtain ⟨q, hq⟩ := hq
  unfold string_uint2dec_nn
  rw [hM]
  have e1 : pre ++ (front ++ slot) ++ post = pre ++ front ++ slot ++ post := by simp
  rw [e1, hdig]
  simp only [Nat.zero_add, hslot]
  have e2 : pre ++ front ++ decimal n ++ post = pre ++ front ++ (decimal n ++ post) := by simp
  rw [e2, hfill, hq]
  simp only [if_neg (Nat.not_lt_zero q)]
  simp

/-- C19 (witness): 123 in width 5 with fill `' '` inside `"[.....]"`. -/
theorem uint2dec_nn_layout_witness :
    string_uint2dec_nn [91, 46, 46, 46, 46, 46, 93] 1 5 123 32 =
      some (true, [91, 32, 32, 49, 50, 51, 93]) := by
  have h := uint2dec_nn_layout [91] [46, 46, 46, 46, 46] [93] 5 123 32 (by decide) (by decide)
    rfl (by simp [decimal])
  refine h.trans ?_
  simp [decimal]

/-! # The state of the response buffer when a collector returns -/

theorem storeBytes_overflow (bs : List Nat) :
    ∀ (a t : List Nat), t.length < bs.length → storeBytes (a ++ t) a.length bs = none := by
  induction bs with
  | nil => intro a t h; simp at h
  | cons b bs ih =>
    intro a t h
    cases t with
    | nil =>
      simp only [storeBytes, store, List.append_nil, Nat.lt_irrefl, if_false]
    | cons x t =>
      have hs := store_at_length a t x b
      have hrec := ih (a ++ [b]) t (by simpa using h)
      simp only [storeBytes, hs]
      simpa using hrec

theorem readChunk_inv (termOff : Nat) (acc tail chunk m1 : List Nat) (pos1 : Nat)
    (htO : termOff ≤ 1) (h200 : (acc ++ tail).length = 200)
    (h : readChunk termOff (acc ++ tail) acc.length chunk = some (m1, pos1)) :
    chunk.length ≤ 30 ∧ chunk.length + termOff < tail.length ∧
      m1 = (acc ++ chunk.map upcase) ++ (tail.drop chunk.length).set termOff 0 ∧
      pos1 = acc.length + chunk.length := by
  rw [List.length_append] at h200
  have h30 : chunk.length ≤ 30 := by
    by_contra hc
    unfold readChunk at h
    rw [if_pos (by omega)] at h
    exact Option.noConfusion h
  by_cases hroom : chunk.length + termOff < tail.length
  · rw [readChunk_append termOff acc tail chunk h30 hroom (by omega)] at h
    simp only [Option.some.injEq, Prod.mk.injEq] at h
    exact ⟨h30, hroom, h.1.symm, h.2.symm⟩
  · exfalso
    unfold readChunk at h
    rw [if_neg (by omega)] at h
    by_cases hfit : chunk.length ≤ tail.length
    · have hsb := storeBytes_append acc tail (chunk.map upcase) (by simpa using hfit)
      rw [hsb] at h
      simp only [List.length_map] at h
      have hmod : (acc.length + chunk.length) % 256 = acc.length + chunk.length :=
        Nat.mod_eq_of_lt (by omega)
      have hst : store (acc ++ chunk.map upcase ++ tail.drop chunk.length)
          (acc.length + chunk.length + termOff) 0 = none := by
        unfold store
        rw [if_neg (by simp; omega)]
      rw [hmod, hst] at h
      exact Option.noConfusion h
    · have hsb := storeBytes_overflow (chunk.map upcase) acc tail (by simpa using hfit)
      rw [hsb] at h
      exact Option.noConfusion h

theorem zeroTail_step (termOff n : Nat) (tail : List Nat) (hz : ZeroTail termOff tail) :
    ZeroTail termOff ((tail.drop n).set termOff 0) := by
  rcases hz with h | h
  · exact Or.inl h
  · right
    intro b hb
    rcases List.mem_or_eq_of_mem_set hb with h1 | h1
    · exact h b (List.mem_of_mem_drop h1)
    · exact h1

theorem received_succ_some (c : List Nat) (rest : List (Option (List Nat))) (j : Nat) :
    received (some c :: rest) (j + 1) = c ++ received rest j := by
  simp [received]

/-- When a polling loop returns, the response buffer holds the upper-cased
bytes of the reads it made, in order, behind what it held before; the value
returned is what the body made of this buffer, with the terminator stored at
offset `termOff` behind the bytes, or what a failed read returns. -/
theorem pollLoop_state {α : Type} (termOff : Nat) (body : List Nat → Verdict α)
    (onFail : List Nat → α) (htO : termOff ≤ 1) :
    ∀ (script : List (Option (List Nat))) (acc tail : List Nat) (n k : Nat) (a : α),
      (acc ++ tail).length = 200 →
      pollLoop termOff body onFail (acc ++ tail) acc.length n script = .ret k a →
      ∃ tail', n < k ∧
        (acc ++ (received script (k - n)).map upcase ++ tail').length = 200 ∧
        (ZeroTail termOff tail → ZeroTail termOff tail') ∧
        ((body (acc ++ (received script (k - n)).map upcase ++ tail') = .done a ∧
            tail'[termOff]? = some 0) ∨
          a = onFail (acc ++ (received script (k - n)).map upcase ++ tail')) := by
  intro script
  induction script with
  | nil => intro acc tail n k a _ h; simp [pollLoop] at h
  | cons e rest ih =>
    intro acc tail n k a h200 h
    cases e with
    | none =>
      simp only [pollLoop, Outcome.ret.injEq] at h
      obtain ⟨hk, ha⟩ := h
      subst hk
      refine ⟨tail, by omega, ?_, fun hz => hz, Or.inr ?_⟩
      · simpa [received] using h200
      · simp [received, ← ha]
    | some chunk =>
      rw [pollLoop_some] at h
      cases hrc : readChunk termOff (acc ++ tail) acc.length chunk with
      | none => rw [hrc] at h; simp at h
      | some p =>
        obtain ⟨m1, pos1⟩ := p
        obtain ⟨h30, hroom, hm1, hpos1⟩ := readChunk_inv termOff acc tail chunk m1 pos1 htO h200 hrc
        rw [hrc] at h
        simp only [] at h
        have hlen1 : ((acc ++ chunk.map upcase) ++ (tail.drop chunk.length).set termOff 0).length
            = 200 := by
          rw [List.length_append] at h200
          simp only [List.length_append, List.length_map, List.length_set, List.length_drop]
          omega
        cases hb : body m1 with
        | done a1 =>
          rw [hb] at h
          simp only [Outcome.ret.injEq] at h
          obtain ⟨hk, ha⟩ := h
          subst hk; subst ha
          have hrecv : received (some chunk :: rest) (n + 1 - n) = chunk := by
            rw [show n + 1 - n = 0 + 1 by omega, received_succ_some]
            simp [received]
          refine ⟨(tail.drop chunk.length).set termOff 0, by omega, ?_,
            zeroTail_step termOff chunk.length tail, Or.inl ⟨?_, ?_⟩⟩
          · rw [hrecv]; exact hlen1
          · rw [hrecv, ← hm1]; exact hb
          · have : termOff < (tail.drop chunk.length).length := by
              rw [List.length_drop]; omega
            simp [List.getElem?_set]
            omega
        | fault => rw [hb] at h; simp at h
        | more =>
          rw [hb] at h
          simp only [] at h
          subst hm1; subst hpos1
          have hpos : acc.length + chunk.length = (acc ++ chunk.map upcase).length := by simp
          rw [hpos] at h
          obtain ⟨tail', hnk, hl, hz, hres⟩ := ih (acc ++ chunk.map upcase)
            ((tail.drop chunk.length).set termOff 0) (n + 1) k a hlen1 h
          have hrecv : received (some chunk :: rest) (k - n) =
              chunk ++ received rest (k - (n + 1)) := by
            rw [show k - n = (k - (n + 1)) + 1 by omega, received_succ_some]
          refine ⟨tail', by omega, ?_, fun hz0 => hz (zeroTail_step termOff chunk.length tail hz0),
            ?_⟩
          · rw [hrecv]; simpa using hl
          · rw [hrecv]
            simpa using hres

theorem pollLoop_stub (termOff : Nat) (chunks : List (List Nat)) :
    ∀ (acc tail : List Nat) (n : Nat), (acc ++ tail).length = 200 →
      (∀ c ∈ chunks, c.length ≤ 30) → chunks.flatten.length + termOff < tail.length →
      ∃ tail', pollLoop termOff (fun _ => (Verdict.more : Verdict (List Nat))) (fun m => m)
          (acc ++ tail) acc.length n (chunks.map some ++ [none]) =
        .ret (n + chunks.length + 1) (acc ++ chunks.flatten.map upcase ++ tail') := by
  induction chunks with
  | nil => intro acc tail n _ _ _; exact ⟨tail, by simp [pollLoop]⟩
  | cons c cs ih =>
    intro acc tail n h200 hlen hroom
    have hc := hlen c (List.mem_cons_self c cs)
    simp only [List.flatten_cons, List.length_append] at hroom
    rw [List.length_append] at h200
    have hrc := readChunk_append termOff acc tail c hc (by omega) (by omega)
    have hpos : acc.length + c.length = (acc ++ c.map upcase).length := by simp
    obtain ⟨tail', h⟩ := ih (acc ++ c.map upcase) ((tail.drop c.length).set termOff 0) (n + 1)
      (by simp only [List.length_append, List.length_map, List.length_set, List.length_drop]
          omega)
      (fun x hx => hlen x (List.mem_cons_of_mem c hx))
      (by simp only [List.length_set, List.length_drop]; omega)
    refine ⟨tail', ?_⟩
    simp only [List.map_cons, List.cons_append]
    rw [pollLoop_some, hrc]
    simp only []
    rw [hpos, h]
    simp only [List.flatten_cons, List.map_append, List.append_assoc, List.length_cons]
    congr 1
    omega

theorem check_body_buf (m : List Nat) (a : CheckResult) (h : check_body m = .done a) :
    a.response_buf = m := by
  unfold check_body at h
  split at h
  · exact Verdict.noConfusion h
  · split at h
    · simp only [Verdict.done.injEq] at h; rw [← h]
    · split at h
      · simp only [Verdict.done.injEq] at h; rw [← h]
      · exact Verdict.noConfusion h
      · exact Verdict.noConfusion h

theorem get_int_data_body_buf (AT_cmd : List Nat) (sizeCmd res : Nat) (m : List Nat)
    (a : IntResult) (h : get_int_data_body AT_cmd sizeCmd res m = .done a) :
    a.response_buf = m := by
  unfold get_int_data_body at h
  split at h
  · exact Verdict.noConfusion h
  · split at h
    · split at h
      · exact Verdict.noConfusion h
      · simp only [Verdict.done.injEq] at h; rw [← h]
    · split at h
      · simp only [Verdict.done.injEq] at h; rw [← h]
      · exact Verdict.noConfusion h
      · exact Verdict.noConfusion h

theorem get_data_body_buf (hex2uint : Nat → Nat) (AT_cmd : List Nat) (sizeCmd : Nat)
    (buffer : List Nat) (sizeBuf : Nat) (m : List Nat) (a : DataResult)
    (h : get_data_body hex2uint AT_cmd sizeCmd buffer sizeBuf m = .done a) :
    a.response_buf = m := by
  unfold get_data_body at h
  split at h
  · exact Verdict.noConfusion h
  · split at h
    · split at h
      · exact Verdict.noConfusion h
      · simp only [Verdict.done.injEq] at h; rw [← h]
    · split at h
      · simp only [Verdict.done.injEq] at h; rw [← h]
      · exact Verdict.noConfusion h
      · exact Verdict.noConfusion h

/-- The buffer a collector leaves: the upper-cased received bytes, then a
tail; when the value came from the loop body, the terminator is in the tail
at offset `termOff`. -/
theorem collector_state {α : Type} (termOff : Nat) (body : List Nat → Verdict α)
    (onFail : List Nat → α) (buf : α → List Nat) (htO : termOff ≤ 1)
    (hb : ∀ m a, body m = .done a → buf a = m) (hf : ∀ m, buf (onFail m) = m)
    (response_buf : List Nat) (script : List (Option (List Nat))) (n : Nat) (r : α)
    (hlen : response_buf.length = 200)
    (h : pollLoop termOff body onFail response_buf 0 0 script = .ret n r) :
    ∃ tail', buf r = (received script n).map upcase ++ tail' ∧ (buf r).length = 200 ∧
      (ZeroTail termOff response_buf → ZeroTail termOff tail') ∧
      ((body (buf r) = .done r ∧ tail'[termOff]? = some 0) ∨ r = onFail (buf r)) := by
  obtain ⟨tail', -, hl, hz, hres⟩ := pollLoop_state termOff body onFail htO script []
    response_buf 0 n r (by simpa using hlen) (by simpa using h)
  simp only [List.nil_append, Nat.sub_zero] at hl hres
  have hbuf : buf r = (received script n).map upcase ++ tail' := by
    rcases hres with ⟨hbd, -⟩ | hfl
    · exact hb _ _ hbd
    · rw [hfl]; exact hf _
  refine ⟨tail', hbuf, by rw [hbuf]; exact hl, fun hz0 => hz (by simpa using hz0), ?_⟩
  rcases hres with ⟨hbd, ht⟩ | hfl
  · exact Or.inl ⟨by rw [hbuf]; exact hbd, ht⟩
  · exact Or.inr (by rw [hbuf]; exact hfl)

theorem take_of_eq_append {l a t : List Nat} (h : l = a ++ t) : l.take a.length = a := by
  rw [h, List.take_left]

/-- C22: whenever check_ATresponse, get_data_ATresponse or
get_int_data_ATresponse returns after `n` reads, the 200-byte response buffer
holds at its start the bytes of these reads in arrival order, each upper-cased
(`'a'..'z'` become `'A'..'Z'`, every other byte is kept): `buffer[i] = upper(s[i])`
for every `i < N`, with nothing dropped, repeated or reordered where chunks
meet.  And every sequence of reads of at most 30 bytes each that leaves room
for the terminator (`N ≤ 198` in check_ATresponse and get_data_ATresponse,
where `termOff = 1`; `N ≤ 199` in get_int_data_ATresponse, where it is 0) is
accumulated this way by the shared loop when no branch returns before. -/
theorem accumulation_upcased :
    (∀ b, upcase b = if 97 ≤ b ∧ b ≤ 122 then b - 32 else b) ∧
    (∀ (response_buf : List Nat) (script : List (Option (List Nat))) (n : Nat)
        (r : CheckResult), response_buf.length = 200 →
      check_ATresponse response_buf script = .ret n r →
      r.response_buf.length = 200 ∧
      r.response_buf.take (received script n).length = (received script n).map upcase) ∧
    (∀ (hex2uint : Nat → Nat) (AT_cmd : List Nat) (sizeCmd : Nat) (buffer : List Nat)
        (sizeBuf : Nat) (response_buf : List Nat) (script : List (Option (List Nat)))
        (n : Nat) (r : DataResult), response_buf.length = 200 →
      get_data_ATresponse hex2uint AT_cmd sizeCmd buffer sizeBuf response_buf script =
        .ret n r →
      r.response_buf.length = 200 ∧
      r.response_buf.take (received script n).length = (received script n).map upcase) ∧
    (∀ (AT_cmd : List Nat) (sizeCmd res : Nat) (response_buf : List Nat)
        (script : List (Option (List Nat))) (n : Nat) (r : IntResult),
      response_buf.length = 200 →
      get_int_data_ATresponse AT_cmd sizeCmd res response_buf script = .ret n r →
      r.response_buf.length = 200 ∧
      r.response_buf.take (received script n).length = (received script n).map upcase) ∧
    (∀ (termOff : Nat) (chunks : List (List Nat)) (response_buf : List Nat),
      termOff ≤ 1 → response_buf.length = 200 → (∀ c ∈ chunks, c.length ≤ 30) →
      chunks.flatten.length + termOff < 200 →
      ∃ m, pollLoop termOff (fun _ => (Verdict.more : Verdict (List Nat))) (fun m => m)
          response_buf 0 0 (chunks.map some ++ [none]) = .ret (chunks.length + 1) m ∧
        m.length = 200 ∧ m.take chunks.flatten.length = chunks.flatten.map upcase) := by
  refine ⟨?_, ?_, ?_, ?_, ?_⟩
  · intro b
    unfold upcase isalpha toupper
    by_cases h : 97 ≤ b ∧ b ≤ 122
    · have h1 : (decide (97 ≤ b) && decide (b ≤ 122)) = true := by simp [h.1, h.2]
      simp [h, h1]
    · simp only [if_neg h]
      split <;> rfl
  · intro response_buf script n r hlen h
    obtain ⟨t, hb, hl, -, -⟩ := collector_state 1 check_body _ (fun a => a.response_buf)
      (Nat.le_refl 1) check_body_buf (fun _ => rfl) response_buf script n r hlen h
    refine ⟨hl, ?_⟩
    have := take_of_eq_append hb
    simpa using this
  · intro hex2uint AT_cmd sizeCmd buffer sizeBuf response_buf script n r hlen h
    obtain ⟨t, hb, hl, -, -⟩ := collector_state 1
      (get_data_body hex2uint AT_cmd sizeCmd buffer sizeBuf) _ (fun a => a.response_buf)
      (Nat.le_refl 1) (get_data_body_buf hex2uint AT_cmd sizeCmd buffer sizeBuf)
      (fun _ => rfl) response_buf script n r hlen h
    refine ⟨hl, ?_⟩
    have := take_of_eq_append hb
    simpa using this
  · intro AT_cmd sizeCmd res response_buf script n r hlen h
    obtain ⟨t, hb, hl, -, -⟩ := collector_state 0 (get_int_data_body AT_cmd sizeCmd res) _
      (fun a => a.response_buf) (Nat.zero_le 1) (get_int_data_body_buf AT_cmd sizeCmd res)
      (fun _ => rfl) response_buf script n r hlen h
    refine ⟨hl, ?_⟩
    have := take_of_eq_append hb
    simpa using this
  · intro termOff chunks response_buf _ hlen hc hroom
    obtain ⟨t, h⟩ := pollLoop_stub termOff chunks [] response_buf 0 (by simpa using hlen) hc
      (by omega)
    simp only [List.nil_append, List.length_nil, Nat.zero_add] at h
    have ht : (chunks.flatten.map upcase ++ t).length = 200 := by
      have h2 := collector_state termOff (fun _ => (Verdict.more : Verdict (List Nat)))
        (fun m => m) (fun m => m) (by omega) (fun m a hm => Verdict.noConfusion hm)
        (fun _ => rfl) response_buf _ _ _ hlen h
      obtain ⟨_, _, hl, _, _⟩ := h2
      exact hl
    exact ⟨_, h, ht, List.take_left' (by rw [List.length_map])⟩

set_option maxRecDepth 100000 in
/-- C22 (witness): `"ok"` and `"\r\n"` followed by a failed read leave `"OK\r\n"`
at the start of the buffer of check_ATresponse. -/
theorem accumulation_upcased_witness :
    ∃ m, check_ATresponse (List.replicate 200 170) [some [111, 107], some [13, 10], none] =
        .ret 3 ⟨MIOTYATCLIENT_RETURN_CODE_ATReadFailed, m⟩ ∧
      m.take 4 = [79, 75, 13, 10] :=
  ⟨_, rfl, (accumulation_upcased.2.1 (List.replicate 200 170)
    [some [111, 107], some [13, 10], none] 3 _ (List.length_replicate 200 170) rfl).2⟩

/-- C23: at every call of get_info_bytes, set_info_bytes, get_info_int,
set_info_int, write_cmd_bytes and get_data_ATresponse in the command API the
length argument is the number of characters of the mnemonic literal, is at
most 7, and the mnemonic is one of the 21 parameterised mnemonics of the wire
protocol. -/
theorem call_sites_consistent :
    ∀ cs ∈ apiCallSites, cs.1.length = cs.2 ∧ cs.2 ≤ 7 ∧ cs.1 ∈ wireMnemonics := by
  decide

/-- C23 (witness): the call `write_cmd_bytes("AT-UMPF", 7, ..)`. -/
theorem call_sites_consistent_witness :
    ([65, 84, 45, 85, 77, 80, 70] : List Nat).length = 7 ∧ 7 ≤ 7 ∧
      [65, 84, 45, 85, 77, 80, 70] ∈ wireMnemonics :=
  call_sites_consistent ([65, 84, 45, 85, 77, 80, 70], 7) (by decide)

theorem nibbles_value : ∀ a, a < 16 → ∀ b, b < 16 → (a <<< 4 ||| b) % 256 = 16 * a + b := by
  decide

theorem hex2byteLoop_pairs (hex2uint : Nat → Nat) (n : Nat) :
    ∀ (hp h tail dp dm dpost : List Nat), h.length = 2 * n → (∀ c ∈ h, hex2uint c < 16) →
      hp.length = 2 * dp.length → dm.length = n →
      hex2byteLoop hex2uint (hp ++ h ++ tail) n dp.length (dp ++ dm ++ dpost) =
        some (dp ++ hexPairs hex2uint h ++ dpost) := by
  induction n with
  | zero =>
    intro hp h tail dp dm dpost hh _ _ hdm
    have h1 : h = [] := List.length_eq_zero.mp (by simpa using hh)
    have h2 : dm = [] := List.length_eq_zero.mp hdm
    subst h1; subst h2
    simp [hex2byteLoop, hexPairs]
  | succ n ih =>
    intro hp h tail dp dm dpost hh hdig hhp hdm
    match h, hh, dm, hdm with
    | a :: b :: h, hh, x :: dm, hdm =>
      simp only [List.length_cons] at hh hdm
      have ha := hdig a (by simp)
      have hb := hdig b (by simp)
      have hA : (hp ++ a :: b :: h ++ tail)[2 * dp.length]? = some a := by
        rw [List.append_assoc, ← hhp, List.getElem?_append_right (Nat.le_refl _), Nat.sub_self]
        rfl
      have hB : (hp ++ a :: b :: h ++ tail)[2 * dp.length + 1]? = some b := by
        rw [List.append_assoc, ← hhp, List.getElem?_append_right (by omega),
          Nat.add_sub_cancel_left]
        simp
      have hst : store (dp ++ x :: dm ++ dpost) dp.length (16 * hex2uint a + hex2uint b) =
          some (dp ++ (16 * hex2uint a + hex2uint b) :: (dm ++ dpost)) := by
        have := store_at_length dp (dm ++ dpost) x (16 * hex2uint a + hex2uint b)
        simpa using this
      have h3 := ih (hp ++ [a, b]) h tail (dp ++ [16 * hex2uint a + hex2uint b]) dm dpost
        (by omega) (fun c hc => hdig c (by simp [hc])) (by simp [hhp]; omega) (by omega)
      simp only [hex2byteLoop, hA, hB, nibbles_value _ ha _ hb, hst, hexPairs]
      simp only [List.append_assoc, List.length_append, List.length_singleton,
        List.singleton_append, List.cons_append, List.nil_append] at h3
      simpa using h3

theorem hexPairs_length (hex2uint : Nat → Nat) (n : Nat) :
    ∀ h : List Nat, h.length = 2 * n → (hexPairs hex2uint h).length = n := by
  induction n with
  | zero =>
    intro h hh
    have h1 : h = [] := List.length_eq_zero.mp (by simpa using hh)
    subst h1; rfl
  | succ n ih =>
    intro h hh
    match h, hh with
    | a :: b :: h, hh =>
      simp only [List.length_cons] at hh
      simp only [hexPairs, List.length_cons, ih h (by omega)]

theorem hexPairs_get (hex2uint : Nat → Nat) (i : Nat) :
    ∀ h : List Nat, 2 * i + 1 < h.length →
      ∃ a b, h[2 * i]? = some a ∧ h[2 * i + 1]? = some b ∧
        (hexPairs hex2uint h)[i]? = some (16 * hex2uint a + hex2uint b) := by
  induction i with
  | zero =>
    intro h hh
    match h, hh with
    | a :: b :: h, _ => exact ⟨a, b, by simp, by simp, by simp [hexPairs]⟩
  | succ i ih =>
    intro h hh
    match h, hh with
    | a :: b :: h, hh =>
      simp only [List.length_cons] at hh
      obtain ⟨a1, b1, h1, h2, h3⟩ := ih h (by omega)
      refine ⟨a1, b1, ?_, ?_, ?_⟩
      · rw [show 2 * (i + 1) = (2 * i + 1) + 1 by omega, List.getElem?_cons_succ,
          List.getElem?_cons_succ]; exact h1
      · rw [show 2 * (i + 1) + 1 = (2 * i + 1 + 1) + 1 by omega, List.getElem?_cons_succ,
          List.getElem?_cons_succ]; exact h2
      · simp only [hexPairs, List.getElem?_cons_succ]; exact h3

/-- C27: for every string `h` of `2n` characters from `0-9`, `A-F`, `a-f`
(`n ≤ 127`) and a destination of `n` bytes, string_hex2byteArray(h, 2n, dest, n)
returns 1 and leaves `dest[i] = 16 * hex2uint(h[2i]) + hex2uint(h[2i+1])` for
every `i < n`; the array behind the pointer holds exactly the `2n` characters,
so none is read at an index from `2n` on.  `hex2uint` is char_hex2uint, assumed
to map these characters to values below 16. -/
theorem hex2byteArray_value (hex2uint : Nat → Nat)
    (hhex : ∀ c, isHexDigit c = true → hex2uint c < 16) (h dest : List Nat) (n : Nat)
    (_hn : n ≤ 127) (hlen : h.length = 2 * n) (hdig : ∀ c ∈ h, isHexDigit c = true)
    (hdest : dest.length = n) :
    ∃ dest1, string_hex2byteArray hex2uint h (2 * n) dest n = some (1, dest1) ∧
      dest1.length = n ∧
      ∀ i, i < n → ∃ a b, h[2 * i]? = some a ∧ h[2 * i + 1]? = some b ∧
        dest1[i]? = some (16 * hex2uint a + hex2uint b) := by
  have hloop := hex2byteLoop_pairs hex2uint n [] h [] [] dest [] hlen
    (fun c hc => hhex c (hdig c hc)) rfl hdest
  simp only [List.nil_append, List.append_nil, List.length_nil] at hloop
  refine ⟨hexPairs hex2uint h, ?_, hexPairs_length hex2uint n h hlen, ?_⟩
  · unfold string_hex2byteArray
    rw [if_neg (by omega), hloop]
  · intro i hi
    exact hexPairs_get hex2uint i h (by omega)

theorem char_hex2uint_lt (c : Nat) : char_hex2uint c < 16 := by
  unfold char_hex2uint
  split_ifs <;> omega

/-- C27 (witness): `"01fE"` decodes to `01 FE`. -/
theorem hex2byteArray_value_witness :
    ∃ dest1, string_hex2byteArray char_hex2uint [48, 49, 102, 69] (2 * 2) [0, 0] 2 =
        some (1, dest1) ∧ dest1.length = 2 ∧
      ∀ i, i < 2 → ∃ a b, [48, 49, 102, 69][2 * i]? = some a ∧
        [48, 49, 102, 69][2 * i + 1]? = some b ∧
        dest1[i]? = some (16 * char_hex2uint a + char_hex2uint b) :=
  hex2byteArray_value char_hex2uint (fun c _ => char_hex2uint_lt c) [48, 49, 102, 69] [0, 0] 2 (by decide) rfl
    (by decide) rfl

theorem errBranches_zero {s : List Nat} {c : Int} (h : errBranches s = .done c) :
    c ≠ MIOTYATCLIENT_RETURN_CODE_OK ∨ FieldCode s 0 := by
  by_cases hc : c = 0
  · subst hc
    rcases errBranches_shape h with h9 | h16 | hf
    · exact absurd h9 (by decide)
    · exact absurd h16 (by decide)
    · exact Or.inr hf
  · exact Or.inl hc

theorem check_body_zero (m : List Nat) (a : CheckResult) (h : check_body m = .done a) :
    ∀ s, cstrAt a.response_buf 0 = some s → successSeen s = false →
      a.code ≠ MIOTYATCLIENT_RETURN_CODE_OK ∨ FieldCode s 0 := by
  intro s hs hn
  rw [check_body_buf m a h] at hs
  rw [check_body_err hs hn] at h
  cases he : errBranches s with
  | done c =>
    rw [he] at h
    simp only [Verdict.done.injEq] at h
    subst h
    exact errBranches_zero he
  | fault => rw [he] at h; exact Verdict.noConfusion h
  | more => rw [he] at h; exact Verdict.noConfusion h

theorem get_data_body_zero (hex2uint : Nat → Nat) (AT_cmd : List Nat) (sizeCmd : Nat)
    (buffer : List Nat) (sizeBuf : Nat) (m : List Nat) (a : DataResult)
    (h : get_data_body hex2uint AT_cmd sizeCmd buffer sizeBuf m = .done a) :
    ∀ s, cstrAt a.response_buf 0 = some s → successSeen s = false →
      a.code ≠ MIOTYATCLIENT_RETURN_CODE_OK ∨ FieldCode s 0 := by
  intro s hs hn
  rw [get_data_body_buf hex2uint AT_cmd sizeCmd buffer sizeBuf m a h] at hs
  rw [get_data_body_err hex2uint AT_cmd sizeCmd buffer sizeBuf hs hn] at h
  cases he : errBranches s with
  | done c =>
    rw [he] at h
    simp only [Verdict.done.injEq] at h
    subst h
    exact errBranches_zero he
  | fault => rw [he] at h; exact Verdict.noConfusion h
  | more => rw [he] at h; exact Verdict.noConfusion h

theorem get_int_data_body_zero (AT_cmd : List Nat) (sizeCmd res : Nat) (m : List Nat)
    (a : IntResult) (h : get_int_data_body AT_cmd sizeCmd res m = .done a) :
    ∀ s, cstrAt a.response_buf 0 = some s → successSeen s = false →
      a.code ≠ MIOTYATCLIENT_RETURN_CODE_OK ∨ FieldCode s 0 := by
  intro s hs hn
  rw [get_int_data_body_buf AT_cmd sizeCmd res m a h] at hs
  rw [get_int_data_body_err AT_cmd sizeCmd res hs hn] at h
  cases he : errBranches s with
  | done c =>
    rw [he] at h
    simp only [Verdict.done.injEq] at h
    subst h
    exact errBranches_zero he
  | fault => rw [he] at h; exact Verdict.noConfusion h
  | more => rw [he] at h; exact Verdict.noConfusion h

/-- C29 (amended): whenever check_ATresponse, get_data_ATresponse or
get_int_data_ATresponse returns and the string `s` in the response buffer
holds no success pattern (so the value came from the MAC-error branch, the
AT-error branch or a failed read), the returned code is different from OK (0)
unless `atoi` reads 0 behind the selected `"-MNFO:"`/`"-MERR:"` label or -16
behind `"AT!ERR:"`.  The fallback codes 9 and 16 and ATReadFailed are never OK. -/
theorem error_branch_code :
    (∀ (response_buf : List Nat) (script : List (Option (List Nat))) (n : Nat)
        (r : CheckResult) (s : List Nat),
      check_ATresponse response_buf script = .ret n r →
      cstrAt r.response_buf 0 = some s → successSeen s = false →
      r.code ≠ MIOTYATCLIENT_RETURN_CODE_OK ∨ FieldCode s 0) ∧
    (∀ (hex2uint : Nat → Nat) (AT_cmd : List Nat) (sizeCmd : Nat) (buffer : List Nat)
        (sizeBuf : Nat) (response_buf : List Nat) (script : List (Option (List Nat)))
        (n : Nat) (r : DataResult) (s : List Nat),
      get_data_ATresponse hex2uint AT_cmd sizeCmd buffer sizeBuf response_buf script =
        .ret n r →
      cstrAt r.response_buf 0 = some s → successSeen s = false →
      r.code ≠ MIOTYATCLIENT_RETURN_CODE_OK ∨ FieldCode s 0) ∧
    (∀ (AT_cmd : List Nat) (sizeCmd res : Nat) (response_buf : List Nat)
        (script : List (Option (List Nat))) (n : Nat) (r : IntResult) (s : List Nat),
      get_int_data_ATresponse AT_cmd sizeCmd res response_buf script = .ret n r →
      cstrAt r.response_buf 0 = some s → successSeen s = false →
      r.code ≠ MIOTYATCLIENT_RETURN_CODE_OK ∨ FieldCode s 0) ∧
    MIOTYATCLIENT_RETURN_CODE_ERR ≠ MIOTYATCLIENT_RETURN_CODE_OK ∧
    MIOTYATCLIENT_RETURN_CODE_ATErr ≠ MIOTYATCLIENT_RETURN_CODE_OK ∧
    MIOTYATCLIENT_RETURN_CODE_ATReadFailed ≠ MIOTYATCLIENT_RETURN_CODE_OK := by
  refine ⟨?_, ?_, ?_, by decide, by decide, by decide⟩
  · intro response_buf script n r s h
    exact pollLoop_ret_inv
      (fun a : CheckResult => ∀ s, cstrAt a.response_buf 0 = some s → successSeen s = false →
        a.code ≠ MIOTYATCLIENT_RETURN_CODE_OK ∨ FieldCode s 0)
      1 check_body _ check_body_zero (fun _ _ _ _ => Or.inl (show (23 : Int) ≠ 0 by decide)) script response_buf 0 0
      n r h s
  · intro hex2uint AT_cmd sizeCmd buffer sizeBuf response_buf script n r s h
    exact pollLoop_ret_inv
      (fun a : DataResult => ∀ s, cstrAt a.response_buf 0 = some s → successSeen s = false →
        a.code ≠ MIOTYATCLIENT_RETURN_CODE_OK ∨ FieldCode s 0)
      1 (get_data_body hex2uint AT_cmd sizeCmd buffer sizeBuf) _
      (get_data_body_zero hex2uint AT_cmd sizeCmd buffer sizeBuf)
      (fun _ _ _ _ => Or.inl (show (23 : Int) ≠ 0 by decide)) script response_buf 0 0 n r h s
  · intro AT_cmd sizeCmd res response_buf script n r s h
    exact pollLoop_ret_inv
      (fun a : IntResult => ∀ s, cstrAt a.response_buf 0 = some s → successSeen s = false →
        a.code ≠ MIOTYATCLIENT_RETURN_CODE_OK ∨ FieldCode s 0)
      0 (get_int_data_body AT_cmd sizeCmd res) _ (get_int_data_body_zero AT_cmd sizeCmd res)
      (fun _ _ _ _ => Or.inl (show (23 : Int) ≠ 0 by decide)) script response_buf 0 0 n r h s

set_option maxRecDepth 100000 in
/-- C29 (witness): the reply `"\r\n1\r\n-MERR:6\r\n"` is classified through the
MAC-error branch and the code 6 is not OK. -/
theorem error_branch_code_witness :
    (6 : Int) ≠ MIOTYATCLIENT_RETURN_CODE_OK ∨
      FieldCode [13, 10, 49, 13, 10, 45, 77, 69, 82, 82, 58, 54, 13, 10] 0 :=
  error_branch_code.1 (List.replicate 200 0)
    [some [13, 10, 49, 13, 10, 45, 77, 69, 82, 82, 58, 54, 13, 10]] 1
    ⟨6, [13, 10, 49, 13, 10, 45, 77, 69, 82, 82, 58, 54, 13, 10] ++ List.replicate 186 0⟩
    [13, 10, 49, 13, 10, 45, 77, 69, 82, 82, 58, 54, 13, 10] (by rfl) (by rfl) (by rfl)

set_option maxRecDepth 100000 in
/-- C29 (counterexample): the reply `"\r\n1\r\n-MERR:0\r\n"` holds `"\r\n1\r\n"` and
no success pattern, is classified through the MAC-error branch, and the three
collectors return 0, which is MIOTYATCLIENT_RETURN_CODE_OK. -/
theorem error_branch_returns_ok :
    (lit_mac <:+: [13, 10, 49, 13, 10, 45, 77, 69, 82, 82, 58, 48, 13, 10] ∧
      ¬ lit_ok <:+: [13, 10, 49, 13, 10, 45, 77, 69, 82, 82, 58, 48, 13, 10] ∧
      ¬ lit_ok_head <+: [13, 10, 49, 13, 10, 45, 77, 69, 82, 82, 58, 48, 13, 10]) ∧
    (∃ m, check_ATresponse (List.replicate 200 0)
        [some [13, 10, 49, 13, 10, 45, 77, 69, 82, 82, 58, 48, 13, 10]] =
      .ret 1 ⟨MIOTYATCLIENT_RETURN_CODE_OK, m⟩) ∧
    (∃ m, get_data_ATresponse char_hex2uint lit_AT_MEUI 7 [0, 0, 0, 0, 0, 0, 0, 0] 8
        (List.replicate 200 0)
        [some [13, 10, 49, 13, 10, 45, 77, 69, 82, 82, 58, 48, 13, 10]] =
      .ret 1 ⟨MIOTYATCLIENT_RETURN_CODE_OK, [0, 0, 0, 0, 0, 0, 0, 0], 8, m⟩) ∧
    (∃ m, get_int_data_ATresponse lit_AT_MEUI 7 5 (List.replicate 200 0)
        [some [13, 10, 49, 13, 10, 45, 77, 69, 82, 82, 58, 48, 13, 10]] =
      .ret 1 ⟨MIOTYATCLIENT_RETURN_CODE_OK, 5, m⟩) :=
  ⟨by decide, ⟨_, rfl⟩, ⟨_, rfl⟩, ⟨_, rfl⟩⟩

set_option maxRecDepth 100000 in
/-- C30 (code bug): the first read delivers `"\r\n0\r"` and the second read
fails.  With `response_buf[4] = 0` on entry check_ATresponse returns
ATReadFailed (23); with `response_buf[4] = '\n'` on entry it returns OK (0),
because the terminator is stored at `response_buf[pos+1]` and the stale byte at
`response_buf[pos]` is scanned as part of the reply.  get_data_ATresponse
behaves the same way on `"-MSAD:2\tABCD\x1A\r\n0\r"`, where the stale byte is
`response_buf[17]`.  get_int_data_ATresponse, which stores the terminator at
`response_buf[pos]`, returns 23 for both contents. -/
theorem code_depends_on_stale_byte :
    (∃ m, check_ATresponse (List.replicate 200 0) [some [13, 10, 48, 13], none] =
      .ret 2 ⟨MIOTYATCLIENT_RETURN_CODE_ATReadFailed, m⟩) ∧
    (∃ m, check_ATresponse ((List.replicate 200 0).set 4 10) [some [13, 10, 48, 13], none] =
      .ret 1 ⟨MIOTYATCLIENT_RETURN_CODE_OK, m⟩) ∧
    (∃ m, get_data_ATresponse char_hex2uint lit_AT_MSAD 7 [0, 0] 2 (List.replicate 200 0)
        [some [45, 77, 83, 65, 68, 58, 50, 9, 65, 66, 67, 68, 26, 13, 10, 48, 13], none] =
      .ret 2 ⟨MIOTYATCLIENT_RETURN_CODE_ATReadFailed, [0, 0], 2, m⟩) ∧
    (∃ m, get_data_ATresponse char_hex2uint lit_AT_MSAD 7 [0, 0] 2
        ((List.replicate 200 0).set 17 10)
        [some [45, 77, 83, 65, 68, 58, 50, 9, 65, 66, 67, 68, 26, 13, 10, 48, 13], none] =
      .ret 1 ⟨MIOTYATCLIENT_RETURN_CODE_OK, [171, 205], 2, m⟩) ∧
    (∃ m, get_int_data_ATresponse lit_AT_MSAD 7 5 (List.replicate 200 0)
        [some [13, 10, 48, 13], none] =
      .ret 2 ⟨MIOTYATCLIENT_RETURN_CODE_ATReadFailed, 5, m⟩) ∧
    (∃ m, get_int_data_ATresponse lit_AT_MSAD 7 5 ((List.replicate 200 0).set 4 10)
        [some [13, 10, 48, 13], none] =
      .ret 2 ⟨MIOTYATCLIENT_RETURN_CODE_ATReadFailed, 5, m⟩) :=
  ⟨⟨_, rfl⟩, ⟨_, rfl⟩, ⟨_, rfl⟩, ⟨_, rfl⟩, ⟨_, rfl⟩, ⟨_, rfl⟩⟩

theorem successSeen_eq_true {s : List Nat} (h : lit_ok <:+: s ∨ lit_ok_head <+: s) :
    successSeen s = true := (successSeen_iff s).mpr h

theorem errBranches_mac_tier {s : List Nat} {c : Int} (h1 : lit_mac <:+: s)
    (hc : (¬ lit_MNFO <:+: s ∧ ¬ lit_MERR <:+: s ∧ c = MIOTYATCLIENT_RETURN_CODE_ERR) ∨
      ∃ e, (strstr s lit_MNFO).orElse (fun _ => strstr s lit_MERR) = some e ∧
        atoi (s.drop (e + 6)) = some c) :
    errBranches s = .done c := by
  rcases hc with ⟨h2, h3, rfl⟩ | ⟨e, he, ha⟩
  · exact errBranches_mac_fallback h1 h2 h3
  · have hm : (strstr s lit_mac).isSome = true := (strstr_isSome_iff s lit_mac).mpr h1
    unfold errBranches
    rw [if_pos hm, he]
    simp only [ha]

/-- C25 (amended): let the reads `chunks ++ [last]` (at most 30 bytes each)
deliver the upper-cased bytes `acc`, at most 198 and without NUL byte, such
that no terminator was complete before the last read.  If `acc` contains
`"\r\n0\r\n"` or starts with `"0\r\n"`, the collectors go through the success
branch on the last read, whatever else `acc` contains: check_ATresponse returns
OK, and get_data_ATresponse and get_int_data_ATresponse return OK unless their
extraction is undefined.  If `acc` holds no success pattern and contains
`"\r\n1\r\n"`, the three collectors return the MAC-tier result (9 when neither
`"-MNFO:"` nor `"-MERR:"` occurs, else what `atoi` reads behind the selected
label), also when `"\r\n2\r\n"` occurs.  For check_ATresponse and
get_data_ATresponse the response buffer is all NUL on entry. -/
theorem terminator_precedence (chunks : List (List Nat)) (last acc : List Nat)
    (rest : List (Option (List Nat)))
    (hacc : acc = (chunks ++ [last]).flatten.map upcase)
    (hlen : ∀ c ∈ chunks ++ [last], c.length ≤ 30)
    (hno : NoTerm (chunks.flatten.map upcase))
    (hnul : 0 ∉ acc) (h198 : acc.length ≤ 198) :
    ((lit_ok <:+: acc ∨ lit_ok_head <+: acc) →
      (∃ m, check_ATresponse (List.replicate 200 0) (chunks.map some ++ some last :: rest) =
        .ret (chunks.length + 1) ⟨MIOTYATCLIENT_RETURN_CODE_OK, m⟩) ∧
      (∀ (hex2uint : Nat → Nat) (AT_cmd : List Nat) (sizeCmd : Nat) (buffer : List Nat)
          (sizeBuf : Nat),
        get_data_ATresponse hex2uint AT_cmd sizeCmd buffer sizeBuf (List.replicate 200 0)
            (chunks.map some ++ some last :: rest) = .undefined (chunks.length + 1) ∨
        ∃ b sz m, get_data_ATresponse hex2uint AT_cmd sizeCmd buffer sizeBuf
            (List.replicate 200 0) (chunks.map some ++ some last :: rest) =
          .ret (chunks.length + 1) ⟨MIOTYATCLIENT_RETURN_CODE_OK, b, sz, m⟩) ∧
      (∀ (AT_cmd : List Nat) (sizeCmd res : Nat) (response_buf : List Nat),
        response_buf.length = 200 →
        get_int_data_ATresponse AT_cmd sizeCmd res response_buf
            (chunks.map some ++ some last :: rest) = .undefined (chunks.length + 1) ∨
        ∃ v m, get_int_data_ATresponse AT_cmd sizeCmd res response_buf
            (chunks.map some ++ some last :: rest) =
          .ret (chunks.length + 1) ⟨MIOTYATCLIENT_RETURN_CODE_OK, v, m⟩)) ∧
    (¬ lit_ok <:+: acc → ¬ lit_ok_head <+: acc → lit_mac <:+: acc →
      ∀ c : Int,
        ((¬ lit_MNFO <:+: acc ∧ ¬ lit_MERR <:+: acc ∧ c = MIOTYATCLIENT_RETURN_CODE_ERR) ∨
          ∃ e, (strstr acc lit_MNFO).orElse (fun _ => strstr acc lit_MERR) = some e ∧
            atoi (acc.drop (e + 6)) = some c) →
        (∃ m, check_ATresponse (List.replicate 200 0) (chunks.map some ++ some last :: rest) =
          .ret (chunks.length + 1) ⟨c, m⟩) ∧
        (∀ (hex2uint : Nat → Nat) (AT_cmd : List Nat) (sizeCmd : Nat) (buffer : List Nat)
            (sizeBuf : Nat),
          ∃ m, get_data_ATresponse hex2uint AT_cmd sizeCmd buffer sizeBuf
              (List.replicate 200 0) (chunks.map some ++ some last :: rest) =
            .ret (chunks.length + 1) ⟨c, buffer, sizeBuf, m⟩) ∧
        (∀ (AT_cmd : List Nat) (sizeCmd res : Nat) (response_buf : List Nat),
          response_buf.length = 200 →
          ∃ m, get_int_data_ATresponse AT_cmd sizeCmd res response_buf
              (chunks.map some ++ some last :: rest) =
            .ret (chunks.length + 1) ⟨c, res, m⟩)) := by
  subst hacc
  have hsz : (chunks ++ [last]).flatten.length ≤ 198 := by
    rw [List.length_map] at h198; exact h198
  refine ⟨fun hsucc => ⟨?_, ?_, ?_⟩, ?_⟩
  · exact pollLoop_done 1 _ _ (by omega) check_body_more chunks last _ rest
      (zeroTail_replicate 200) hlen (by rw [List.length_replicate]; omega)
      (by rw [List.length_replicate]; omega) (noTerm_take hno)
      (fun m => ⟨MIOTYATCLIENT_RETURN_CODE_OK, m⟩) (fun t _ => by
        unfold check_body
        rw [cstrAt_of_no_nul t hnul]
        simp only [successSeen_eq_true hsucc, if_true])
  · intro hex2uint AT_cmd sizeCmd buffer sizeBuf
    obtain ⟨t, -, -, heq⟩ := pollLoop_last 1
      (get_data_body hex2uint AT_cmd sizeCmd buffer sizeBuf)
      (fun m => ⟨MIOTYATCLIENT_RETURN_CODE_ATReadFailed, buffer, sizeBuf, m⟩) (by omega)
      (get_data_body_more hex2uint AT_cmd sizeCmd buffer sizeBuf) chunks last
      (List.replicate 200 0) rest (zeroTail_replicate 200) hlen
      (by rw [List.length_replicate]; omega) (by rw [List.length_replicate]; omega)
      (noTerm_take hno)
    unfold get_data_ATresponse
    rw [heq]
    unfold get_data_body
    rw [cstrAt_of_no_nul t hnul]
    simp only [successSeen_eq_true hsucc, if_true]
    cases extract_data hex2uint AT_cmd sizeCmd buffer sizeBuf _ _ with
    | none => exact Or.inl rfl
    | some p => exact Or.inr ⟨p.1, p.2, _, rfl⟩
  · intro AT_cmd sizeCmd res response_buf hbuf
    obtain ⟨t, -, -, heq⟩ := pollLoop_last 0 (get_int_data_body AT_cmd sizeCmd res)
      (fun m => ⟨MIOTYATCLIENT_RETURN_CODE_ATReadFailed, res, m⟩) (by omega)
      (get_int_data_body_more AT_cmd sizeCmd res) chunks last response_buf rest (Or.inl rfl)
      hlen (by omega) (by omega) (noTerm_take hno)
    unfold get_int_data_ATresponse
    rw [heq]
    unfold get_int_data_body
    rw [cstrAt_of_no_nul t hnul]
    simp only [successSeen_eq_true hsucc, if_true]
    cases extract_int AT_cmd sizeCmd _ _ with
    | none => exact Or.inl rfl
    | some v => exact Or.inr ⟨v, _, rfl⟩
  · intro hok hok0 hmac c hc
    have hss := successSeen_eq_false hok hok0
    have herr := errBranches_mac_tier hmac hc
    have h := collectors_return_of_errBranches chunks last rest hlen hno hnul hss c herr
    have h2 := h.2 h198
    exact ⟨h2.1, h2.2, fun AT_cmd sizeCmd res response_buf hbuf =>
      h.1 (by omega) AT_cmd sizeCmd res response_buf hbuf⟩

set_option maxRecDepth 100000 in
/-- C25 (witness): `"\r\n1\r\n\r\n2\r\n\r\n0\r\n"` in one read makes check_ATresponse
return OK. -/
theorem terminator_precedence_witness :
    ∃ m, check_ATresponse (List.replicate 200 0)
        [some [13, 10, 49, 13, 10, 13, 10, 50, 13, 10, 13, 10, 48, 13, 10]] =
      .ret 1 ⟨MIOTYATCLIENT_RETURN_CODE_OK, m⟩ :=
  ((terminator_precedence [] [13, 10, 49, 13, 10, 13, 10, 50, 13, 10, 13, 10, 48, 13, 10]
    [13, 10, 49, 13, 10, 13, 10, 50, 13, 10, 13, 10, 48, 13, 10] [] (by decide) (by decide)
    (by decide) (by decide) (by decide)).1 (Or.inl (by decide))).1

set_option maxRecDepth 100000 in
/-- C25 (counterexample): the accumulated reply `"\0\r\n0\r\n"` contains
`"\r\n0\r\n"`, but the tests are made on the C string in the buffer, which ends
at the NUL byte: check_ATresponse finds no pattern, reads on and returns
ATReadFailed when the next read fails. -/
theorem success_pattern_behind_nul :
    lit_ok <:+: [0, 13, 10, 48, 13, 10] ∧
    (∃ m, check_ATresponse (List.replicate 200 0) [some [0, 13, 10, 48, 13, 10], none] =
      .ret 2 ⟨MIOTYATCLIENT_RETURN_CODE_ATReadFailed, m⟩) ∧
    MIOTYATCLIENT_RETURN_CODE_ATReadFailed ≠ MIOTYATCLIENT_RETURN_CODE_OK :=
  ⟨by decide, ⟨_, rfl⟩, by decide⟩

/-- C26 (amended): let the reads `chunks ++ [last]` (at most 30 bytes each)
deliver the upper-cased bytes `acc`, at most 198 and without NUL byte, with no
terminator complete before the last read, no success pattern and `"\r\n1\r\n"`
in `acc`.  If `"-MNFO:"` occurs and its first occurrence is followed by the
decimal digits of `c` and a non-digit, the three collectors return `c`,
wherever `"-MERR:"` occurs; if `"-MNFO:"` does not occur and the first `"-MERR:"`
is followed by the digits of `c` and a non-digit, they return `c`.  For
check_ATresponse and get_data_ATresponse the response buffer is all NUL on
entry. -/
theorem label_priority (chunks : List (List Nat)) (last acc t : List Nat)
    (rest : List (Option (List Nat))) (e c x : Nat)
    (hacc : acc = (chunks ++ [last]).flatten.map upcase)
    (hlen : ∀ c ∈ chunks ++ [last], c.length ≤ 30)
    (hno : NoTerm (chunks.flatten.map upcase))
    (hnul : 0 ∉ acc) (h198 : acc.length ≤ 198)
    (hok : ¬ lit_ok <:+: acc) (hok0 : ¬ lit_ok_head <+: acc) (hmac : lit_mac <:+: acc)
    (hfield : acc.drop (e + 6) = decimal c ++ x :: t) (hx : isdigit x = false)
    (hc : c < 2147483648)
    (hlabel : strstr acc lit_MNFO = some e ∨
      (¬ lit_MNFO <:+: acc ∧ strstr acc lit_MERR = some e)) :
    (∃ m, check_ATresponse (List.replicate 200 0) (chunks.map some ++ some last :: rest) =
      .ret (chunks.length + 1) ⟨(c : Int), m⟩) ∧
    (∀ (hex2uint : Nat → Nat) (AT_cmd : List Nat) (sizeCmd : Nat) (buffer : List Nat)
        (sizeBuf : Nat),
      ∃ m, get_data_ATresponse hex2uint AT_cmd sizeCmd buffer sizeBuf
          (List.replicate 200 0) (chunks.map some ++ some last :: rest) =
        .ret (chunks.length + 1) ⟨(c : Int), buffer, sizeBuf, m⟩) ∧
    (∀ (AT_cmd : List Nat) (sizeCmd res : Nat) (response_buf : List Nat),
      response_buf.length = 200 →
      ∃ m, get_int_data_ATresponse AT_cmd sizeCmd res response_buf
          (chunks.map some ++ some last :: rest) =
        .ret (chunks.length + 1) ⟨(c : Int), res, m⟩) := by
  subst hacc
  have hss := successSeen_eq_false hok hok0
  have he : (strstr ((chunks ++ [last]).flatten.map upcase) lit_MNFO).orElse
      (fun _ => strstr ((chunks ++ [last]).flatten.map upcase) lit_MERR) = some e := by
    rcases hlabel with h | ⟨h1, h2⟩
    · rw [h]; rfl
    · rw [(strstr_eq_none_iff _ _).mpr h1]; exact h2
  have herr := errBranches_mac_code hmac he hfield hx hc
  have h := collectors_return_of_errBranches chunks last rest hlen hno hnul hss _ herr
  have h2 := h.2 h198
  exact ⟨h2.1, h2.2, fun AT_cmd sizeCmd res response_buf hbuf =>
    h.1 (by omega) AT_cmd sizeCmd res response_buf hbuf⟩

set_option maxRecDepth 100000 in
/-- C26 (witness): in `"\r\n1\r\n-MERR:5\r\n-MNFO:7\r\n"` the value behind `"-MNFO:"`
is returned although `"-MERR:"` comes first. -/
theorem label_priority_witness :
    ∃ m, check_ATresponse (List.replicate 200 0)
        [some [13, 10, 49, 13, 10, 45, 77, 69, 82, 82, 58, 53, 13, 10,
          45, 77, 78, 70, 79, 58, 55, 13, 10]] = .ret 1 ⟨7, m⟩ :=
  (label_priority [] [13, 10, 49, 13, 10, 45, 77, 69, 82, 82, 58, 53, 13, 10,
      45, 77, 78, 70, 79, 58, 55, 13, 10]
    [13, 10, 49, 13, 10, 45, 77, 69, 82, 82, 58, 53, 13, 10, 45, 77, 78, 70, 79, 58, 55, 13, 10]
    [10] [] 14 7 13 (by decide) (by decide) (by decide) (by decide) (by decide) (by decide)
    (by decide) (by decide) (by simp [decimal]) (by decide) (by decide)
    (Or.inl (by decide))).1

set_option maxRecDepth 100000 in
/-- C26 (counterexample): the accumulated reply
`"\r\n1\r\n-MERR:5\r\n\0-MNFO:7\r\n"` contains both labels and is classified
through the `"\r\n1\r\n"` branch, but the string in the buffer ends at the NUL
byte before `"-MNFO:"`: the collectors return 5, the value behind `"-MERR:"`. -/
theorem label_priority_behind_nul :
    (lit_mac <:+: [13, 10, 49, 13, 10, 45, 77, 69, 82, 82, 58, 53, 13, 10, 0,
        45, 77, 78, 70, 79, 58, 55, 13, 10] ∧
      lit_MNFO <:+: [13, 10, 49, 13, 10, 45, 77, 69, 82, 82, 58, 53, 13, 10, 0,
        45, 77, 78, 70, 79, 58, 55, 13, 10] ∧
      lit_MERR <:+: [13, 10, 49, 13, 10, 45, 77, 69, 82, 82, 58, 53, 13, 10, 0,
        45, 77, 78, 70, 79, 58, 55, 13, 10]) ∧
    (∃ m, check_ATresponse (List.replicate 200 0)
        [some [13, 10, 49, 13, 10, 45, 77, 69, 82, 82, 58, 53, 13, 10, 0,
          45, 77, 78, 70, 79, 58, 55, 13, 10]] = .ret 1 ⟨5, m⟩) ∧
    (∃ m, get_int_data_ATresponse lit_AT_MEUI 7 0 (List.replicate 200 0)
        [some [13, 10, 49, 13, 10, 45, 77, 69, 82, 82, 58, 53, 13, 10, 0,
          45, 77, 78, 70, 79, 58, 55, 13, 10]] = .ret 1 ⟨5, 0, m⟩) :=
  ⟨by decide, ⟨_, rfl⟩, ⟨_, rfl⟩⟩

/-! # The buffer behind the received bytes -/

theorem pollLoop_skip_fold {α : Type} (termOff : Nat) (body : List Nat → Verdict α)
    (onFail : List Nat → α) (htO : termOff ≤ 1)
    (hbody : ∀ m s, cstrAt m 0 = some s → NoTerm s → body m = .more)
    (chunks : List (List Nat)) :
    ∀ (acc tail : List Nat) (n : Nat) (rest : List (Option (List Nat))),
      ZeroTail termOff tail → (∀ c ∈ chunks, c.length ≤ 30) →
      chunks.flatten.length + termOff < tail.length → acc.length + tail.length ≤ 256 →
      (∀ k, k < chunks.length → NoTerm (acc ++ ((chunks.take (k + 1)).flatten.map upcase))) →
      ZeroTail termOff (chunks.foldl (fun t c => (t.drop c.length).set termOff 0) tail) ∧
      (chunks.foldl (fun t c => (t.drop c.length).set termOff 0) tail).length +
        chunks.flatten.length = tail.length ∧
      pollLoop termOff body onFail (acc ++ tail) acc.length n (chunks.map some ++ rest) =
        pollLoop termOff body onFail ((acc ++ chunks.flatten.map upcase) ++
            chunks.foldl (fun t c => (t.drop c.length).set termOff 0) tail)
          (acc.length + chunks.flatten.length) (n + chunks.length) rest := by
  induction chunks with
  | nil =>
    intro acc tail n rest hz _ _ _ _
    exact ⟨hz, by simp, by simp⟩
  | cons c cs ih =>
    intro acc tail n rest hz hlen hroom h256 hno
    have hc : c.length ≤ 30 := hlen c (by simp)
    simp only [List.flatten_cons, List.length_append] at hroom
    obtain ⟨t, ht, hzt⟩ := tail_step termOff c.length tail htO hz (by omega)
    have hrd := readChunk_append termOff acc tail c hc (by omega) (by omega)
    have hno0 : NoTerm (acc ++ c.map upcase) := by
      have := hno 0 (by simp)
      simpa using this
    have hb : body ((acc ++ c.map upcase) ++ (tail.drop c.length).set termOff 0) = .more := by
      rw [ht]
      exact hbody _ _ (cstrAt_append_zero _ _)
        (NoTerm_of_isPrefix ( List.takeWhile_prefix _) hno0)
    have htl : ((tail.drop c.length).set termOff 0).length = tail.length - c.length := by
      simp
    obtain ⟨hz', hl', heq⟩ := ih (acc ++ c.map upcase) ((tail.drop c.length).set termOff 0)
      (n + 1) rest (by rw [ht]; exact hzt)
      (fun c' hc' => hlen c' (by simp [hc'])) (by omega)
      (by simp only [List.length_append, List.length_map]; omega)
      (by
        intro k hk
        have := hno (k + 1) (by simpa using hk)
        simpa [List.append_assoc] using this)
    refine ⟨hz', ?_, ?_⟩
    · simp only [List.foldl_cons, List.flatten_cons, List.length_append]; omega
    · rw [List.map_cons, List.cons_append, pollLoop_some, hrd]
      simp only [hb]
      simp only [List.length_append, List.length_map] at heq
      rw [heq]
      simp [List.append_assoc, Nat.add_assoc, Nat.add_comm 1]

theorem pollLoop_last_fold {α : Type} (termOff : Nat) (body : List Nat → Verdict α)
    (onFail : List Nat → α) (htO : termOff ≤ 1)
    (hbody : ∀ m s, cstrAt m 0 = some s → NoTerm s → body m = .more)
    (chunks : List (List Nat)) (last : List Nat) (tail : List Nat)
    (rest : List (Option (List Nat)))
    (hz : ZeroTail termOff tail) (hlen : ∀ c ∈ chunks ++ [last], c.length ≤ 30)
    (hroom : (chunks ++ [last]).flatten.length + termOff < tail.length)
    (h256 : tail.length ≤ 256)
    (hno : ∀ k, k < chunks.length → NoTerm ((chunks.take (k + 1)).flatten.map upcase)) :
    (∃ t, (chunks ++ [last]).foldl (fun t c => (t.drop c.length).set termOff 0) tail =
      0 :: t) ∧
    pollLoop termOff body onFail tail 0 0 (chunks.map some ++ some last :: rest) =
      match body ((chunks ++ [last]).flatten.map upcase ++
          (chunks ++ [last]).foldl (fun t c => (t.drop c.length).set termOff 0) tail) with
      | .done a => .ret (chunks.length + 1) a
      | .fault => .undefined (chunks.length + 1)
      | .more => pollLoop termOff body onFail ((chunks ++ [last]).flatten.map upcase ++
            (chunks ++ [last]).foldl (fun t c => (t.drop c.length).set termOff 0) tail)
          ((chunks ++ [last]).flatten.length) (chunks.length + 1) rest := by
  simp only [List.flatten_append, List.flatten_cons, List.flatten_nil, List.append_nil,
    List.length_append] at hroom
  obtain ⟨hz', hl', heq⟩ := pollLoop_skip_fold termOff body onFail htO hbody chunks [] tail 0
    (some last :: rest) hz (fun c hc => hlen c (by simp [hc])) (by omega) (by simpa using h256)
    (by simpa using hno)
  simp only [List.nil_append, List.length_nil, Nat.zero_add] at heq
  have hc : last.length ≤ 30 := hlen last (by simp)
  obtain ⟨t, ht, -⟩ := tail_step termOff last.length _ htO hz' (by omega)
  have hrd := readChunk_append termOff (chunks.flatten.map upcase)
    (chunks.foldl (fun t c => (t.drop c.length).set termOff 0) tail) last hc (by omega)
    (by rw [List.length_map]; omega)
  simp only [List.length_map] at hrd
  have hflat : (chunks ++ [last]).flatten.map upcase =
      chunks.flatten.map upcase ++ last.map upcase := by
    simp [List.flatten_append, List.map_append]
  have hfold : (chunks ++ [last]).foldl (fun t c => (t.drop c.length).set termOff 0) tail =
      ((chunks.foldl (fun t c => (t.drop c.length).set termOff 0) tail).drop
        last.length).set termOff 0 := by
    rw [List.foldl_append]; rfl
  have hlenf : (chunks ++ [last]).flatten.length = chunks.flatten.length + last.length := by
    simp [List.flatten_append]
  refine ⟨⟨t, by rw [hfold]; exact ht⟩, ?_⟩
  rw [heq, pollLoop_some, hrd, hflat, hfold, hlenf]

theorem fold_zero (chunks : List (List Nat)) :
    ∀ tail : List Nat, (∀ b ∈ tail, b = 0) →
      chunks.foldl (fun t c => (t.drop c.length).set 1 0) tail =
        List.replicate (tail.length - chunks.flatten.length) 0 := by
  induction chunks with
  | nil =>
    intro tail hz
    simp only [List.foldl_nil, List.flatten_nil, List.length_nil, Nat.sub_zero]
    exact List.eq_replicate_iff.mpr ⟨rfl, hz⟩
  | cons c cs ih =>
    intro tail hz
    have hz1 : ∀ b ∈ (tail.drop c.length).set 1 0, b = 0 := by
      intro b hb
      rcases List.mem_or_eq_of_mem_set hb with h | h
      · exact hz b (List.mem_of_mem_drop h)
      · exact h
    rw [List.foldl_cons, ih _ hz1]
    simp only [List.length_set, List.length_drop, List.flatten_cons, List.length_append]
    congr 1
    omega

theorem fold_drop (chunks : List (List Nat)) :
    ∀ tail : List Nat,
      (chunks.foldl (fun t c => (t.drop c.length).set 0 0) tail).drop 1 =
        tail.drop (chunks.flatten.length + 1) := by
  induction chunks with
  | nil => intro tail; rfl
  | cons c cs ih =>
    intro tail
    rw [List.foldl_cons, ih]
    simp only [List.flatten_cons, List.length_append]
    rw [List.drop_set_of_lt 0 _ (Nat.succ_pos _), List.drop_drop]
    rfl

theorem upcase_ne_zero {b : Nat} (h : b ≠ 0) : upcase b ≠ 0 := by
  unfold upcase isalpha toupper
  split
  · rename_i ha
    split
    · omega
    · exact h
  · exact h

theorem not_mem_map_upcase {s : List Nat} (h : 0 ∉ s) : 0 ∉ s.map upcase := by
  intro hm
  obtain ⟨b, hb, hb0⟩ := List.mem_map.mp hm
  exact upcase_ne_zero (fun h0 => h (h0 ▸ hb)) hb0

theorem errBranches_more {s : List Nat} (h : errBranches s = .more) :
    ¬ lit_mac <:+: s ∧ ¬ lit_at <:+: s := by
  unfold errBranches at h
  by_cases h1 : (strstr s lit_mac).isSome = true
  · rw [if_pos h1] at h
    split at h
    · exact Verdict.noConfusion h
    · split at h <;> exact Verdict.noConfusion h
  · rw [if_neg h1] at h
    by_cases h2 : (strstr s lit_at).isSome = true
    · rw [if_pos h2] at h
      split at h
      · exact Verdict.noConfusion h
      · split at h
        · exact Verdict.noConfusion h
        · split at h <;> exact Verdict.noConfusion h
    · exact ⟨fun hm => h1 ((strstr_isSome_iff s lit_mac).mpr hm),
        fun hm => h2 ((strstr_isSome_iff s lit_at).mpr hm)⟩

theorem noTerm_of_silent {s : List Nat} (hs : successSeen s = false)
    (he : errBranches s = .more) : NoTerm s := by
  have h1 : ¬ (lit_ok <:+: s ∨ lit_ok_head <+: s) := by
    intro h
    rw [(successSeen_iff s).mpr h] at hs
    exact Bool.noConfusion hs
  exact ⟨fun h => h1 (Or.inl h), fun h => h1 (Or.inr h), (errBranches_more he).1,
    (errBranches_more he).2⟩

theorem check_body_ne_more {m s : List Nat} (hs : cstrAt m 0 = some s) (ht : ¬ NoTerm s) :
    check_body m ≠ .more := by
  intro h
  unfold check_body at h
  rw [hs] at h
  simp only [] at h
  cases hss : successSeen s with
  | true => rw [hss] at h; exact Verdict.noConfusion h
  | false =>
    rw [hss] at h
    simp only [Bool.false_eq_true, if_false] at h
    cases he : errBranches s with
    | done c => rw [he] at h; exact Verdict.noConfusion h
    | fault => rw [he] at h; exact Verdict.noConfusion h
    | more => exact ht (noTerm_of_silent hss he)

theorem get_data_body_ne_more (hex2uint : Nat → Nat) (AT_cmd : List Nat) (sizeCmd : Nat)
    (buffer : List Nat) (sizeBuf : Nat) {m s : List Nat} (hs : cstrAt m 0 = some s)
    (ht : ¬ NoTerm s) : get_data_body hex2uint AT_cmd sizeCmd buffer sizeBuf m ≠ .more := by
  intro h
  unfold get_data_body at h
  rw [hs] at h
  simp only [] at h
  cases hss : successSeen s with
  | true =>
    rw [hss] at h
    simp only [if_true] at h
    split at h <;> exact Verdict.noConfusion h
  | false =>
    rw [hss] at h
    simp only [Bool.false_eq_true, if_false] at h
    cases he : errBranches s with
    | done c => rw [he] at h; exact Verdict.noConfusion h
    | fault => rw [he] at h; exact Verdict.noConfusion h
    | more => exact ht (noTerm_of_silent hss he)

theorem get_int_data_body_ne_more (AT_cmd : List Nat) (sizeCmd res : Nat) {m s : List Nat}
    (hs : cstrAt m 0 = some s) (ht : ¬ NoTerm s) :
    get_int_data_body AT_cmd sizeCmd res m ≠ .more := by
  intro h
  unfold get_int_data_body at h
  rw [hs] at h
  simp only [] at h
  cases hss : successSeen s with
  | true =>
    rw [hss] at h
    simp only [if_true] at h
    split at h <;> exact Verdict.noConfusion h
  | false =>
    rw [hss] at h
    simp only [Bool.false_eq_true, if_false] at h
    cases he : errBranches s with
    | done c => rw [he] at h; exact Verdict.noConfusion h
    | fault => rw [he] at h; exact Verdict.noConfusion h
    | more => exact ht (noTerm_of_silent hss he)

/-- Two deliveries of the same bytes whose last read is the first to complete
a terminator end the polling loop with the same value. -/
theorem pollLoop_two_deliveries {α : Type} (termOff : Nat) (body : List Nat → Verdict α)
    (onFail : List Nat → α) (htO : termOff ≤ 1)
    (hbody : ∀ m s, cstrAt m 0 = some s → NoTerm s → body m = .more)
    (chunks1 chunks2 : List (List Nat)) (last1 last2 s tail : List Nat)
    (rest1 rest2 : List (Option (List Nat)))
    (h1 : (chunks1 ++ [last1]).flatten = s) (h2 : (chunks2 ++ [last2]).flatten = s)
    (hlen1 : ∀ c ∈ chunks1 ++ [last1], c.length ≤ 30)
    (hlen2 : ∀ c ∈ chunks2 ++ [last2], c.length ≤ 30)
    (hno1 : NoTerm (chunks1.flatten.map upcase)) (hno2 : NoTerm (chunks2.flatten.map upcase))
    (hz : ZeroTail termOff tail)
    (hroom : s.length + termOff < tail.length) (h256 : tail.length ≤ 256)
    (hmore : ∀ t, body (s.map upcase ++ 0 :: t) ≠ .more) :
    (∃ r, pollLoop termOff body onFail tail 0 0 (chunks1.map some ++ some last1 :: rest1) =
          .ret (chunks1.length + 1) r ∧
        pollLoop termOff body onFail tail 0 0 (chunks2.map some ++ some last2 :: rest2) =
          .ret (chunks2.length + 1) r) ∨
    (pollLoop termOff body onFail tail 0 0 (chunks1.map some ++ some last1 :: rest1) =
        .undefined (chunks1.length + 1) ∧
      pollLoop termOff body onFail tail 0 0 (chunks2.map some ++ some last2 :: rest2) =
        .undefined (chunks2.length + 1)) := by
  obtain ⟨⟨t1, ht1⟩, e1⟩ := pollLoop_last_fold termOff body onFail htO hbody chunks1 last1
    tail rest1 hz hlen1 (by rw [h1]; exact hroom) h256 (noTerm_take hno1)
  obtain ⟨⟨t2, ht2⟩, e2⟩ := pollLoop_last_fold termOff body onFail htO hbody chunks2 last2
    tail rest2 hz hlen2 (by rw [h2]; exact hroom) h256 (noTerm_take hno2)
  have ht : t1 = t2 := by
    rcases hz with h0 | hzero
    · subst h0
      have d1 := fold_drop (chunks1 ++ [last1]) tail
      have d2 := fold_drop (chunks2 ++ [last2]) tail
      rw [ht1, h1] at d1
      rw [ht2, h2] at d2
      simp only [List.drop_succ_cons, List.drop_zero] at d1 d2
      rw [d1, d2]
    · rcases Nat.le_one_iff_eq_zero_or_eq_one.mp htO with h0 | h1'
      · subst h0
        have d1 := fold_drop (chunks1 ++ [last1]) tail
        have d2 := fold_drop (chunks2 ++ [last2]) tail
        rw [ht1, h1] at d1
        rw [ht2, h2] at d2
        simp only [List.drop_succ_cons, List.drop_zero] at d1 d2
        rw [d1, d2]
      · subst h1'
        have f1 := fold_zero (chunks1 ++ [last1]) tail hzero
        have f2 := fold_zero (chunks2 ++ [last2]) tail hzero
        rw [ht1, h1] at f1
        rw [ht2, h2] at f2
        have := f1.trans f2.symm
        simpa using this
  rw [ht1, h1] at e1
  rw [ht2, h2, ← ht] at e2
  rw [e1, e2]
  cases hb : body (s.map upcase ++ 0 :: t1) with
  | done a => exact Or.inl ⟨a, rfl, rfl⟩
  | fault => exact Or.inr ⟨rfl, rfl⟩
  | more => exact absurd hb (hmore t1)

/-- C28 (amended): let two deliveries `chunks1 ++ [last1]` and
`chunks2 ++ [last2]` (reads of at most 30 bytes) carry the same stream `s` of
at most 198 bytes without NUL byte, such that `s` holds a terminator pattern
and in both deliveries the last read is the first that completes one.  Then
each collector ends the same way under both deliveries: it returns the same
code and outputs, or it is undefined in both.  For check_ATresponse and
get_data_ATresponse the response buffer is all NUL on entry. -/
theorem chunking_independence (chunks1 chunks2 : List (List Nat)) (last1 last2 s : List Nat)
    (rest1 rest2 : List (Option (List Nat)))
    (h1 : (chunks1 ++ [last1]).flatten = s) (h2 : (chunks2 ++ [last2]).flatten = s)
    (hlen1 : ∀ c ∈ chunks1 ++ [last1], c.length ≤ 30)
    (hlen2 : ∀ c ∈ chunks2 ++ [last2], c.length ≤ 30)
    (hno1 : NoTerm (chunks1.flatten.map upcase)) (hno2 : NoTerm (chunks2.flatten.map upcase))
    (hterm : ¬ NoTerm (s.map upcase)) (hnul : 0 ∉ s) (h198 : s.length ≤ 198) :
    ((∃ r, check_ATresponse (List.replicate 200 0) (chunks1.map some ++ some last1 :: rest1) =
          .ret (chunks1.length + 1) r ∧
        check_ATresponse (List.replicate 200 0) (chunks2.map some ++ some last2 :: rest2) =
          .ret (chunks2.length + 1) r) ∨
      (check_ATresponse (List.replicate 200 0) (chunks1.map some ++ some last1 :: rest1) =
          .undefined (chunks1.length + 1) ∧
        check_ATresponse (List.replicate 200 0) (chunks2.map some ++ some last2 :: rest2) =
          .undefined (chunks2.length + 1))) ∧
    (∀ (hex2uint : Nat → Nat) (AT_cmd : List Nat) (sizeCmd : Nat) (buffer : List Nat)
        (sizeBuf : Nat),
      (∃ r, get_data_ATresponse hex2uint AT_cmd sizeCmd buffer sizeBuf (List.replicate 200 0)
            (chunks1.map some ++ some last1 :: rest1) = .ret (chunks1.length + 1) r ∧
          get_data_ATresponse hex2uint AT_cmd sizeCmd buffer sizeBuf (List.replicate 200 0)
            (chunks2.map some ++ some last2 :: rest2) = .ret (chunks2.length + 1) r) ∨
        (get_data_ATresponse hex2uint AT_cmd sizeCmd buffer sizeBuf (List.replicate 200 0)
            (chunks1.map some ++ some last1 :: rest1) = .undefined (chunks1.length + 1) ∧
          get_data_ATresponse hex2uint AT_cmd sizeCmd buffer sizeBuf (List.replicate 200 0)
            (chunks2.map some ++ some last2 :: rest2) = .undefined (chunks2.length + 1))) ∧
    (∀ (AT_cmd : List Nat) (sizeCmd res : Nat) (response_buf : List Nat),
      response_buf.length = 200 →
      (∃ r, get_int_data_ATresponse AT_cmd sizeCmd res response_buf
            (chunks1.map some ++ some last1 :: rest1) = .ret (chunks1.length + 1) r ∧
          get_int_data_ATresponse AT_cmd sizeCmd res response_buf
            (chunks2.map some ++ some last2 :: rest2) = .ret (chunks2.length + 1) r) ∨
        (get_int_data_ATresponse AT_cmd sizeCmd res response_buf
            (chunks1.map some ++ some last1 :: rest1) = .undefined (chunks1.length + 1) ∧
          get_int_data_ATresponse AT_cmd sizeCmd res response_buf
            (chunks2.map some ++ some last2 :: rest2) = .undefined (chunks2.length + 1))) := by
  have hn := not_mem_map_upcase hnul
  refine ⟨?_, ?_, ?_⟩
  · exact pollLoop_two_deliveries 1 check_body _ (Nat.le_refl 1) check_body_more chunks1
      chunks2 last1 last2 s _ rest1 rest2 h1 h2 hlen1 hlen2 hno1 hno2 (zeroTail_replicate 200)
      (by rw [List.length_replicate]; omega) (by rw [List.length_replicate]; omega)
      (fun t => check_body_ne_more (cstrAt_of_no_nul t hn) hterm)
  · intro hex2uint AT_cmd sizeCmd buffer sizeBuf
    exact pollLoop_two_deliveries 1 (get_data_body hex2uint AT_cmd sizeCmd buffer sizeBuf) _
      (Nat.le_refl 1) (get_data_body_more hex2uint AT_cmd sizeCmd buffer sizeBuf) chunks1
      chunks2 last1 last2 s _ rest1 rest2 h1 h2 hlen1 hlen2 hno1 hno2 (zeroTail_replicate 200)
      (by rw [List.length_replicate]; omega) (by rw [List.length_replicate]; omega)
      (fun t => get_data_body_ne_more hex2uint AT_cmd sizeCmd buffer sizeBuf
        (cstrAt_of_no_nul t hn) hterm)
  · intro AT_cmd sizeCmd res response_buf hbuf
    exact pollLoop_two_deliveries 0 (get_int_data_body AT_cmd sizeCmd res) _
      (Nat.zero_le 1) (get_int_data_body_more AT_cmd sizeCmd res) chunks1
      chunks2 last1 last2 s _ rest1 rest2 h1 h2 hlen1 hlen2 hno1 hno2 (Or.inl rfl)
      (by omega) (by omega)
      (fun t => get_int_data_body_ne_more AT_cmd sizeCmd res (cstrAt_of_no_nul t hn) hterm)

set_option maxRecDepth 100000 in
/-- C28 (witness): `"-MERR:6\r\n1\r\n"` whole, and split behind `"-MERR:6"`. -/
theorem chunking_independence_witness :
    (∃ r, check_ATresponse (List.replicate 200 0)
          [some [45, 77, 69, 82, 82, 58, 54, 13, 10, 49, 13, 10]] = .ret 1 r ∧
        check_ATresponse (List.replicate 200 0)
          [some [45, 77, 69, 82, 82, 58, 54], some [13, 10, 49, 13, 10]] = .ret 2 r) ∨
      (check_ATresponse (List.replicate 200 0)
          [some [45, 77, 69, 82, 82, 58, 54, 13, 10, 49, 13, 10]] = .undefined 1 ∧
        check_ATresponse (List.replicate 200 0)
          [some [45, 77, 69, 82, 82, 58, 54], some [13, 10, 49, 13, 10]] = .undefined 2) :=
  (chunking_independence [] [[45, 77, 69, 82, 82, 58, 54]]
    [45, 77, 69, 82, 82, 58, 54, 13, 10, 49, 13, 10] [13, 10, 49, 13, 10]
    [45, 77, 69, 82, 82, 58, 54, 13, 10, 49, 13, 10] [] [] (by decide) (by decide) (by decide)
    (by decide) (by decide) (by decide) (by decide) (by decide) (by decide)).1

set_option maxRecDepth 100000 in
/-- C28 (counterexample): the stream `"\r\n1\r\n-MERR:6\r\n"` delivered in one read
makes check_ATresponse return 6; delivered as `"\r\n1\r\n"` and `"-MERR:6\r\n"` it
makes check_ATresponse return 9 on the first read, because the terminator is
complete before the label has arrived.  get_int_data_ATresponse does the same. -/
theorem code_depends_on_chunking :
    ([[13, 10, 49, 13, 10, 45, 77, 69, 82, 82, 58, 54, 13, 10]] : List (List Nat)).flatten =
      [[13, 10, 49, 13, 10], [45, 77, 69, 82, 82, 58, 54, 13, 10]].flatten ∧
    (∃ m, check_ATresponse (List.replicate 200 0)
        [some [13, 10, 49, 13, 10, 45, 77, 69, 82, 82, 58, 54, 13, 10]] = .ret 1 ⟨6, m⟩) ∧
    (∃ m, check_ATresponse (List.replicate 200 0)
        [some [13, 10, 49, 13, 10], some [45, 77, 69, 82, 82, 58, 54, 13, 10]] =
      .ret 1 ⟨9, m⟩) ∧
    (∃ m, get_int_data_ATresponse lit_AT_MEUI 7 0 (List.replicate 200 0)
        [some [13, 10, 49, 13, 10, 45, 77, 69, 82, 82, 58, 54, 13, 10]] = .ret 1 ⟨6, 0, m⟩) ∧
    (∃ m, get_int_data_ATresponse lit_AT_MEUI 7 0 (List.replicate 200 0)
        [some [13, 10, 49, 13, 10], some [45, 77, 69, 82, 82, 58, 54, 13, 10]] =
      .ret 1 ⟨9, 0, m⟩) :=
  ⟨by decide, ⟨_, rfl⟩, ⟨_, rfl⟩, ⟨_, rfl⟩, ⟨_, rfl⟩⟩

/-! # Auxiliary fields -/

theorem tail_shape (tail : List Nat) (h : tail[1]? = some 0) : ∃ g rest, tail = g :: 0 :: rest := by
  match tail, h with
  | g :: x :: rest, h =>
    simp only [List.getElem?_cons_succ, List.getElem?_cons_zero, Option.some.injEq] at h
    subst h
    exact ⟨g, rest, rfl⟩

theorem field_behind_label {acc t : List Nat} {p v x : Nat} (sfx n : List Nat)
    (hp : strstr acc n = some p) (hf : acc.drop (p + 6) = decimal v ++ x :: t)
    (hx : isdigit x = false) (hv : v < 2147483648) :
    strstr (acc ++ sfx) n = some p ∧ atoi ((acc ++ sfx).drop (p + 6)) = some (v : Int) := by
  refine ⟨strstr_append_of_some sfx n acc p hp, ?_⟩
  have hle : p + 6 ≤ acc.length := by
    by_contra hc
    rw [List.drop_eq_nil_iff.mpr (by omega)] at hf
    cases hd : decimal v with
    | nil => rw [hd] at hf; simp at hf
    | cons a b => rw [hd] at hf; simp at hf
  rw [List.drop_append_of_le_length hle, hf, List.append_assoc, List.cons_append]
  exact atoi_decimal v hv x hx (t ++ sfx)

theorem internalGetPacketCounter_value {acc rest t : List Nat} {g p v x : Nat}
    (pc : Option Nat) (hnul : 0 ∉ acc) (hp : strstr acc lit_MPCT = some p)
    (hf : acc.drop (p + 6) = decimal v ++ x :: t) (hx : isdigit x = false)
    (hv : v < 2147483648) :
    internalGetPacketCounter (acc ++ g :: 0 :: rest) pc = some (pc.map fun _ => v) := by
  obtain ⟨h1, h2⟩ := field_behind_label (if g = 0 then [] else [g]) lit_MPCT hp hf hx hv
  have hs := cstrAt_stale g rest 0 hnul (Nat.zero_le _)
  rw [List.drop_zero] at hs
  unfold internalGetPacketCounter
  rw [hs]
  cases pc with
  | none => simp only [h1, Option.map_none']
  | some c =>
    simp only [h1, h2, Option.map_some']
    congr 2
    omega

theorem internalGetPacketCounter_absent {acc rest : List Nat} (pc : Option Nat)
    (hnul : 0 ∉ acc) (hp : ¬ lit_MPCT <:+: acc) :
    internalGetPacketCounter (acc ++ 0 :: 0 :: rest) pc = some pc := by
  have hs := cstrAt_of_no_nul (0 :: rest) hnul
  unfold internalGetPacketCounter
  rw [hs]
  simp only [(strstr_eq_none_iff acc lit_MPCT).mpr hp]

theorem internalGetPacketCounter_null (m : List Nat) (r : Option Nat)
    (h : internalGetPacketCounter m none = some r) : r = none := by
  unfold internalGetPacketCounter at h
  cases hs : cstrAt m 0 with
  | none => rw [hs] at h; exact Option.noConfusion h
  | some s =>
    rw [hs] at h
    simp only [] at h
    cases hp : strstr s lit_MPCT with
    | none => rw [hp] at h; simp only [Option.some.injEq] at h; exact h.symm
    | some p => rw [hp] at h; simp only [Option.some.injEq] at h; exact h.symm

theorem get_MSTA_value {acc rest t : List Nat} {g p v x : Nat}
    (MSTA : Nat) (hnul : 0 ∉ acc) (hp : strstr acc lit_MSTA = some p)
    (hf : acc.drop (p + 6) = decimal v ++ x :: t) (hx : isdigit x = false)
    (hv : v ≤ 255) :
    get_MSTA (acc ++ g :: 0 :: rest) MSTA = some v := by
  obtain ⟨h1, h2⟩ := field_behind_label (if g = 0 then [] else [g]) lit_MSTA hp hf hx
    (by omega)
  have hs := cstrAt_stale g rest 0 hnul (Nat.zero_le _)
  rw [List.drop_zero] at hs
  unfold get_MSTA
  rw [hs]
  simp only [h1, h2]
  congr 1
  omega

theorem get_MSTA_absent {acc rest : List Nat} (MSTA : Nat)
    (hnul : 0 ∉ acc) (hp : ¬ lit_MSTA <:+: acc) :
    get_MSTA (acc ++ 0 :: 0 :: rest) MSTA = some MSTA := by
  have hs := cstrAt_of_no_nul (0 :: rest) hnul
  unfold get_MSTA
  rw [hs]
  simp only [(strstr_eq_none_iff acc lit_MSTA).mpr hp]

/-- The buffer check_ATresponse or get_data_ATresponse leaves when it returns OK:
the received bytes, one byte that was in the buffer before (0 when the buffer
was all NUL), the terminator. -/
theorem ok_state {α : Type} (body : List Nat → Verdict α) (onFail : List Nat → α)
    (buf : α → List Nat) (code : α → Int)
    (hb : ∀ m a, body m = .done a → buf a = m) (hf : ∀ m, buf (onFail m) = m)
    (hfc : ∀ m, code (onFail m) ≠ MIOTYATCLIENT_RETURN_CODE_OK)
    (response_buf : List Nat) (script : List (Option (List Nat))) (n : Nat) (r : α)
    (hlen : response_buf.length = 200)
    (h : pollLoop 1 body onFail response_buf 0 0 script = .ret n r)
    (hok : code r = MIOTYATCLIENT_RETURN_CODE_OK) :
    ∃ g rest, buf r = (received script n).map upcase ++ g :: 0 :: rest ∧
      ((∀ b ∈ response_buf, b = 0) → g = 0) := by
  obtain ⟨tail', hbuf, -, hz, hres⟩ := collector_state 1 body onFail buf (Nat.le_refl 1) hb hf
    response_buf script n r hlen h
  rcases hres with ⟨-, ht⟩ | hfl
  · obtain ⟨g, rest, rfl⟩ := tail_shape tail' ht
    refine ⟨g, rest, hbuf, fun hzero => ?_⟩
    rcases hz (Or.inr hzero) with h0 | hall
    · exact absurd h0 (by decide)
    · exact hall g (by simp)
  · rw [hfl] at hok
    exact absurd hok (hfc _)

theorem checkATresponseMsg_ok (packetCounter : Option Nat) (response_buf : List Nat)
    (script : List (Option (List Nat))) (n : Nat) (r : SendResult)
    (h : checkATresponseMsg packetCounter response_buf script = .ret n r)
    (hok : r.code = MIOTYATCLIENT_RETURN_CODE_OK) :
    ∃ r0, check_ATresponse response_buf script = .ret n r0 ∧
      r0.code = MIOTYATCLIENT_RETURN_CODE_OK ∧
      internalGetPacketCounter r0.response_buf packetCounter = some r.packetCounter := by
  unfold checkATresponseMsg at h
  split at h
  · rename_i k c hget
    split at h
    · rename_i hc
      simp only [Outcome.ret.injEq] at h
      rw [← h.2] at hok
      exact absurd hok hc
    · rename_i hc
      simp only [ne_eq, not_not] at hc
      split at h
      · simp at h
      · rename_i pc hpc
        simp only [Outcome.ret.injEq] at h
        refine ⟨c, by rw [← h.1]; exact hget, hc, ?_⟩
        rw [hpc, ← h.2]
  · simp at h
  · simp at h

theorem bidiTail_ok (hex2uint : Nat → Nat) (AT_cmd : List Nat) (sizeCmd : Nat)
    (data : List Nat) (size_data : Nat) (packetCounter : Option Nat) (response_buf : List Nat)
    (script : List (Option (List Nat))) (n : Nat) (r : BidiResult)
    (h : bidiTail hex2uint AT_cmd sizeCmd data size_data packetCounter response_buf script =
      .ret n r) (hok : r.code = MIOTYATCLIENT_RETURN_CODE_OK) :
    ∃ r0, get_data_ATresponse hex2uint AT_cmd sizeCmd data size_data response_buf script =
        .ret n r0 ∧ r0.code = MIOTYATCLIENT_RETURN_CODE_OK ∧
      internalGetPacketCounter r0.response_buf packetCounter = some r.packetCounter := by
  unfold bidiTail at h
  split at h
  · rename_i k c hget
    split at h
    · rename_i hc
      simp only [Outcome.ret.injEq] at h
      rw [← h.2] at hok
      exact absurd hok hc
    · rename_i hc
      simp only [ne_eq, not_not] at hc
      split at h
      · simp at h
      · rename_i pc hpc
        simp only [Outcome.ret.injEq] at h
        refine ⟨c, by rw [← h.1]; exact hget, hc, ?_⟩
        rw [hpc, ← h.2]
  · simp at h
  · simp at h

theorem attachTail_ok (MSTA : Nat) (response_buf : List Nat)
    (script : List (Option (List Nat))) (n : Nat) (r : AttachResult)
    (h : attachTail MSTA response_buf script = .ret n r)
    (hok : r.code = MIOTYATCLIENT_RETURN_CODE_OK) :
    ∃ r0, check_ATresponse response_buf script = .ret n r0 ∧
      r0.code = MIOTYATCLIENT_RETURN_CODE_OK ∧
      get_MSTA r0.response_buf MSTA = some r.MSTA := by
  unfold attachTail at h
  split at h
  · rename_i k c hget
    split at h
    · rename_i hc
      simp only [Outcome.ret.injEq] at h
      rw [← h.2] at hok
      exact absurd hok hc
    · rename_i hc
      simp only [ne_eq, not_not] at hc
      split at h
      · simp at h
      · rename_i pc hpc
        simp only [Outcome.ret.injEq] at h
        refine ⟨c, by rw [← h.1]; exact hget, hc, ?_⟩
        rw [hpc, ← h.2]
  · simp at h
  · simp at h

/-- What internalGetPacketCounter makes of the buffer a collector left with OK. -/
theorem packetCounter_stored {acc rest response_buf : List Nat} {g : Nat}
    (pc out : Option Nat) (hnul : 0 ∉ acc)
    (hg : (∀ b ∈ response_buf, b = 0) → g = 0)
    (h : internalGetPacketCounter (acc ++ g :: 0 :: rest) pc = some out) :
    FieldStored lit_MPCT acc response_buf 2147483648 pc out := by
  refine ⟨fun p v x t hp hf hx hv => ?_, fun hp hz => ?_, fun hn => ?_⟩
  · rw [internalGetPacketCounter_value pc hnul hp hf hx hv] at h
    exact (Option.some.inj h).symm
  · rw [hg hz, internalGetPacketCounter_absent pc hnul hp] at h
    exact (Option.some.inj h).symm
  · subst hn
    exact internalGetPacketCounter_null _ _ h

/-- What get_MSTA makes of the buffer check_ATresponse left with OK. -/
theorem MSTA_stored {acc rest response_buf : List Nat} {g : Nat}
    (MSTA out : Nat) (hnul : 0 ∉ acc)
    (hg : (∀ b ∈ response_buf, b = 0) → g = 0)
    (h : get_MSTA (acc ++ g :: 0 :: rest) MSTA = some out) :
    FieldStored lit_MSTA acc response_buf 256 (some MSTA) (some out) := by
  refine ⟨fun p v x t hp hf hx hv => ?_, fun hp hz => ?_, fun hn => ?_⟩
  · rw [get_MSTA_value MSTA hnul hp hf hx (by omega)] at h
    rw [Option.some.inj h]
    rfl
  · rw [hg hz, get_MSTA_absent MSTA hnul hp] at h
    rw [Option.some.inj h]
  · exact Option.noConfusion hn

theorem check_ok_state (response_buf : List Nat) (script : List (Option (List Nat)))
    (n : Nat) (r : CheckResult) (hlen : response_buf.length = 200)
    (h : check_ATresponse response_buf script = .ret n r)
    (hok : r.code = MIOTYATCLIENT_RETURN_CODE_OK) :
    ∃ g rest, r.response_buf = (received script n).map upcase ++ g :: 0 :: rest ∧
      ((∀ b ∈ response_buf, b = 0) → g = 0) :=
  ok_state check_body (fun m => ⟨MIOTYATCLIENT_RETURN_CODE_ATReadFailed, m⟩)
    (fun a => a.response_buf) (fun a => a.code) check_body_buf (fun _ => rfl)
    (fun _ => show (23 : Int) ≠ 0 by decide) response_buf script n r hlen h hok

theorem get_data_ok_state (hex2uint : Nat → Nat) (AT_cmd : List Nat) (sizeCmd : Nat)
    (buffer : List Nat) (sizeBuf : Nat) (response_buf : List Nat)
    (script : List (Option (List Nat)))
    (n : Nat) (r : DataResult) (hlen : response_buf.length = 200)
    (h : get_data_ATresponse hex2uint AT_cmd sizeCmd buffer sizeBuf response_buf script =
      .ret n r)
    (hok : r.code = MIOTYATCLIENT_RETURN_CODE_OK) :
    ∃ g rest, r.response_buf = (received script n).map upcase ++ g :: 0 :: rest ∧
      ((∀ b ∈ response_buf, b = 0) → g = 0) :=
  ok_state (get_data_body hex2uint AT_cmd sizeCmd buffer sizeBuf)
    (fun m => ⟨MIOTYATCLIENT_RETURN_CODE_ATReadFailed, buffer, sizeBuf, m⟩)
    (fun a => a.response_buf) (fun a => a.code)
    (get_data_body_buf hex2uint AT_cmd sizeCmd buffer sizeBuf) (fun _ => rfl)
    (fun _ => show (23 : Int) ≠ 0 by decide) response_buf script n r hlen h hok

theorem checkATresponseMsg_stored (pc : Option Nat) (response_buf : List Nat)
    (script : List (Option (List Nat))) (n : Nat) (r : SendResult)
    (hlen : response_buf.length = 200) (hnul : 0 ∉ (received script n).map upcase)
    (h : checkATresponseMsg pc response_buf script = .ret n r)
    (hok : r.code = MIOTYATCLIENT_RETURN_CODE_OK) :
    FieldStored lit_MPCT ((received script n).map upcase) response_buf 2147483648 pc
      r.packetCounter := by
  obtain ⟨r0, h0, hok0, hpc⟩ := checkATresponseMsg_ok pc response_buf script n r h hok
  obtain ⟨g, rest, hbuf, hg⟩ := check_ok_state response_buf script n r0 hlen h0 hok0
  rw [hbuf] at hpc
  exact packetCounter_stored pc _ hnul hg hpc

theorem bidiTail_stored (hex2uint : Nat → Nat) (AT_cmd : List Nat) (sizeCmd : Nat)
    (data : List Nat) (size_data : Nat) (pc : Option Nat) (response_buf : List Nat)
    (script : List (Option (List Nat))) (n : Nat) (r : BidiResult)
    (hlen : response_buf.length = 200) (hnul : 0 ∉ (received script n).map upcase)
    (h : bidiTail hex2uint AT_cmd sizeCmd data size_data pc response_buf script = .ret n r)
    (hok : r.code = MIOTYATCLIENT_RETURN_CODE_OK) :
    FieldStored lit_MPCT ((received script n).map upcase) response_buf 2147483648 pc
      r.packetCounter := by
  obtain ⟨r0, h0, hok0, hpc⟩ := bidiTail_ok hex2uint AT_cmd sizeCmd data size_data pc
    response_buf script n r h hok
  obtain ⟨g, rest, hbuf, hg⟩ := get_data_ok_state hex2uint AT_cmd sizeCmd data size_data
    response_buf script n r0 hlen h0 hok0
  rw [hbuf] at hpc
  exact packetCounter_stored pc _ hnul hg hpc

theorem attachTail_stored (MSTA : Nat) (response_buf : List Nat)
    (script : List (Option (List Nat))) (n : Nat) (r : AttachResult)
    (hlen : response_buf.length = 200) (hnul : 0 ∉ (received script n).map upcase)
    (h : attachTail MSTA response_buf script = .ret n r)
    (hok : r.code = MIOTYATCLIENT_RETURN_CODE_OK) :
    FieldStored lit_MSTA ((received script n).map upcase) response_buf 256 (some MSTA)
      (some r.MSTA) := by
  obtain ⟨r0, h0, hok0, hpc⟩ := attachTail_ok MSTA response_buf script n r h hok
  obtain ⟨g, rest, hbuf, hg⟩ := check_ok_state response_buf script n r0 hlen h0 hok0
  rw [hbuf] at hpc
  exact MSTA_stored MSTA _ hnul hg hpc

/-- C21 (amended): let a message-send or attach/detach operation return code
OK after `n` reads, `response_buf` being 200 bytes and no NUL among the bytes
received in those reads, and let `acc` be those bytes upper-cased.  If
`"-MPCT:"` (for the six sends) or `"-MSTA:"` (for the four attach/detach
operations) first occurs in `acc` at `p` and is followed by the decimal
digits of `v` and a non-digit byte, the output is `v` (for `v < 2^31`, resp.
`v < 256`; a NULL `packetCounter` stays NULL).  If the label does not occur in
`acc` and `response_buf` was all NUL at the call, the output is unchanged.  A
NULL `packetCounter` is never written through.  The same is stated of the code
these operations run behind the write of the frame, taken by itself:
checkATresponseMsg, the tail of the bi-directional sends and the tail of the
attach and detach operations. -/
theorem aux_fields_stored (response_buf : List Nat) (hbuf : response_buf.length = 200)
    (script : List (Option (List Nat))) (n : Nat)
    (hnul : 0 ∉ (received script n).map upcase) :
    (∀ (nibble2hex : Nat → Nat) (u : Uninit) (msg : List Nat) (sizeMsg : Nat)
        (packetCounter : Option Nat) (call : Call SendResult) (r : SendResult),
      (miotyAtClient_sendMessageUniTransparent nibble2hex u msg sizeMsg packetCounter
          response_buf script = some call ∨
        miotyAtClient_sendMessageUniMPF nibble2hex u msg sizeMsg packetCounter
          response_buf script = some call ∨
        miotyAtClient_sendMessageUni nibble2hex u msg sizeMsg packetCounter
          response_buf script = some call) →
      call.outcome = .ret n r → r.code = MIOTYATCLIENT_RETURN_CODE_OK →
      FieldStored lit_MPCT ((received script n).map upcase) response_buf 2147483648
        packetCounter r.packetCounter) ∧
    (∀ (nibble2hex hex2uint : Nat → Nat) (u : Uninit) (msg : List Nat) (sizeMsg : Nat)
        (data : List Nat) (size_data : Nat) (packetCounter : Option Nat)
        (call : Call BidiResult) (r : BidiResult),
      (miotyAtClient_sendMessageBidiTransparent nibble2hex hex2uint u msg sizeMsg data
          size_data packetCounter response_buf script = some call ∨
        miotyAtClient_sendMessageBidiMPF nibble2hex hex2uint u msg sizeMsg data
          size_data packetCounter response_buf script = some call ∨
        miotyAtClient_sendMessageBidi nibble2hex hex2uint u msg sizeMsg data
          size_data packetCounter response_buf script = some call) →
      call.outcome = .ret n r → r.code = MIOTYATCLIENT_RETURN_CODE_OK →
      FieldStored lit_MPCT ((received script n).map upcase) response_buf 2147483648
        packetCounter r.packetCounter) ∧
    (∀ (nibble2hex : Nat → Nat) (u : Uninit) (data : List Nat) (sizeData : Nat) (MSTA : Nat)
        (call : Call AttachResult) (r : AttachResult),
      (miotyAtClient_macDetach nibble2hex u data sizeData MSTA response_buf script =
          some call ∨
        miotyAtClient_macAttach nibble2hex u data MSTA response_buf script = some call ∨
        miotyAtClient_macAttachLocal MSTA response_buf script = call ∨
        miotyAtClient_macDetachLocal MSTA response_buf script = call) →
      call.outcome = .ret n r → r.code = MIOTYATCLIENT_RETURN_CODE_OK →
      FieldStored lit_MSTA ((received script n).map upcase) response_buf 256 (some MSTA)
        (some r.MSTA)) ∧
    (∀ (packetCounter : Option Nat) (r : SendResult),
      checkATresponseMsg packetCounter response_buf script = .ret n r →
      r.code = MIOTYATCLIENT_RETURN_CODE_OK →
      FieldStored lit_MPCT ((received script n).map upcase) response_buf 2147483648
        packetCounter r.packetCounter) ∧
    (∀ (hex2uint : Nat → Nat) (AT_cmd : List Nat) (sizeCmd : Nat) (data : List Nat)
        (size_data : Nat) (packetCounter : Option Nat) (r : BidiResult),
      bidiTail hex2uint AT_cmd sizeCmd data size_data packetCounter response_buf script =
        .ret n r → r.code = MIOTYATCLIENT_RETURN_CODE_OK →
      FieldStored lit_MPCT ((received script n).map upcase) response_buf 2147483648
        packetCounter r.packetCounter) ∧
    (∀ (MSTA : Nat) (r : AttachResult),
      attachTail MSTA response_buf script = .ret n r →
      r.code = MIOTYATCLIENT_RETURN_CODE_OK →
      FieldStored lit_MSTA ((received script n).map upcase) response_buf 256 (some MSTA)
        (some r.MSTA)) := by
  refine ⟨?_, ?_, ?_,
    fun packetCounter r h hok =>
      checkATresponseMsg_stored packetCounter response_buf script n r hbuf hnul h hok,
    fun hex2uint AT_cmd sizeCmd data size_data packetCounter r h hok =>
      bidiTail_stored hex2uint AT_cmd sizeCmd data size_data packetCounter response_buf script
        n r hbuf hnul h hok,
    fun MSTA r h hok => attachTail_stored MSTA response_buf script n r hbuf hnul h hok⟩
  · intro nibble2hex u msg sizeMsg packetCounter call r hcall hout hok
    have : call.outcome = checkATresponseMsg packetCounter response_buf script := by
      rcases hcall with h | h | h <;> exact call_outcome_of_map h
    rw [this] at hout
    exact checkATresponseMsg_stored packetCounter response_buf script n r hbuf hnul hout hok
  · intro nibble2hex hex2uint u msg sizeMsg data size_data packetCounter call r hcall hout hok
    rcases hcall with h | h | h
    · rw [call_outcome_of_map h] at hout
      exact bidiTail_stored _ _ _ _ _ _ _ _ n r hbuf hnul hout hok
    · rw [call_outcome_of_map h] at hout
      exact bidiTail_stored _ _ _ _ _ _ _ _ n r hbuf hnul hout hok
    · rw [call_outcome_of_map h] at hout
      exact bidiTail_stored _ _ _ _ _ _ _ _ n r hbuf hnul hout hok
  · intro nibble2hex u data sizeData MSTA call r hcall hout hok
    have : call.outcome = attachTail MSTA response_buf script := by
      rcases hcall with h | h | h | h
      · exact call_outcome_of_map h
      · exact call_outcome_of_map h
      · rw [← h]; rfl
      · rw [← h]; rfl
    rw [this] at hout
    exact attachTail_stored MSTA response_buf script n r hbuf hnul hout hok

set_option maxRecDepth 100000 in
/-- C21 (witness): miotyAtClient_macAttachLocal with `*MSTA = 9`, an all-NUL
`response_buf` and the reply `"\r\n0\r\n-MSTA:3\r\n"` in one read returns OK
with `*MSTA = 3`. -/
theorem aux_fields_stored_witness :
    (List.replicate 200 0).length = 200 ∧
    0 ∉ (received [some [13, 10, 48, 13, 10, 45, 77, 83, 84, 65, 58, 51, 13, 10]] 1).map
      upcase ∧
    (miotyAtClient_macAttachLocal 9 (List.replicate 200 0)
      [some [13, 10, 48, 13, 10, 45, 77, 83, 84, 65, 58, 51, 13, 10]]).outcome =
      .ret 1 ⟨MIOTYATCLIENT_RETURN_CODE_OK, 3⟩ ∧
    FieldStored lit_MSTA
      ((received [some [13, 10, 48, 13, 10, 45, 77, 83, 84, 65, 58, 51, 13, 10]] 1).map upcase)
      (List.replicate 200 0) 256 (some 9) (some 3) :=
  ⟨by decide, by decide, by rfl,
   (aux_fields_stored (List.replicate 200 0) (by decide)
      [some [13, 10, 48, 13, 10, 45, 77, 83, 84, 65, 58, 51, 13, 10]] 1 (by decide)).2.2.1
     (fun _ => 0) ⟨fun _ => 0, fun _ => 0⟩ [] 0 9 _ ⟨MIOTYATCLIENT_RETURN_CODE_OK, 3⟩
     (Or.inr (Or.inr (Or.inl rfl))) (by rfl) rfl⟩

set_option maxRecDepth 100000 in
/-- C21 (counterexample): the reply `"\r\n0\r\n" ++ [0] ++ "-MPCT:5\r\n"` in one
read: checkATresponseMsg returns OK, the accumulated reply holds `"-MPCT:"`
at offset 6 followed by the digit of 5 and a carriage return, and
`*packetCounter` is still 7. -/
theorem packet_counter_behind_nul :
    checkATresponseMsg (some 7) (List.replicate 200 0)
      [some [13, 10, 48, 13, 10, 0, 45, 77, 80, 67, 84, 58, 53, 13, 10]] =
      .ret 1 ⟨MIOTYATCLIENT_RETURN_CODE_OK, some 7⟩ ∧
    strstr ((received [some [13, 10, 48, 13, 10, 0, 45, 77, 80, 67, 84, 58, 53, 13, 10]] 1).map
      upcase) lit_MPCT = some 6 ∧
    ((received [some [13, 10, 48, 13, 10, 0, 45, 77, 80, 67, 84, 58, 53, 13, 10]] 1).map
      upcase).drop (6 + 6) = decimal 5 ++ 13 :: [10] ∧
    isdigit 13 = false := by
  refine ⟨by rfl, by rfl, ?_, by rfl⟩
  have h5 : decimal 5 = [53] := by simp [decimal]
  rw [h5]
  rfl

/-! # Byte payloads -/

theorem window_at_end (B : List Nat) (hB13 : 13 ∉ B) (p x : List Nat) (g d : Nat)
    (hp : p <+: B ++ lit_ok) (hne : p ≠ B ++ lit_ok)
    (hx : x ++ [13, 10, d, 13, 10] = p ++ [g]) : p ++ [g] = B ++ lit_ok := by
  have hsplit : x ++ [13, 10, d, 13] ++ [10] = p ++ [g] := by rw [← hx]; simp
  obtain ⟨h1, h2⟩ := List.append_inj' hsplit rfl
  simp only [List.cons.injEq, and_true] at h2
  obtain ⟨z, hz⟩ := hp
  cases z with
  | nil => simp at hz; exact absurd hz hne
  | cons z0 z =>
    have h : x ++ (13 :: [10, d, 13, z0]) ++ z = B ++ lit_ok := by
      rw [← hz, ← h1]; simp
    obtain ⟨-, hw, hzn⟩ := cr_occurrence_unique B hB13 x _ z h rfl
    simp only [lit_ok, List.cons.injEq, and_true, true_and] at hw
    subst hzn
    rw [← hz, ← h2, hw.2]

/-- A proper prefix of `B ++ "\r\n0\r\n"` (no carriage return in `B`) followed by
one more byte holds no terminator unless it is the whole of it. -/
theorem stale_term_or_full (B p : List Nat) (g : Nat) (hB13 : 13 ∉ B)
    (hB0 : ∃ b B', B = b :: B' ∧ b ≠ 48) (hp : p <+: B ++ lit_ok) (hne : p ≠ B ++ lit_ok)
    (hpne : p ≠ []) : NoTerm (p ++ [g]) ∨ p ++ [g] = B ++ lit_ok := by
  have hNT := noTerm_of_properPrefix B p hB13 hB0 hp hne
  by_cases hfull : p ++ [g] = B ++ lit_ok
  · exact Or.inr hfull
  refine Or.inl ⟨?_, ?_, ?_, ?_⟩
  · intro h
    rcases List.infix_concat_iff.mp h with ⟨x, hx⟩ | h
    · exact hfull (window_at_end B hB13 p x g 48 hp hne hx)
    · exact hNT.1 h
  · rintro ⟨y, hy⟩
    obtain ⟨b, B', hB, hb⟩ := hB0
    subst hB
    obtain ⟨z, hz⟩ := hp
    cases p with
    | nil => exact hpne rfl
    | cons c p =>
      simp only [lit_ok_head, List.cons_append, List.cons.injEq] at hy hz
      exact hb (hz.1.symm.trans hy.1.symm)
  · intro h
    rcases List.infix_concat_iff.mp h with ⟨x, hx⟩ | h
    · have := window_at_end B hB13 p x g 49 hp hne hx
      exact hfull this
    · exact hNT.2.2.1 h
  · intro h
    rcases List.infix_concat_iff.mp h with ⟨x, hx⟩ | h
    · exact hfull (window_at_end B hB13 p x g 50 hp hne hx)
    · exact hNT.2.2.2 h

theorem strstr_sub_cr (h rest : List Nat) (h26 : 26 ∉ h) :
    strstr (h ++ 26 :: 13 :: rest) lit_sub_cr = some h.length := by
  induction h with
  | nil => simp [strstr, lit_sub_cr, List.isPrefixOf]
  | cons c cs ih =>
    have hc : c ≠ 26 := fun e => h26 (by simp [e])
    have hcs : 26 ∉ cs := fun e => h26 (by simp [e])
    have hne : (26 == c) = false := by
      simp only [beq_eq_false_iff_ne, ne_eq]
      exact fun e => hc e.symm
    rw [List.cons_append, strstr_cons, ih hcs]
    simp [lit_sub_cr, List.isPrefixOf, hne]

theorem decimal_one_digit (n : Nat) (h : n < 10) : decimal n = [48 + n] := by
  unfold decimal
  by_cases h0 : n = 0
  · simp [h0]
  · rw [if_neg h0, Nat.digits_of_lt 10 n h0 h]
    simp [Nat.add_comm]

theorem decimal_two_digits (n : Nat) (h1 : 10 ≤ n) (h2 : n < 100) :
    decimal n = [48 + n / 10, 48 + n % 10] := by
  unfold decimal
  rw [if_neg (by omega), Nat.digits_def' (by omega) (by omega),
    Nat.digits_of_lt 10 (n / 10) (by omega) (by omega)]
  simp [Nat.add_comm]

theorem char_hex2uint_upcase (c : Nat) (h : isHexDigit c = true) :
    char_hex2uint (upcase c) = char_hex2uint c := by
  simp only [isHexDigit, Bool.or_eq_true, Bool.and_eq_true, decide_eq_true_eq] at h
  have hc : c ≤ 102 := by omega
  clear h
  revert c
  decide

theorem isHexDigit_upcase (c : Nat) (h : isHexDigit c = true) :
    isHexDigit (upcase c) = true ∧ upcase c ≠ 0 ∧ upcase c ≠ 13 ∧ upcase c ≠ 26 := by
  have hc : c ≤ 102 := by
    simp only [isHexDigit, Bool.or_eq_true, Bool.and_eq_true, decide_eq_true_eq] at h
    omega
  revert h
  revert c
  decide

theorem hexPairs_map_upcase :
    ∀ (n : Nat) (H : List Nat), H.length ≤ n → (∀ c ∈ H, isHexDigit c = true) →
      hexPairs char_hex2uint (H.map upcase) = hexPairs char_hex2uint H := by
  intro n
  induction n with
  | zero =>
    intro H hl _
    have : H = [] := List.eq_nil_of_length_eq_zero (by omega)
    subst this; rfl
  | succ n ih =>
    intro H hl hd
    match H, hl, hd with
    | [], _, _ => rfl
    | [a], _, _ => rfl
    | a :: b :: t, hl, hd =>
      simp only [List.map_cons, hexPairs]
      rw [char_hex2uint_upcase a (hd a (by simp)), char_hex2uint_upcase b (hd b (by simp)),
        ih t (by simp at hl; omega) (fun c hc => hd c (by simp [hc]))]

theorem bytePayloadMnemonics_tags :
    ∀ M ∈ bytePayloadMnemonics, 2 ≤ M.length ∧ M.length ≤ 7 ∧
      (∀ b ∈ M.drop 2, upcase b = b ∧ b ≠ 0 ∧ b ≠ 13) ∧
      (∃ b T, M.drop 2 = b :: T ∧ b ≠ 48) := by
  intro M hM
  simp only [bytePayloadMnemonics, List.mem_cons, List.mem_singleton, List.not_mem_nil,
    or_false] at hM
  rcases hM with h | h | h | h | h | h <;> subst h <;>
    exact ⟨by decide, by decide, by decide, _, _, rfl, by decide⟩

/-- A polling loop with terminator offset 1 over reads that all arrive: if
after every read the body either returns a value with property `P` or, not
being the last, asks for more, whatever byte follows the received ones, the
loop returns a value with property `P`. -/
theorem pollLoop_until {α : Type} (body : List Nat → Verdict α) (onFail : List Nat → α)
    (P : α → Prop) (chunks : List (List Nat)) :
    ∀ (acc tail : List Nat) (n : Nat) (rest : List (Option (List Nat))),
      chunks ≠ [] → (∀ c ∈ chunks, c.length ≤ 30) →
      chunks.flatten.length + 1 < tail.length → acc.length + tail.length ≤ 256 →
      (∀ k, k < chunks.length → ∀ g rest',
        (∃ a, body (acc ++ (chunks.take (k + 1)).flatten.map upcase ++ g :: 0 :: rest') =
          .done a ∧ P a) ∨
        (k + 1 < chunks.length ∧
          body (acc ++ (chunks.take (k + 1)).flatten.map upcase ++ g :: 0 :: rest') = .more)) →
      ∃ k a, pollLoop 1 body onFail (acc ++ tail) acc.length n (chunks.map some ++ rest) =
        .ret k a ∧ P a := by
  induction chunks with
  | nil => intro acc tail n rest hne; exact absurd rfl hne
  | cons c cs ih =>
    intro acc tail n rest _ hlen hroom h256 hstep
    simp only [List.flatten_cons, List.length_append] at hroom
    have hc : c.length ≤ 30 := hlen c (by simp)
    have hrd := readChunk_append 1 acc tail c hc (by omega) (by omega)
    obtain ⟨g, rest', hshape⟩ : ∃ g rest', (tail.drop c.length).set 1 0 = g :: 0 :: rest' := by
      have hl : 2 ≤ (tail.drop c.length).length := by rw [List.length_drop]; omega
      match hd : tail.drop c.length, hl with
      | g :: x :: r, _ => exact ⟨g, r, rfl⟩
    rw [hshape] at hrd
    rw [List.map_cons, List.cons_append, pollLoop_some, hrd]
    have h0 := hstep 0 (by simp) g rest'
    simp only [Nat.zero_add, List.take_succ_cons, List.take_zero, List.flatten_cons,
      List.flatten_nil, List.append_nil] at h0
    rcases h0 with ⟨a, ha, hP⟩ | ⟨hlt, hmore⟩
    · simp only [ha]
      exact ⟨n + 1, a, rfl, hP⟩
    · simp only [hmore]
      simp only [List.length_cons, Nat.add_lt_add_iff_right] at hlt
      have hcs : cs ≠ [] := by
        intro e; subst e; simp at hlt
      have hlen2 : (tail.drop c.length).length = tail.length - c.length := List.length_drop _ _
      have hlen3 : (g :: 0 :: rest').length = tail.length - c.length := by
        rw [← hshape, List.length_set, hlen2]
      have := ih (acc ++ c.map upcase) (g :: 0 :: rest') (n + 1) rest hcs
        (fun x hx => hlen x (by simp [hx])) (by rw [hlen3]; omega)
        (by rw [hlen3]; simp only [List.length_append, List.length_map]; omega)
        (fun k hk g1 r1 => by
          have := hstep (k + 1) (by simp; omega) g1 r1
          simp only [List.take_succ_cons, List.flatten_cons, List.map_append,
            List.length_cons, Nat.add_lt_add_iff_right] at this
          simp only [List.append_assoc] at this ⊢
          exact this)
      simp only [List.length_append, List.length_map] at this
      exact this

theorem extract_data_payload (M P Hup Y sfx X buffer : List Nat) (sizeBuf n c : Nat)
    (hM2 : 2 ≤ M.length) (hT : M.drop 2 <+: P)
    (hc : (P ++ (Hup ++ 26 :: 13 :: (Y ++ X)))[M.length]? = some c)
    (hpos : (if c ≠ 9 then M.length + 1 else M.length) + 1 = P.length)
    (hcs : cstrAt (P ++ (Hup ++ 26 :: 13 :: (Y ++ X))) P.length =
      some (Hup ++ 26 :: 13 :: (Y ++ sfx)))
    (h26 : 26 ∉ Hup) (hlen : Hup.length = 2 * n) (hn : n ≤ 99) (hcap : n ≤ buffer.length) :
    extract_data char_hex2uint M M.length buffer sizeBuf (P ++ (Hup ++ 26 :: 13 :: (Y ++ X)))
      (P ++ (Hup ++ 26 :: 13 :: (Y ++ sfx))) =
      some (hexPairs char_hex2uint Hup ++ buffer.drop n, n) := by
  have hst : strstr (P ++ (Hup ++ 26 :: 13 :: (Y ++ sfx))) (M.drop 2) = some 0 :=
    (strstr_eq_zero_iff _ _).mpr (hT.trans ⟨_, rfl⟩)
  have e1 : 2 * n % 256 = 2 * n := by omega
  have e2 : 2 * n / 2 % 256 = n := by omega
  have hdrop : (P ++ (Hup ++ 26 :: 13 :: (Y ++ X))).drop P.length =
      Hup ++ 26 :: 13 :: (Y ++ X) := List.drop_left _ _
  have hloop := hex2byteLoop_pairs char_hex2uint n [] Hup (26 :: 13 :: (Y ++ X)) []
    (buffer.take n) (buffer.drop n) hlen (fun c _ => char_hex2uint_lt c) rfl
    (by rw [List.length_take]; omega)
  simp only [List.nil_append, List.length_nil, List.take_append_drop] at hloop
  have hg : ¬ (n < 2 * n / 2 ∨ 2 * n % 2 = 1) := by omega
  have hhex : string_hex2byteArray char_hex2uint (Hup ++ 26 :: 13 :: (Y ++ X)) (2 * n) buffer n =
      some (1, hexPairs char_hex2uint Hup ++ buffer.drop n) := by
    unfold string_hex2byteArray
    rw [if_neg hg, hloop]
  unfold extract_data
  rw [if_neg (by omega)]
  simp only [hst, Nat.zero_add, hc, hpos, hcs, strstr_sub_cr Hup (Y ++ sfx) h26, hlen, e1, e2,
    hdrop, hhex, Option.map_some']

theorem get_data_body_payload (M : List Nat) (hM : M ∈ bytePayloadMnemonics) (n : Nat)
    (hn : n ≤ 99) (Hup X sfx buffer : List Nat) (sizeBuf : Nat)
    (h26 : 26 ∉ Hup) (hlen : Hup.length = 2 * n) (hcap : n ≤ buffer.length)
    (hcs : ∀ p, p ≤ (M.drop 2 ++ [58] ++ decimal n ++ [9] ++ Hup ++ [26] ++ lit_ok).length →
      cstrAt (M.drop 2 ++ [58] ++ decimal n ++ [9] ++ Hup ++ [26] ++ lit_ok ++ X) p =
        some ((M.drop 2 ++ [58] ++ decimal n ++ [9] ++ Hup ++ [26] ++ lit_ok).drop p ++ sfx)) :
    get_data_body char_hex2uint M M.length buffer sizeBuf
        (M.drop 2 ++ [58] ++ decimal n ++ [9] ++ Hup ++ [26] ++ lit_ok ++ X) =
      .done ⟨MIOTYATCLIENT_RETURN_CODE_OK, hexPairs char_hex2uint Hup ++ buffer.drop n, n,
        M.drop 2 ++ [58] ++ decimal n ++ [9] ++ Hup ++ [26] ++ lit_ok ++ X⟩ := by
  obtain ⟨hM2, -, -, -⟩ := bytePayloadMnemonics_tags M hM
  have hTlen : (M.drop 2).length = M.length - 2 := List.length_drop 2 M
  have hR : M.drop 2 ++ [58] ++ decimal n ++ [9] ++ Hup ++ [26] ++ lit_ok =
      (M.drop 2 ++ 58 :: (decimal n ++ [9])) ++ (Hup ++ 26 :: 13 :: [10, 48, 13, 10]) := by
    simp [lit_ok]
  have hRX : M.drop 2 ++ [58] ++ decimal n ++ [9] ++ Hup ++ [26] ++ lit_ok ++ X =
      (M.drop 2 ++ 58 :: (decimal n ++ [9])) ++ (Hup ++ 26 :: 13 :: ([10, 48, 13, 10] ++ X)) := by
    simp [lit_ok]
  have hPle : (M.drop 2 ++ 58 :: (decimal n ++ [9])).length ≤
      (M.drop 2 ++ [58] ++ decimal n ++ [9] ++ Hup ++ [26] ++ lit_ok).length := by
    rw [hR, List.length_append (M.drop 2 ++ 58 :: (decimal n ++ [9]))]; omega
  have hcs0 := hcs 0 (Nat.zero_le _)
  have hcsP := hcs _ hPle
  rw [List.drop_zero] at hcs0
  rw [hR, List.drop_left, ← hR, hRX] at hcsP
  have hS : M.drop 2 ++ [58] ++ decimal n ++ [9] ++ Hup ++ [26] ++ lit_ok ++ sfx =
      (M.drop 2 ++ 58 :: (decimal n ++ [9])) ++
        (Hup ++ 26 :: 13 :: ([10, 48, 13, 10] ++ sfx)) := by
    simp [lit_ok]
  have hS2 : Hup ++ 26 :: 13 :: [10, 48, 13, 10] ++ sfx =
      Hup ++ 26 :: 13 :: ([10, 48, 13, 10] ++ sfx) := by simp
  rw [hS2] at hcsP
  have hss : successSeen (M.drop 2 ++ [58] ++ decimal n ++ [9] ++ Hup ++ [26] ++ lit_ok ++ sfx) =
      true := by
    rw [successSeen_iff]
    exact Or.inl ⟨M.drop 2 ++ [58] ++ decimal n ++ [9] ++ Hup ++ [26], sfx, rfl⟩
  have hex : extract_data char_hex2uint M M.length buffer sizeBuf
      (M.drop 2 ++ [58] ++ decimal n ++ [9] ++ Hup ++ [26] ++ lit_ok ++ X)
      (M.drop 2 ++ [58] ++ decimal n ++ [9] ++ Hup ++ [26] ++ lit_ok ++ sfx) =
      some (hexPairs char_hex2uint Hup ++ buffer.drop n, n) := by
    rw [hRX, hS]
    by_cases h10 : n < 10
    · have hd := decimal_one_digit n h10
      refine extract_data_payload M _ Hup _ sfx X buffer sizeBuf n 9 hM2 ⟨_, rfl⟩ ?_ ?_ hcsP
        h26 hlen hn hcap
      · have hi : M.length = (M.drop 2).length + 2 := by omega
        rw [hd, List.append_assoc, hi, List.getElem?_append_right (by omega)]
        simp
      · rw [hd]
        simp only [ne_eq, not_true_eq_false, if_false, List.length_append, List.length_cons,
          List.length_nil]
        omega
    · have hd := decimal_two_digits n (by omega) (by omega)
      refine extract_data_payload M _ Hup _ sfx X buffer sizeBuf n (48 + n % 10) hM2 ⟨_, rfl⟩
        ?_ ?_ hcsP h26 hlen hn hcap
      · have hi : M.length = (M.drop 2).length + 2 := by omega
        rw [hd, List.append_assoc, hi, List.getElem?_append_right (by omega)]
        simp
      · rw [hd]
        have : 48 + n % 10 ≠ 9 := by omega
        simp only [this, ne_eq, not_false_eq_true, if_true, List.length_append, List.length_cons,
          List.length_nil]
        omega
  simp only [get_data_body, hcs0, hss, if_true, hex]

theorem take_flatten_pos (chunks : List (List Nat)) (k : Nat)
    (hsz : ∀ c ∈ chunks, 1 ≤ c.length) (hne : chunks ≠ []) :
    1 ≤ (chunks.take (k + 1)).flatten.length := by
  cases chunks with
  | nil => exact absurd rfl hne
  | cons c cs =>
    have := hsz c (by simp)
    simp only [List.take_succ_cons, List.flatten_cons, List.length_append]
    omega

theorem take_flatten_lt (chunks : List (List Nat)) (k : Nat)
    (hsz : ∀ c ∈ chunks, 1 ≤ c.length) (hk : k < chunks.length) :
    (chunks.take k).flatten.length < chunks.flatten.length := by
  have hsplit : chunks = chunks.take k ++ chunks.drop k := (List.take_append_drop k chunks).symm
  cases hd : chunks.drop k with
  | nil =>
    have := congrArg List.length hd
    simp only [List.length_drop, List.length_nil] at this
    omega
  | cons c cs =>
    have hc : c ∈ chunks := List.mem_of_mem_drop (by rw [hd]; simp)
    have := hsz c hc
    rw [hd] at hsplit
    have hl := congrArg (fun l => l.flatten.length) hsplit
    simp only [List.flatten_append, List.flatten_cons, List.length_append] at hl
    omega

/-- C24: for every byte-payload mnemonic `M` with tag `T = M.drop 2`, every
payload `d` of at most 99 bytes written as the hex digits `H` (either case),
every caller array `buffer` of at least `d.length` bytes, whatever `*sizeBuf`
and the 200-byte `response_buf` hold at the call: if the reads deliver
`T ++ ":" ++ decimal(d.length) ++ "\t" ++ H ++ "\x1A" ++ "\r\n0\r\n"`, at most
198 bytes in all, in pieces of 1 to 30 bytes, get_data_ATresponse called with
`sizeCmd = M.length` returns MIOTYATCLIENT_RETURN_CODE_OK with
`*sizeBuf = d.length` and `buffer[0..d.length) = d`, the rest of `buffer`
unchanged. -/
theorem byte_payload_extraction (M : List Nat) (hM : M ∈ bytePayloadMnemonics)
    (d H : List Nat) (hn : d.length ≤ 99) (hH : H.length = 2 * d.length)
    (hdig : ∀ c ∈ H, isHexDigit c = true) (hd : hexPairs char_hex2uint H = d)
    (chunks : List (List Nat))
    (hsplit : chunks.flatten =
      M.drop 2 ++ [58] ++ decimal d.length ++ [9] ++ H ++ [26] ++ lit_ok)
    (hsz : ∀ c ∈ chunks, 1 ≤ c.length ∧ c.length ≤ 30)
    (htot : chunks.flatten.length ≤ 198)
    (buffer : List Nat) (hcap : d.length ≤ buffer.length) (sizeBuf : Nat)
    (response_buf : List Nat) (hbuf : response_buf.length = 200)
    (rest : List (Option (List Nat))) :
    ∃ k m, get_data_ATresponse char_hex2uint M M.length buffer sizeBuf response_buf
        (chunks.map some ++ rest) =
      .ret k ⟨MIOTYATCLIENT_RETURN_CODE_OK, d ++ buffer.drop d.length, d.length, m⟩ := by
  obtain ⟨hM2, hM7, hT, b0, T0, hT0, hb0⟩ := bytePayloadMnemonics_tags M hM
  have hdc := decimal_chars d.length
  -- the upper-cased message
  have hup : chunks.flatten.map upcase =
      M.drop 2 ++ [58] ++ decimal d.length ++ [9] ++ H.map upcase ++ [26] ++ lit_ok := by
    rw [hsplit]
    simp only [List.map_append]
    rw [map_eq_self_of_forall (fun b hb => (hT b hb).1),
      map_eq_self_of_forall (l := decimal d.length)
        (fun b hb => upcase_of_not_lower (by have := hdc b hb; omega))]
    rfl
  have hHup : ∀ b ∈ H.map upcase, b ≠ 0 ∧ b ≠ 13 ∧ b ≠ 26 := by
    intro b hb
    obtain ⟨c, hc, rfl⟩ := List.mem_map.mp hb
    exact (isHexDigit_upcase c (hdig c hc)).2
  have hBchars : ∀ b ∈ M.drop 2 ++ [58] ++ decimal d.length ++ [9] ++ H.map upcase ++ [26],
      b ≠ 0 ∧ b ≠ 13 := by
    intro b hb
    simp only [List.mem_append, List.mem_singleton] at hb
    rcases hb with ((((hb | hb) | hb) | hb) | hb) | hb
    · exact (hT b hb).2
    · subst hb; exact ⟨by decide, by decide⟩
    · have := hdc b hb
      exact ⟨by omega, by omega⟩
    · subst hb; exact ⟨by decide, by decide⟩
    · exact ⟨(hHup b hb).1, (hHup b hb).2.1⟩
    · subst hb; exact ⟨by decide, by decide⟩
  have hB13 : 13 ∉ M.drop 2 ++ [58] ++ decimal d.length ++ [9] ++ H.map upcase ++ [26] :=
    fun c => (hBchars 13 c).2 rfl
  have hBhead : ∃ b B', M.drop 2 ++ [58] ++ decimal d.length ++ [9] ++ H.map upcase ++ [26] =
      b :: B' ∧ b ≠ 48 :=
    ⟨b0, T0 ++ [58] ++ decimal d.length ++ [9] ++ H.map upcase ++ [26], by rw [hT0]; simp, hb0⟩
  have hnul : 0 ∉ chunks.flatten.map upcase := by
    rw [hup]
    intro hc
    rcases List.mem_append.mp hc with hc | hc
    · exact (hBchars 0 hc).1 rfl
    · simp [lit_ok] at hc
  have h26 : 26 ∉ H.map upcase := fun c => (hHup 26 c).2.2 rfl
  have hlenH : (H.map upcase).length = 2 * d.length := by rw [List.length_map, hH]
  have hpairs : hexPairs char_hex2uint (H.map upcase) = d := by
    rw [hexPairs_map_upcase H.length H (Nat.le_refl _) hdig, hd]
  have hne : chunks ≠ [] := by
    intro e
    subst e
    have := congrArg List.length hsplit
    simp [lit_ok] at this
    omega
  -- the body on the whole message, whatever follows it in the buffer
  have hfull : ∀ X sfx,
      (∀ p, p ≤ (chunks.flatten.map upcase).length →
        cstrAt (chunks.flatten.map upcase ++ X) p =
          some ((chunks.flatten.map upcase).drop p ++ sfx)) →
      ∃ a, get_data_body char_hex2uint M M.length buffer sizeBuf
          (chunks.flatten.map upcase ++ X) = .done a ∧
        ∃ m, a = ⟨MIOTYATCLIENT_RETURN_CODE_OK, d ++ buffer.drop d.length, d.length, m⟩ := by
    intro X sfx hcs
    rw [hup] at hcs ⊢
    have := get_data_body_payload M hM d.length hn (H.map upcase) X sfx buffer sizeBuf h26
      hlenH hcap hcs
    rw [hpairs] at this
    exact ⟨_, this, _, rfl⟩
  have hloop := pollLoop_until (get_data_body char_hex2uint M M.length buffer sizeBuf)
    (fun m => ⟨MIOTYATCLIENT_RETURN_CODE_ATReadFailed, buffer, sizeBuf, m⟩)
    (fun a => ∃ m, a = ⟨MIOTYATCLIENT_RETURN_CODE_OK, d ++ buffer.drop d.length, d.length, m⟩)
    chunks [] response_buf 0 rest hne (fun c hc => (hsz c hc).2) (by omega)
    (by simp only [List.length_nil]; omega) (fun k hk g rest' => by
      simp only [List.nil_append]
      have hpre : (chunks.take (k + 1)).flatten.map upcase <+: chunks.flatten.map upcase := by
        refine ⟨(chunks.drop (k + 1)).flatten.map upcase, ?_⟩
        rw [← List.map_append, ← List.flatten_append, List.take_append_drop]
      have hpnul : 0 ∉ (chunks.take (k + 1)).flatten.map upcase :=
        fun hc => hnul (hpre.subset hc)
      by_cases hlast : k + 1 < chunks.length
      · have hlt := take_flatten_lt chunks (k + 1) (fun c hc => (hsz c hc).1) hlast
        have hpne : (chunks.take (k + 1)).flatten.map upcase ≠ chunks.flatten.map upcase := by
          intro e
          have := congrArg List.length e
          simp only [List.length_map] at this
          omega
        have hpos := take_flatten_pos chunks k (fun c hc => (hsz c hc).1) hne
        have hp0 : (chunks.take (k + 1)).flatten.map upcase ≠ [] := by
          intro e
          have := congrArg List.length e
          simp only [List.length_map, List.length_nil] at this
          omega
        have hs := cstrAt_stale g rest' 0 hpnul (Nat.zero_le _)
        rw [List.drop_zero] at hs
        by_cases hg : g = 0
        · right
          rw [if_pos hg, List.append_nil] at hs
          rw [hup] at hpre hpne
          exact ⟨hlast, get_data_body_more _ _ _ _ _ _ _ hs
            (noTerm_of_properPrefix _ _ hB13 hBhead hpre hpne)⟩
        · rw [if_neg hg] at hs
          have hpre2 := hpre
          have hpne2 := hpne
          rw [hup] at hpre2 hpne2
          rcases stale_term_or_full _ _ g hB13 hBhead hpre2 hpne2 hp0 with hnt | hfl
          · right
            exact ⟨hlast, get_data_body_more _ _ _ _ _ _ _ hs hnt⟩
          · left
            rw [← hup] at hfl
            have hm : (chunks.take (k + 1)).flatten.map upcase ++ g :: 0 :: rest' =
                chunks.flatten.map upcase ++ 0 :: rest' := by
              rw [← hfl]; simp
            rw [hm]
            exact hfull (0 :: rest') [] (fun p hp => by
              rw [cstrAt_drop_of_no_nul rest' p hnul hp, List.append_nil])
      · left
        have hk1 : k + 1 = chunks.length := by omega
        rw [hk1, List.take_length]
        exact hfull (g :: 0 :: rest') (if g = 0 then [] else [g])
          (fun p hp => cstrAt_stale g rest' p hnul hp))
  obtain ⟨k, a, hk, m, hm⟩ := hloop
  refine ⟨k, m, ?_⟩
  rw [← hm]
  simpa [get_data_ATresponse] using hk

set_option maxRecDepth 100000 in
/-- C24 (witness): `"-MSAD:2\tabCD\x1A\r\n0\r\n"` delivered in three reads to
get_data_ATresponse called for `AT-MSAD` with a two-byte buffer gives OK,
`*sizeBuf = 2` and the bytes `0xAB 0xCD`. -/
theorem byte_payload_extraction_witness :
    [65, 84, 45, 77, 83, 65, 68] ∈ bytePayloadMnemonics ∧
    hexPairs char_hex2uint [97, 98, 67, 68] = [171, 205] ∧
    ∃ k m, get_data_ATresponse char_hex2uint [65, 84, 45, 77, 83, 65, 68] 7 [0, 0] 2
        (List.replicate 200 0)
        [some [45, 77, 83, 65, 68, 58, 50, 9], some [97, 98, 67, 68, 26, 13],
          some [10, 48, 13, 10]] =
      .ret k ⟨MIOTYATCLIENT_RETURN_CODE_OK, [171, 205], 2, m⟩ :=
  ⟨by decide, by decide,
   byte_payload_extraction [65, 84, 45, 77, 83, 65, 68] (by decide) [171, 205]
     [97, 98, 67, 68] (by decide) (by decide) (by decide) (by decide)
     [[45, 77, 83, 65, 68, 58, 50, 9], [97, 98, 67, 68, 26, 13], [10, 48, 13, 10]]
     (by simp [decimal, lit_ok]) (by decide) (by decide) [0, 0] (by decide) 2
     (List.replicate 200 0) (by decide) []⟩

/-! # Bounds of the response buffer -/

theorem storeBytes_length (bs : List Nat) :
    ∀ (m m1 : List Nat) (i : Nat), storeBytes m i bs = some m1 → m1.length = m.length := by
  induction bs with
  | nil => intro m m1 i h; simp only [storeBytes, Option.some.injEq] at h; rw [← h]
  | cons b bs ih =>
    intro m m1 i h
    unfold storeBytes store at h
    by_cases hi : i < m.length
    · rw [if_pos hi] at h
      have := ih _ _ _ h
      rw [this, List.length_set]
    · rw [if_neg hi] at h
      exact Option.noConfusion h

theorem storeBytes_isSome_iff (bs : List Nat) :
    ∀ (m : List Nat) (i : Nat),
      (storeBytes m i bs).isSome = true ↔ ∀ k, k < bs.length → i + k < m.length := by
  induction bs with
  | nil => intro m i; simp [storeBytes]
  | cons b bs ih =>
    intro m i
    unfold storeBytes store
    by_cases hi : i < m.length
    · rw [if_pos hi]
      simp only []
      rw [ih, List.length_set]
      constructor
      · intro h k hk
        cases k with
        | zero => exact hi
        | succ k =>
          have := h k (by simpa using hk)
          omega
      · intro h k hk
        have := h (k + 1) (by simpa using hk)
        omega
    · rw [if_neg hi]
      simp only [Option.isSome_none, Bool.false_eq_true, false_iff]
      intro h
      exact hi (h 0 (by simp))

theorem mem_passWrites (termOff pos len i : Nat) :
    i ∈ passWrites termOff pos len ↔
      (∃ k, k < len ∧ i = k + pos) ∨ i = (pos + len) % 256 + termOff := by
  unfold passWrites
  simp only [List.mem_append, List.mem_map, List.mem_range, List.mem_singleton]
  constructor
  · rintro (⟨k, hk, rfl⟩ | h)
    · exact Or.inl ⟨k, hk, rfl⟩
    · exact Or.inr h
  · rintro (⟨k, hk, rfl⟩ | h)
    · exact Or.inl ⟨k, hk, rfl⟩
    · exact Or.inr h

/-- A pass of the loop is defined in the model exactly when the read fits the
30 bytes of `buf` and every index it writes lies inside `response_buf`. -/
theorem readChunk_isSome_iff (termOff : Nat) (m : List Nat) (pos : Nat) (chunk : List Nat) :
    (readChunk termOff m pos chunk).isSome = true ↔
      chunk.length ≤ 30 ∧ ∀ i ∈ passWrites termOff pos chunk.length, i < m.length := by
  unfold readChunk
  by_cases h30 : 30 < chunk.length
  · rw [if_pos h30]
    simp only [Option.isSome_none, Bool.false_eq_true, false_iff, not_and]
    intro h
    omega
  · rw [if_neg h30]
    have hsb := storeBytes_isSome_iff (chunk.map upcase) m pos
    rw [List.length_map] at hsb
    cases hs : storeBytes m pos (chunk.map upcase) with
    | none =>
      rw [hs] at hsb
      simp only [Option.isSome_none, Bool.false_eq_true, false_iff, not_and]
      intro _ hall
      refine (hsb.not.mp (by simp)) (fun k hk => ?_)
      have := hall (k + pos) ((mem_passWrites _ _ _ _).mpr (Or.inl ⟨k, hk, rfl⟩))
      omega
    | some m1 =>
      rw [hs] at hsb
      have hl := storeBytes_length _ _ _ _ hs
      have hall := hsb.mp rfl
      simp only []
      unfold store
      rw [hl]
      by_cases ht : (pos + chunk.length) % 256 + termOff < m.length
      · rw [if_pos ht]
        simp only [Option.isSome_some, true_iff]
        refine ⟨by omega, fun i hi => ?_⟩
        rcases (mem_passWrites _ _ _ _).mp hi with ⟨k, hk, rfl⟩ | rfl
        · have := hall k hk
          omega
        · exact ht
      · rw [if_neg ht]
        simp only [Option.isSome_none, Bool.false_eq_true, false_iff, not_and]
        intro _ hall2
        exact ht (hall2 _ ((mem_passWrites _ _ _ _).mpr (Or.inr rfl)))

theorem loopWrites_bound (termOff : Nat) (htO : termOff ≤ 1) (chunks : List (List Nat)) :
    ∀ pos, pos + chunks.flatten.length ≤ 198 →
      ∀ i ∈ loopWrites termOff pos (chunks.map some), i < 200 := by
  induction chunks with
  | nil => intro pos _ i hi; simp [loopWrites] at hi
  | cons c cs ih =>
    intro pos h i hi
    simp only [List.flatten_cons, List.length_append] at h
    have hmod : (pos + c.length) % 256 = pos + c.length := Nat.mod_eq_of_lt (by omega)
    simp only [List.map_cons, loopWrites, List.mem_append] at hi
    rcases hi with hi | hi
    · rcases (mem_passWrites _ _ _ _).mp hi with ⟨k, hk, rfl⟩ | rfl
      · omega
      · omega
    · rw [hmod] at hi
      exact ih (pos + c.length) (by omega) i hi

theorem loopPos_eq (chunks : List (List Nat)) :
    ∀ pos, pos + chunks.flatten.length < 256 →
      loopPos pos (chunks.map some) = pos + chunks.flatten.length := by
  induction chunks with
  | nil => intro pos _; simp [loopPos]
  | cons c cs ih =>
    intro pos h
    simp only [List.flatten_cons, List.length_append] at h
    have hmod : (pos + c.length) % 256 = pos + c.length := Nat.mod_eq_of_lt (by omega)
    simp only [List.map_cons, loopPos, hmod, List.flatten_cons, List.length_append]
    rw [ih (pos + c.length) (by omega)]
    omega

theorem pollLoop_undefined_lt {α : Type} (termOff : Nat) (body : List Nat → Verdict α)
    (onFail : List Nat → α) (script : List (Option (List Nat))) :
    ∀ (m : List Nat) (pos n k : Nat),
      pollLoop termOff body onFail m pos n script = .undefined k → n < k := by
  induction script with
  | nil => intro m pos n k h; simp [pollLoop] at h
  | cons e rest ih =>
    intro m pos n k h
    cases e with
    | none => simp [pollLoop] at h
    | some c =>
      rw [pollLoop_some] at h
      cases hr : readChunk termOff m pos c with
      | none =>
        rw [hr] at h
        simp only [Outcome.undefined.injEq] at h
        omega
      | some p =>
        obtain ⟨m1, pos1⟩ := p
        rw [hr] at h
        simp only [] at h
        cases hb : body m1 with
        | done a => rw [hb] at h; exact Outcome.noConfusion h
        | fault =>
          rw [hb] at h
          simp only [Outcome.undefined.injEq] at h
          omega
        | more =>
          rw [hb] at h
          have := ih _ _ _ _ h
          omega

/-- Within reads that fit the buffer, the loop is undefined only where its
body is, on the buffer that holds the bytes received so far. -/
theorem pollLoop_undefined_body {α : Type} (termOff : Nat) (body : List Nat → Verdict α)
    (onFail : List Nat → α) (chunks : List (List Nat)) :
    ∀ (acc tail : List Nat) (n k : Nat) (rest : List (Option (List Nat))),
      (∀ c ∈ chunks, c.length ≤ 30) → chunks.flatten.length + termOff < tail.length →
      acc.length + tail.length ≤ 256 →
      pollLoop termOff body onFail (acc ++ tail) acc.length n (chunks.map some ++ rest) =
        .undefined k →
      k ≤ n + chunks.length →
      ∃ j tail', j < chunks.length ∧ k = n + j + 1 ∧
        (acc ++ (chunks.take (j + 1)).flatten.map upcase ++ tail').length =
          (acc ++ tail).length ∧
        body (acc ++ (chunks.take (j + 1)).flatten.map upcase ++ tail') = .fault := by
  induction chunks with
  | nil =>
    intro acc tail n k rest _ _ _ h hk
    have := pollLoop_undefined_lt termOff body onFail _ _ _ _ _ h
    simp only [List.length_nil, Nat.add_zero] at hk
    omega
  | cons c cs ih =>
    intro acc tail n k rest hlen hroom h256 h hk
    simp only [List.flatten_cons, List.length_append] at hroom
    have hc : c.length ≤ 30 := hlen c (by simp)
    have hrd := readChunk_append termOff acc tail c hc (by omega) (by omega)
    rw [List.map_cons, List.cons_append, pollLoop_some, hrd] at h
    simp only [] at h
    have hl1 : ((tail.drop c.length).set termOff 0).length = tail.length - c.length := by
      rw [List.length_set, List.length_drop]
    cases hb : body (acc ++ c.map upcase ++ (tail.drop c.length).set termOff 0) with
    | done a => rw [hb] at h; exact Outcome.noConfusion h
    | fault =>
      rw [hb] at h
      simp only [Outcome.undefined.injEq] at h
      refine ⟨0, (tail.drop c.length).set termOff 0, by simp, by omega, ?_, ?_⟩
      · simp only [Nat.zero_add, List.take_succ_cons, List.take_zero, List.flatten_cons,
          List.flatten_nil, List.append_nil, List.length_append, List.length_map, hl1]
        omega
      · simpa using hb
    | more =>
      rw [hb] at h
      simp only [] at h
      have hpos : (acc ++ c.map upcase).length = acc.length + c.length := by simp
      rw [← hpos] at h
      obtain ⟨j, tail', hj, hk', hlen', hbody⟩ := ih (acc ++ c.map upcase)
        ((tail.drop c.length).set termOff 0) (n + 1) k rest
        (fun x hx => hlen x (by simp [hx])) (by rw [hl1]; omega)
        (by rw [hl1, hpos]; omega) h (by simp only [List.length_cons] at hk; omega)
      refine ⟨j + 1, tail', by simpa using hj, by omega, ?_, ?_⟩
      · simp only [List.take_succ_cons, List.flatten_cons, List.map_append, List.length_append,
          List.length_map] at hlen' ⊢
        rw [hl1] at hlen'
        omega
      · simp only [List.take_succ_cons, List.flatten_cons, List.map_append]
        simp only [List.append_assoc] at hbody ⊢
        exact hbody

/-- C31: let the reads `chunks` deliver at most 30 bytes each and at most 198
bytes in all.  Then every index the loop of check_ATresponse,
get_data_ATresponse (`termOff = 1`) and get_int_data_ATresponse (`termOff = 0`)
writes during these reads, data bytes and terminators, is below 200; after
every one of these reads the 8-bit counter `pos` is the number of bytes
received so far (it has not wrapped); a pass of the loop is defined in the
model exactly when the read fits `buf` and every index it writes lies inside
`response_buf`; and a collector that is undefined within these reads is so
because the branch code after a read is, on a buffer of 200 bytes that starts
with the bytes received, never because of a store into `response_buf`. -/
theorem response_buffer_bounds (chunks : List (List Nat))
    (hlen : ∀ c ∈ chunks, c.length ≤ 30) (htot : chunks.flatten.length ≤ 198) :
    (∀ termOff, termOff ≤ 1 → ∀ i ∈ loopWrites termOff 0 (chunks.map some), i < 200) ∧
    (∀ j, j ≤ chunks.length →
      loopPos 0 ((chunks.take j).map some) = (chunks.take j).flatten.length ∧
      (chunks.take j).flatten.length < 256) ∧
    (∀ (termOff : Nat) (m : List Nat) (pos : Nat) (chunk : List Nat),
      (readChunk termOff m pos chunk).isSome = true ↔
        chunk.length ≤ 30 ∧ ∀ i ∈ passWrites termOff pos chunk.length, i < m.length) ∧
    (∀ (response_buf : List Nat) (rest : List (Option (List Nat))) (k : Nat),
      response_buf.length = 200 → k ≤ chunks.length →
      (check_ATresponse response_buf (chunks.map some ++ rest) = .undefined k →
        ∃ j tail', j < chunks.length ∧ k = j + 1 ∧
          ((chunks.take (j + 1)).flatten.map upcase ++ tail').length = 200 ∧
          check_body ((chunks.take (j + 1)).flatten.map upcase ++ tail') = .fault) ∧
      (∀ (hex2uint : Nat → Nat) (AT_cmd : List Nat) (sizeCmd : Nat) (buffer : List Nat)
          (sizeBuf : Nat),
        get_data_ATresponse hex2uint AT_cmd sizeCmd buffer sizeBuf response_buf
            (chunks.map some ++ rest) = .undefined k →
        ∃ j tail', j < chunks.length ∧ k = j + 1 ∧
          ((chunks.take (j + 1)).flatten.map upcase ++ tail').length = 200 ∧
          get_data_body hex2uint AT_cmd sizeCmd buffer sizeBuf
            ((chunks.take (j + 1)).flatten.map upcase ++ tail') = .fault) ∧
      (∀ (AT_cmd : List Nat) (sizeCmd res : Nat),
        get_int_data_ATresponse AT_cmd sizeCmd res response_buf
            (chunks.map some ++ rest) = .undefined k →
        ∃ j tail', j < chunks.length ∧ k = j + 1 ∧
          ((chunks.take (j + 1)).flatten.map upcase ++ tail').length = 200 ∧
          get_int_data_body AT_cmd sizeCmd res
            ((chunks.take (j + 1)).flatten.map upcase ++ tail') = .fault)) := by
  have htake : ∀ j, (chunks.take j).flatten.length ≤ chunks.flatten.length := by
    intro j
    have : (chunks.take j).flatten <+: chunks.flatten := by
      refine ⟨(chunks.drop j).flatten, ?_⟩
      rw [← List.flatten_append, List.take_append_drop]
    exact this.length_le
  refine ⟨fun termOff htO => loopWrites_bound termOff htO chunks 0 (by omega), ?_,
    readChunk_isSome_iff, ?_⟩
  · intro j _
    have := htake j
    refine ⟨?_, by omega⟩
    rw [loopPos_eq (chunks.take j) 0 (by omega)]
    omega
  · intro response_buf rest k h200 hk
    have key : ∀ {α : Type} (termOff : Nat) (body : List Nat → Verdict α)
        (onFail : List Nat → α), termOff ≤ 1 →
        pollLoop termOff body onFail response_buf 0 0 (chunks.map some ++ rest) =
          .undefined k →
        ∃ j tail', j < chunks.length ∧ k = j + 1 ∧
          ((chunks.take (j + 1)).flatten.map upcase ++ tail').length = 200 ∧
          body ((chunks.take (j + 1)).flatten.map upcase ++ tail') = .fault := by
      intro α termOff body onFail htO h
      obtain ⟨j, tail', hj, hk', hl, hb⟩ := pollLoop_undefined_body termOff body onFail chunks
        [] response_buf 0 k rest hlen (by omega) (by simp only [List.length_nil]; omega)
        (by simpa using h) (by omega)
      simp only [List.nil_append] at hl hb
      exact ⟨j, tail', hj, by omega, by rw [hl, h200], hb⟩
    refine ⟨fun h => key 1 _ _ (Nat.le_refl 1) h, fun hex2uint AT_cmd sizeCmd buffer sizeBuf h =>
      key 1 _ _ (Nat.le_refl 1) h, fun AT_cmd sizeCmd res h => key 0 _ _ (Nat.zero_le 1) h⟩

/-- C31 (witness): the reads `"\r\n"` and `"0\r\n"` make check_ATresponse write the
indices 0, 1, 3 and 2, 3, 4, 6, all below 200. -/
theorem response_buffer_bounds_witness :
    loopWrites 1 0 ([[13, 10], [48, 13, 10]].map some) = [0, 1, 3, 2, 3, 4, 6] ∧
    ∀ i ∈ loopWrites 1 0 ([[13, 10], [48, 13, 10]].map some), i < 200 :=
  ⟨by rfl, (response_buffer_bounds [[13, 10], [48, 13, 10]] (by decide) (by decide)).1 1
    (by decide)⟩

/-! # Tag lookup in the success branch -/

set_option maxRecDepth 100000 in
/-- C32 (code bug): the reply `"\r\n0\r\n"` holds the success pattern and no tag.
get_int_data_ATresponse called for `AT-MPCT` and get_data_ATresponse called
for `AT-MEUI` or `AT-B` enter the success branch, `strstr(response_buf, AT_cmd+2)`
returns NULL, and the extraction goes on from that pointer: undefined
behaviour.  On the reply `"\r\n0\r\n-MPCT"` the tag is found at offset 5 and
get_int_data_ATresponse parses from offset `5 + 7 - 1 = 11`, behind the 10
received bytes and their terminator: `*res` is 0 when `response_buf[11]` was
NUL at the call and 7 when it held `'7'`. -/
theorem tag_lookup_unchecked :
    (successSeen [13, 10, 48, 13, 10] = true ∧
      strstr [13, 10, 48, 13, 10] ([65, 84, 45, 77, 80, 67, 84].drop 2) = none ∧
      get_int_data_ATresponse [65, 84, 45, 77, 80, 67, 84] 7 5 (List.replicate 200 0)
        [some [13, 10, 48, 13, 10]] = .undefined 1) ∧
    (strstr [13, 10, 48, 13, 10] (lit_AT_MEUI.drop 2) = none ∧
      get_data_ATresponse char_hex2uint lit_AT_MEUI 7 [0, 0, 0, 0, 0, 0, 0, 0] 8
        (List.replicate 200 0) [some [13, 10, 48, 13, 10]] = .undefined 1 ∧
      get_data_ATresponse char_hex2uint lit_AT_B 4 [0, 0, 0, 0, 0, 0, 0, 0] 8
        (List.replicate 200 0) [some [13, 10, 48, 13, 10]] = .undefined 1) ∧
    (strstr [13, 10, 48, 13, 10, 45, 77, 80, 67, 84] ([65, 84, 45, 77, 80, 67, 84].drop 2) =
        some 5 ∧
      [13, 10, 48, 13, 10, 45, 77, 80, 67, 84].length < 5 + 7 - 1 ∧
      (∃ m, get_int_data_ATresponse [65, 84, 45, 77, 80, 67, 84] 7 5 (List.replicate 200 0)
          [some [13, 10, 48, 13, 10, 45, 77, 80, 67, 84]] =
        .ret 1 ⟨MIOTYATCLIENT_RETURN_CODE_OK, 0, m⟩) ∧
      (∃ m, get_int_data_ATresponse [65, 84, 45, 77, 80, 67, 84] 7 5
          ((List.replicate 200 0).set 11 55)
          [some [13, 10, 48, 13, 10, 45, 77, 80, 67, 84]] =
        .ret 1 ⟨MIOTYATCLIENT_RETURN_CODE_OK, 7, m⟩)) :=
  ⟨⟨by rfl, by rfl, by rfl⟩, ⟨by rfl, by rfl, by rfl⟩,
    ⟨by rfl, by decide, ⟨_, rfl⟩, ⟨_, rfl⟩⟩⟩

/-! # Factory defaults -/

theorem memcpy_zeros (a src : List Nat) (off n k : Nat) (hoff : off = a.length)
    (hs : n ≤ src.length) (hk : n ≤ k) :
    memcpy (a ++ List.replicate k 0) off src n =
      some (a ++ src.take n ++ List.replicate (k - n) 0) := by
  subst hoff
  have hl : (src.take n).length = n := by rw [List.length_take]; omega
  have := storeBytes_append a (List.replicate k 0) (src.take n)
    (by rw [hl, List.length_replicate]; exact hk)
  rw [hl, List.drop_replicate] at this
  unfold memcpy
  rw [if_neg (by omega), this]

/-- The 64 bytes miotyAtClient_setDefaults hands to set_info_bytes, for a
validation word stored as the four bytes `V`. -/
theorem defaults_chain (V eui64 ipv6 nwKey shortAdress appCryptoKey : List Nat)
    (ulProfile ulMode ulSyncBurst appCryptoMode attached1stBoot : Nat)
    (hV : V.length = 4) (h1 : 8 ≤ eui64.length) (h2 : 8 ≤ ipv6.length)
    (h3 : 16 ≤ nwKey.length) (h4 : 2 ≤ shortAdress.length) (h5 : 16 ≤ appCryptoKey.length) :
    (do
      let d1 ← memcpy (List.replicate 64 0) 0 V 4
      let d2 ← memcpy d1 4 [ulProfile] 1
      let d3 ← memcpy d2 5 [ulMode] 1
      let d4 ← memcpy d3 6 [ulSyncBurst] 1
      let d5 ← memcpy d4 8 eui64 8
      let d6 ← memcpy d5 16 ipv6 8
      let d7 ← memcpy d6 24 nwKey 16
      let d8 ← memcpy d7 40 shortAdress 2
      let d9 ← memcpy d8 42 [appCryptoMode] 1
      let d10 ← memcpy d9 43 [attached1stBoot] 1
      memcpy d10 48 appCryptoKey 16) =
    some (V ++ [ulProfile, ulMode, ulSyncBurst, 0] ++ eui64.take 8 ++ ipv6.take 8 ++
      nwKey.take 16 ++ shortAdress.take 2 ++ [appCryptoMode, attached1stBoot, 0, 0, 0, 0] ++
      appCryptoKey.take 16) := by
  have hE : (eui64.take 8).length = 8 := by rw [List.length_take]; omega
  have hI : (ipv6.take 8).length = 8 := by rw [List.length_take]; omega
  have hK : (nwKey.take 16).length = 16 := by rw [List.length_take]; omega
  have hS : (shortAdress.take 2).length = 2 := by rw [List.length_take]; omega
  have hVt : V.take 4 = V := List.take_of_length_le (by omega)
  have s1 : memcpy (List.replicate 64 0) 0 V 4 = some (V ++ List.replicate 60 0) := by
    have := memcpy_zeros [] V 0 4 64 rfl (by omega) (by decide)
    rw [hVt] at this
    exact this
  have s2 : memcpy (V ++ List.replicate 60 0) 4 [ulProfile] 1 =
      some (V ++ [ulProfile] ++ List.replicate 59 0) :=
    memcpy_zeros V [ulProfile] 4 1 60 hV.symm (Nat.le_refl 1) (by decide)
  have s3 : memcpy (V ++ [ulProfile] ++ List.replicate 59 0) 5 [ulMode] 1 =
      some (V ++ [ulProfile] ++ [ulMode] ++ List.replicate 58 0) :=
    memcpy_zeros (V ++ [ulProfile]) [ulMode] 5 1 59 (by simp [hV]) (Nat.le_refl 1)
      (by decide)
  have s4 : memcpy (V ++ [ulProfile] ++ [ulMode] ++ List.replicate 58 0) 6 [ulSyncBurst] 1 =
      some (V ++ [ulProfile] ++ [ulMode] ++ [ulSyncBurst] ++ List.replicate 57 0) :=
    memcpy_zeros (V ++ [ulProfile] ++ [ulMode]) [ulSyncBurst] 6 1 58 (by simp [hV])
      (Nat.le_refl 1) (by decide)
  have e5 : V ++ [ulProfile] ++ [ulMode] ++ [ulSyncBurst] ++ List.replicate 57 0 =
      (V ++ [ulProfile] ++ [ulMode] ++ [ulSyncBurst] ++ [0]) ++ List.replicate 56 0 := by
    rw [List.append_assoc _ [0]]
    rfl
  have s5 : memcpy (V ++ [ulProfile] ++ [ulMode] ++ [ulSyncBurst] ++ List.replicate 57 0) 8
      eui64 8 = some (V ++ [ulProfile] ++ [ulMode] ++ [ulSyncBurst] ++ [0] ++ eui64.take 8 ++
        List.replicate 48 0) := by
    rw [e5]
    exact memcpy_zeros _ eui64 8 8 56 (by simp [hV]) h1 (by decide)
  have s6 : memcpy (V ++ [ulProfile] ++ [ulMode] ++ [ulSyncBurst] ++ [0] ++ eui64.take 8 ++
      List.replicate 48 0) 16 ipv6 8 =
      some (V ++ [ulProfile] ++ [ulMode] ++ [ulSyncBurst] ++ [0] ++ eui64.take 8 ++
        ipv6.take 8 ++ List.replicate 40 0) :=
    memcpy_zeros _ ipv6 16 8 48 (by simp [hV, hE]) h2 (by decide)
  have s7 : memcpy (V ++ [ulProfile] ++ [ulMode] ++ [ulSyncBurst] ++ [0] ++ eui64.take 8 ++
      ipv6.take 8 ++ List.replicate 40 0) 24 nwKey 16 =
      some (V ++ [ulProfile] ++ [ulMode] ++ [ulSyncBurst] ++ [0] ++ eui64.take 8 ++
        ipv6.take 8 ++ nwKey.take 16 ++ List.replicate 24 0) :=
    memcpy_zeros _ nwKey 24 16 40 (by simp [hV, hE, hI]) h3 (by decide)
  have s8 : memcpy (V ++ [ulProfile] ++ [ulMode] ++ [ulSyncBurst] ++ [0] ++ eui64.take 8 ++
      ipv6.take 8 ++ nwKey.take 16 ++ List.replicate 24 0) 40 shortAdress 2 =
      some (V ++ [ulProfile] ++ [ulMode] ++ [ulSyncBurst] ++ [0] ++ eui64.take 8 ++
        ipv6.take 8 ++ nwKey.take 16 ++ shortAdress.take 2 ++ List.replicate 22 0) :=
    memcpy_zeros _ shortAdress 40 2 24 (by simp [hV, hE, hI, hK]) h4 (by decide)
  have s9 : memcpy (V ++ [ulProfile] ++ [ulMode] ++ [ulSyncBurst] ++ [0] ++ eui64.take 8 ++
      ipv6.take 8 ++ nwKey.take 16 ++ shortAdress.take 2 ++ List.replicate 22 0) 42
      [appCryptoMode] 1 =
      some (V ++ [ulProfile] ++ [ulMode] ++ [ulSyncBurst] ++ [0] ++ eui64.take 8 ++
        ipv6.take 8 ++ nwKey.take 16 ++ shortAdress.take 2 ++ [appCryptoMode] ++
        List.replicate 21 0) :=
    memcpy_zeros _ [appCryptoMode] 42 1 22 (by simp [hV, hE, hI, hK, hS]) (Nat.le_refl 1)
      (by decide)
  have s10 : memcpy (V ++ [ulProfile] ++ [ulMode] ++ [ulSyncBurst] ++ [0] ++ eui64.take 8 ++
      ipv6.take 8 ++ nwKey.take 16 ++ shortAdress.take 2 ++ [appCryptoMode] ++
      List.replicate 21 0) 43 [attached1stBoot] 1 =
      some (V ++ [ulProfile] ++ [ulMode] ++ [ulSyncBurst] ++ [0] ++ eui64.take 8 ++
        ipv6.take 8 ++ nwKey.take 16 ++ shortAdress.take 2 ++ [appCryptoMode] ++
        [attached1stBoot] ++ List.replicate 20 0) :=
    memcpy_zeros _ [attached1stBoot] 43 1 21 (by simp [hV, hE, hI, hK, hS]) (Nat.le_refl 1)
      (by decide)
  have e11 : V ++ [ulProfile] ++ [ulMode] ++ [ulSyncBurst] ++ [0] ++ eui64.take 8 ++
      ipv6.take 8 ++ nwKey.take 16 ++ shortAdress.take 2 ++ [appCryptoMode] ++
      [attached1stBoot] ++ List.replicate 20 0 =
      (V ++ [ulProfile] ++ [ulMode] ++ [ulSyncBurst] ++ [0] ++ eui64.take 8 ++
        ipv6.take 8 ++ nwKey.take 16 ++ shortAdress.take 2 ++ [appCryptoMode] ++
        [attached1stBoot] ++ [0, 0, 0, 0]) ++ List.replicate 16 0 := by
    rw [List.append_assoc _ [0, 0, 0, 0]]
    rfl
  have s11 : memcpy (V ++ [ulProfile] ++ [ulMode] ++ [ulSyncBurst] ++ [0] ++ eui64.take 8 ++
      ipv6.take 8 ++ nwKey.take 16 ++ shortAdress.take 2 ++ [appCryptoMode] ++
      [attached1stBoot] ++ List.replicate 20 0) 48 appCryptoKey 16 =
      some (V ++ [ulProfile] ++ [ulMode] ++ [ulSyncBurst] ++ [0] ++ eui64.take 8 ++
        ipv6.take 8 ++ nwKey.take 16 ++ shortAdress.take 2 ++ [appCryptoMode] ++
        [attached1stBoot] ++ [0, 0, 0, 0] ++ appCryptoKey.take 16 ++ List.replicate 0 0) := by
    rw [e11]
    exact memcpy_zeros _ appCryptoKey 48 16 16 (by simp [hV, hE, hI, hK, hS]) h5 (by decide)
  simp only [s1, s2, s3, s4, s5, s6, s7, s8, s9, s10, s11, Option.bind_eq_bind,
    Option.some_bind, bind, Option.bind]
  simp [List.append_assoc]

theorem uint32_bytes_length (littleEndian : Bool) (v : Nat) :
    (uint32_bytes littleEndian v).length = 4 := by
  cases littleEndian <;> rfl

/-! # The set-bytes frame: the copy out of `dataString` -/

theorem byte2hexLoop_no_nul (nib : Nat → Nat) (hnib : ∀ x, nib x ≠ 0) (bytes : List Nat)
    (count : Nat) :
    ∀ (i : Nat) (dest d : List Nat), byte2hexLoop nib bytes count i dest = some d →
      dest.length = 2 * (i + count) → (∀ j, j < 2 * i → dest[j]? ≠ some 0) →
      d.length = dest.length ∧ 0 ∉ d := by
  induction count with
  | zero =>
    intro i dest d h hlen hpre
    simp only [byte2hexLoop, Option.some.injEq] at h
    subst h
    refine ⟨rfl, fun hmem => ?_⟩
    obtain ⟨j, hj⟩ := List.mem_iff_getElem?.mp hmem
    have hjl : j < dest.length := by
      by_contra hc
      rw [List.getElem?_eq_none (by omega)] at hj
      exact Option.noConfusion hj
    exact hpre j (by omega) hj
  | succ count ih =>
    intro i dest d h hlen hpre
    simp only [byte2hexLoop] at h
    cases hb : bytes[i]? with
    | none => rw [hb] at h; exact Option.noConfusion h
    | some b =>
      rw [hb] at h
      have h1 : i * 2 < dest.length := by omega
      have h2 : i * 2 + 1 < (dest.set (i * 2) (nib (b >>> 4))).length := by
        rw [List.length_set]; omega
      simp only [store, if_pos h1, if_pos h2] at h
      have := ih (i + 1) _ d h (by simp only [List.length_set]; omega) (by
        intro j hj
        by_cases e1 : j = i * 2 + 1
        · subst e1
          rw [List.getElem?_set_self (by simpa using h2)]
          intro hc
          exact hnib b (Option.some.inj hc)
        · rw [List.getElem?_set_ne (fun hc => e1 hc.symm)]
          by_cases e0 : j = i * 2
          · subst e0
            rw [List.getElem?_set_self h1]
            intro hc
            exact hnib _ (Option.some.inj hc)
          · rw [List.getElem?_set_ne (fun hc => e0 hc.symm)]
            exact hpre j (by omega))
      simpa only [List.length_set] using this

/-- What `string_byteArray2hex` leaves in a destination of exactly `2 * nBytes`
characters holds no NUL when `char_nibble2hex` never returns one. -/
theorem byteArray2hex_no_nul (nib : Nat → Nat) (hnib : ∀ x, nib x ≠ 0) (bytes dest : List Nat)
    (nBytes : Nat) (hdest : dest.length = 2 * nBytes) (r : Nat) (d : List Nat)
    (h : string_byteArray2hex nib bytes nBytes dest (2 * nBytes) = some (r, d)) :
    r = 2 * nBytes ∧ d.length = 2 * nBytes ∧ 0 ∉ d := by
  unfold string_byteArray2hex at h
  rw [if_neg (Nat.lt_irrefl _)] at h
  cases hl : byte2hexLoop nib bytes nBytes 0 dest with
  | none => rw [hl] at h; exact Option.noConfusion h
  | some d1 =>
    rw [hl] at h
    simp only [Option.some.injEq, Prod.mk.injEq] at h
    obtain ⟨hr, hd⟩ := h
    subst hd
    have := byte2hexLoop_no_nul nib hnib bytes nBytes 0 dest d1 hl (by omega)
      (fun j hj => by omega)
    exact ⟨hr.symm, by rw [this.1, hdest], this.2⟩

/-- A `strcpy` from an array that holds no NUL is undefined. -/
theorem strcpyArray_no_nul (dest : List Nat) (i : Nat) (src : List Nat) (h : 0 ∉ src) :
    strcpyArray dest i src = none := by
  unfold strcpyArray
  rw [if_neg]
  simpa using h

/-- With a `char_nibble2hex` that never returns NUL, `write_cmd_bytes` with at
most 127 payload bytes is undefined: `dataString` holds no NUL for `strcpy`. -/
theorem write_cmd_bytes_no_terminator (nib : Nat → Nat) (hnib : ∀ x, nib x ≠ 0) (u : Uninit)
    (AT_cmd : List Nat) (sizeCmd : Nat) (data : List Nat) (sizeData : Nat)
    (hn : sizeData ≤ 127) :
    write_cmd_bytes nib u AT_cmd sizeCmd data sizeData = none := by
  have hmod : (2 * sizeData) % 256 = 2 * sizeData := Nat.mod_eq_of_lt (by omega)
  unfold write_cmd_bytes
  simp only [hmod]
  cases hs : string_byteArray2hex nib data sizeData
      ((List.range (2 * sizeData)).map u.dataString) (2 * sizeData) with
  | none => rfl
  | some p =>
    obtain ⟨r, d⟩ := p
    have hno := (byteArray2hex_no_nul nib hnib data _ sizeData (by simp) r d hs).2.2
    simp only [strcpyArray_no_nul _ _ d hno]
    simp

theorem byte2hexLoop_prefix (nib : Nat → Nat) (xs ys : List Nat) (count : Nat) :
    ∀ (i : Nat) (dest : List Nat), i + count ≤ xs.length →
      byte2hexLoop nib (xs ++ ys) count i dest = byte2hexLoop nib xs count i dest := by
  induction count with
  | zero => intro i dest _; rfl
  | succ count ih =>
    intro i dest h
    have hi : i < xs.length := by omega
    simp only [byte2hexLoop, List.getElem?_append_left hi, List.getElem?_eq_getElem hi]
    cases store dest (i * 2) (nib (xs[i] >>> 4)) with
    | none => rfl
    | some d1 =>
      dsimp only
      cases store d1 (i * 2 + 1) (nib xs[i]) with
      | none => rfl
      | some d2 => exact ih (i + 1) d2 (by omega)

/-- The text `string_byteArray2hex` leaves in a destination of exactly
`2 * nBytes` characters: two characters for each of the first `nBytes` bytes. -/
theorem byteArray2hex_text (nib : Nat → Nat) (bytes dest : List Nat) (nBytes : Nat)
    (hdest : dest.length = 2 * nBytes) (hn : nBytes ≤ bytes.length) :
    string_byteArray2hex nib bytes nBytes dest (2 * nBytes) =
      some (2 * nBytes, (bytes.take nBytes).flatMap (fun b => [nib (b >>> 4), nib b])) := by
  have hlen : (bytes.take nBytes).length = nBytes := by rw [List.length_take]; omega
  have hspec := byte2hexLoop_spec nib (bytes.take nBytes) [] [] dest rfl (by omega)
  have hpre := byte2hexLoop_prefix nib (bytes.take nBytes) (bytes.drop nBytes) nBytes 0 dest
    (by omega)
  rw [List.take_append_drop] at hpre
  simp only [List.nil_append, List.length_nil, hlen] at hspec
  unfold string_byteArray2hex
  rw [if_neg (Nat.lt_irrefl _), hpre, hspec, List.drop_of_length_le (by omega),
    List.append_nil]

theorem hexText_no_nul (nib : Nat → Nat) (hnib : ∀ x, nib x ≠ 0) (bytes : List Nat) :
    0 ∉ bytes.flatMap (fun b => [nib (b >>> 4), nib b]) := by
  intro h
  rw [List.mem_flatMap] at h
  obtain ⟨b, -, hb⟩ := h
  simp only [List.mem_cons, List.mem_singleton, List.not_mem_nil, or_false] at hb
  rcases hb with hb | hb
  · exact hnib _ hb.symm
  · exact hnib _ hb.symm

theorem hexText_length (nib : Nat → Nat) (bytes : List Nat) :
    (bytes.flatMap (fun b => [nib (b >>> 4), nib b])).length = 2 * bytes.length := by
  induction bytes with
  | nil => rfl
  | cons b bs ih => simp only [List.flatMap_cons, List.length_append, ih, List.length_cons,
      List.length_nil]; omega

/-- C10 (code bug): for a payload of `sizeData ≤ 99` bytes and a
`char_nibble2hex` that never returns NUL, write_cmd_bytes has `dataString`
filled by string_byteArray2hex with exactly the `2 * sizeData` hex characters
of the payload, `char_nibble2hex(b >> 4)` and `char_nibble2hex(b)` for each byte
in order, which fill the array and hold no NUL.  The statement
`strcpy(cmd+sizeCmd+digits+3, dataString)` therefore reaches the end of
`dataString` without a NUL, whatever `cmd` holds and wherever it copies to: the
call of write_cmd_bytes is undefined and hands no defined frame to
`miotyAtClientWrite`. -/
theorem write_cmd_bytes_undefined (nibble2hex : Nat → Nat) (u : Uninit) (AT_cmd : List Nat)
    (sizeCmd : Nat) (data : List Nat) (sizeData : Nat) (hhex : ∀ x, nibble2hex x ≠ 0)
    (hn : sizeData ≤ 99) :
    (sizeData ≤ data.length →
      string_byteArray2hex nibble2hex data sizeData
          ((List.range (2 * sizeData % 256)).map u.dataString) (2 * sizeData % 256) =
        some (2 * sizeData,
          (data.take sizeData).flatMap (fun b => [nibble2hex (b >>> 4), nibble2hex b])) ∧
      ((data.take sizeData).flatMap (fun b => [nibble2hex (b >>> 4), nibble2hex b])).length =
        2 * sizeData % 256) ∧
    0 ∉ (data.take sizeData).flatMap (fun b => [nibble2hex (b >>> 4), nibble2hex b]) ∧
    (∀ (cmd : List Nat) (i : Nat), strcpyArray cmd i
      ((data.take sizeData).flatMap (fun b => [nibble2hex (b >>> 4), nibble2hex b])) = none) ∧
    write_cmd_bytes nibble2hex u AT_cmd sizeCmd data sizeData = none := by
  have hmod : (2 * sizeData) % 256 = 2 * sizeData := Nat.mod_eq_of_lt (by omega)
  have hno := hexText_no_nul nibble2hex hhex (data.take sizeData)
  refine ⟨fun hd => ?_, hno, fun cmd i => strcpyArray_no_nul cmd i _ hno,
    write_cmd_bytes_no_terminator nibble2hex hhex u AT_cmd sizeCmd data sizeData (by omega)⟩
  rw [hmod]
  refine ⟨byteArray2hex_text nibble2hex data _ sizeData (by simp) hd, ?_⟩
  rw [hexText_length, List.length_take]
  omega

set_option maxRecDepth 100000 in
/-- C10 (witness): the call `write_cmd_bytes("AT-U", 4, {0x01, 0xFE}, 2)`:
`dataString` is `"01FE"`, four characters without a NUL, and the call is
undefined. -/
theorem write_cmd_bytes_undefined_witness :
    (∀ x, char_nibble2hex x ≠ 0) ∧ 2 ≤ 99 ∧
    string_byteArray2hex char_nibble2hex [1, 254] 2 [0, 0, 0, 0] 4 =
      some (4, [48, 49, 70, 69]) ∧
    strcpyArray [65, 84, 45, 85, 61, 50, 9, 0, 0, 0, 0, 0, 0] 7 [48, 49, 70, 69] = none ∧
    write_cmd_bytes char_nibble2hex ⟨fun _ => 0, fun _ => 0⟩ lit_AT_U 4 [1, 254] 2 = none :=
  ⟨char_nibble2hex_ne_zero, by decide, by rfl, by rfl,
    (write_cmd_bytes_undefined char_nibble2hex ⟨fun _ => 0, fun _ => 0⟩ lit_AT_U 4 [1, 254] 2
      char_nibble2hex_ne_zero (by decide)).2.2.2⟩

/-- C33 (code bug): for all arguments whose arrays have the documented sizes (8,
8, 16, 2 and 16 bytes at least), miotyAtClient_setDefaults builds the payload
of 64 bytes the claim describes: the four bytes of 0xBF07A938 in host byte
order (38 A9 07 BF on a little-endian host) at 0..3, `ulProfile`, `ulMode`,
`ulSyncBurst`, 0 at 4..7, `eui64` at 8..15, `ipv6` at 16..23, `nwKey` at 24..39,
`shortAdress` at 40..41, `appCryptoMode`, `attached1stBoot` at 42 and 43, zero at
44..47 and `appCryptoKey` at 48..63, and calls
`set_info_bytes("AT-DEF", 6, payload, 64)`.  There write_cmd_bytes fills
`dataString` with the 128 hex characters of the payload, none of them NUL
(`char_nibble2hex` never returns NUL), and its `strcpy` from `dataString` is
undefined: the call of miotyAtClient_setDefaults is undefined and no frame is
defined. -/
theorem setDefaults_undefined (nibble2hex : Nat → Nat) (u : Uninit) (littleEndian : Bool)
    (eui64 ipv6 nwKey shortAdress appCryptoKey : List Nat)
    (ulProfile ulMode ulSyncBurst appCryptoMode attached1stBoot : Nat)
    (response_buf : List Nat) (script : List (Option (List Nat)))
    (hhex : ∀ x, nibble2hex x ≠ 0)
    (h1 : 8 ≤ eui64.length) (h2 : 8 ≤ ipv6.length) (h3 : 16 ≤ nwKey.length)
    (h4 : 2 ≤ shortAdress.length) (h5 : 16 ≤ appCryptoKey.length) :
    ∃ payload,
      payload = uint32_bytes littleEndian 0xbf07a938 ++ [ulProfile, ulMode, ulSyncBurst, 0] ++
        eui64.take 8 ++ ipv6.take 8 ++ nwKey.take 16 ++ shortAdress.take 2 ++
        [appCryptoMode, attached1stBoot, 0, 0, 0, 0] ++ appCryptoKey.take 16 ∧
      ((uint32_bytes littleEndian 0xbf07a938).length = 4 ∧ (eui64.take 8).length = 8 ∧
        (ipv6.take 8).length = 8 ∧ (nwKey.take 16).length = 16 ∧
        (shortAdress.take 2).length = 2 ∧ (appCryptoKey.take 16).length = 16 ∧
        payload.length = 64) ∧
      uint32_bytes true 0xbf07a938 = [0x38, 0xa9, 0x07, 0xbf] ∧
      miotyAtClient_setDefaults nibble2hex u littleEndian eui64 ipv6 nwKey shortAdress
        appCryptoKey ulProfile ulMode ulSyncBurst appCryptoMode attached1stBoot response_buf
        script = set_info_bytes nibble2hex u lit_AT_DEF 6 payload 64 response_buf script ∧
      string_byteArray2hex nibble2hex payload 64 ((List.range 128).map u.dataString) 128 =
        some (128, payload.flatMap (fun b => [nibble2hex (b >>> 4), nibble2hex b])) ∧
      (payload.flatMap (fun b => [nibble2hex (b >>> 4), nibble2hex b])).length = 128 ∧
      0 ∉ payload.flatMap (fun b => [nibble2hex (b >>> 4), nibble2hex b]) ∧
      write_cmd_bytes nibble2hex u lit_AT_DEF 6 payload 64 = none ∧
      miotyAtClient_setDefaults nibble2hex u littleEndian eui64 ipv6 nwKey shortAdress
        appCryptoKey ulProfile ulMode ulSyncBurst appCryptoMode attached1stBoot response_buf
        script = none := by
  have hV := uint32_bytes_length littleEndian 0xbf07a938
  have hE : (eui64.take 8).length = 8 := by rw [List.length_take]; omega
  have hI : (ipv6.take 8).length = 8 := by rw [List.length_take]; omega
  have hK : (nwKey.take 16).length = 16 := by rw [List.length_take]; omega
  have hS : (shortAdress.take 2).length = 2 := by rw [List.length_take]; omega
  have hA : (appCryptoKey.take 16).length = 16 := by rw [List.length_take]; omega
  have hchain := defaults_chain (uint32_bytes littleEndian 0xbf07a938) eui64 ipv6 nwKey
    shortAdress appCryptoKey ulProfile ulMode ulSyncBurst appCryptoMode attached1stBoot hV
    h1 h2 h3 h4 h5
  generalize hp : uint32_bytes littleEndian 0xbf07a938 ++ [ulProfile, ulMode, ulSyncBurst, 0] ++
    eui64.take 8 ++ ipv6.take 8 ++ nwKey.take 16 ++ shortAdress.take 2 ++
    [appCryptoMode, attached1stBoot, 0, 0, 0, 0] ++ appCryptoKey.take 16 = payload at hchain
  have hlen : payload.length = 64 := by
    rw [← hp]
    simp only [List.length_append, hV, hE, hI, hK, hS, hA, List.length_cons, List.length_nil]
  have hw := write_cmd_bytes_no_terminator nibble2hex hhex u lit_AT_DEF 6 payload 64 (by decide)
  have hcall : miotyAtClient_setDefaults nibble2hex u littleEndian eui64 ipv6 nwKey shortAdress
      appCryptoKey ulProfile ulMode ulSyncBurst appCryptoMode attached1stBoot response_buf
      script = set_info_bytes nibble2hex u lit_AT_DEF 6 payload 64 response_buf script := by
    unfold miotyAtClient_setDefaults
    have hbind : (do
        let d1 ← memcpy (List.replicate 64 0) 0 (uint32_bytes littleEndian 0xbf07a938) 4
        let d2 ← memcpy d1 4 [ulProfile] 1
        let d3 ← memcpy d2 5 [ulMode] 1
        let d4 ← memcpy d3 6 [ulSyncBurst] 1
        let d5 ← memcpy d4 8 eui64 8
        let d6 ← memcpy d5 16 ipv6 8
        let d7 ← memcpy d6 24 nwKey 16
        let d8 ← memcpy d7 40 shortAdress 2
        let d9 ← memcpy d8 42 [appCryptoMode] 1
        let d10 ← memcpy d9 43 [attached1stBoot] 1
        let d11 ← memcpy d10 48 appCryptoKey 16
        set_info_bytes nibble2hex u lit_AT_DEF 6 d11 64 response_buf script) =
        (do
          let d1 ← memcpy (List.replicate 64 0) 0 (uint32_bytes littleEndian 0xbf07a938) 4
          let d2 ← memcpy d1 4 [ulProfile] 1
          let d3 ← memcpy d2 5 [ulMode] 1
          let d4 ← memcpy d3 6 [ulSyncBurst] 1
          let d5 ← memcpy d4 8 eui64 8
          let d6 ← memcpy d5 16 ipv6 8
          let d7 ← memcpy d6 24 nwKey 16
          let d8 ← memcpy d7 40 shortAdress 2
          let d9 ← memcpy d8 42 [appCryptoMode] 1
          let d10 ← memcpy d9 43 [attached1stBoot] 1
          memcpy d10 48 appCryptoKey 16).bind
          fun d11 => set_info_bytes nibble2hex u lit_AT_DEF 6 d11 64 response_buf script := by
      simp only [bind, Option.bind_assoc]
    exact hbind.trans (by rw [hchain]; rfl)
  have htext := byteArray2hex_text nibble2hex payload ((List.range 128).map u.dataString) 64
    (by simp) (by omega)
  have htake : payload.take 64 = payload := List.take_of_length_le (by omega)
  rw [htake] at htext
  refine ⟨payload, rfl, ⟨hV, hE, hI, hK, hS, hA, hlen⟩, by rfl, hcall, htext, ?_,
    hexText_no_nul nibble2hex hhex payload, hw, ?_⟩
  · rw [hexText_length, hlen]
  · rw [hcall]
    unfold set_info_bytes
    rw [hw]
    rfl

set_option maxRecDepth 100000 in
/-- C33 (witness): a call on a little-endian host with arrays of the documented
sizes is undefined. -/
theorem setDefaults_undefined_witness :
    (∀ x, char_nibble2hex x ≠ 0) ∧
    miotyAtClient_setDefaults char_nibble2hex ⟨fun _ => 0, fun _ => 0⟩ true
        [1, 2, 3, 4, 5, 6, 7, 8] [9, 10, 11, 12, 13, 14, 15, 16]
        [0, 1, 2, 3, 4, 5, 6, 7, 8, 9, 10, 11, 12, 13, 14, 15] [18, 52]
        [255, 254, 253, 252, 251, 250, 249, 248, 247, 246, 245, 244, 243, 242, 241, 240]
        1 2 1 1 0 (List.replicate 200 0) [] = none := by
  obtain ⟨payload, -, -, -, -, -, -, -, -, h⟩ :=
    setDefaults_undefined char_nibble2hex ⟨fun _ => 0, fun _ => 0⟩ true
      [1, 2, 3, 4, 5, 6, 7, 8] [9, 10, 11, 12, 13, 14, 15, 16]
      [0, 1, 2, 3, 4, 5, 6, 7, 8, 9, 10, 11, 12, 13, 14, 15] [18, 52]
      [255, 254, 253, 252, 251, 250, 249, 248, 247, 246, 245, 244, 243, 242, 241, 240]
      1 2 1 1 0 (List.replicate 200 0) [] char_nibble2hex_ne_zero
      (by decide) (by decide) (by decide) (by decide) (by decide)
  exact ⟨char_nibble2hex_ne_zero, h⟩

end MiotyAtClient
